import Mathlib

/-! # STK500v2 secure bootloader (`stk500boot.c`): block cipher, packet codec, framer, dispatcher

A shallow embedding of the session engine of `stk500boot.c`.

* Bytes (`unsigned char`) are natural numbers; a store that can overflow is truncated
  with an explicit `% 256`, 16-bit and 32-bit counters with `% 65536` and `% 2 ^ 32`.
* A C array is a `List Nat`; `a[i]` is `a.getD i 0` and `a[i] = v` is `a.set i v`.
  A pointer to sixteen bytes inside an array is the window `blockAt a off`.
* An access outside an array is undefined in C. Functions that can reach one return
  `Option` and yield `none` there; `none` is also the result of a blocking read on an
  exhausted transport and of a loop that does not exit.
-/

namespace Stk500

/-! ## Loops -/

/-- The loop `for (i = start; i < start + n; ++i) body`, threading the state. -/
def loopUp {σ : Type} (body : Nat → σ → σ) : Nat → Nat → σ → σ
  | _, 0, s => s
  | start, n + 1, s => loopUp body (start + 1) n (body start s)

/-- The loop `for (round = n; round > 0; round--) body`, threading the state. -/
def loopDown {σ : Type} (body : Nat → σ → σ) : Nat → σ → σ
  | 0, s => s
  | n + 1, s => loopDown body n (body (n + 1) s)

/-! ## Block cipher: constants and tables -/

/-- Number of columns of the state, `#define Nb 4`. -/
def Nb : Nat := 4
/-- Number of 32-bit words of the key, `#define Nk 4`. -/
def Nk : Nat := 4
/-- Number of rounds, `#define Nr 10`. -/
def Nr : Nat := 10
/-- Block length in bytes, `#define BLOCKLEN 16`. -/
def BLOCKLEN : Nat := 16

/-- The chaining value embedded in the firmware, `const unsigned char iv[]`. -/
def iv : List Nat :=
  [0x00, 0x01, 0x02, 0x03, 0x04, 0x05, 0x06, 0x07, 0x08, 0x09, 0x0a, 0x0b, 0x0c, 0x0d, 0x0e, 0x0f]

/-- The key embedded in the firmware, `const unsigned char key[]`. -/
def key : List Nat :=
  [0x2b, 0x7e, 0x15, 0x16, 0x28, 0xae, 0xd2, 0xa6, 0xab, 0xf7, 0x15, 0x88, 0x09, 0xcf, 0x4f, 0x3c]

/-- Forward substitution table `sbox[256]`. -/
def sbox : List Nat :=
  [0x63, 0x7c, 0x77, 0x7b, 0xf2, 0x6b, 0x6f, 0xc5, 0x30, 0x01, 0x67, 0x2b, 0xfe, 0xd7, 0xab, 0x76,
   0xca, 0x82, 0xc9, 0x7d, 0xfa, 0x59, 0x47, 0xf0, 0xad, 0xd4, 0xa2, 0xaf, 0x9c, 0xa4, 0x72, 0xc0,
   0xb7, 0xfd, 0x93, 0x26, 0x36, 0x3f, 0xf7, 0xcc, 0x34, 0xa5, 0xe5, 0xf1, 0x71, 0xd8, 0x31, 0x15,
   0x04, 0xc7, 0x23, 0xc3, 0x18, 0x96, 0x05, 0x9a, 0x07, 0x12, 0x80, 0xe2, 0xeb, 0x27, 0xb2, 0x75,
   0x09, 0x83, 0x2c, 0x1a, 0x1b, 0x6e, 0x5a, 0xa0, 0x52, 0x3b, 0xd6, 0xb3, 0x29, 0xe3, 0x2f, 0x84,
   0x53, 0xd1, 0x00, 0xed, 0x20, 0xfc, 0xb1, 0x5b, 0x6a, 0xcb, 0xbe, 0x39, 0x4a, 0x4c, 0x58, 0xcf,
   0xd0, 0xef, 0xaa, 0xfb, 0x43, 0x4d, 0x33, 0x85, 0x45, 0xf9, 0x02, 0x7f, 0x50, 0x3c, 0x9f, 0xa8,
   0x51, 0xa3, 0x40, 0x8f, 0x92, 0x9d, 0x38, 0xf5, 0xbc, 0xb6, 0xda, 0x21, 0x10, 0xff, 0xf3, 0xd2,
   0xcd, 0x0c, 0x13, 0xec, 0x5f, 0x97, 0x44, 0x17, 0xc4, 0xa7, 0x7e, 0x3d, 0x64, 0x5d, 0x19, 0x73,
   0x60, 0x81, 0x4f, 0xdc, 0x22, 0x2a, 0x90, 0x88, 0x46, 0xee, 0xb8, 0x14, 0xde, 0x5e, 0x0b, 0xdb,
   0xe0, 0x32, 0x3a, 0x0a, 0x49, 0x06, 0x24, 0x5c, 0xc2, 0xd3, 0xac, 0x62, 0x91, 0x95, 0xe4, 0x79,
   0xe7, 0xc8, 0x37, 0x6d, 0x8d, 0xd5, 0x4e, 0xa9, 0x6c, 0x56, 0xf4, 0xea, 0x65, 0x7a, 0xae, 0x08,
   0xba, 0x78, 0x25, 0x2e, 0x1c, 0xa6, 0xb4, 0xc6, 0xe8, 0xdd, 0x74, 0x1f, 0x4b, 0xbd, 0x8b, 0x8a,
   0x70, 0x3e, 0xb5, 0x66, 0x48, 0x03, 0xf6, 0x0e, 0x61, 0x35, 0x57, 0xb9, 0x86, 0xc1, 0x1d, 0x9e,
   0xe1, 0xf8, 0x98, 0x11, 0x69, 0xd9, 0x8e, 0x94, 0x9b, 0x1e, 0x87, 0xe9, 0xce, 0x55, 0x28, 0xdf,
   0x8c, 0xa1, 0x89, 0x0d, 0xbf, 0xe6, 0x42, 0x68, 0x41, 0x99, 0x2d, 0x0f, 0xb0, 0x54, 0xbb, 0x16]

/-- Inverse substitution table `rsbox[256]`. -/
def rsbox : List Nat :=
  [0x52, 0x09, 0x6a, 0xd5, 0x30, 0x36, 0xa5, 0x38, 0xbf, 0x40, 0xa3, 0x9e, 0x81, 0xf3, 0xd7, 0xfb,
   0x7c, 0xe3, 0x39, 0x82, 0x9b, 0x2f, 0xff, 0x87, 0x34, 0x8e, 0x43, 0x44, 0xc4, 0xde, 0xe9, 0xcb,
   0x54, 0x7b, 0x94, 0x32, 0xa6, 0xc2, 0x23, 0x3d, 0xee, 0x4c, 0x95, 0x0b, 0x42, 0xfa, 0xc3, 0x4e,
   0x08, 0x2e, 0xa1, 0x66, 0x28, 0xd9, 0x24, 0xb2, 0x76, 0x5b, 0xa2, 0x49, 0x6d, 0x8b, 0xd1, 0x25,
   0x72, 0xf8, 0xf6, 0x64, 0x86, 0x68, 0x98, 0x16, 0xd4, 0xa4, 0x5c, 0xcc, 0x5d, 0x65, 0xb6, 0x92,
   0x6c, 0x70, 0x48, 0x50, 0xfd, 0xed, 0xb9, 0xda, 0x5e, 0x15, 0x46, 0x57, 0xa7, 0x8d, 0x9d, 0x84,
   0x90, 0xd8, 0xab, 0x00, 0x8c, 0xbc, 0xd3, 0x0a, 0xf7, 0xe4, 0x58, 0x05, 0xb8, 0xb3, 0x45, 0x06,
   0xd0, 0x2c, 0x1e, 0x8f, 0xca, 0x3f, 0x0f, 0x02, 0xc1, 0xaf, 0xbd, 0x03, 0x01, 0x13, 0x8a, 0x6b,
   0x3a, 0x91, 0x11, 0x41, 0x4f, 0x67, 0xdc, 0xea, 0x97, 0xf2, 0xcf, 0xce, 0xf0, 0xb4, 0xe6, 0x73,
   0x96, 0xac, 0x74, 0x22, 0xe7, 0xad, 0x35, 0x85, 0xe2, 0xf9, 0x37, 0xe8, 0x1c, 0x75, 0xdf, 0x6e,
   0x47, 0xf1, 0x1a, 0x71, 0x1d, 0x29, 0xc5, 0x89, 0x6f, 0xb7, 0x62, 0x0e, 0xaa, 0x18, 0xbe, 0x1b,
   0xfc, 0x56, 0x3e, 0x4b, 0xc6, 0xd2, 0x79, 0x20, 0x9a, 0xdb, 0xc0, 0xfe, 0x78, 0xcd, 0x5a, 0xf4,
   0x1f, 0xdd, 0xa8, 0x33, 0x88, 0x07, 0xc7, 0x31, 0xb1, 0x12, 0x10, 0x59, 0x27, 0x80, 0xec, 0x5f,
   0x60, 0x51, 0x7f, 0xa9, 0x19, 0xb5, 0x4a, 0x0d, 0x2d, 0xe5, 0x7a, 0x9f, 0x93, 0xc9, 0x9c, 0xef,
   0xa0, 0xe0, 0x3b, 0x4d, 0xae, 0x2a, 0xf5, 0xb0, 0xc8, 0xeb, 0xbb, 0x3c, 0x83, 0x53, 0x99, 0x61,
   0x17, 0x2b, 0x04, 0x7e, 0xba, 0x77, 0xd6, 0x26, 0xe1, 0x69, 0x14, 0x63, 0x55, 0x21, 0x0c, 0x7d]

/-- Round constant table `Rcon[255]`. -/
def Rcon : List Nat :=
  [0x8d, 0x01, 0x02, 0x04, 0x08, 0x10, 0x20, 0x40, 0x80, 0x1b, 0x36, 0x6c, 0xd8, 0xab, 0x4d, 0x9a,
   0x2f, 0x5e, 0xbc, 0x63, 0xc6, 0x97, 0x35, 0x6a, 0xd4, 0xb3, 0x7d, 0xfa, 0xef, 0xc5, 0x91, 0x39,
   0x72, 0xe4, 0xd3, 0xbd, 0x61, 0xc2, 0x9f, 0x25, 0x4a, 0x94, 0x33, 0x66, 0xcc, 0x83, 0x1d, 0x3a,
   0x74, 0xe8, 0xcb, 0x8d, 0x01, 0x02, 0x04, 0x08, 0x10, 0x20, 0x40, 0x80, 0x1b, 0x36, 0x6c, 0xd8,
   0xab, 0x4d, 0x9a, 0x2f, 0x5e, 0xbc, 0x63, 0xc6, 0x97, 0x35, 0x6a, 0xd4, 0xb3, 0x7d, 0xfa, 0xef,
   0xc5, 0x91, 0x39, 0x72, 0xe4, 0xd3, 0xbd, 0x61, 0xc2, 0x9f, 0x25, 0x4a, 0x94, 0x33, 0x66, 0xcc,
   0x83, 0x1d, 0x3a, 0x74, 0xe8, 0xcb, 0x8d, 0x01, 0x02, 0x04, 0x08, 0x10, 0x20, 0x40, 0x80, 0x1b,
   0x36, 0x6c, 0xd8, 0xab, 0x4d, 0x9a, 0x2f, 0x5e, 0xbc, 0x63, 0xc6, 0x97, 0x35, 0x6a, 0xd4, 0xb3,
   0x7d, 0xfa, 0xef, 0xc5, 0x91, 0x39, 0x72, 0xe4, 0xd3, 0xbd, 0x61, 0xc2, 0x9f, 0x25, 0x4a, 0x94,
   0x33, 0x66, 0xcc, 0x83, 0x1d, 0x3a, 0x74, 0xe8, 0xcb, 0x8d, 0x01, 0x02, 0x04, 0x08, 0x10, 0x20,
   0x40, 0x80, 0x1b, 0x36, 0x6c, 0xd8, 0xab, 0x4d, 0x9a, 0x2f, 0x5e, 0xbc, 0x63, 0xc6, 0x97, 0x35,
   0x6a, 0xd4, 0xb3, 0x7d, 0xfa, 0xef, 0xc5, 0x91, 0x39, 0x72, 0xe4, 0xd3, 0xbd, 0x61, 0xc2, 0x9f,
   0x25, 0x4a, 0x94, 0x33, 0x66, 0xcc, 0x83, 0x1d, 0x3a, 0x74, 0xe8, 0xcb, 0x8d, 0x01, 0x02, 0x04,
   0x08, 0x10, 0x20, 0x40, 0x80, 0x1b, 0x36, 0x6c, 0xd8, 0xab, 0x4d, 0x9a, 0x2f, 0x5e, 0xbc, 0x63,
   0xc6, 0x97, 0x35, 0x6a, 0xd4, 0xb3, 0x7d, 0xfa, 0xef, 0xc5, 0x91, 0x39, 0x72, 0xe4, 0xd3, 0xbd,
   0x61, 0xc2, 0x9f, 0x25, 0x4a, 0x94, 0x33, 0x66, 0xcc, 0x83, 0x1d, 0x3a, 0x74, 0xe8, 0xcb]

/-! ## Block cipher: round functions

The state `(*state)[i][j]` is byte `i * 4 + j` of the sixteen bytes `state` points at. -/

/-- Table lookup `sbox[num]`. -/
def getSBoxValue (num : Nat) : Nat := sbox.getD num 0

/-- Table lookup `rsbox[num]`. -/
def getSBoxInvert (num : Nat) : Nat := rsbox.getD num 0

/-- Read `(*state)[i][j]`. -/
def stGet (state : List Nat) (i j : Nat) : Nat := state.getD (i * 4 + j) 0

/-- Write `(*state)[i][j] = v`. -/
def stSet (state : List Nat) (i j v : Nat) : List Nat := state.set (i * 4 + j) v

/-- Embeds `XorWithIv(buf)`: `buf[i] ^= Iv[i]` for `i < 16`; `Iv` is the sixteen bytes the
static pointer `Iv` designates. -/
def XorWithIv (buf Iv : List Nat) : List Nat :=
  loopUp (fun i b => b.set i (b.getD i 0 ^^^ Iv.getD i 0)) 0 16 buf

/-- The local array `tempa` in iteration `i` of the second loop of `KeyExpansion`, after
the conditional `RotWord`/`SubWord`/`Rcon` part. -/
def KeyExpansionTempa (i : Nat) (RoundKey : List Nat) : List Nat :=
  let tempa : List Nat :=
    loopUp (fun j t => t.set j (RoundKey.getD ((i - 1) * 4 + j) 0)) 0 4 [0, 0, 0, 0]
  if i % Nk = 0 then
    -- RotWord
    let k := tempa.getD 0 0
    let tempa := tempa.set 0 (tempa.getD 1 0)
    let tempa := tempa.set 1 (tempa.getD 2 0)
    let tempa := tempa.set 2 (tempa.getD 3 0)
    let tempa := tempa.set 3 k
    -- SubWord
    let tempa := tempa.set 0 (getSBoxValue (tempa.getD 0 0))
    let tempa := tempa.set 1 (getSBoxValue (tempa.getD 1 0))
    let tempa := tempa.set 2 (getSBoxValue (tempa.getD 2 0))
    let tempa := tempa.set 3 (getSBoxValue (tempa.getD 3 0))
    tempa.set 0 (tempa.getD 0 0 ^^^ Rcon.getD (i / Nk) 0)
  else if Nk > 6 ∧ i % Nk = 4 then
    let tempa := tempa.set 0 (getSBoxValue (tempa.getD 0 0))
    let tempa := tempa.set 1 (getSBoxValue (tempa.getD 1 0))
    let tempa := tempa.set 2 (getSBoxValue (tempa.getD 2 0))
    tempa.set 3 (getSBoxValue (tempa.getD 3 0))
  else tempa

/-- One iteration of the second loop of `KeyExpansion`, for word index `i`. -/
def KeyExpansionStep (i : Nat) (RoundKey : List Nat) : List Nat :=
  let tempa := KeyExpansionTempa i RoundKey
  let RoundKey := RoundKey.set (i * 4 + 0) (RoundKey.getD ((i - Nk) * 4 + 0) 0 ^^^ tempa.getD 0 0)
  let RoundKey := RoundKey.set (i * 4 + 1) (RoundKey.getD ((i - Nk) * 4 + 1) 0 ^^^ tempa.getD 1 0)
  let RoundKey := RoundKey.set (i * 4 + 2) (RoundKey.getD ((i - Nk) * 4 + 2) 0 ^^^ tempa.getD 2 0)
  RoundKey.set (i * 4 + 3) (RoundKey.getD ((i - Nk) * 4 + 3) 0 ^^^ tempa.getD 3 0)

/-- Embeds `KeyExpansion()`: fills the static array `RoundKey[176]` from the sixteen bytes `Key`
points at. The first loop copies the key, the second derives words `Nk .. Nb*(Nr+1)-1`. -/
def KeyExpansion (Key RoundKey : List Nat) : List Nat :=
  let RoundKey :=
    loopUp (fun i rk =>
      let rk := rk.set (i * 4 + 0) (Key.getD (i * 4 + 0) 0)
      let rk := rk.set (i * 4 + 1) (Key.getD (i * 4 + 1) 0)
      let rk := rk.set (i * 4 + 2) (Key.getD (i * 4 + 2) 0)
      rk.set (i * 4 + 3) (Key.getD (i * 4 + 3) 0)) 0 Nk RoundKey
  loopUp KeyExpansionStep Nk (Nb * (Nr + 1) - Nk) RoundKey

/-- Embeds `AddRoundKey(round)`: `(*state)[i][j] ^= RoundKey[round * Nb * 4 + i * Nb + j]`. -/
def AddRoundKey (RoundKey : List Nat) (round : Nat) (state : List Nat) : List Nat :=
  loopUp (fun i st =>
    loopUp (fun j st =>
      stSet st i j (stGet st i j ^^^ RoundKey.getD (round * Nb * 4 + i * Nb + j) 0)) 0 4 st)
    0 4 state

/-- Embeds `SubBytes()`: `(*state)[j][i] = getSBoxValue((*state)[j][i])`. -/
def SubBytes (state : List Nat) : List Nat :=
  loopUp (fun i st =>
    loopUp (fun j st => stSet st j i (getSBoxValue (stGet st j i))) 0 4 st) 0 4 state

/-- Embeds `ShiftRows()`, the assignments in source order. -/
def ShiftRows (state : List Nat) : List Nat :=
  let temp := stGet state 0 1
  let state := stSet state 0 1 (stGet state 1 1)
  let state := stSet state 1 1 (stGet state 2 1)
  let state := stSet state 2 1 (stGet state 3 1)
  let state := stSet state 3 1 temp
  let temp := stGet state 0 2
  let state := stSet state 0 2 (stGet state 2 2)
  let state := stSet state 2 2 temp
  let temp := stGet state 1 2
  let state := stSet state 1 2 (stGet state 3 2)
  let state := stSet state 3 2 temp
  let temp := stGet state 0 3
  let state := stSet state 0 3 (stGet state 3 3)
  let state := stSet state 3 3 (stGet state 2 3)
  let state := stSet state 2 3 (stGet state 1 3)
  stSet state 1 3 temp

/-- Embeds `xtime(x)`: `(x<<1) ^ (((x>>7) & 1) * 0x1b)`, truncated to `unsigned char` on return. -/
def xtime (x : Nat) : Nat := ((x <<< 1) ^^^ (((x >>> 7) &&& 1) * 0x1b)) % 256

/-- Embeds `MixColumns()`, one column per iteration, the assignments in source order. -/
def MixColumns (state : List Nat) : List Nat :=
  loopUp (fun i st =>
    let t := stGet st i 0
    let Tmp := stGet st i 0 ^^^ stGet st i 1 ^^^ stGet st i 2 ^^^ stGet st i 3
    let Tm := stGet st i 0 ^^^ stGet st i 1
    let Tm := xtime Tm
    let st := stSet st i 0 (stGet st i 0 ^^^ (Tm ^^^ Tmp))
    let Tm := stGet st i 1 ^^^ stGet st i 2
    let Tm := xtime Tm
    let st := stSet st i 1 (stGet st i 1 ^^^ (Tm ^^^ Tmp))
    let Tm := stGet st i 2 ^^^ stGet st i 3
    let Tm := xtime Tm
    let st := stSet st i 2 (stGet st i 2 ^^^ (Tm ^^^ Tmp))
    let Tm := stGet st i 3 ^^^ t
    let Tm := xtime Tm
    stSet st i 3 (stGet st i 3 ^^^ (Tm ^^^ Tmp))) 0 4 state

/-- The macro `Multiply(x, y)`: multiplication in GF(2^8) by the small constant `y`. -/
def Multiply (x y : Nat) : Nat :=
  ((y &&& 1) * x) ^^^
  ((y >>> 1 &&& 1) * xtime x) ^^^
  ((y >>> 2 &&& 1) * xtime (xtime x)) ^^^
  ((y >>> 3 &&& 1) * xtime (xtime (xtime x))) ^^^
  ((y >>> 4 &&& 1) * xtime (xtime (xtime (xtime x))))

/-- Embeds `InvMixColumns()`, one column per iteration. -/
def InvMixColumns (state : List Nat) : List Nat :=
  loopUp (fun i st =>
    let a := stGet st i 0
    let b := stGet st i 1
    let c := stGet st i 2
    let d := stGet st i 3
    let st := stSet st i 0
      (Multiply a 0x0e ^^^ Multiply b 0x0b ^^^ Multiply c 0x0d ^^^ Multiply d 0x09)
    let st := stSet st i 1
      (Multiply a 0x09 ^^^ Multiply b 0x0e ^^^ Multiply c 0x0b ^^^ Multiply d 0x0d)
    let st := stSet st i 2
      (Multiply a 0x0d ^^^ Multiply b 0x09 ^^^ Multiply c 0x0e ^^^ Multiply d 0x0b)
    stSet st i 3
      (Multiply a 0x0b ^^^ Multiply b 0x0d ^^^ Multiply c 0x09 ^^^ Multiply d 0x0e)) 0 4 state

/-- Embeds `InvSubBytes()`: `(*state)[j][i] = getSBoxInvert((*state)[j][i])`. -/
def InvSubBytes (state : List Nat) : List Nat :=
  loopUp (fun i st =>
    loopUp (fun j st => stSet st j i (getSBoxInvert (stGet st j i))) 0 4 st) 0 4 state

/-- Embeds `InvShiftRows()`, the assignments in source order. -/
def InvShiftRows (state : List Nat) : List Nat :=
  let temp := stGet state 3 1
  let state := stSet state 3 1 (stGet state 2 1)
  let state := stSet state 2 1 (stGet state 1 1)
  let state := stSet state 1 1 (stGet state 0 1)
  let state := stSet state 0 1 temp
  let temp := stGet state 0 2
  let state := stSet state 0 2 (stGet state 2 2)
  let state := stSet state 2 2 temp
  let temp := stGet state 1 2
  let state := stSet state 1 2 (stGet state 3 2)
  let state := stSet state 3 2 temp
  let temp := stGet state 0 3
  let state := stSet state 0 3 (stGet state 1 3)
  let state := stSet state 1 3 (stGet state 2 3)
  let state := stSet state 2 3 (stGet state 3 3)
  stSet state 3 3 temp

/-- Embeds `Cipher()`: encrypts the sixteen bytes `state` points at, in place. -/
def Cipher (RoundKey state : List Nat) : List Nat :=
  let state := AddRoundKey RoundKey 0 state
  let state :=
    loopUp (fun round st =>
      AddRoundKey RoundKey round (MixColumns (ShiftRows (SubBytes st)))) 1 (Nr - 1) state
  AddRoundKey RoundKey Nr (ShiftRows (SubBytes state))

/-- Embeds `InvCipher()`: decrypts the sixteen bytes `state` points at, in place. -/
def InvCipher (RoundKey state : List Nat) : List Nat :=
  let state := AddRoundKey RoundKey Nr state
  let state :=
    loopDown (fun round st =>
      InvMixColumns (AddRoundKey RoundKey round (InvSubBytes (InvShiftRows st)))) (Nr - 1) state
  AddRoundKey RoundKey 0 (InvSubBytes (InvShiftRows state))

/-! ## Secure packet codec: cipher-block chaining over a buffer -/

/-- The sixteen bytes at `buf + off`: what a `state_t*` or a `unsigned char*` block pointer
into `buf` designates. -/
def blockAt (buf : List Nat) (off : Nat) : List Nat := (buf.drop off).take 16

/-- The buffer after the sixteen bytes at `buf + off` have been replaced by `blk`. -/
def setBlock (buf : List Nat) (off : Nat) (blk : List Nat) : List Nat :=
  buf.take off ++ blk ++ buf.drop (off + 16)

/-- Embeds `memcpy(dst + doff, src + soff, n)`. -/
def memcpy (dst : List Nat) (doff : Nat) (src : List Nat) (soff n : Nat) : List Nat :=
  dst.take doff ++ (src.drop soff).take n ++ dst.drop (doff + n)

/-- Values of the static pointer `Iv`: the constant array `iv`, or a block inside the
`input` or the `output` buffer of the running call. -/
inductive IvRef where
  | iv : IvRef
  | input (off : Nat) : IvRef
  | output (off : Nat) : IvRef
  deriving DecidableEq, Repr

/-- The memory `aes_encrypt` and `aes_decrypt` work on: the static array `RoundKey`, the
static pointer `Iv`, and the two buffers passed by the caller (distinct arrays). -/
structure AesMem where
  RoundKey : List Nat
  Iv : IvRef
  output : List Nat
  input : List Nat
  deriving DecidableEq, Repr

/-- The sixteen bytes `Iv[0..15]`. -/
def AesMem.derefIv (iv : List Nat) (m : AesMem) : List Nat :=
  match m.Iv with
  | .iv => iv
  | .input off => blockAt m.input off
  | .output off => blockAt m.output off

/-- The block loop of `aes_decrypt`, `n` iterations from byte offset `off`:
`memcpy(output, input, BLOCKLEN); state = output; InvCipher(); XorWithIv(output);
Iv = input; input += BLOCKLEN; output += BLOCKLEN`. -/
def aes_decrypt_blocks (iv : List Nat) : Nat → Nat → AesMem → Option AesMem
  | 0, _, m => some m
  | n + 1, off, m =>
    if off + BLOCKLEN ≤ m.input.length ∧ off + BLOCKLEN ≤ m.output.length then
      let m := { m with output := memcpy m.output off m.input off BLOCKLEN }
      let m := { m with output := setBlock m.output off (InvCipher m.RoundKey (blockAt m.output off)) }
      let m := { m with output := setBlock m.output off (XorWithIv (blockAt m.output off) (m.derefIv iv)) }
      let m := { m with Iv := IvRef.input off }
      aes_decrypt_blocks iv n (off + BLOCKLEN) m
    else none

/-- Embeds `aes_decrypt(output, input, length)`. The file-scope constants `key` and `iv` are the
first two arguments. The loop `for (i = 0; i < length; i += BLOCKLEN)` runs
`⌈length / 16⌉` times; its 16-bit counter wraps, and the loop does not exit, when
`length > 65520`. -/
def aes_decrypt (key iv : List Nat) (m : AesMem) (length : Nat) : Option AesMem :=
  let extra := (length % BLOCKLEN) % 256
  let m := { m with RoundKey := KeyExpansion key m.RoundKey }
  let m := { m with Iv := IvRef.iv }
  if 65520 < length then none else
  match aes_decrypt_blocks iv ((length + 15) / 16) 0 m with
  | none => none
  | some m =>
    if extra ≠ 0 then
      let off := (length + 15) / 16 * BLOCKLEN
      if off + extra ≤ m.input.length ∧ off + BLOCKLEN ≤ m.output.length then
        let m := { m with output := memcpy m.output off m.input off extra }
        some { m with output := setBlock m.output off (InvCipher m.RoundKey (blockAt m.output off)) }
      else none
    else some m

/-- The block loop of `aes_encrypt`, `n` iterations from byte offset `off`:
`XorWithIv(input); memcpy(output, input, 16); state = output; Cipher(); Iv = output;
input += 16; output += 16`. -/
def aes_encrypt_blocks (iv : List Nat) : Nat → Nat → AesMem → Option AesMem
  | 0, _, m => some m
  | n + 1, off, m =>
    if off + 16 ≤ m.input.length ∧ off + 16 ≤ m.output.length then
      let m := { m with input := setBlock m.input off (XorWithIv (blockAt m.input off) (m.derefIv iv)) }
      let m := { m with output := memcpy m.output off m.input off 16 }
      let m := { m with output := setBlock m.output off (Cipher m.RoundKey (blockAt m.output off)) }
      let m := { m with Iv := IvRef.output off }
      aes_encrypt_blocks iv n (off + 16) m
    else none

/-- Embeds `aes_encrypt(output, input, length)`; see `aes_decrypt` for the conventions. -/
def aes_encrypt (key iv : List Nat) (m : AesMem) (length : Nat) : Option AesMem :=
  let extra := (length % 16) % 256
  let m := { m with RoundKey := KeyExpansion key m.RoundKey }
  let m := { m with Iv := IvRef.iv }
  if 65520 < length then none else
  match aes_encrypt_blocks iv ((length + 15) / 16) 0 m with
  | none => none
  | some m =>
    if extra ≠ 0 then
      let off := (length + 15) / 16 * 16
      if off + extra ≤ m.input.length ∧ off + 16 ≤ m.output.length then
        let m := { m with output := memcpy m.output off m.input off extra }
        some { m with output := setBlock m.output off (Cipher m.RoundKey (blockAt m.output off)) }
      else none
    else some m

/-! ## Auxiliary notions for the cipher proofs -/

/-- Every element of the array is an `unsigned char` value. -/
def Bytes (l : List Nat) : Prop := ∀ x ∈ l, x < 256

/-- Sixteen `unsigned char` values: what a `state_t*` designates. -/
def IsBlock (s : List Nat) : Prop := s.length = 16 ∧ Bytes s

/-- One column of `MixColumns`, written out. -/
def mixCol (a b c d : Nat) : List Nat :=
  [a ^^^ (xtime (a ^^^ b) ^^^ (a ^^^ b ^^^ c ^^^ d)),
   b ^^^ (xtime (b ^^^ c) ^^^ (a ^^^ b ^^^ c ^^^ d)),
   c ^^^ (xtime (c ^^^ d) ^^^ (a ^^^ b ^^^ c ^^^ d)),
   d ^^^ (xtime (d ^^^ a) ^^^ (a ^^^ b ^^^ c ^^^ d))]

/-- One column of `InvMixColumns`, written out. -/
def invMixCol (a b c d : Nat) : List Nat :=
  [Multiply a 0x0e ^^^ Multiply b 0x0b ^^^ Multiply c 0x0d ^^^ Multiply d 0x09,
   Multiply a 0x09 ^^^ Multiply b 0x0e ^^^ Multiply c 0x0b ^^^ Multiply d 0x0d,
   Multiply a 0x0d ^^^ Multiply b 0x09 ^^^ Multiply c 0x0e ^^^ Multiply d 0x0b,
   Multiply a 0x0b ^^^ Multiply b 0x0d ^^^ Multiply c 0x09 ^^^ Multiply d 0x0e]

/-- Componentwise exclusive or of two columns. -/
def colXor (u v : List Nat) : List Nat :=
  [u.getD 0 0 ^^^ v.getD 0 0, u.getD 1 0 ^^^ v.getD 1 0, u.getD 2 0 ^^^ v.getD 2 0,
   u.getD 3 0 ^^^ v.getD 3 0]

/-- A column sent through `MixColumns` and then `InvMixColumns`. -/
def invMixMix (a b c d : Nat) : List Nat :=
  invMixCol ((mixCol a b c d).getD 0 0) ((mixCol a b c d).getD 1 0)
    ((mixCol a b c d).getD 2 0) ((mixCol a b c d).getD 3 0)

/-- Cipher-block chaining written as a recursion on the number of blocks: block `i` of the
result is `Cipher (data block i XOR previous result block)`, the first block chained to
`prev`. -/
def cbcEnc (RoundKey : List Nat) : Nat → List Nat → List Nat → List Nat
  | 0, _, _ => []
  | n + 1, prev, data =>
    Cipher RoundKey (XorWithIv (data.take 16) prev) ++
      cbcEnc RoundKey n (Cipher RoundKey (XorWithIv (data.take 16) prev)) (data.drop 16)

/-- The inverse chaining: block `i` of the result is `InvCipher (data block i) XOR previous
data block`, the first block chained to `prev`. -/
def cbcDec (RoundKey : List Nat) : Nat → List Nat → List Nat → List Nat
  | 0, _, _ => []
  | n + 1, prev, data =>
    XorWithIv (InvCipher RoundKey (data.take 16)) prev ++
      cbcDec RoundKey n (data.take 16) (data.drop 16)

/-- Two arrays of equal length that hold the same bytes below index `m`. -/
def AgreeBelow (m : Nat) (a b : List Nat) : Prop :=
  a.length = b.length ∧ ∀ j, j < m → a.getD j 0 = b.getD j 0

/-! ## Constants that are not in the source file -/

/-- The constants `stk500boot.c` takes from `command.h` (protocol bytes), from the device
header `<avr/io.h>` (`FLASHEND`, `SPM_PAGESIZE`, whether `RAMPZ` exists) and from
`<avr/boot.h>` (fuse selectors), and the per-device `SIGNATURE_BYTES`. None of these files
is part of the repository sources, so the model takes the values as a parameter. -/
structure Config where
  MESSAGE_START : Nat
  TOKEN : Nat
  SOTA_MESSAGE_START : Nat
  STATUS_CMD_OK : Nat
  STATUS_CMD_FAILED : Nat
  CMD_AUTH : Nat
  CMD_SIGN_ON : Nat
  CMD_SET_PARAMETER : Nat
  CMD_GET_PARAMETER : Nat
  CMD_LOAD_ADDRESS : Nat
  CMD_ENTER_PROGMODE_ISP : Nat
  CMD_LEAVE_PROGMODE_ISP : Nat
  CMD_CHIP_ERASE_ISP : Nat
  CMD_PROGRAM_FLASH_ISP : Nat
  CMD_READ_FLASH_ISP : Nat
  CMD_PROGRAM_EEPROM_ISP : Nat
  CMD_READ_EEPROM_ISP : Nat
  CMD_READ_FUSE_ISP : Nat
  CMD_PROGRAM_LOCK_ISP : Nat
  CMD_READ_LOCK_ISP : Nat
  CMD_READ_SIGNATURE_ISP : Nat
  CMD_SPI_MULTI : Nat
  PARAM_BUILD_NUMBER_LOW : Nat
  PARAM_BUILD_NUMBER_HIGH : Nat
  PARAM_HW_VER : Nat
  PARAM_SW_MAJOR : Nat
  PARAM_SW_MINOR : Nat
  GET_LOW_FUSE_BITS : Nat
  GET_LOCK_BITS : Nat
  GET_EXTENDED_FUSE_BITS : Nat
  GET_HIGH_FUSE_BITS : Nat
  FLASHEND : Nat
  SPM_PAGESIZE : Nat
  RAMPZ : Bool
  SIGNATURE_BYTES : Nat
  deriving DecidableEq, Repr

/-- The case labels of `switch (msgBuffer[0])` in `main`, in source order
(`CMD_SPI_MULTI` and `CMD_PROGRAM_LOCK_ISP` are compiled out by `REMOVE_CMD_SPI_MULTI` and
`REMOVE_PROGRAM_LOCK_BIT_SUPPORT`). -/
def Config.caseLabels (c : Config) : List Nat :=
  [c.CMD_AUTH, c.CMD_SIGN_ON, c.CMD_GET_PARAMETER, c.CMD_LEAVE_PROGMODE_ISP,
   c.CMD_SET_PARAMETER, c.CMD_ENTER_PROGMODE_ISP, c.CMD_READ_SIGNATURE_ISP,
   c.CMD_READ_LOCK_ISP, c.CMD_READ_FUSE_ISP, c.CMD_CHIP_ERASE_ISP, c.CMD_LOAD_ADDRESS,
   c.CMD_PROGRAM_FLASH_ISP, c.CMD_PROGRAM_EEPROM_ISP, c.CMD_READ_FLASH_ISP,
   c.CMD_READ_EEPROM_ISP]

/-- A C `switch` needs pairwise distinct case labels: the program compiles only for such
constants. -/
def Config.DistinctLabels (c : Config) : Prop := c.caseLabels.Nodup

/-- Embeds `address_t`: `uint32_t` when `RAMPZ` is defined, `uint16_t` otherwise; the modulus of
its arithmetic. -/
def Config.addrMod (c : Config) : Nat := if c.RAMPZ then 2 ^ 32 else 2 ^ 16

/-- Embeds `BOOTSIZE`: 8192 when `FLASHEND > 0x0F000`, else 2048. -/
def Config.BOOTSIZE (c : Config) : Nat := if c.FLASHEND > 0x0F000 then 8192 else 2048

/-- Embeds `APP_END`: `FLASHEND - 2*BOOTSIZE + 1`, the first byte of the bootloader region. -/
def Config.APP_END (c : Config) : Nat := c.FLASHEND - 2 * c.BOOTSIZE + 1

/-- Embeds `CONFIG_PARAM_BUILD_NUMBER_LOW`. -/
def CONFIG_PARAM_BUILD_NUMBER_LOW : Nat := 0
/-- Embeds `CONFIG_PARAM_BUILD_NUMBER_HIGH`. -/
def CONFIG_PARAM_BUILD_NUMBER_HIGH : Nat := 0
/-- Embeds `CONFIG_PARAM_HW_VER`. -/
def CONFIG_PARAM_HW_VER : Nat := 0x0F
/-- Embeds `CONFIG_PARAM_SW_MAJOR`. -/
def CONFIG_PARAM_SW_MAJOR : Nat := 2
/-- Embeds `CONFIG_PARAM_SW_MINOR`. -/
def CONFIG_PARAM_SW_MINOR : Nat := 0x0A

/-- State `ST_START` of the receive state machine. -/
def ST_START : Nat := 0
/-- State `ST_GET_SEQ_NUM`. -/
def ST_GET_SEQ_NUM : Nat := 1
/-- State `ST_MSG_SIZE_1`. -/
def ST_MSG_SIZE_1 : Nat := 2
/-- State `ST_MSG_SIZE_2`. -/
def ST_MSG_SIZE_2 : Nat := 3
/-- State `ST_GET_TOKEN`. -/
def ST_GET_TOKEN : Nat := 4
/-- State `ST_GET_DATA`. -/
def ST_GET_DATA : Nat := 5
/-- State `ST_GET_CHECK`. -/
def ST_GET_CHECK : Nat := 6
/-- State `ST_PROCESS`. -/
def ST_PROCESS : Nat := 7

/-- Packet receiver state `SOTA_PACKET_RETRIEVE_START`. -/
def SOTA_PACKET_RETRIEVE_START : Nat := 0
/-- Packet receiver state `SOTA_PACKET_RETRIEVE_SIZE`. -/
def SOTA_PACKET_RETRIEVE_SIZE : Nat := 1
/-- Packet receiver state `SOTA_PACKET_RETRIEVE_PROCESSING`. -/
def SOTA_PACKET_RETRIEVE_PROCESSING : Nat := 2
/-- Packet receiver state `SOTA_PACKET_RETRIEVE_FINISHED`. -/
def SOTA_PACKET_RETRIEVE_FINISHED : Nat := 3

/-- The credential `unsigned char authenticationToken[4]`. -/
def authenticationToken : List Nat := [0x53, 0xef, 0x34, 0x23]

/-! ## Session state -/

/-- A call of a hardware primitive (`<avr/boot.h>`, `<avr/eeprom.h>`, `<avr/pgmspace.h>`,
the EEPROM registers), in the order in which `main` makes them. -/
inductive HwEvent where
  | boot_page_erase (a : Nat)
  | boot_spm_busy_wait
  | boot_page_fill (a data : Nat)
  | boot_page_write (a : Nat)
  | boot_rww_enable
  | eeprom_write_byte (a v : Nat)
  | eeprom_read (a : Nat)
  | pgm_read_word (a : Nat)
  | boot_lock_fuse_bits_get (which : Nat)
  deriving DecidableEq, Repr

/-- The variables of `main` that live across the session loop, the file-scope variables,
and the environment: memory contents seen by the reads, the record `hw` of the
hardware calls made so far, the bytes `rx` the transport will still deliver and the
bytes `tx` sent so far. -/
structure Session where
  isAuthenticated : Nat
  packetSize : Nat
  authenticationNumber : Nat
  address : Nat
  receivedPacket : List Nat
  aes_buffer : List Nat
  RoundKey : List Nat
  Iv : IvRef
  eraseAddress : Nat
  msgParseState : Nat
  ii : Nat
  checksum : Nat
  seqNum : Nat
  msgLength : Nat
  msgBuffer : List Nat
  receivedPacketIndex : Nat
  isLeave : Nat
  boot_state : Nat
  flash : Nat → Nat
  eeprom : Nat → Nat
  fuses : Nat → Nat
  hw : List HwEvent
  rx : List Nat
  tx : List Nat

/-- The state in which `main` enters `while (!isLeave)`: initialised variables hold their
initialisers, the uninitialised local array `msgBuffer[285]` holds whatever `stack` is
given, and the first byte is already waiting (`boot_state == 1`). -/
def Session.init (stack : List Nat) (flash eeprom fuses : Nat → Nat) (rx : List Nat) :
    Session where
  isAuthenticated := 0
  packetSize := 0
  authenticationNumber := 0
  address := 0
  receivedPacket := List.replicate 288 0x04
  aes_buffer := List.replicate 288 0x03
  RoundKey := List.replicate 176 0
  Iv := IvRef.iv
  eraseAddress := 0
  msgParseState := ST_START
  ii := 0
  checksum := 0
  seqNum := 0
  msgLength := 0
  msgBuffer := stack
  receivedPacketIndex := 0
  isLeave := 0
  boot_state := 1
  flash := flash
  eeprom := eeprom
  fuses := fuses
  hw := []
  rx := rx
  tx := []

/-- The store `buf[i] = v`; `none` when `i` is outside the array. -/
def store (buf : List Nat) (i v : Nat) : Option (List Nat) :=
  if i < buf.length then some (buf.set i v) else none

/-! ## Protocol framer -/

/-- One iteration of `while (msgParseState != ST_PROCESS)` on the byte
`c = aes_buffer[receivedPacketIndex]`: the `switch (msgParseState)` followed by
`receivedPacketIndex++`. -/
def parseStep (cfg : Config) (c : Nat) (s : Session) : Option Session :=
  let r : Option Session :=
    if s.msgParseState = ST_START then
      if c = cfg.MESSAGE_START then
        some { s with msgParseState := ST_GET_SEQ_NUM, checksum := cfg.MESSAGE_START ^^^ 0 }
      else some s
    else if s.msgParseState = ST_GET_SEQ_NUM then
      if c = 1 ∨ c = s.seqNum then
        some { s with seqNum := c, msgParseState := ST_MSG_SIZE_1, checksum := s.checksum ^^^ c }
      else some { s with msgParseState := ST_START }
    else if s.msgParseState = ST_MSG_SIZE_1 then
      some { s with msgLength := (c <<< 8) % 65536, msgParseState := ST_MSG_SIZE_2,
                    checksum := s.checksum ^^^ c }
    else if s.msgParseState = ST_MSG_SIZE_2 then
      some { s with msgLength := s.msgLength ||| c, msgParseState := ST_GET_TOKEN,
                    checksum := s.checksum ^^^ c }
    else if s.msgParseState = ST_GET_TOKEN then
      if c = cfg.TOKEN then
        some { s with msgParseState := ST_GET_DATA, checksum := s.checksum ^^^ c, ii := 0 }
      else some { s with msgParseState := ST_START }
    else if s.msgParseState = ST_GET_DATA then
      match store s.msgBuffer s.ii c with
      | none => none
      | some msgBuffer =>
        let s := { s with msgBuffer := msgBuffer, ii := (s.ii + 1) % 65536,
                          checksum := s.checksum ^^^ c }
        if s.ii = s.msgLength then some { s with msgParseState := ST_GET_CHECK } else some s
    else if s.msgParseState = ST_GET_CHECK then
      if c = s.checksum then some { s with msgParseState := ST_PROCESS }
      else some { s with msgParseState := ST_START }
    else some s
  match r with
  | none => none
  | some s => some { s with receivedPacketIndex := (s.receivedPacketIndex + 1) % 65536 }

/-- The loop `while (msgParseState != ST_PROCESS)` over the bytes
`aes_buffer[receivedPacketIndex], aes_buffer[receivedPacketIndex + 1], …` given as a list:
`none` when the end of the array is reached before a frame is complete. -/
def parseBytes (cfg : Config) : List Nat → Session → Option Session
  | [], s => if s.msgParseState = ST_PROCESS then some s else none
  | c :: rest, s =>
    if s.msgParseState = ST_PROCESS then some s
    else
      match parseStep cfg c s with
      | none => none
      | some s => parseBytes cfg rest s

/-- Embeds `receivedPacketIndex = 0; msgParseState = ST_START;` and the framer loop over
`aes_buffer`. -/
def parseFrame (cfg : Config) (s : Session) : Option Session :=
  let s := { s with receivedPacketIndex := 0, msgParseState := ST_START }
  parseBytes cfg s.aes_buffer s

/-! ## Command processor -/

/-- Embeds `case CMD_AUTH`. The union `authenticationNumber` overlays the 32-bit counter with
`authBytes[4]`, least significant byte first. -/
def case_CMD_AUTH (cfg : Config) (s : Session) : Session :=
  if s.msgBuffer.getD 5 0 = authenticationToken.getD 0 0 ∧
     s.msgBuffer.getD 6 0 = authenticationToken.getD 1 0 ∧
     s.msgBuffer.getD 7 0 = authenticationToken.getD 2 0 ∧
     s.msgBuffer.getD 8 0 = authenticationToken.getD 3 0 then
    let authenticationNumber :=
      s.msgBuffer.getD 1 0 + s.msgBuffer.getD 2 0 * 2 ^ 8 + s.msgBuffer.getD 3 0 * 2 ^ 16 +
        s.msgBuffer.getD 4 0 * 2 ^ 24
    let number := s.msgBuffer.getD 4 0
    let authenticationNumber := (authenticationNumber + number) % 2 ^ 32
    let msgBuffer := s.msgBuffer.set 0 cfg.STATUS_CMD_OK
    let msgBuffer := msgBuffer.set 1 (authenticationNumber % 256)
    let msgBuffer := msgBuffer.set 2 (authenticationNumber / 2 ^ 8 % 256)
    let msgBuffer := msgBuffer.set 4 (authenticationNumber / 2 ^ 24 % 256)
    { s with authenticationNumber := authenticationNumber, msgBuffer := msgBuffer,
             msgLength := 5, isAuthenticated := 1 }
  else
    { s with msgBuffer := s.msgBuffer.set 1 cfg.STATUS_CMD_FAILED, msgLength := 2,
             isAuthenticated := 0 }

/-- The shared `else` branch of the gated cases:
`msgBuffer[1] = STATUS_CMD_FAILED; msgLength = 2;`. -/
def replyFailed (cfg : Config) (s : Session) : Session :=
  { s with msgBuffer := s.msgBuffer.set 1 cfg.STATUS_CMD_FAILED, msgLength := 2 }

/-- Embeds `case CMD_SIGN_ON`. -/
def case_CMD_SIGN_ON (cfg : Config) (s : Session) : Session :=
  if s.isAuthenticated = 1 then
    let msgBuffer := s.msgBuffer.set 1 cfg.STATUS_CMD_OK
    let msgBuffer := msgBuffer.set 2 8
    let msgBuffer := msgBuffer.set 3 65
    let msgBuffer := msgBuffer.set 4 86
    let msgBuffer := msgBuffer.set 5 82
    let msgBuffer := msgBuffer.set 6 73
    let msgBuffer := msgBuffer.set 7 83
    let msgBuffer := msgBuffer.set 8 80
    let msgBuffer := msgBuffer.set 9 95
    let msgBuffer := msgBuffer.set 10 50
    { s with msgLength := 11, msgBuffer := msgBuffer }
  else replyFailed cfg s

/-- Embeds `case CMD_GET_PARAMETER`. -/
def case_CMD_GET_PARAMETER (cfg : Config) (s : Session) : Session :=
  let sel := s.msgBuffer.getD 1 0
  let value :=
    if sel = cfg.PARAM_BUILD_NUMBER_LOW then CONFIG_PARAM_BUILD_NUMBER_LOW
    else if sel = cfg.PARAM_BUILD_NUMBER_HIGH then CONFIG_PARAM_BUILD_NUMBER_HIGH
    else if sel = cfg.PARAM_HW_VER then CONFIG_PARAM_HW_VER
    else if sel = cfg.PARAM_SW_MAJOR then CONFIG_PARAM_SW_MAJOR
    else if sel = cfg.PARAM_SW_MINOR then CONFIG_PARAM_SW_MINOR
    else 0
  let msgBuffer := s.msgBuffer.set 1 cfg.STATUS_CMD_OK
  let msgBuffer := msgBuffer.set 2 value
  { s with msgLength := 3, msgBuffer := msgBuffer }

/-- Embeds `case CMD_LEAVE_PROGMODE_ISP`. -/
def case_CMD_LEAVE_PROGMODE_ISP (cfg : Config) (s : Session) : Session :=
  if s.isAuthenticated = 1 then
    { s with isLeave := 1, msgLength := 2, msgBuffer := s.msgBuffer.set 1 cfg.STATUS_CMD_OK }
  else replyFailed cfg s

/-- Embeds `case CMD_SET_PARAMETER: case CMD_ENTER_PROGMODE_ISP`. -/
def case_CMD_ENTER_PROGMODE_ISP (cfg : Config) (s : Session) : Session :=
  if s.isAuthenticated = 1 then
    { s with msgLength := 2, msgBuffer := s.msgBuffer.set 1 cfg.STATUS_CMD_OK }
  else replyFailed cfg s

/-- Embeds `case CMD_READ_SIGNATURE_ISP`. -/
def case_CMD_READ_SIGNATURE_ISP (cfg : Config) (s : Session) : Session :=
  let signatureIndex := s.msgBuffer.getD 4 0
  let signature :=
    if signatureIndex = 0 then (cfg.SIGNATURE_BYTES >>> 16) &&& 0xFF
    else if signatureIndex = 1 then (cfg.SIGNATURE_BYTES >>> 8) &&& 0xFF
    else cfg.SIGNATURE_BYTES &&& 0xFF
  let msgBuffer := s.msgBuffer.set 1 cfg.STATUS_CMD_OK
  let msgBuffer := msgBuffer.set 2 signature
  let msgBuffer := msgBuffer.set 3 cfg.STATUS_CMD_OK
  { s with msgLength := 4, msgBuffer := msgBuffer }

/-- Embeds `case CMD_READ_LOCK_ISP`. -/
def case_CMD_READ_LOCK_ISP (cfg : Config) (s : Session) : Session :=
  let msgBuffer := s.msgBuffer.set 1 cfg.STATUS_CMD_OK
  let msgBuffer := msgBuffer.set 2 (s.fuses cfg.GET_LOCK_BITS % 256)
  let msgBuffer := msgBuffer.set 3 cfg.STATUS_CMD_OK
  { s with msgLength := 4, msgBuffer := msgBuffer,
           hw := s.hw ++ [HwEvent.boot_lock_fuse_bits_get cfg.GET_LOCK_BITS] }

/-- Embeds `case CMD_READ_FUSE_ISP`. -/
def case_CMD_READ_FUSE_ISP (cfg : Config) (s : Session) : Session :=
  let which :=
    if s.msgBuffer.getD 2 0 = 0x50 then
      if s.msgBuffer.getD 3 0 = 0x08 then cfg.GET_EXTENDED_FUSE_BITS
      else cfg.GET_LOW_FUSE_BITS
    else cfg.GET_HIGH_FUSE_BITS
  let fuseBits := s.fuses which % 256
  let msgBuffer := s.msgBuffer.set 1 cfg.STATUS_CMD_OK
  let msgBuffer := msgBuffer.set 2 fuseBits
  let msgBuffer := msgBuffer.set 3 cfg.STATUS_CMD_OK
  { s with msgLength := 4, msgBuffer := msgBuffer,
           hw := s.hw ++ [HwEvent.boot_lock_fuse_bits_get which] }

/-- Embeds `case CMD_CHIP_ERASE_ISP`. -/
def case_CMD_CHIP_ERASE_ISP (cfg : Config) (s : Session) : Session :=
  { s with eraseAddress := 0, msgLength := 2,
           msgBuffer := s.msgBuffer.set 1 cfg.STATUS_CMD_FAILED }

/-- Embeds `case CMD_LOAD_ADDRESS`. -/
def case_CMD_LOAD_ADDRESS (cfg : Config) (s : Session) : Session :=
  if s.isAuthenticated = 1 then
    let address :=
      if cfg.RAMPZ then
        (((s.msgBuffer.getD 1 0 <<< 24) ||| (s.msgBuffer.getD 2 0 <<< 16) |||
          (s.msgBuffer.getD 3 0 <<< 8) ||| s.msgBuffer.getD 4 0) <<< 1) % 2 ^ 32
      else
        (((s.msgBuffer.getD 3 0 <<< 8) ||| s.msgBuffer.getD 4 0) <<< 1) % 2 ^ 16
    { s with address := address, msgLength := 2,
             msgBuffer := s.msgBuffer.set 1 cfg.STATUS_CMD_OK }
  else replyFailed cfg s

/-- The erase step of `CMD_PROGRAM_FLASH_ISP`:
`if (eraseAddress < APP_END) { boot_page_erase(eraseAddress); boot_spm_busy_wait();
eraseAddress += SPM_PAGESIZE; }`. -/
def eraseStep (cfg : Config) (s : Session) : Session :=
  if s.eraseAddress < cfg.APP_END then
    { s with hw := s.hw ++ [HwEvent.boot_page_erase s.eraseAddress, HwEvent.boot_spm_busy_wait],
             eraseAddress := (s.eraseAddress + cfg.SPM_PAGESIZE) % cfg.addrMod }
  else s

/-- The loop `do { lowByte = *p++; highByte = *p++; data = (highByte << 8) | lowByte;
boot_page_fill(address, data); address = address + 2; size -= 2; } while (size);` with
`p = msgBuffer + p`. At most 32768 iterations bring the 16-bit `size` back to 0. -/
def flashFillLoop (cfg : Config) : Nat → Nat → Nat → Session → Option Session
  | 0, _, _, _ => none
  | fuel + 1, p, size, s =>
    match s.msgBuffer[p]?, s.msgBuffer[p + 1]? with
    | some lowByte, some highByte =>
      let data := (highByte <<< 8) ||| lowByte
      let s := { s with hw := s.hw ++ [HwEvent.boot_page_fill s.address data],
                        address := (s.address + 2) % cfg.addrMod }
      let size := (size + 65536 - 2) % 65536
      if size ≠ 0 then flashFillLoop cfg fuel (p + 2) size s else some s
    | _, _ => none

/-- The loop `while (size) { eeprom_write_byte((uint8_t*)ii, *p++); address+=2; ii++;
size--; }` with `p = msgBuffer + p`. -/
def eepromWriteLoop (cfg : Config) : Nat → Nat → Nat → Session → Option Session
  | 0, _, _, s => some s
  | size + 1, p, ii, s =>
    match s.msgBuffer[p]? with
    | some v =>
      let s := { s with hw := s.hw ++ [HwEvent.eeprom_write_byte ii v],
                        eeprom := fun a => if a = ii then v else s.eeprom a,
                        address := (s.address + 2) % cfg.addrMod }
      eepromWriteLoop cfg size (p + 1) ((ii + 1) % 65536) s
    | none => none

/-- Embeds `case CMD_PROGRAM_FLASH_ISP: case CMD_PROGRAM_EEPROM_ISP`. -/
def case_CMD_PROGRAM (cfg : Config) (s : Session) : Option Session :=
  if s.isAuthenticated = 1 then
    let size := ((s.msgBuffer.getD 1 0 <<< 8) ||| s.msgBuffer.getD 2 0) % 65536
    let tempaddress := s.address
    let r : Option Session :=
      if s.msgBuffer.getD 0 0 = cfg.CMD_PROGRAM_FLASH_ISP then
        let s := eraseStep cfg s
        match flashFillLoop cfg 32768 10 size s with
        | none => none
        | some s =>
          some { s with hw := s.hw ++ [HwEvent.boot_page_write tempaddress,
                                       HwEvent.boot_spm_busy_wait, HwEvent.boot_rww_enable] }
      else
        let ii := (s.address >>> 1) % 65536
        eepromWriteLoop cfg size 10 ii s
    match r with
    | none => none
    | some s => some { s with msgLength := 2, msgBuffer := s.msgBuffer.set 1 cfg.STATUS_CMD_OK }
  else some (replyFailed cfg s)

/-- The loop `do { data = pgm_read_word(address); *p++ = (unsigned char)data;
*p++ = (unsigned char)(data >> 8); address += 2; size -= 2; } while (size);`; the result
carries the final `p`. `pgm_read_word_far` takes the whole address, `pgm_read_word_near`
its low 16 bits. -/
def flashReadLoop (cfg : Config) : Nat → Nat → Nat → Session → Option (Nat × Session)
  | 0, _, _, _ => none
  | fuel + 1, p, size, s =>
    let a := if cfg.FLASHEND > 0x10000 then s.address else s.address % 65536
    let data := s.flash a
    match store s.msgBuffer p (data % 256) with
    | none => none
    | some msgBuffer =>
      match store msgBuffer (p + 1) ((data >>> 8) % 256) with
      | none => none
      | some msgBuffer =>
        let s := { s with msgBuffer := msgBuffer, hw := s.hw ++ [HwEvent.pgm_read_word a],
                          address := (s.address + 2) % cfg.addrMod }
        let size := (size + 65536 - 2) % 65536
        if size ≠ 0 then flashReadLoop cfg fuel (p + 2) size s else some (p + 2, s)

/-- The loop `do { EEARL = address; EEARH = address >> 8; address++; EECR |= (1<<EERE);
*p++ = EEDR; size--; } while (size);`; the result carries the final `p`. -/
def eepromReadLoop (cfg : Config) : Nat → Nat → Nat → Session → Option (Nat × Session)
  | 0, _, _, _ => none
  | fuel + 1, p, size, s =>
    let a := (s.address % 256) + ((s.address >>> 8) % 256) * 256
    match store s.msgBuffer p (s.eeprom a % 256) with
    | none => none
    | some msgBuffer =>
      let s := { s with msgBuffer := msgBuffer, hw := s.hw ++ [HwEvent.eeprom_read a],
                        address := (s.address + 1) % cfg.addrMod }
      let size := (size + 65536 - 1) % 65536
      if size ≠ 0 then eepromReadLoop cfg fuel (p + 1) size s else some (p + 1, s)

/-- Embeds `case CMD_READ_FLASH_ISP: case CMD_READ_EEPROM_ISP`. -/
def case_CMD_READ (cfg : Config) (s : Session) : Option Session :=
  let size := ((s.msgBuffer.getD 1 0 <<< 8) ||| s.msgBuffer.getD 2 0) % 65536
  let isFlash : Bool := s.msgBuffer.getD 0 0 = cfg.CMD_READ_FLASH_ISP
  let s := { s with msgLength := (size + 3) % 65536 }
  match store s.msgBuffer 1 cfg.STATUS_CMD_OK with
  | none => none
  | some msgBuffer =>
    let s := { s with msgBuffer := msgBuffer }
    let r := if isFlash then flashReadLoop cfg 32768 2 size s
             else eepromReadLoop cfg 65536 2 size s
    match r with
    | none => none
    | some (p, s) =>
      match store s.msgBuffer p cfg.STATUS_CMD_OK with
      | none => none
      | some msgBuffer => some { s with msgBuffer := msgBuffer }

/-- The `default:` case. -/
def case_default (cfg : Config) (s : Session) : Session :=
  { s with msgLength := 2, msgBuffer := s.msgBuffer.set 1 cfg.STATUS_CMD_FAILED }

/-- Embeds `switch (msgBuffer[0])`: the command dispatch of `main`, case labels in source order. -/
def dispatch (cfg : Config) (s : Session) : Option Session :=
  let op := s.msgBuffer.getD 0 0
  if op = cfg.CMD_AUTH then some (case_CMD_AUTH cfg s)
  else if op = cfg.CMD_SIGN_ON then some (case_CMD_SIGN_ON cfg s)
  else if op = cfg.CMD_GET_PARAMETER then some (case_CMD_GET_PARAMETER cfg s)
  else if op = cfg.CMD_LEAVE_PROGMODE_ISP then some (case_CMD_LEAVE_PROGMODE_ISP cfg s)
  else if op = cfg.CMD_SET_PARAMETER ∨ op = cfg.CMD_ENTER_PROGMODE_ISP then
    some (case_CMD_ENTER_PROGMODE_ISP cfg s)
  else if op = cfg.CMD_READ_SIGNATURE_ISP then some (case_CMD_READ_SIGNATURE_ISP cfg s)
  else if op = cfg.CMD_READ_LOCK_ISP then some (case_CMD_READ_LOCK_ISP cfg s)
  else if op = cfg.CMD_READ_FUSE_ISP then some (case_CMD_READ_FUSE_ISP cfg s)
  else if op = cfg.CMD_CHIP_ERASE_ISP then some (case_CMD_CHIP_ERASE_ISP cfg s)
  else if op = cfg.CMD_LOAD_ADDRESS then some (case_CMD_LOAD_ADDRESS cfg s)
  else if op = cfg.CMD_PROGRAM_FLASH_ISP ∨ op = cfg.CMD_PROGRAM_EEPROM_ISP then
    case_CMD_PROGRAM cfg s
  else if op = cfg.CMD_READ_FLASH_ISP ∨ op = cfg.CMD_READ_EEPROM_ISP then case_CMD_READ cfg s
  else some (case_default cfg s)

/-! ## Session controller -/

/-- Embeds `getData(&boot_state)`: the next byte of the transport; `none` when no byte arrives
(`recchar_timeout` then waits, or jumps to the application). -/
def getData (s : Session) : Option (Nat × Session) :=
  match s.rx with
  | [] => none
  | c :: rest =>
    if s.boot_state = 1 then some (c, { s with boot_state := 0, rx := rest })
    else some (c, { s with rx := rest })

/-- The loop `while (packetRetrieveState != SOTA_PACKET_RETRIEVE_FINISHED)`, with
`packetRetrieveState` and `packetRetrieveIndex` as arguments. Every iteration reads at
least one byte, so `fuel` beyond the number of remaining bytes is never used up. -/
def recvLoop (cfg : Config) : Nat → Nat → Nat → Session → Option Session
  | 0, _, _, _ => none
  | fuel + 1, packetRetrieveState, packetRetrieveIndex, s =>
    if packetRetrieveState = SOTA_PACKET_RETRIEVE_FINISHED then some s
    else
      match getData s with
      | none => none
      | some (c, s) =>
        if packetRetrieveState = SOTA_PACKET_RETRIEVE_START then
          if c = cfg.SOTA_MESSAGE_START then
            recvLoop cfg fuel SOTA_PACKET_RETRIEVE_SIZE packetRetrieveIndex s
          else recvLoop cfg fuel packetRetrieveState packetRetrieveIndex s
        else if packetRetrieveState = SOTA_PACKET_RETRIEVE_SIZE then
          match getData s with
          | none => none
          | some (lowest, s) =>
            let s := { s with packetSize := ((c <<< 8) ||| lowest) % 65536 }
            recvLoop cfg fuel SOTA_PACKET_RETRIEVE_PROCESSING packetRetrieveIndex s
        else if packetRetrieveState = SOTA_PACKET_RETRIEVE_PROCESSING then
          if packetRetrieveIndex < s.packetSize then
            match store s.receivedPacket packetRetrieveIndex c with
            | none => none
            | some receivedPacket =>
              recvLoop cfg fuel packetRetrieveState (packetRetrieveIndex + 1)
                { s with receivedPacket := receivedPacket }
          else recvLoop cfg fuel SOTA_PACKET_RETRIEVE_FINISHED packetRetrieveIndex s
        else recvLoop cfg fuel packetRetrieveState packetRetrieveIndex s

/-- Embeds `packetRetrieveIndex = 0; packetRetrieveState = SOTA_PACKET_RETRIEVE_START;` and the
packet receive loop. -/
def recvPacket (cfg : Config) (s : Session) : Option Session :=
  recvLoop cfg (s.rx.length + 1) SOTA_PACKET_RETRIEVE_START 0 s

/-- Embeds `aes_decrypt(aes_buffer, receivedPacket, packetSize)` on the session's buffers. -/
def decryptPacket (s : Session) : Option Session :=
  match aes_decrypt key iv ⟨s.RoundKey, s.Iv, s.aes_buffer, s.receivedPacket⟩ s.packetSize with
  | none => none
  | some m =>
    some { s with RoundKey := m.RoundKey, Iv := m.Iv, aes_buffer := m.output,
                  receivedPacket := m.input }

/-- The filler loop `for (i = msgLength+6; i < finalResponseSize; i++)
receivedPacket[i] = 0xff;`, `n` iterations from index `i`. -/
def fillLoop : Nat → Nat → List Nat → Option (List Nat)
  | 0, _, buf => some buf
  | n + 1, i, buf =>
    match store buf i 0xff with
    | none => none
    | some buf => fillLoop n (i + 1) buf

/-- The loop `while (msgLength) { c = *p++; receivedPacket[receivedPacketIndex++] = c;
checksum ^= c; msgLength--; }` with `p = msgBuffer + p`. -/
def copyLoop : Nat → Nat → Session → Option Session
  | 0, _, s => some { s with msgLength := 0 }
  | n + 1, p, s =>
    match s.msgBuffer[p]? with
    | none => none
    | some c =>
      match store s.receivedPacket s.receivedPacketIndex c with
      | none => none
      | some receivedPacket =>
        copyLoop n (p + 1)
          { s with receivedPacket := receivedPacket,
                   receivedPacketIndex := (s.receivedPacketIndex + 1) % 65536,
                   checksum := s.checksum ^^^ c, msgLength := n }

/-- The response assembly: the frame `MESSAGE_START, seqNum, msgLength (big-endian), TOKEN,
msgBuffer[0 .. msgLength-1], checksum` is written to `receivedPacket`, with the filler
loop between the length bytes and the token as in the source; then `seqNum++`. The
result carries `finalResponseSize`; its `receivedPacket` is the plaintext handed to
`aes_encrypt`. -/
def assembleResponse (cfg : Config) (s : Session) : Option (Nat × Session) :=
  match store s.receivedPacket 0 cfg.MESSAGE_START with
  | none => none
  | some rp =>
  let checksum := cfg.MESSAGE_START ^^^ 0
  match store rp 1 s.seqNum with
  | none => none
  | some rp =>
  let checksum := checksum ^^^ s.seqNum
  let c := (s.msgLength >>> 8) &&& 0xFF
  match store rp 2 c with
  | none => none
  | some rp =>
  let checksum := checksum ^^^ c
  let c := s.msgLength &&& 0x00FF
  match store rp 3 c with
  | none => none
  | some rp =>
  let checksum := checksum ^^^ c
  let residualNumber := ((s.msgLength + 6) % 65536) % 16
  let finalResponseSize := (s.msgLength + (16 - residualNumber) + 6) % 65536
  let filled : Option (List Nat) :=
    if residualNumber ≠ 0 then
      fillLoop (finalResponseSize - (s.msgLength + 6) % 65536) ((s.msgLength + 6) % 65536) rp
    else some rp
  match filled with
  | none => none
  | some rp =>
  match store rp 4 cfg.TOKEN with
  | none => none
  | some rp =>
  let checksum := checksum ^^^ cfg.TOKEN
  match copyLoop s.msgLength 0
      { s with receivedPacket := rp, receivedPacketIndex := 5, checksum := checksum } with
  | none => none
  | some s =>
  match store s.receivedPacket s.receivedPacketIndex s.checksum with
  | none => none
  | some rp =>
  some (finalResponseSize,
    { s with receivedPacket := rp,
             receivedPacketIndex := (s.receivedPacketIndex + 1) % 65536,
             seqNum := (s.seqNum + 1) % 256 })

/-- The answer: the response frame is assembled in `receivedPacket`, padded, encrypted
into `aes_buffer` and sent. The result also carries `finalResponseSize`. -/
def respond (cfg : Config) (s : Session) : Option (Nat × Session) :=
  match assembleResponse cfg s with
  | none => none
  | some (finalResponseSize, s) =>
  match aes_encrypt key iv ⟨s.RoundKey, s.Iv, s.aes_buffer, s.receivedPacket⟩
      finalResponseSize with
  | none => none
  | some m =>
  let s := { s with RoundKey := m.RoundKey, Iv := m.Iv, aes_buffer := m.output,
                    receivedPacket := m.input }
  if finalResponseSize ≤ s.aes_buffer.length then
    some (finalResponseSize,
      { s with tx := s.tx ++ [cfg.SOTA_MESSAGE_START, (finalResponseSize >>> 8) &&& 0xFF,
                               finalResponseSize &&& 0x00FF] ++
                             s.aes_buffer.take finalResponseSize })
  else none

/-- One pass through the body of `while (!isLeave)`: receive a packet, decrypt it, frame
it, dispatch the command, answer. -/
def sessionCycle (cfg : Config) (s : Session) : Option Session :=
  match recvPacket cfg s with
  | none => none
  | some s =>
  match decryptPacket s with
  | none => none
  | some s =>
  match parseFrame cfg s with
  | none => none
  | some s =>
  match dispatch cfg s with
  | none => none
  | some s =>
  match respond cfg s with
  | none => none
  | some (_, s) => some s

/-- The loop `while (!isLeave)`, at most `fuel` passes. -/
def sessionLoop (cfg : Config) : Nat → Session → Option Session
  | 0, s => if s.isLeave ≠ 0 then some s else none
  | fuel + 1, s =>
    if s.isLeave ≠ 0 then some s
    else
      match sessionCycle cfg s with
      | none => none
      | some s => sessionLoop cfg fuel s

/-! ## Auxiliary notions for the session proofs -/

/-- The hardware calls that change program or data memory: page erase, page-buffer fill,
page write and EEPROM byte write. -/
def HwEvent.isProgramming : HwEvent → Bool
  | .boot_page_erase _ => true
  | .boot_page_fill _ _ => true
  | .boot_page_write _ => true
  | .eeprom_write_byte _ _ => true
  | _ => false

/-- The hardware call is a page-buffer fill. -/
def HwEvent.isFill : HwEvent → Bool
  | .boot_page_fill _ _ => true
  | _ => false

/-- Session states reached from `s₀` by passes through the body of `while (!isLeave)`. -/
inductive Reachable (cfg : Config) (s₀ : Session) : Session → Prop where
  | start : Reachable cfg s₀ s₀
  | cycle {s t : Session} : Reachable cfg s₀ s → s.isLeave = 0 → sessionCycle cfg s = some t →
      Reachable cfg s₀ t

/-- A configuration used as concrete input: the byte values of the STK500v2 (AVR068)
convention for the protocol constants, the values of `<avr/boot.h>` for the fuse
selectors, and an ATmega128 (`FLASHEND = 0x1FFFF`, 256-byte pages, `RAMPZ` present).
`CMD_AUTH` and `SOTA_MESSAGE_START` are extensions of this firmware whose values the
source file does not show; 0x50 and 0x1C stand in for them. -/
def atmega128 : Config where
  MESSAGE_START := 0x1B
  TOKEN := 0x0E
  SOTA_MESSAGE_START := 0x1C
  STATUS_CMD_OK := 0x00
  STATUS_CMD_FAILED := 0xC0
  CMD_AUTH := 0x50
  CMD_SIGN_ON := 0x01
  CMD_SET_PARAMETER := 0x02
  CMD_GET_PARAMETER := 0x03
  CMD_LOAD_ADDRESS := 0x06
  CMD_ENTER_PROGMODE_ISP := 0x10
  CMD_LEAVE_PROGMODE_ISP := 0x11
  CMD_CHIP_ERASE_ISP := 0x12
  CMD_PROGRAM_FLASH_ISP := 0x13
  CMD_READ_FLASH_ISP := 0x14
  CMD_PROGRAM_EEPROM_ISP := 0x15
  CMD_READ_EEPROM_ISP := 0x16
  CMD_READ_FUSE_ISP := 0x18
  CMD_PROGRAM_LOCK_ISP := 0x19
  CMD_READ_LOCK_ISP := 0x1A
  CMD_READ_SIGNATURE_ISP := 0x1B
  CMD_SPI_MULTI := 0x1D
  PARAM_BUILD_NUMBER_LOW := 0x80
  PARAM_BUILD_NUMBER_HIGH := 0x81
  PARAM_HW_VER := 0x90
  PARAM_SW_MAJOR := 0x91
  PARAM_SW_MINOR := 0x92
  GET_LOW_FUSE_BITS := 0
  GET_LOCK_BITS := 1
  GET_EXTENDED_FUSE_BITS := 2
  GET_HIGH_FUSE_BITS := 3
  FLASHEND := 0x1FFFF
  SPM_PAGESIZE := 256
  RAMPZ := true
  SIGNATURE_BYTES := 0x1E9702

/-- A session state used as concrete input: the initial state of `main` on an erased
device (flash words 0xFFFF, EEPROM and fuse bytes 0xFF), with `msgBuffer` holding the
payload `frame` followed by 0xAA bytes up to its 285 bytes. -/
def sessionWith (frame : List Nat) (rx : List Nat) : Session :=
  Session.init (frame ++ List.replicate (285 - frame.length) 0xAA)
    (fun _ => 0xFFFF) (fun _ => 0xFF) (fun _ => 0xFF) rx

/-- The part of the session state that only the command processor writes: the flags, the
two addresses, the memories and the record of hardware calls are the same in `t` as
in `s`. -/
def SameCore (s t : Session) : Prop :=
  t.eraseAddress = s.eraseAddress ∧ t.isAuthenticated = s.isAuthenticated ∧
  t.address = s.address ∧ t.isLeave = s.isLeave ∧ t.hw = s.hw ∧
  t.authenticationNumber = s.authenticationNumber ∧
  t.flash = s.flash ∧ t.eeprom = s.eeprom ∧ t.fuses = s.fuses

/-- The state after the framer has stored the payload `frame` of an accepted frame:
`msgBuffer[0 .. length-1]` holds the payload and `msgLength` its length. -/
def withFrame (frame : List Nat) (s : Session) : Session :=
  { s with msgBuffer := frame ++ s.msgBuffer.drop frame.length, msgLength := frame.length }

/-- A session state used as concrete input: as `sessionWith frame []`, but authenticated
and with target address `address`. -/
def authedAt (address : Nat) (frame : List Nat) : Session :=
  { sessionWith frame [] with isAuthenticated := 1, address := address }

/-- Commands dispatched one after the other, each payload stored in `msgBuffer` the way
the framer stores it. -/
def runFrames (cfg : Config) : List (List Nat) → Session → Option Session
  | [], s => some s
  | frame :: rest, s =>
    match dispatch cfg (withFrame frame s) with
    | none => none
    | some s => runFrames cfg rest s

/-- The 176 bytes of the key schedule of `key` (eleven round keys of sixteen bytes), written
out; `KeyExpansion_key` proves that `KeyExpansion` computes them. -/
def expandedKey : List Nat :=
  [0x2b, 0x7e, 0x15, 0x16, 0x28, 0xae, 0xd2, 0xa6, 0xab, 0xf7, 0x15, 0x88, 0x09, 0xcf, 0x4f, 0x3c,
   0xa0, 0xfa, 0xfe, 0x17, 0x88, 0x54, 0x2c, 0xb1, 0x23, 0xa3, 0x39, 0x39, 0x2a, 0x6c, 0x76, 0x05,
   0xf2, 0xc2, 0x95, 0xf2, 0x7a, 0x96, 0xb9, 0x43, 0x59, 0x35, 0x80, 0x7a, 0x73, 0x59, 0xf6, 0x7f,
   0x3d, 0x80, 0x47, 0x7d, 0x47, 0x16, 0xfe, 0x3e, 0x1e, 0x23, 0x7e, 0x44, 0x6d, 0x7a, 0x88, 0x3b,
   0xef, 0x44, 0xa5, 0x41, 0xa8, 0x52, 0x5b, 0x7f, 0xb6, 0x71, 0x25, 0x3b, 0xdb, 0x0b, 0xad, 0x00,
   0xd4, 0xd1, 0xc6, 0xf8, 0x7c, 0x83, 0x9d, 0x87, 0xca, 0xf2, 0xb8, 0xbc, 0x11, 0xf9, 0x15, 0xbc,
   0x6d, 0x88, 0xa3, 0x7a, 0x11, 0x0b, 0x3e, 0xfd, 0xdb, 0xf9, 0x86, 0x41, 0xca, 0x00, 0x93, 0xfd,
   0x4e, 0x54, 0xf7, 0x0e, 0x5f, 0x5f, 0xc9, 0xf3, 0x84, 0xa6, 0x4f, 0xb2, 0x4e, 0xa6, 0xdc, 0x4f,
   0xea, 0xd2, 0x73, 0x21, 0xb5, 0x8d, 0xba, 0xd2, 0x31, 0x2b, 0xf5, 0x60, 0x7f, 0x8d, 0x29, 0x2f,
   0xac, 0x77, 0x66, 0xf3, 0x19, 0xfa, 0xdc, 0x21, 0x28, 0xd1, 0x29, 0x41, 0x57, 0x5c, 0x00, 0x6e,
   0xd0, 0x14, 0xf9, 0xa8, 0xc9, 0xee, 0x25, 0x89, 0xe1, 0x3f, 0x0c, 0xc8, 0xb6, 0x63, 0x0c, 0xa6]

/-- The XOR of the bytes of `l`. -/
def xorAll (l : List Nat) : Nat := l.foldl (fun a b => a ^^^ b) 0

/-- The bytes of a frame before its checksum: start marker, sequence number, payload length
(big-endian, two bytes), token, payload. -/
def frameBody (cfg : Config) (seq : Nat) (payload : List Nat) : List Nat :=
  [cfg.MESSAGE_START, seq, (payload.length >>> 8) &&& 0xFF, payload.length &&& 0xFF,
    cfg.TOKEN] ++ payload

/-- A well-formed frame with sequence number `seq` and payload `payload`: the body followed
by the XOR of all its bytes. This is the layout the framer accepts and the response
assembly produces. -/
def frame (cfg : Config) (seq : Nat) (payload : List Nat) : List Nat :=
  frameBody cfg seq payload ++ [xorAll (frameBody cfg seq payload)]

/-- The framer loop run over the bytes `bytes` only: the state after the last of them, or
the state in which `ST_PROCESS` was reached before. Unlike `parseBytes` it does not ask for
a complete frame. -/
def parseRun (cfg : Config) : List Nat → Session → Option Session
  | [], s => some s
  | c :: rest, s =>
    if s.msgParseState = ST_PROCESS then some s
    else
      match parseStep cfg c s with
      | none => none
      | some s => parseRun cfg rest s

/-- The byte `b` with bit `k` flipped. -/
def flipBit (b k : Nat) : Nat := b ^^^ 2 ^ k

/-- What `aes_encrypt` leaves in its input buffer, written as a recursion on the number of
blocks: block `i` is `data block i XOR previous result block` of the chaining, the first
block XORed with `prev`. -/
def cbcXor (RoundKey : List Nat) : Nat → List Nat → List Nat → List Nat
  | 0, _, _ => []
  | n + 1, prev, data =>
    XorWithIv (data.take 16) prev ++
      cbcXor RoundKey n (Cipher RoundKey (XorWithIv (data.take 16) prev)) (data.drop 16)

/-- Two framer states that agree on everything the framer reads before it writes it: the
state, the expected sequence number, the read index and the size of `msgBuffer`; the
running checksum once a start byte has been seen; `msgLength` once its first byte has been
stored; `ii` and the bytes copied so far once the token has been seen. In `ST_GET_CHECK`
and `ST_PROCESS` the copy has reached `ii = msgLength`. -/
def FramerAgree (a b : Session) : Prop :=
  a.msgParseState = b.msgParseState ∧ a.seqNum = b.seqNum ∧
  a.receivedPacketIndex = b.receivedPacketIndex ∧ a.msgBuffer.length = b.msgBuffer.length ∧
  (a.msgParseState ≠ ST_START → a.checksum = b.checksum) ∧
  (a.msgParseState = ST_MSG_SIZE_2 ∨ a.msgParseState = ST_GET_TOKEN ∨
    a.msgParseState = ST_GET_DATA ∨ a.msgParseState = ST_GET_CHECK ∨
    a.msgParseState = ST_PROCESS → a.msgLength = b.msgLength) ∧
  (a.msgParseState = ST_GET_DATA ∨ a.msgParseState = ST_GET_CHECK ∨
    a.msgParseState = ST_PROCESS →
      a.ii = b.ii ∧ a.msgBuffer.take a.ii = b.msgBuffer.take b.ii) ∧
  (a.msgParseState = ST_GET_CHECK ∨ a.msgParseState = ST_PROCESS →
      a.ii = a.msgLength ∧ b.ii = b.msgLength)

/-- The loop control that the word loops of program-flash and of read-flash share,
`unsigned int size; do { …; size -= 2; } while (size);`, without the loop body: the
number of iterations after which the 16-bit counter is 0, `none` when it is not 0 within
`fuel` iterations. -/
def wordLoopIterations : Nat → Nat → Option Nat
  | 0, _ => none
  | fuel + 1, size =>
    let size := (size + 65536 - 2) % 65536
    if size ≠ 0 then (wordLoopIterations fuel size).map (fun k => k + 1) else some 1

/-! # Theorems -/

/-! ## Theorems: block cipher -/

theorem xor_left_comm (a b c : Nat) : a ^^^ (b ^^^ c) = b ^^^ (a ^^^ c) := by
  rw [← Nat.xor_assoc, Nat.xor_comm a b, Nat.xor_assoc]

theorem shl1_xor (a b : Nat) : (a ^^^ b) <<< 1 = (a <<< 1) ^^^ (b <<< 1) := by
  apply Nat.eq_of_testBit_eq
  intro i
  simp only [Nat.testBit_shiftLeft, Nat.testBit_xor]
  cases decide (i ≥ 1) <;> simp

theorem shr7_xor (a b : Nat) : (a ^^^ b) >>> 7 = (a >>> 7) ^^^ (b >>> 7) := by
  apply Nat.eq_of_testBit_eq
  intro i
  simp only [Nat.testBit_shiftRight, Nat.testBit_xor]

theorem mod256_xor (a b : Nat) : (a ^^^ b) % 256 = (a % 256) ^^^ (b % 256) := by
  apply Nat.eq_of_testBit_eq
  intro i
  have h : (256 : Nat) = 2 ^ 8 := by norm_num
  simp only [h, Nat.testBit_mod_two_pow, Nat.testBit_xor]
  cases decide (i < 8) <;> simp

theorem bit_mul_xor (k x y : Nat) :
    (k &&& 1) * (x ^^^ y) = ((k &&& 1) * x) ^^^ ((k &&& 1) * y) := by
  have hk : k &&& 1 = 0 ∨ k &&& 1 = 1 := by rw [Nat.and_one_is_mod]; omega
  rcases hk with hk | hk <;> simp [hk]

theorem bitmul_xor (p q : Nat) :
    ((p ^^^ q) &&& 1) * 0x1b = ((p &&& 1) * 0x1b) ^^^ ((q &&& 1) * 0x1b) := by
  rw [Nat.and_xor_distrib_right]
  have hp : p &&& 1 = 0 ∨ p &&& 1 = 1 := by rw [Nat.and_one_is_mod]; omega
  have hq : q &&& 1 = 0 ∨ q &&& 1 = 1 := by rw [Nat.and_one_is_mod]; omega
  rcases hp with hp | hp <;> rcases hq with hq | hq <;> rw [hp, hq] <;> decide

/-- The function `xtime` is additive for exclusive or. -/
theorem xtime_xor (a b : Nat) : xtime (a ^^^ b) = xtime a ^^^ xtime b := by
  unfold xtime
  rw [shl1_xor, shr7_xor, bitmul_xor, ← mod256_xor]
  congr 1
  simp only [Nat.xor_assoc, Nat.xor_comm, xor_left_comm]

theorem xtime_zero : xtime 0 = 0 := by decide

theorem xtime_lt (x : Nat) : xtime x < 256 := Nat.mod_lt _ (by decide)

theorem Multiply_xor (x y k : Nat) : Multiply (x ^^^ y) k = Multiply x k ^^^ Multiply y k := by
  unfold Multiply
  simp only [xtime_xor, bit_mul_xor]
  ac_rfl

theorem Multiply_zero (k : Nat) : Multiply 0 k = 0 := by
  simp [Multiply, xtime_zero]

theorem invMixMix_split (a b c d : Nat) :
    invMixMix a b c d =
      colXor (colXor (invMixMix a 0 0 0) (invMixMix 0 b 0 0))
        (colXor (invMixMix 0 0 c 0) (invMixMix 0 0 0 d)) := by
  simp only [invMixMix, mixCol, invMixCol, colXor, List.getD_cons_zero, List.getD_cons_succ,
    Multiply_xor, xtime_xor, xtime_zero, Multiply_zero, Nat.xor_zero, Nat.zero_xor]
  refine congrArg₂ _ (by ac_rfl) (congrArg₂ _ (by ac_rfl) (congrArg₂ _ (by ac_rfl)
    (congrArg₂ _ (by ac_rfl) rfl)))

theorem invMixMix_a : ∀ a < 256, invMixMix a 0 0 0 = [a, 0, 0, 0] := by decide!
theorem invMixMix_b : ∀ a < 256, invMixMix 0 a 0 0 = [0, a, 0, 0] := by decide!
theorem invMixMix_c : ∀ a < 256, invMixMix 0 0 a 0 = [0, 0, a, 0] := by decide!
theorem invMixMix_d : ∀ a < 256, invMixMix 0 0 0 a = [0, 0, 0, a] := by decide!

theorem invMixMix_id (a b c d : Nat) (ha : a < 256) (hb : b < 256) (hc : c < 256)
    (hd : d < 256) : invMixMix a b c d = [a, b, c, d] := by
  rw [invMixMix_split, invMixMix_a a ha, invMixMix_b b hb, invMixMix_c c hc, invMixMix_d d hd]
  simp [colXor]

theorem sbox_lt : ∀ x < 256, getSBoxValue x < 256 := by decide!

theorem rsbox_sbox : ∀ x < 256, getSBoxInvert (getSBoxValue x) = x := by decide!

theorem getSBoxValue_lt (x : Nat) : getSBoxValue x < 256 := by
  by_cases h : x < 256
  · exact sbox_lt x h
  · have hl : sbox.length = 256 := by decide!
    unfold getSBoxValue
    rw [List.getD_eq_default _ _ (by omega)]
    decide

theorem getD_lt {l : List Nat} (h : Bytes l) (i : Nat) : l.getD i 0 < 256 := by
  by_cases hi : i < l.length
  · rw [List.getD_eq_getElem _ _ hi]
    exact h _ (List.getElem_mem _)
  · rw [List.getD_eq_default _ _ (by omega)]
    decide

theorem Bytes_set {l : List Nat} (h : Bytes l) (i v : Nat) (hv : v < 256) :
    Bytes (l.set i v) := by
  intro x hx
  rcases List.mem_or_eq_of_mem_set hx with h1 | h1
  · exact h x h1
  · rw [h1]; exact hv

theorem xor_lt {a b : Nat} (ha : a < 256) (hb : b < 256) : a ^^^ b < 256 :=
  Nat.xor_lt_two_pow (n := 8) ha hb

theorem eq16 {s : List Nat} (h : s.length = 16) :
    ∃ a0 a1 a2 a3 a4 a5 a6 a7 a8 a9 a10 a11 a12 a13 a14 a15,
      s = [a0, a1, a2, a3, a4, a5, a6, a7, a8, a9, a10, a11, a12, a13, a14, a15] := by
  match s, h with
  | [a0, a1, a2, a3, a4, a5, a6, a7, a8, a9, a10, a11, a12, a13, a14, a15], _ =>
    exact ⟨a0, a1, a2, a3, a4, a5, a6, a7, a8, a9, a10, a11, a12, a13, a14, a15, rfl⟩

theorem SubBytes_eq (a0 a1 a2 a3 a4 a5 a6 a7 a8 a9 a10 a11 a12 a13 a14 a15 : Nat) :
    SubBytes [a0, a1, a2, a3, a4, a5, a6, a7, a8, a9, a10, a11, a12, a13, a14, a15] =
      [getSBoxValue a0, getSBoxValue a1, getSBoxValue a2, getSBoxValue a3,
       getSBoxValue a4, getSBoxValue a5, getSBoxValue a6, getSBoxValue a7,
       getSBoxValue a8, getSBoxValue a9, getSBoxValue a10, getSBoxValue a11,
       getSBoxValue a12, getSBoxValue a13, getSBoxValue a14, getSBoxValue a15] := by
  simp [SubBytes, loopUp, stGet, stSet]

theorem InvSubBytes_eq (a0 a1 a2 a3 a4 a5 a6 a7 a8 a9 a10 a11 a12 a13 a14 a15 : Nat) :
    InvSubBytes [a0, a1, a2, a3, a4, a5, a6, a7, a8, a9, a10, a11, a12, a13, a14, a15] =
      [getSBoxInvert a0, getSBoxInvert a1, getSBoxInvert a2, getSBoxInvert a3,
       getSBoxInvert a4, getSBoxInvert a5, getSBoxInvert a6, getSBoxInvert a7,
       getSBoxInvert a8, getSBoxInvert a9, getSBoxInvert a10, getSBoxInvert a11,
       getSBoxInvert a12, getSBoxInvert a13, getSBoxInvert a14, getSBoxInvert a15] := by
  simp [InvSubBytes, loopUp, stGet, stSet]

theorem ShiftRows_eq (a0 a1 a2 a3 a4 a5 a6 a7 a8 a9 a10 a11 a12 a13 a14 a15 : Nat) :
    ShiftRows [a0, a1, a2, a3, a4, a5, a6, a7, a8, a9, a10, a11, a12, a13, a14, a15] =
      [a0, a5, a10, a15, a4, a9, a14, a3, a8, a13, a2, a7, a12, a1, a6, a11] := by
  simp [ShiftRows, stGet, stSet]

theorem InvShiftRows_eq (a0 a1 a2 a3 a4 a5 a6 a7 a8 a9 a10 a11 a12 a13 a14 a15 : Nat) :
    InvShiftRows [a0, a1, a2, a3, a4, a5, a6, a7, a8, a9, a10, a11, a12, a13, a14, a15] =
      [a0, a13, a10, a7, a4, a1, a14, a11, a8, a5, a2, a15, a12, a9, a6, a3] := by
  simp [InvShiftRows, stGet, stSet]

theorem MixColumns_eq (a0 a1 a2 a3 a4 a5 a6 a7 a8 a9 a10 a11 a12 a13 a14 a15 : Nat) :
    MixColumns [a0, a1, a2, a3, a4, a5, a6, a7, a8, a9, a10, a11, a12, a13, a14, a15] =
      mixCol a0 a1 a2 a3 ++ mixCol a4 a5 a6 a7 ++ mixCol a8 a9 a10 a11 ++
        mixCol a12 a13 a14 a15 := by
  simp [MixColumns, loopUp, stGet, stSet, mixCol]

theorem InvMixColumns_eq (a0 a1 a2 a3 a4 a5 a6 a7 a8 a9 a10 a11 a12 a13 a14 a15 : Nat) :
    InvMixColumns [a0, a1, a2, a3, a4, a5, a6, a7, a8, a9, a10, a11, a12, a13, a14, a15] =
      invMixCol a0 a1 a2 a3 ++ invMixCol a4 a5 a6 a7 ++ invMixCol a8 a9 a10 a11 ++
        invMixCol a12 a13 a14 a15 := by
  simp [InvMixColumns, loopUp, stGet, stSet, invMixCol]

theorem AddRoundKey_eq (rk : List Nat) (r : Nat)
    (a0 a1 a2 a3 a4 a5 a6 a7 a8 a9 a10 a11 a12 a13 a14 a15 : Nat) :
    AddRoundKey rk r [a0, a1, a2, a3, a4, a5, a6, a7, a8, a9, a10, a11, a12, a13, a14, a15] =
      [a0 ^^^ rk.getD (r * Nb * 4 + 0) 0, a1 ^^^ rk.getD (r * Nb * 4 + 1) 0,
       a2 ^^^ rk.getD (r * Nb * 4 + 2) 0, a3 ^^^ rk.getD (r * Nb * 4 + 3) 0,
       a4 ^^^ rk.getD (r * Nb * 4 + 4) 0, a5 ^^^ rk.getD (r * Nb * 4 + 5) 0,
       a6 ^^^ rk.getD (r * Nb * 4 + 6) 0, a7 ^^^ rk.getD (r * Nb * 4 + 7) 0,
       a8 ^^^ rk.getD (r * Nb * 4 + 8) 0, a9 ^^^ rk.getD (r * Nb * 4 + 9) 0,
       a10 ^^^ rk.getD (r * Nb * 4 + 10) 0, a11 ^^^ rk.getD (r * Nb * 4 + 11) 0,
       a12 ^^^ rk.getD (r * Nb * 4 + 12) 0, a13 ^^^ rk.getD (r * Nb * 4 + 13) 0,
       a14 ^^^ rk.getD (r * Nb * 4 + 14) 0, a15 ^^^ rk.getD (r * Nb * 4 + 15) 0] := by
  simp [AddRoundKey, loopUp, stGet, stSet, Nb, Nat.add_assoc]

theorem XorWithIv_eq (Iv : List Nat)
    (a0 a1 a2 a3 a4 a5 a6 a7 a8 a9 a10 a11 a12 a13 a14 a15 : Nat) :
    XorWithIv [a0, a1, a2, a3, a4, a5, a6, a7, a8, a9, a10, a11, a12, a13, a14, a15] Iv =
      [a0 ^^^ Iv.getD 0 0, a1 ^^^ Iv.getD 1 0, a2 ^^^ Iv.getD 2 0, a3 ^^^ Iv.getD 3 0,
       a4 ^^^ Iv.getD 4 0, a5 ^^^ Iv.getD 5 0, a6 ^^^ Iv.getD 6 0, a7 ^^^ Iv.getD 7 0,
       a8 ^^^ Iv.getD 8 0, a9 ^^^ Iv.getD 9 0, a10 ^^^ Iv.getD 10 0, a11 ^^^ Iv.getD 11 0,
       a12 ^^^ Iv.getD 12 0, a13 ^^^ Iv.getD 13 0, a14 ^^^ Iv.getD 14 0,
       a15 ^^^ Iv.getD 15 0] := by
  simp [XorWithIv, loopUp]

theorem Bytes16 (a0 a1 a2 a3 a4 a5 a6 a7 a8 a9 a10 a11 a12 a13 a14 a15 : Nat) :
    Bytes [a0, a1, a2, a3, a4, a5, a6, a7, a8, a9, a10, a11, a12, a13, a14, a15] ↔
      (a0 < 256 ∧ a1 < 256 ∧ a2 < 256 ∧ a3 < 256 ∧ a4 < 256 ∧ a5 < 256 ∧ a6 < 256 ∧
       a7 < 256 ∧ a8 < 256 ∧ a9 < 256 ∧ a10 < 256 ∧ a11 < 256 ∧ a12 < 256 ∧ a13 < 256 ∧
       a14 < 256 ∧ a15 < 256) := by
  simp [Bytes]

theorem SubBytes_isBlock {s : List Nat} (h : s.length = 16) : IsBlock (SubBytes s) := by
  obtain ⟨a0, a1, a2, a3, a4, a5, a6, a7, a8, a9, a10, a11, a12, a13, a14, a15, rfl⟩ := eq16 h
  rw [SubBytes_eq]
  refine ⟨rfl, ?_⟩
  rw [Bytes16]
  simp only [getSBoxValue_lt, and_self]

theorem InvSubBytes_SubBytes {s : List Nat} (h : IsBlock s) : InvSubBytes (SubBytes s) = s := by
  obtain ⟨hl, hb⟩ := h
  obtain ⟨a0, a1, a2, a3, a4, a5, a6, a7, a8, a9, a10, a11, a12, a13, a14, a15, rfl⟩ := eq16 hl
  rw [Bytes16] at hb
  obtain ⟨h0, h1, h2, h3, h4, h5, h6, h7, h8, h9, h10, h11, h12, h13, h14, h15⟩ := hb
  rw [SubBytes_eq, InvSubBytes_eq]
  simp only [rsbox_sbox _ h0, rsbox_sbox _ h1, rsbox_sbox _ h2, rsbox_sbox _ h3,
    rsbox_sbox _ h4, rsbox_sbox _ h5, rsbox_sbox _ h6, rsbox_sbox _ h7, rsbox_sbox _ h8,
    rsbox_sbox _ h9, rsbox_sbox _ h10, rsbox_sbox _ h11, rsbox_sbox _ h12, rsbox_sbox _ h13,
    rsbox_sbox _ h14, rsbox_sbox _ h15]

theorem ShiftRows_isBlock {s : List Nat} (h : IsBlock s) : IsBlock (ShiftRows s) := by
  obtain ⟨hl, hb⟩ := h
  obtain ⟨a0, a1, a2, a3, a4, a5, a6, a7, a8, a9, a10, a11, a12, a13, a14, a15, rfl⟩ := eq16 hl
  rw [ShiftRows_eq]
  refine ⟨rfl, ?_⟩
  rw [Bytes16] at hb ⊢
  omega

theorem InvShiftRows_ShiftRows {s : List Nat} (h : s.length = 16) :
    InvShiftRows (ShiftRows s) = s := by
  obtain ⟨a0, a1, a2, a3, a4, a5, a6, a7, a8, a9, a10, a11, a12, a13, a14, a15, rfl⟩ := eq16 h
  rw [ShiftRows_eq, InvShiftRows_eq]

theorem mixCol_lt {a b c d : Nat} (ha : a < 256) (hb : b < 256) (hc : c < 256) (hd : d < 256) :
    Bytes (mixCol a b c d) := by
  have h4 : a ^^^ b ^^^ c ^^^ d < 256 := xor_lt (xor_lt (xor_lt ha hb) hc) hd
  intro x hx
  simp only [mixCol, List.mem_cons, List.mem_singleton, List.not_mem_nil, or_false] at hx
  rcases hx with rfl | rfl | rfl | rfl
  · exact xor_lt ha (xor_lt (xtime_lt _) h4)
  · exact xor_lt hb (xor_lt (xtime_lt _) h4)
  · exact xor_lt hc (xor_lt (xtime_lt _) h4)
  · exact xor_lt hd (xor_lt (xtime_lt _) h4)

theorem Bytes_append {l₁ l₂ : List Nat} (h₁ : Bytes l₁) (h₂ : Bytes l₂) : Bytes (l₁ ++ l₂) := by
  intro x hx
  rcases List.mem_append.mp hx with h | h
  · exact h₁ x h
  · exact h₂ x h

theorem MixColumns_isBlock {s : List Nat} (h : IsBlock s) : IsBlock (MixColumns s) := by
  obtain ⟨hl, hb⟩ := h
  obtain ⟨a0, a1, a2, a3, a4, a5, a6, a7, a8, a9, a10, a11, a12, a13, a14, a15, rfl⟩ := eq16 hl
  rw [Bytes16] at hb
  obtain ⟨h0, h1, h2, h3, h4, h5, h6, h7, h8, h9, h10, h11, h12, h13, h14, h15⟩ := hb
  rw [MixColumns_eq]
  refine ⟨rfl, ?_⟩
  exact Bytes_append (Bytes_append (Bytes_append (mixCol_lt h0 h1 h2 h3) (mixCol_lt h4 h5 h6 h7))
    (mixCol_lt h8 h9 h10 h11)) (mixCol_lt h12 h13 h14 h15)

theorem invMixCol_mixCol {a b c d : Nat} (ha : a < 256) (hb : b < 256) (hc : c < 256)
    (hd : d < 256) :
    invMixCol (a ^^^ (xtime (a ^^^ b) ^^^ (a ^^^ b ^^^ c ^^^ d)))
      (b ^^^ (xtime (b ^^^ c) ^^^ (a ^^^ b ^^^ c ^^^ d)))
      (c ^^^ (xtime (c ^^^ d) ^^^ (a ^^^ b ^^^ c ^^^ d)))
      (d ^^^ (xtime (d ^^^ a) ^^^ (a ^^^ b ^^^ c ^^^ d))) = [a, b, c, d] :=
  invMixMix_id a b c d ha hb hc hd

theorem InvMixColumns_MixColumns {s : List Nat} (h : IsBlock s) :
    InvMixColumns (MixColumns s) = s := by
  obtain ⟨hl, hb⟩ := h
  obtain ⟨a0, a1, a2, a3, a4, a5, a6, a7, a8, a9, a10, a11, a12, a13, a14, a15, rfl⟩ := eq16 hl
  rw [Bytes16] at hb
  obtain ⟨h0, h1, h2, h3, h4, h5, h6, h7, h8, h9, h10, h11, h12, h13, h14, h15⟩ := hb
  rw [MixColumns_eq]
  simp only [mixCol, List.cons_append, List.nil_append]
  rw [InvMixColumns_eq, invMixCol_mixCol h0 h1 h2 h3, invMixCol_mixCol h4 h5 h6 h7,
    invMixCol_mixCol h8 h9 h10 h11, invMixCol_mixCol h12 h13 h14 h15]
  rfl

theorem AddRoundKey_isBlock {rk : List Nat} (hrk : Bytes rk) (r : Nat) {s : List Nat}
    (h : IsBlock s) : IsBlock (AddRoundKey rk r s) := by
  obtain ⟨hl, hb⟩ := h
  obtain ⟨a0, a1, a2, a3, a4, a5, a6, a7, a8, a9, a10, a11, a12, a13, a14, a15, rfl⟩ := eq16 hl
  rw [Bytes16] at hb
  obtain ⟨h0, h1, h2, h3, h4, h5, h6, h7, h8, h9, h10, h11, h12, h13, h14, h15⟩ := hb
  rw [AddRoundKey_eq]
  refine ⟨rfl, ?_⟩
  rw [Bytes16]
  exact ⟨xor_lt h0 (getD_lt hrk _), xor_lt h1 (getD_lt hrk _), xor_lt h2 (getD_lt hrk _),
    xor_lt h3 (getD_lt hrk _), xor_lt h4 (getD_lt hrk _), xor_lt h5 (getD_lt hrk _),
    xor_lt h6 (getD_lt hrk _), xor_lt h7 (getD_lt hrk _), xor_lt h8 (getD_lt hrk _),
    xor_lt h9 (getD_lt hrk _), xor_lt h10 (getD_lt hrk _), xor_lt h11 (getD_lt hrk _),
    xor_lt h12 (getD_lt hrk _), xor_lt h13 (getD_lt hrk _), xor_lt h14 (getD_lt hrk _),
    xor_lt h15 (getD_lt hrk _)⟩

theorem AddRoundKey_AddRoundKey (rk : List Nat) (r : Nat) {s : List Nat} (h : s.length = 16) :
    AddRoundKey rk r (AddRoundKey rk r s) = s := by
  obtain ⟨a0, a1, a2, a3, a4, a5, a6, a7, a8, a9, a10, a11, a12, a13, a14, a15, rfl⟩ := eq16 h
  rw [AddRoundKey_eq, AddRoundKey_eq]
  simp only [Nat.xor_cancel_right]

theorem XorWithIv_isBlock {s Iv : List Nat} (h : IsBlock s) (hiv : Bytes Iv) :
    IsBlock (XorWithIv s Iv) := by
  obtain ⟨hl, hb⟩ := h
  obtain ⟨a0, a1, a2, a3, a4, a5, a6, a7, a8, a9, a10, a11, a12, a13, a14, a15, rfl⟩ := eq16 hl
  rw [Bytes16] at hb
  obtain ⟨h0, h1, h2, h3, h4, h5, h6, h7, h8, h9, h10, h11, h12, h13, h14, h15⟩ := hb
  rw [XorWithIv_eq]
  refine ⟨rfl, ?_⟩
  rw [Bytes16]
  exact ⟨xor_lt h0 (getD_lt hiv _), xor_lt h1 (getD_lt hiv _), xor_lt h2 (getD_lt hiv _),
    xor_lt h3 (getD_lt hiv _), xor_lt h4 (getD_lt hiv _), xor_lt h5 (getD_lt hiv _),
    xor_lt h6 (getD_lt hiv _), xor_lt h7 (getD_lt hiv _), xor_lt h8 (getD_lt hiv _),
    xor_lt h9 (getD_lt hiv _), xor_lt h10 (getD_lt hiv _), xor_lt h11 (getD_lt hiv _),
    xor_lt h12 (getD_lt hiv _), xor_lt h13 (getD_lt hiv _), xor_lt h14 (getD_lt hiv _),
    xor_lt h15 (getD_lt hiv _)⟩

theorem XorWithIv_XorWithIv (Iv : List Nat) {s : List Nat} (h : s.length = 16) :
    XorWithIv (XorWithIv s Iv) Iv = s := by
  obtain ⟨a0, a1, a2, a3, a4, a5, a6, a7, a8, a9, a10, a11, a12, a13, a14, a15, rfl⟩ := eq16 h
  rw [XorWithIv_eq, XorWithIv_eq]
  simp only [Nat.xor_cancel_right]

theorem XorWithIv_length (Iv : List Nat) {s : List Nat} (h : s.length = 16) :
    (XorWithIv s Iv).length = 16 := by
  obtain ⟨a0, a1, a2, a3, a4, a5, a6, a7, a8, a9, a10, a11, a12, a13, a14, a15, rfl⟩ := eq16 h
  rw [XorWithIv_eq]
  rfl

theorem loopUp_succ_last {σ : Type} (body : Nat → σ → σ) (n : Nat) :
    ∀ (start : Nat) (s : σ),
      loopUp body start (n + 1) s = body (start + n) (loopUp body start n s) := by
  induction n with
  | zero => intro start s; rfl
  | succ k ih =>
    intro start s
    show loopUp body (start + 1) (k + 1) (body start s) = _
    rw [ih (start + 1) (body start s)]
    have h : start + 1 + k = start + (k + 1) := by omega
    rw [h]
    rfl

theorem encRound_isBlock {rk : List Nat} (hrk : Bytes rk) (r : Nat) {s : List Nat}
    (h : IsBlock s) : IsBlock (AddRoundKey rk r (MixColumns (ShiftRows (SubBytes s)))) :=
  AddRoundKey_isBlock hrk r (MixColumns_isBlock (ShiftRows_isBlock (SubBytes_isBlock h.1)))

theorem encRounds_isBlock {rk : List Nat} (hrk : Bytes rk) (n : Nat) :
    ∀ (start : Nat) (s : List Nat), IsBlock s →
      IsBlock (loopUp (fun round st =>
        AddRoundKey rk round (MixColumns (ShiftRows (SubBytes st)))) start n s) := by
  induction n with
  | zero => intro start s h; exact h
  | succ k ih =>
    intro start s h
    exact ih (start + 1) _ (encRound_isBlock hrk start h)

theorem decRound_encRound {rk : List Nat} (hrk : Bytes rk) (r : Nat) {s : List Nat}
    (h : IsBlock s) :
    InvMixColumns (AddRoundKey rk r (InvSubBytes (InvShiftRows
      (ShiftRows (SubBytes (AddRoundKey rk r (MixColumns (ShiftRows (SubBytes s))))))))) =
      ShiftRows (SubBytes s) := by
  have h1 : IsBlock (AddRoundKey rk r (MixColumns (ShiftRows (SubBytes s)))) :=
    encRound_isBlock hrk r h
  have h2 : IsBlock (ShiftRows (SubBytes s)) := ShiftRows_isBlock (SubBytes_isBlock h.1)
  rw [InvShiftRows_ShiftRows (SubBytes_isBlock h1.1).1, InvSubBytes_SubBytes h1,
    AddRoundKey_AddRoundKey rk r (MixColumns_isBlock h2).1, InvMixColumns_MixColumns h2]

theorem decRounds_encRounds {rk : List Nat} (hrk : Bytes rk) (n : Nat) :
    ∀ (s : List Nat), IsBlock s →
      loopDown (fun round st =>
          InvMixColumns (AddRoundKey rk round (InvSubBytes (InvShiftRows st)))) n
        (ShiftRows (SubBytes (loopUp (fun round st =>
          AddRoundKey rk round (MixColumns (ShiftRows (SubBytes st)))) 1 n s))) =
      ShiftRows (SubBytes s) := by
  induction n with
  | zero => intro s _; rfl
  | succ k ih =>
    intro s h
    rw [loopUp_succ_last]
    show loopDown _ k (InvMixColumns (AddRoundKey rk (k + 1) (InvSubBytes (InvShiftRows _)))) = _
    have hk : 1 + k = k + 1 := by omega
    rw [hk, decRound_encRound hrk (k + 1) (encRounds_isBlock hrk k 1 s h)]
    exact ih s h

/-- The inverse cipher undoes the cipher on every block, for every round-key array of bytes. -/
theorem InvCipher_Cipher {rk : List Nat} (hrk : Bytes rk) {s : List Nat} (h : IsBlock s) :
    InvCipher rk (Cipher rk s) = s := by
  have h0 : IsBlock (AddRoundKey rk 0 s) := AddRoundKey_isBlock hrk 0 h
  have h9 := encRounds_isBlock hrk (Nr - 1) 1 _ h0
  have hs : IsBlock (ShiftRows (SubBytes (loopUp (fun round st =>
      AddRoundKey rk round (MixColumns (ShiftRows (SubBytes st)))) 1 (Nr - 1)
      (AddRoundKey rk 0 s)))) := ShiftRows_isBlock (SubBytes_isBlock h9.1)
  unfold InvCipher Cipher
  simp only []
  rw [AddRoundKey_AddRoundKey rk Nr hs.1, decRounds_encRounds hrk (Nr - 1) _ h0,
    InvShiftRows_ShiftRows (SubBytes_isBlock h0.1).1, InvSubBytes_SubBytes h0,
    AddRoundKey_AddRoundKey rk 0 h.1]

theorem Cipher_isBlock {rk : List Nat} (hrk : Bytes rk) {s : List Nat} (h : IsBlock s) :
    IsBlock (Cipher rk s) := by
  have h0 : IsBlock (AddRoundKey rk 0 s) := AddRoundKey_isBlock hrk 0 h
  have h9 := encRounds_isBlock hrk (Nr - 1) 1 _ h0
  exact AddRoundKey_isBlock hrk Nr (ShiftRows_isBlock (SubBytes_isBlock h9.1))

theorem Bytes_loopUp {body : Nat → List Nat → List Nat}
    (hbody : ∀ i l, Bytes l → Bytes (body i l)) (n : Nat) :
    ∀ (start : Nat) (l : List Nat), Bytes l → Bytes (loopUp body start n l) := by
  induction n with
  | zero => intro start l h; exact h
  | succ k ih => intro start l h; exact ih (start + 1) _ (hbody start l h)

theorem Bytes_set_get {l : List Nat} (h : Bytes l) (i j : Nat) :
    Bytes (l.set i (l.getD j 0)) := Bytes_set h _ _ (getD_lt h _)

theorem Bytes_set_sbox {l : List Nat} (h : Bytes l) (i j : Nat) :
    Bytes (l.set i (getSBoxValue (l.getD j 0))) := Bytes_set h _ _ (getSBoxValue_lt _)

theorem KeyExpansionTempa_Bytes (i : Nat) (rk : List Nat) (h : Bytes rk) :
    Bytes (KeyExpansionTempa i rk) := by
  have hRcon : Bytes Rcon := by unfold Bytes; decide!
  have t0 : Bytes (loopUp (fun j t => t.set j (rk.getD ((i - 1) * 4 + j) 0)) 0 4 [0, 0, 0, 0]) :=
    Bytes_loopUp (fun j l hl => Bytes_set hl _ _ (getD_lt h _)) 4 0 _ (by unfold Bytes; decide)
  unfold KeyExpansionTempa
  split
  · have r4 := Bytes_set (Bytes_set_get (Bytes_set_get (Bytes_set_get t0 0 1) 1 2) 2 3) 3 _
      (getD_lt t0 0)
    have u4 := Bytes_set_sbox (Bytes_set_sbox (Bytes_set_sbox (Bytes_set_sbox r4 0 0) 1 1) 2 2) 3 3
    exact Bytes_set u4 0 _ (xor_lt (getD_lt u4 0) (getD_lt hRcon (i / Nk)))
  · split
    · exact Bytes_set_sbox (Bytes_set_sbox (Bytes_set_sbox (Bytes_set_sbox t0 0 0) 1 1) 2 2) 3 3
    · exact t0

theorem KeyExpansionStep_Bytes (i : Nat) (rk : List Nat) (h : Bytes rk) :
    Bytes (KeyExpansionStep i rk) := by
  have ht := KeyExpansionTempa_Bytes i rk h
  have s1 := Bytes_set h (i * 4 + 0) _ (xor_lt (getD_lt h ((i - Nk) * 4 + 0)) (getD_lt ht 0))
  have s2 := Bytes_set s1 (i * 4 + 1) _ (xor_lt (getD_lt s1 ((i - Nk) * 4 + 1)) (getD_lt ht 1))
  have s3 := Bytes_set s2 (i * 4 + 2) _ (xor_lt (getD_lt s2 ((i - Nk) * 4 + 2)) (getD_lt ht 2))
  exact Bytes_set s3 (i * 4 + 3) _ (xor_lt (getD_lt s3 ((i - Nk) * 4 + 3)) (getD_lt ht 3))

theorem KeyExpansion_Bytes {Key rk : List Nat} (hk : Bytes Key) (h : Bytes rk) :
    Bytes (KeyExpansion Key rk) := by
  unfold KeyExpansion
  apply Bytes_loopUp KeyExpansionStep_Bytes
  apply Bytes_loopUp _ _ _ _ h
  intro i l hl
  exact Bytes_set (Bytes_set (Bytes_set (Bytes_set hl _ _ (getD_lt hk _)) _ _ (getD_lt hk _))
    _ _ (getD_lt hk _)) _ _ (getD_lt hk _)

/-! ## Theorems: cipher-block chaining -/

theorem blockAt_append {pre blk : List Nat} (post : List Nat) {off : Nat}
    (hpre : pre.length = off) (hblk : blk.length = 16) :
    blockAt (pre ++ blk ++ post) off = blk := by
  unfold blockAt
  rw [List.append_assoc, ← hpre, List.drop_left, ← hblk, List.take_left]

theorem setBlock_append {pre blk : List Nat} (post blk' : List Nat) {off : Nat}
    (hpre : pre.length = off) (hblk : blk.length = 16) :
    setBlock (pre ++ blk ++ post) off blk' = pre ++ blk' ++ post := by
  unfold setBlock
  have h1 : (pre ++ blk ++ post).take off = pre := by
    rw [List.append_assoc, ← hpre, List.take_left]
  have h2 : (pre ++ blk ++ post).drop (off + 16) = post := by
    have : off + 16 = (pre ++ blk).length := by simp [hpre, hblk]
    rw [this, List.drop_left]
  rw [h1, h2]

theorem memcpy_block (dst src : List Nat) (off : Nat) :
    memcpy dst off src off 16 = setBlock dst off (blockAt src off) := rfl

theorem split16 {data : List Nat} {n : Nat} (h : data.length = 16 * (n + 1)) :
    ∃ b d, data = b ++ d ∧ b.length = 16 ∧ d.length = 16 * n := by
  refine ⟨data.take 16, data.drop 16, (List.take_append_drop 16 data).symm, ?_, ?_⟩
  · rw [List.length_take]; omega
  · rw [List.length_drop]; omega

theorem Cipher_length (rk : List Nat) {s : List Nat} (h : s.length = 16) :
    (Cipher rk s).length = 16 := by
  have hA : ∀ r (t : List Nat), t.length = 16 → (AddRoundKey rk r t).length = 16 := by
    intro r t ht
    obtain ⟨a0, a1, a2, a3, a4, a5, a6, a7, a8, a9, a10, a11, a12, a13, a14, a15, rfl⟩ := eq16 ht
    rw [AddRoundKey_eq]; rfl
  have hS : ∀ (t : List Nat), t.length = 16 → (ShiftRows (SubBytes t)).length = 16 := by
    intro t ht
    obtain ⟨a0, a1, a2, a3, a4, a5, a6, a7, a8, a9, a10, a11, a12, a13, a14, a15, rfl⟩ := eq16 ht
    rw [SubBytes_eq, ShiftRows_eq]; rfl
  have hM : ∀ (t : List Nat), t.length = 16 → (MixColumns t).length = 16 := by
    intro t ht
    obtain ⟨a0, a1, a2, a3, a4, a5, a6, a7, a8, a9, a10, a11, a12, a13, a14, a15, rfl⟩ := eq16 ht
    rw [MixColumns_eq]; rfl
  have hL : ∀ n start (t : List Nat), t.length = 16 →
      (loopUp (fun round st =>
        AddRoundKey rk round (MixColumns (ShiftRows (SubBytes st)))) start n t).length = 16 := by
    intro n
    induction n with
    | zero => intro start t ht; exact ht
    | succ k ih => intro start t ht; exact ih (start + 1) _ (hA _ _ (hM _ (hS _ ht)))
  exact hA _ _ (hS _ (hL _ _ _ (hA _ _ h)))

theorem aes_encrypt_blocks_spec (iv rk : List Nat) (n : Nat) :
    ∀ (off : Nat) (Iv : IvRef) (preO midO postO preI data postI prev : List Nat),
      preO.length = off → preI.length = off → midO.length = 16 * n → data.length = 16 * n →
      AesMem.derefIv iv ⟨rk, Iv, preO ++ midO ++ postO, preI ++ data ++ postI⟩ = prev →
      ∃ m', aes_encrypt_blocks iv n off ⟨rk, Iv, preO ++ midO ++ postO, preI ++ data ++ postI⟩
          = some m' ∧ m'.RoundKey = rk ∧
        m'.output = preO ++ cbcEnc rk n prev data ++ postO ∧
        m'.input.length = (preI ++ data ++ postI).length := by
  induction n with
  | zero =>
    intro off Iv preO midO postO preI data postI prev _ _ hm _ _
    have : midO = [] := List.length_eq_zero.mp (by simpa using hm)
    subst this
    exact ⟨_, rfl, rfl, by simp [cbcEnc], rfl⟩
  | succ k ih =>
    intro off Iv preO midO postO preI data postI prev hpo hpi hm hd hiv
    obtain ⟨b, d, rfl, hb, hd'⟩ := split16 hd
    obtain ⟨o, mo, rfl, ho, hmo⟩ := split16 hm
    have hxb : (XorWithIv b prev).length = 16 := XorWithIv_length prev hb
    have hc : (Cipher rk (XorWithIv b prev)).length = 16 := Cipher_length rk hxb
    have hin : preI ++ (b ++ d) ++ postI = preI ++ b ++ (d ++ postI) := by
      simp only [List.append_assoc]
    have hout : preO ++ (o ++ mo) ++ postO = preO ++ o ++ (mo ++ postO) := by
      simp only [List.append_assoc]
    have hbound : off + 16 ≤ (preI ++ b ++ (d ++ postI)).length ∧
        off + 16 ≤ (preO ++ o ++ (mo ++ postO)).length := by
      simp only [List.length_append]; omega
    rw [hin, hout] at hiv ⊢
    obtain ⟨m', h1, h2, h3, h4⟩ := ih (off + 16) (IvRef.output off)
      (preO ++ Cipher rk (XorWithIv b prev)) mo postO (preI ++ XorWithIv b prev) d postI
      (Cipher rk (XorWithIv b prev))
      (by simp [hpo, hc]) (by simp [hpi, hxb]) hmo hd'
      (by
        show blockAt (preO ++ Cipher rk (XorWithIv b prev) ++ mo ++ postO) off = _
        rw [List.append_assoc _ mo postO]
        exact blockAt_append _ hpo hc)
    refine ⟨m', ?_, h2, ?_, ?_⟩
    · rw [← h1]
      simp only [aes_encrypt_blocks, hbound, and_self, if_true]
      rw [hiv, blockAt_append _ hpi hb, setBlock_append _ _ hpi hb, memcpy_block,
        blockAt_append _ hpi hxb, setBlock_append _ _ hpo ho, blockAt_append _ hpo hxb,
        setBlock_append _ _ hpo hxb]
      simp only [List.append_assoc]
    · rw [h3]
      simp only [cbcEnc, List.append_assoc]
      rw [← hb, List.take_left, List.drop_left]
    · rw [h4]
      simp only [List.length_append, hxb, hb]
      omega

theorem InvCipher_length (rk : List Nat) {s : List Nat} (h : s.length = 16) :
    (InvCipher rk s).length = 16 := by
  have hA : ∀ r (t : List Nat), t.length = 16 → (AddRoundKey rk r t).length = 16 := by
    intro r t ht
    obtain ⟨a0, a1, a2, a3, a4, a5, a6, a7, a8, a9, a10, a11, a12, a13, a14, a15, rfl⟩ := eq16 ht
    rw [AddRoundKey_eq]; rfl
  have hS : ∀ (t : List Nat), t.length = 16 → (InvSubBytes (InvShiftRows t)).length = 16 := by
    intro t ht
    obtain ⟨a0, a1, a2, a3, a4, a5, a6, a7, a8, a9, a10, a11, a12, a13, a14, a15, rfl⟩ := eq16 ht
    rw [InvShiftRows_eq, InvSubBytes_eq]; rfl
  have hM : ∀ (t : List Nat), t.length = 16 → (InvMixColumns t).length = 16 := by
    intro t ht
    obtain ⟨a0, a1, a2, a3, a4, a5, a6, a7, a8, a9, a10, a11, a12, a13, a14, a15, rfl⟩ := eq16 ht
    rw [InvMixColumns_eq]; rfl
  have hL : ∀ n (t : List Nat), t.length = 16 →
      (loopDown (fun round st =>
        InvMixColumns (AddRoundKey rk round (InvSubBytes (InvShiftRows st)))) n t).length
        = 16 := by
    intro n
    induction n with
    | zero => intro t ht; exact ht
    | succ k ih => intro t ht; exact ih _ (hM _ (hA _ _ (hS _ ht)))
  exact hA _ _ (hS _ (hL _ _ (hA _ _ h)))

theorem aes_decrypt_blocks_spec (iv rk : List Nat) (n : Nat) :
    ∀ (off : Nat) (Iv : IvRef) (preO midO postO preI data postI prev : List Nat),
      preO.length = off → preI.length = off → midO.length = 16 * n → data.length = 16 * n →
      (∀ out, AesMem.derefIv iv ⟨rk, Iv, out, preI ++ data ++ postI⟩ = prev) →
      ∃ m', aes_decrypt_blocks iv n off ⟨rk, Iv, preO ++ midO ++ postO, preI ++ data ++ postI⟩
          = some m' ∧ m'.RoundKey = rk ∧
        m'.output = preO ++ cbcDec rk n prev data ++ postO ∧
        m'.input = preI ++ data ++ postI := by
  induction n with
  | zero =>
    intro off Iv preO midO postO preI data postI prev _ _ hm _ _
    have : midO = [] := List.length_eq_zero.mp (by simpa using hm)
    subst this
    exact ⟨_, rfl, rfl, by simp [cbcDec], rfl⟩
  | succ k ih =>
    intro off Iv preO midO postO preI data postI prev hpo hpi hm hd hiv
    obtain ⟨b, d, rfl, hb, hd'⟩ := split16 hd
    obtain ⟨o, mo, rfl, ho, hmo⟩ := split16 hm
    have hib : (InvCipher rk b).length = 16 := InvCipher_length rk hb
    have hxb : (XorWithIv (InvCipher rk b) prev).length = 16 := XorWithIv_length prev hib
    have hin : preI ++ (b ++ d) ++ postI = preI ++ b ++ (d ++ postI) := by
      simp only [List.append_assoc]
    have hout : preO ++ (o ++ mo) ++ postO = preO ++ o ++ (mo ++ postO) := by
      simp only [List.append_assoc]
    have hbound : off + 16 ≤ (preI ++ b ++ (d ++ postI)).length ∧
        off + 16 ≤ (preO ++ o ++ (mo ++ postO)).length := by
      simp only [List.length_append]; omega
    rw [hin] at hiv
    rw [hin, hout]
    obtain ⟨m', h1, h2, h3, h4⟩ := ih (off + 16) (IvRef.input off)
      (preO ++ XorWithIv (InvCipher rk b) prev) mo postO (preI ++ b) d postI b
      (by simp [hpo, hxb]) (by simp [hpi, hb]) hmo hd'
      (by
        intro out
        show blockAt (preI ++ b ++ d ++ postI) off = _
        rw [List.append_assoc _ d postI]
        exact blockAt_append _ hpi hb)
    refine ⟨m', ?_, h2, ?_, ?_⟩
    · rw [← h1]
      simp only [aes_decrypt_blocks, BLOCKLEN, hbound, and_self, if_true]
      rw [memcpy_block, blockAt_append _ hpi hb, setBlock_append _ _ hpo ho,
        blockAt_append _ hpo hb, setBlock_append _ _ hpo hb, blockAt_append _ hpo hib,
        hiv, setBlock_append _ _ hpo hib]
      simp only [List.append_assoc]
    · rw [h3]
      simp only [cbcDec, List.append_assoc]
      rw [← hb, List.take_left, List.drop_left]
    · rw [h4]
      simp only [List.append_assoc]

theorem cbcEnc_length (rk : List Nat) (n : Nat) :
    ∀ (prev data : List Nat), data.length = 16 * n → (cbcEnc rk n prev data).length = 16 * n := by
  induction n with
  | zero => intro prev data _; rfl
  | succ k ih =>
    intro prev data hd
    obtain ⟨b, d, rfl, hb, hd'⟩ := split16 hd
    simp only [cbcEnc, List.length_append]
    rw [← hb, List.take_left, List.drop_left, hb,
      Cipher_length rk (XorWithIv_length prev hb), ih _ _ hd']
    omega

theorem Bytes_of_append_left {l₁ l₂ : List Nat} (h : Bytes (l₁ ++ l₂)) : Bytes l₁ :=
  fun x hx => h x (List.mem_append_left _ hx)

theorem Bytes_of_append_right {l₁ l₂ : List Nat} (h : Bytes (l₁ ++ l₂)) : Bytes l₂ :=
  fun x hx => h x (List.mem_append_right _ hx)

/-- Chained decryption undoes chained encryption. -/
theorem cbcDec_cbcEnc {rk : List Nat} (hrk : Bytes rk) (n : Nat) :
    ∀ (prev data : List Nat), Bytes prev → Bytes data → data.length = 16 * n →
      cbcDec rk n prev (cbcEnc rk n prev data) = data := by
  induction n with
  | zero =>
    intro prev data _ _ hd
    have : data = [] := List.length_eq_zero.mp (by simpa using hd)
    subst this
    rfl
  | succ k ih =>
    intro prev data hprev hdata hd
    obtain ⟨b, d, rfl, hb, hd'⟩ := split16 hd
    have hblk : IsBlock b := ⟨hb, Bytes_of_append_left hdata⟩
    have hx : IsBlock (XorWithIv b prev) := XorWithIv_isBlock hblk hprev
    have hc : IsBlock (Cipher rk (XorWithIv b prev)) := Cipher_isBlock hrk hx
    simp only [cbcEnc, cbcDec]
    rw [List.take_left' hb, List.drop_left' hb, List.take_left' hc.1, List.drop_left' hc.1]
    rw [InvCipher_Cipher hrk hx, XorWithIv_XorWithIv prev hb,
      ih _ _ hc.2 (Bytes_of_append_right hdata) hd']

/-! ### `KeyExpansion` overwrites the whole round-key array -/

theorem getD_set_eq {l : List Nat} {i : Nat} (v : Nat) (h : i < l.length) :
    (l.set i v).getD i 0 = v := by
  rw [List.getD_eq_getElem _ _ (by rw [List.length_set]; exact h)]
  exact List.getElem_set_self _

theorem getD_set_ne (l : List Nat) {i j : Nat} (v : Nat) (h : i ≠ j) :
    (l.set i v).getD j 0 = l.getD j 0 := by
  simp only [List.getD_eq_getElem?_getD, List.getElem?_set_ne h]

theorem AgreeBelow_set {m : Nat} {a b : List Nat} (h : AgreeBelow m a b) (v : Nat)
    (hm : m < a.length) : AgreeBelow (m + 1) (a.set m v) (b.set m v) := by
  refine ⟨by simp [h.1], ?_⟩
  intro j hj
  by_cases hjm : j = m
  · subst hjm
    rw [getD_set_eq v hm, getD_set_eq v (h.1 ▸ hm)]
  · rw [getD_set_ne _ _ (Ne.symm hjm), getD_set_ne _ _ (Ne.symm hjm)]
    exact h.2 j (by omega)

theorem rel_loopUp {R : Nat → List Nat → List Nat → Prop} {f : Nat → List Nat → List Nat}
    {B : Nat}
    (hbody : ∀ i a b, i < B → R i a b → R (i + 1) (f i a) (f i b))
    (n : Nat) : ∀ (start : Nat) (a b : List Nat), start + n ≤ B → R start a b →
      R (start + n) (loopUp f start n a) (loopUp f start n b) := by
  induction n with
  | zero => intro start a b _ h; exact h
  | succ k ih =>
    intro start a b hb h
    have := ih (start + 1) _ _ (by omega) (hbody start a b (by omega) h)
    have e : start + 1 + k = start + (k + 1) := by omega
    rw [e] at this
    exact this

theorem eq_of_AgreeBelow {a b : List Nat} (h : AgreeBelow a.length a b) : a = b := by
  apply List.ext_getElem h.1
  intro i h1 h2
  have := h.2 i h1
  rwa [List.getD_eq_getElem _ _ h1, List.getD_eq_getElem _ _ h2] at this

theorem AgreeBelow_set4 {m : Nat} {a b : List Nat} (h : AgreeBelow m a b) (v0 v1 v2 v3 : Nat)
    (hm : m + 3 < a.length) :
    AgreeBelow (m + 4) ((((a.set (m + 0) v0).set (m + 1) v1).set (m + 2) v2).set (m + 3) v3)
      ((((b.set (m + 0) v0).set (m + 1) v1).set (m + 2) v2).set (m + 3) v3) := by
  have h1 := AgreeBelow_set h v0 (by omega)
  have h2 := AgreeBelow_set h1 v1 (by rw [List.length_set]; omega)
  have h3 := AgreeBelow_set h2 v2 (by simp only [List.length_set]; omega)
  exact AgreeBelow_set h3 v3 (by simp only [List.length_set]; omega)

theorem KeyExpansionTempa_congr {i : Nat} {a b : List Nat} (hi : 1 ≤ i)
    (h : AgreeBelow (i * 4) a b) : KeyExpansionTempa i a = KeyExpansionTempa i b := by
  have e : ∀ j, j < 4 → a.getD ((i - 1) * 4 + j) 0 = b.getD ((i - 1) * 4 + j) 0 :=
    fun j hj => h.2 _ (by omega)
  unfold KeyExpansionTempa
  simp only [loopUp, e 0 (by omega), e (0 + 1) (by omega), e (0 + 1 + 1) (by omega),
    e (0 + 1 + 1 + 1) (by omega)]

theorem KeyExpansionStep_agree {i : Nat} {a b : List Nat} (hi : Nk ≤ i) (hlen : i * 4 + 3 < a.length)
    (h : AgreeBelow (i * 4) a b) :
    AgreeBelow ((i + 1) * 4) (KeyExpansionStep i a) (KeyExpansionStep i b) := by
  have hNk : Nk = 4 := rfl
  have ht := KeyExpansionTempa_congr (by omega) h
  have e : (i + 1) * 4 = i * 4 + 4 := by omega
  unfold KeyExpansionStep
  dsimp only
  rw [ht, e]
  rw [hNk] at hi ⊢
  have g : ∀ (l : List Nat) (v j k : Nat), j < 4 → k < 4 →
      (l.set (i * 4 + k) v).getD ((i - 4) * 4 + j) 0 = l.getD ((i - 4) * 4 + j) 0 :=
    fun l v j k hj hk => getD_set_ne l v (by omega)
  simp only [g _ _ 1 0 (by omega) (by omega), g _ _ 2 0 (by omega) (by omega),
    g _ _ 2 1 (by omega) (by omega), g _ _ 3 0 (by omega) (by omega),
    g _ _ 3 1 (by omega) (by omega), g _ _ 3 2 (by omega) (by omega)]
  rw [h.2 ((i - 4) * 4 + 0) (by omega), h.2 ((i - 4) * 4 + 1) (by omega),
    h.2 ((i - 4) * 4 + 2) (by omega), h.2 ((i - 4) * 4 + 3) (by omega)]
  exact AgreeBelow_set4 h _ _ _ _ hlen

theorem KeyExpansionStep_length (i : Nat) (rk : List Nat) :
    (KeyExpansionStep i rk).length = rk.length := by
  simp only [KeyExpansionStep, List.length_set]

/-- The function `KeyExpansion` overwrites all 176 bytes of the round-key array: its result does not
depend on what the array held before. -/
theorem KeyExpansion_indep (Key : List Nat) {a b : List Nat} (ha : a.length = 176)
    (hb : b.length = 176) : KeyExpansion Key a = KeyExpansion Key b := by
  have h0 : a.length = 176 ∧ AgreeBelow (0 * 4) a b :=
    ⟨ha, by rw [ha, hb], fun j hj => by omega⟩
  have h1 := rel_loopUp (R := fun i x y => x.length = 176 ∧ AgreeBelow (i * 4) x y) (B := 4)
    (f := fun i rk =>
      let rk := rk.set (i * 4 + 0) (Key.getD (i * 4 + 0) 0)
      let rk := rk.set (i * 4 + 1) (Key.getD (i * 4 + 1) 0)
      let rk := rk.set (i * 4 + 2) (Key.getD (i * 4 + 2) 0)
      rk.set (i * 4 + 3) (Key.getD (i * 4 + 3) 0))
    (fun i x y hi hxy => by
      have e : (i + 1) * 4 = i * 4 + 4 := by omega
      refine ⟨by simp only [List.length_set]; exact hxy.1, ?_⟩
      rw [e]
      exact AgreeBelow_set4 hxy.2 _ _ _ _ (by rw [hxy.1]; omega)) 4 0 a b (by omega) h0
  have h2 := rel_loopUp
    (R := fun i x y => Nk ≤ i ∧ x.length = 176 ∧ AgreeBelow (i * 4) x y) (B := 44)
    (f := KeyExpansionStep)
    (fun i x y hi hxy => by
      refine ⟨by have := hxy.1; omega, by rw [KeyExpansionStep_length]; exact hxy.2.1, ?_⟩
      exact KeyExpansionStep_agree hxy.1 (by rw [hxy.2.1]; omega) hxy.2.2)
    40 4 _ _ (by omega) ⟨Nat.le_refl _, h1⟩
  have h3 := h2.2.2
  rw [show (4 + 40) * 4 = 176 from rfl] at h3
  rw [← h2.2.1] at h3
  exact eq_of_AgreeBelow h3

theorem aes_encrypt_spec (key iv rk0 : List Nat) (Iv0 : IvRef) (out p tailP : List Nat) (n : Nat)
    (hlen : p.length = 16 * n) (hmax : p.length ≤ 65520) (hout : p.length ≤ out.length) :
    ∃ e, aes_encrypt key iv ⟨rk0, Iv0, out, p ++ tailP⟩ p.length = some e ∧
      e.RoundKey = KeyExpansion key rk0 ∧
      e.output = cbcEnc (KeyExpansion key rk0) n iv p ++ out.drop p.length := by
  have hsplit : out = [] ++ out.take p.length ++ out.drop p.length := by simp
  have hmid : (out.take p.length).length = 16 * n := by
    rw [List.length_take]; omega
  have hd : AesMem.derefIv iv ⟨KeyExpansion key rk0, IvRef.iv,
      [] ++ out.take p.length ++ out.drop p.length, [] ++ p ++ tailP⟩ = iv := by
    simp only [AesMem.derefIv]
  obtain ⟨m', h1, h2, h3, _⟩ := aes_encrypt_blocks_spec iv (KeyExpansion key rk0) n 0 IvRef.iv
    [] (out.take p.length) (out.drop p.length) [] p tailP iv List.length_nil List.length_nil
    hmid hlen hd
  refine ⟨m', ?_, h2, ?_⟩
  · have hn : (p.length + 15) / 16 = n := by omega
    have hex : p.length % 16 % 256 = 0 := by omega
    have hm : ¬ 65520 < p.length := by omega
    rw [← hsplit] at h1
    rw [List.nil_append] at h1
    unfold aes_encrypt
    dsimp only
    rw [if_neg hm, hn, h1]
    dsimp only
    rw [hex]
    rfl
  · rw [h3, List.nil_append]

theorem aes_decrypt_spec (key iv rk0 : List Nat) (Iv0 : IvRef) (out c tailC : List Nat) (n : Nat)
    (hlen : c.length = 16 * n) (hmax : c.length ≤ 65520) (hout : c.length ≤ out.length) :
    ∃ d, aes_decrypt key iv ⟨rk0, Iv0, out, c ++ tailC⟩ c.length = some d ∧
      d.RoundKey = KeyExpansion key rk0 ∧
      d.output = cbcDec (KeyExpansion key rk0) n iv c ++ out.drop c.length ∧
      d.input = c ++ tailC := by
  have hsplit : out = [] ++ out.take c.length ++ out.drop c.length := by simp
  have hmid : (out.take c.length).length = 16 * n := by
    rw [List.length_take]; omega
  have hd : ∀ o, AesMem.derefIv iv ⟨KeyExpansion key rk0, IvRef.iv, o, [] ++ c ++ tailC⟩ = iv := by
    intro o
    simp only [AesMem.derefIv]
  obtain ⟨m', h1, h2, h3, h4⟩ := aes_decrypt_blocks_spec iv (KeyExpansion key rk0) n 0 IvRef.iv
    [] (out.take c.length) (out.drop c.length) [] c tailC iv List.length_nil List.length_nil
    hmid hlen hd
  refine ⟨m', ?_, h2, ?_, ?_⟩
  · have hn : (c.length + 15) / 16 = n := by omega
    have hex : c.length % BLOCKLEN % 256 = 0 := by unfold BLOCKLEN; omega
    have hm : ¬ 65520 < c.length := by omega
    rw [← hsplit] at h1
    rw [List.nil_append] at h1
    unfold aes_decrypt
    dsimp only
    rw [if_neg hm, hn, h1]
    dsimp only
    rw [hex]
    rfl
  · rw [h3, List.nil_append]
  · rw [h4, List.nil_append]

theorem KeyExpansion_Bytes_of_length {Key rk : List Nat} (hk : Bytes Key)
    (h : rk.length = 176) : Bytes (KeyExpansion Key rk) := by
  rw [KeyExpansion_indep Key h (List.length_replicate 176 0)]
  exact KeyExpansion_Bytes hk (fun x hx => by rw [List.eq_of_mem_replicate hx]; decide)

/-- C1. For every key and chaining value, and every plaintext of bytes whose length is a
multiple of 16 (and fits the 16-bit length argument), `aes_encrypt` followed by
`aes_decrypt` on the ciphertext buffer it produced, with the same key and chaining value,
returns the plaintext: the first `length` bytes of the decryption output equal the
plaintext. The contents of the static round-key array and the `Iv` pointer found by either
call, the old contents of both output buffers and the bytes behind the plaintext are
arbitrary. -/
theorem aes_decrypt_aes_encrypt (key iv rk₁ rk₂ : List Nat) (Iv₁ Iv₂ : IvRef)
    (p tailP out₁ out₂ : List Nat) (n : Nat)
    (hkey : Bytes key) (hiv : Bytes iv) (hrk₁ : rk₁.length = 176) (hrk₂ : rk₂.length = 176)
    (hp : Bytes p) (hlen : p.length = 16 * n) (hmax : p.length ≤ 65520)
    (ho₁ : p.length ≤ out₁.length) (ho₂ : p.length ≤ out₂.length) :
    ∃ e d, aes_encrypt key iv ⟨rk₁, Iv₁, out₁, p ++ tailP⟩ p.length = some e ∧
      aes_decrypt key iv ⟨rk₂, Iv₂, out₂, e.output⟩ p.length = some d ∧
      d.output.take p.length = p := by
  obtain ⟨e, he, _, heo⟩ := aes_encrypt_spec key iv rk₁ Iv₁ out₁ p tailP n hlen hmax ho₁
  have hcl : (cbcEnc (KeyExpansion key rk₁) n iv p).length = p.length := by
    rw [cbcEnc_length _ _ _ _ hlen, hlen]
  obtain ⟨d, hd, _, hdo, _⟩ := aes_decrypt_spec key iv rk₂ Iv₂ out₂
    (cbcEnc (KeyExpansion key rk₁) n iv p) (out₁.drop p.length) n (by rw [hcl, hlen])
    (by rw [hcl]; exact hmax) (by rw [hcl]; exact ho₂)
  rw [hcl] at hd hdo
  refine ⟨e, d, he, ?_, ?_⟩
  · rw [heo]; exact hd
  · rw [hdo, KeyExpansion_indep key hrk₂ hrk₁,
      cbcDec_cbcEnc (KeyExpansion_Bytes_of_length hkey hrk₁) n iv p hiv hp hlen]
    exact List.take_left' rfl

/-- Witness for C1: the firmware key and chaining value, one block of plaintext. -/
theorem aes_decrypt_aes_encrypt_witness :
    ∃ e d, aes_encrypt key iv ⟨List.replicate 176 0, IvRef.iv, List.replicate 16 3,
        [0x1b, 1, 0, 9, 0x0e, 0x50, 1, 2, 3, 4, 0x53, 0xef, 0x34, 0x23, 0x7c, 0xff] ++ []⟩
        [0x1b, 1, 0, 9, 0x0e, 0x50, 1, 2, 3, 4, 0x53, 0xef, 0x34, 0x23, 0x7c, 0xff].length
        = some e ∧
      aes_decrypt key iv ⟨List.replicate 176 0, IvRef.iv, List.replicate 16 4, e.output⟩
        [0x1b, 1, 0, 9, 0x0e, 0x50, 1, 2, 3, 4, 0x53, 0xef, 0x34, 0x23, 0x7c, 0xff].length
        = some d ∧
      d.output.take
        [0x1b, 1, 0, 9, 0x0e, 0x50, 1, 2, 3, 4, 0x53, 0xef, 0x34, 0x23, 0x7c, 0xff].length =
        [0x1b, 1, 0, 9, 0x0e, 0x50, 1, 2, 3, 4, 0x53, 0xef, 0x34, 0x23, 0x7c, 0xff] :=
  aes_decrypt_aes_encrypt key iv (List.replicate 176 0) (List.replicate 176 0) IvRef.iv IvRef.iv
    [0x1b, 1, 0, 9, 0x0e, 0x50, 1, 2, 3, 4, 0x53, 0xef, 0x34, 0x23, 0x7c, 0xff] []
    (List.replicate 16 3) (List.replicate 16 4) 1
    (by unfold Bytes; decide) (by unfold Bytes; decide) (List.length_replicate 176 0)
    (List.length_replicate 176 0) (by unfold Bytes; decide) (by decide) (by simp) (by simp)
    (by simp)

/-! ## Theorems: command processor -/

theorem label_ne {cfg : Config} (hd : cfg.DistinctLabels) (i j : Nat) (hij : i < j)
    (hj : j < 15) : cfg.caseLabels.getD j 0 ≠ cfg.caseLabels.getD i 0 := by
  have hl : cfg.caseLabels.length = 15 := rfl
  have h := List.pairwise_iff_getElem.mp hd i j (by omega) (by omega) hij
  rw [List.getD_eq_getElem _ _ (by omega : j < cfg.caseLabels.length),
    List.getD_eq_getElem _ _ (by omega : i < cfg.caseLabels.length)]
  exact fun e => h e.symm

theorem dispatch_CMD_AUTH (cfg : Config) (s : Session)
    (hop : s.msgBuffer.getD 0 0 = cfg.CMD_AUTH) :
    dispatch cfg s = some (case_CMD_AUTH cfg s) := by
  unfold dispatch
  dsimp only
  rw [hop]
  rw [if_pos rfl]

theorem dispatch_CMD_SIGN_ON (cfg : Config) (s : Session) (hd : cfg.DistinctLabels)
    (hop : s.msgBuffer.getD 0 0 = cfg.CMD_SIGN_ON) :
    dispatch cfg s = some (case_CMD_SIGN_ON cfg s) := by
  unfold dispatch
  dsimp only
  rw [hop]
  rw [if_neg (show cfg.CMD_SIGN_ON ≠ cfg.CMD_AUTH from label_ne hd 0 1 (by decide) (by decide)),
    if_pos rfl]

theorem dispatch_CMD_GET_PARAMETER (cfg : Config) (s : Session) (hd : cfg.DistinctLabels)
    (hop : s.msgBuffer.getD 0 0 = cfg.CMD_GET_PARAMETER) :
    dispatch cfg s = some (case_CMD_GET_PARAMETER cfg s) := by
  unfold dispatch
  dsimp only
  rw [hop]
  rw [if_neg (show cfg.CMD_GET_PARAMETER ≠ cfg.CMD_AUTH from label_ne hd 0 2 (by decide) (by decide)),
    if_neg (show cfg.CMD_GET_PARAMETER ≠ cfg.CMD_SIGN_ON from label_ne hd 1 2 (by decide) (by decide)),
    if_pos rfl]

theorem dispatch_CMD_LEAVE_PROGMODE_ISP (cfg : Config) (s : Session) (hd : cfg.DistinctLabels)
    (hop : s.msgBuffer.getD 0 0 = cfg.CMD_LEAVE_PROGMODE_ISP) :
    dispatch cfg s = some (case_CMD_LEAVE_PROGMODE_ISP cfg s) := by
  unfold dispatch
  dsimp only
  rw [hop]
  rw [if_neg (show cfg.CMD_LEAVE_PROGMODE_ISP ≠ cfg.CMD_AUTH from label_ne hd 0 3 (by decide) (by decide)),
    if_neg (show cfg.CMD_LEAVE_PROGMODE_ISP ≠ cfg.CMD_SIGN_ON from label_ne hd 1 3 (by decide) (by decide)),
    if_neg (show cfg.CMD_LEAVE_PROGMODE_ISP ≠ cfg.CMD_GET_PARAMETER from label_ne hd 2 3 (by decide) (by decide)),
    if_pos rfl]

theorem dispatch_CMD_SET_PARAMETER (cfg : Config) (s : Session) (hd : cfg.DistinctLabels)
    (hop : s.msgBuffer.getD 0 0 = cfg.CMD_SET_PARAMETER) :
    dispatch cfg s = some (case_CMD_ENTER_PROGMODE_ISP cfg s) := by
  unfold dispatch
  dsimp only
  rw [hop]
  rw [if_neg (show cfg.CMD_SET_PARAMETER ≠ cfg.CMD_AUTH from label_ne hd 0 4 (by decide) (by decide)),
    if_neg (show cfg.CMD_SET_PARAMETER ≠ cfg.CMD_SIGN_ON from label_ne hd 1 4 (by decide) (by decide)),
    if_neg (show cfg.CMD_SET_PARAMETER ≠ cfg.CMD_GET_PARAMETER from label_ne hd 2 4 (by decide) (by decide)),
    if_neg (show cfg.CMD_SET_PARAMETER ≠ cfg.CMD_LEAVE_PROGMODE_ISP from label_ne hd 3 4 (by decide) (by decide)),
    if_pos (Or.inl rfl)]

theorem dispatch_CMD_ENTER_PROGMODE_ISP (cfg : Config) (s : Session) (hd : cfg.DistinctLabels)
    (hop : s.msgBuffer.getD 0 0 = cfg.CMD_ENTER_PROGMODE_ISP) :
    dispatch cfg s = some (case_CMD_ENTER_PROGMODE_ISP cfg s) := by
  unfold dispatch
  dsimp only
  rw [hop]
  rw [if_neg (show cfg.CMD_ENTER_PROGMODE_ISP ≠ cfg.CMD_AUTH from label_ne hd 0 5 (by decide) (by decide)),
    if_neg (show cfg.CMD_ENTER_PROGMODE_ISP ≠ cfg.CMD_SIGN_ON from label_ne hd 1 5 (by decide) (by decide)),
    if_neg (show cfg.CMD_ENTER_PROGMODE_ISP ≠ cfg.CMD_GET_PARAMETER from label_ne hd 2 5 (by decide) (by decide)),
    if_neg (show cfg.CMD_ENTER_PROGMODE_ISP ≠ cfg.CMD_LEAVE_PROGMODE_ISP from label_ne hd 3 5 (by decide) (by decide)),
    if_pos (Or.inr rfl)]

theorem dispatch_CMD_READ_SIGNATURE_ISP (cfg : Config) (s : Session) (hd : cfg.DistinctLabels)
    (hop : s.msgBuffer.getD 0 0 = cfg.CMD_READ_SIGNATURE_ISP) :
    dispatch cfg s = some (case_CMD_READ_SIGNATURE_ISP cfg s) := by
  unfold dispatch
  dsimp only
  rw [hop]
  rw [if_neg (show cfg.CMD_READ_SIGNATURE_ISP ≠ cfg.CMD_AUTH from label_ne hd 0 6 (by decide) (by decide)),
    if_neg (show cfg.CMD_READ_SIGNATURE_ISP ≠ cfg.CMD_SIGN_ON from label_ne hd 1 6 (by decide) (by decide)),
    if_neg (show cfg.CMD_READ_SIGNATURE_ISP ≠ cfg.CMD_GET_PARAMETER from label_ne hd 2 6 (by decide) (by decide)),
    if_neg (show cfg.CMD_READ_SIGNATURE_ISP ≠ cfg.CMD_LEAVE_PROGMODE_ISP from label_ne hd 3 6 (by decide) (by decide)),
    if_neg (not_or.mpr ⟨(show cfg.CMD_READ_SIGNATURE_ISP ≠ cfg.CMD_SET_PARAMETER from label_ne hd 4 6 (by decide) (by decide)),
      (show cfg.CMD_READ_SIGNATURE_ISP ≠ cfg.CMD_ENTER_PROGMODE_ISP from label_ne hd 5 6 (by decide) (by decide))⟩),
    if_pos rfl]

theorem dispatch_CMD_READ_LOCK_ISP (cfg : Config) (s : Session) (hd : cfg.DistinctLabels)
    (hop : s.msgBuffer.getD 0 0 = cfg.CMD_READ_LOCK_ISP) :
    dispatch cfg s = some (case_CMD_READ_LOCK_ISP cfg s) := by
  unfold dispatch
  dsimp only
  rw [hop]
  rw [if_neg (show cfg.CMD_READ_LOCK_ISP ≠ cfg.CMD_AUTH from label_ne hd 0 7 (by decide) (by decide)),
    if_neg (show cfg.CMD_READ_LOCK_ISP ≠ cfg.CMD_SIGN_ON from label_ne hd 1 7 (by decide) (by decide)),
    if_neg (show cfg.CMD_READ_LOCK_ISP ≠ cfg.CMD_GET_PARAMETER from label_ne hd 2 7 (by decide) (by decide)),
    if_neg (show cfg.CMD_READ_LOCK_ISP ≠ cfg.CMD_LEAVE_PROGMODE_ISP from label_ne hd 3 7 (by decide) (by decide)),
    if_neg (not_or.mpr ⟨(show cfg.CMD_READ_LOCK_ISP ≠ cfg.CMD_SET_PARAMETER from label_ne hd 4 7 (by decide) (by decide)),
      (show cfg.CMD_READ_LOCK_ISP ≠ cfg.CMD_ENTER_PROGMODE_ISP from label_ne hd 5 7 (by decide) (by decide))⟩),
    if_neg (show cfg.CMD_READ_LOCK_ISP ≠ cfg.CMD_READ_SIGNATURE_ISP from label_ne hd 6 7 (by decide) (by decide)),
    if_pos rfl]

theorem dispatch_CMD_READ_FUSE_ISP (cfg : Config) (s : Session) (hd : cfg.DistinctLabels)
    (hop : s.msgBuffer.getD 0 0 = cfg.CMD_READ_FUSE_ISP) :
    dispatch cfg s = some (case_CMD_READ_FUSE_ISP cfg s) := by
  unfold dispatch
  dsimp only
  rw [hop]
  rw [if_neg (show cfg.CMD_READ_FUSE_ISP ≠ cfg.CMD_AUTH from label_ne hd 0 8 (by decide) (by decide)),
    if_neg (show cfg.CMD_READ_FUSE_ISP ≠ cfg.CMD_SIGN_ON from label_ne hd 1 8 (by decide) (by decide)),
    if_neg (show cfg.CMD_READ_FUSE_ISP ≠ cfg.CMD_GET_PARAMETER from label_ne hd 2 8 (by decide) (by decide)),
    if_neg (show cfg.CMD_READ_FUSE_ISP ≠ cfg.CMD_LEAVE_PROGMODE_ISP from label_ne hd 3 8 (by decide) (by decide)),
    if_neg (not_or.mpr ⟨(show cfg.CMD_READ_FUSE_ISP ≠ cfg.CMD_SET_PARAMETER from label_ne hd 4 8 (by decide) (by decide)),
      (show cfg.CMD_READ_FUSE_ISP ≠ cfg.CMD_ENTER_PROGMODE_ISP from label_ne hd 5 8 (by decide) (by decide))⟩),
    if_neg (show cfg.CMD_READ_FUSE_ISP ≠ cfg.CMD_READ_SIGNATURE_ISP from label_ne hd 6 8 (by decide) (by decide)),
    if_neg (show cfg.CMD_READ_FUSE_ISP ≠ cfg.CMD_READ_LOCK_ISP from label_ne hd 7 8 (by decide) (by decide)),
    if_pos rfl]

theorem dispatch_CMD_CHIP_ERASE_ISP (cfg : Config) (s : Session) (hd : cfg.DistinctLabels)
    (hop : s.msgBuffer.getD 0 0 = cfg.CMD_CHIP_ERASE_ISP) :
    dispatch cfg s = some (case_CMD_CHIP_ERASE_ISP cfg s) := by
  unfold dispatch
  dsimp only
  rw [hop]
  rw [if_neg (show cfg.CMD_CHIP_ERASE_ISP ≠ cfg.CMD_AUTH from label_ne hd 0 9 (by decide) (by decide)),
    if_neg (show cfg.CMD_CHIP_ERASE_ISP ≠ cfg.CMD_SIGN_ON from label_ne hd 1 9 (by decide) (by decide)),
    if_neg (show cfg.CMD_CHIP_ERASE_ISP ≠ cfg.CMD_GET_PARAMETER from label_ne hd 2 9 (by decide) (by decide)),
    if_neg (show cfg.CMD_CHIP_ERASE_ISP ≠ cfg.CMD_LEAVE_PROGMODE_ISP from label_ne hd 3 9 (by decide) (by decide)),
    if_neg (not_or.mpr ⟨(show cfg.CMD_CHIP_ERASE_ISP ≠ cfg.CMD_SET_PARAMETER from label_ne hd 4 9 (by decide) (by decide)),
      (show cfg.CMD_CHIP_ERASE_ISP ≠ cfg.CMD_ENTER_PROGMODE_ISP from label_ne hd 5 9 (by decide) (by decide))⟩),
    if_neg (show cfg.CMD_CHIP_ERASE_ISP ≠ cfg.CMD_READ_SIGNATURE_ISP from label_ne hd 6 9 (by decide) (by decide)),
    if_neg (show cfg.CMD_CHIP_ERASE_ISP ≠ cfg.CMD_READ_LOCK_ISP from label_ne hd 7 9 (by decide) (by decide)),
    if_neg (show cfg.CMD_CHIP_ERASE_ISP ≠ cfg.CMD_READ_FUSE_ISP from label_ne hd 8 9 (by decide) (by decide)),
    if_pos rfl]

theorem dispatch_CMD_LOAD_ADDRESS (cfg : Config) (s : Session) (hd : cfg.DistinctLabels)
    (hop : s.msgBuffer.getD 0 0 = cfg.CMD_LOAD_ADDRESS) :
    dispatch cfg s = some (case_CMD_LOAD_ADDRESS cfg s) := by
  unfold dispatch
  dsimp only
  rw [hop]
  rw [if_neg (show cfg.CMD_LOAD_ADDRESS ≠ cfg.CMD_AUTH from label_ne hd 0 10 (by decide) (by decide)),
    if_neg (show cfg.CMD_LOAD_ADDRESS ≠ cfg.CMD_SIGN_ON from label_ne hd 1 10 (by decide) (by decide)),
    if_neg (show cfg.CMD_LOAD_ADDRESS ≠ cfg.CMD_GET_PARAMETER from label_ne hd 2 10 (by decide) (by decide)),
    if_neg (show cfg.CMD_LOAD_ADDRESS ≠ cfg.CMD_LEAVE_PROGMODE_ISP from label_ne hd 3 10 (by decide) (by decide)),
    if_neg (not_or.mpr ⟨(show cfg.CMD_LOAD_ADDRESS ≠ cfg.CMD_SET_PARAMETER from label_ne hd 4 10 (by decide) (by decide)),
      (show cfg.CMD_LOAD_ADDRESS ≠ cfg.CMD_ENTER_PROGMODE_ISP from label_ne hd 5 10 (by decide) (by decide))⟩),
    if_neg (show cfg.CMD_LOAD_ADDRESS ≠ cfg.CMD_READ_SIGNATURE_ISP from label_ne hd 6 10 (by decide) (by decide)),
    if_neg (show cfg.CMD_LOAD_ADDRESS ≠ cfg.CMD_READ_LOCK_ISP from label_ne hd 7 10 (by decide) (by decide)),
    if_neg (show cfg.CMD_LOAD_ADDRESS ≠ cfg.CMD_READ_FUSE_ISP from label_ne hd 8 10 (by decide) (by decide)),
    if_neg (show cfg.CMD_LOAD_ADDRESS ≠ cfg.CMD_CHIP_ERASE_ISP from label_ne hd 9 10 (by decide) (by decide)),
    if_pos rfl]

theorem dispatch_CMD_PROGRAM_FLASH_ISP (cfg : Config) (s : Session) (hd : cfg.DistinctLabels)
    (hop : s.msgBuffer.getD 0 0 = cfg.CMD_PROGRAM_FLASH_ISP) :
    dispatch cfg s = case_CMD_PROGRAM cfg s := by
  unfold dispatch
  dsimp only
  rw [hop]
  rw [if_neg (show cfg.CMD_PROGRAM_FLASH_ISP ≠ cfg.CMD_AUTH from label_ne hd 0 11 (by decide) (by decide)),
    if_neg (show cfg.CMD_PROGRAM_FLASH_ISP ≠ cfg.CMD_SIGN_ON from label_ne hd 1 11 (by decide) (by decide)),
    if_neg (show cfg.CMD_PROGRAM_FLASH_ISP ≠ cfg.CMD_GET_PARAMETER from label_ne hd 2 11 (by decide) (by decide)),
    if_neg (show cfg.CMD_PROGRAM_FLASH_ISP ≠ cfg.CMD_LEAVE_PROGMODE_ISP from label_ne hd 3 11 (by decide) (by decide)),
    if_neg (not_or.mpr ⟨(show cfg.CMD_PROGRAM_FLASH_ISP ≠ cfg.CMD_SET_PARAMETER from label_ne hd 4 11 (by decide) (by decide)),
      (show cfg.CMD_PROGRAM_FLASH_ISP ≠ cfg.CMD_ENTER_PROGMODE_ISP from label_ne hd 5 11 (by decide) (by decide))⟩),
    if_neg (show cfg.CMD_PROGRAM_FLASH_ISP ≠ cfg.CMD_READ_SIGNATURE_ISP from label_ne hd 6 11 (by decide) (by decide)),
    if_neg (show cfg.CMD_PROGRAM_FLASH_ISP ≠ cfg.CMD_READ_LOCK_ISP from label_ne hd 7 11 (by decide) (by decide)),
    if_neg (show cfg.CMD_PROGRAM_FLASH_ISP ≠ cfg.CMD_READ_FUSE_ISP from label_ne hd 8 11 (by decide) (by decide)),
    if_neg (show cfg.CMD_PROGRAM_FLASH_ISP ≠ cfg.CMD_CHIP_ERASE_ISP from label_ne hd 9 11 (by decide) (by decide)),
    if_neg (show cfg.CMD_PROGRAM_FLASH_ISP ≠ cfg.CMD_LOAD_ADDRESS from label_ne hd 10 11 (by decide) (by decide)),
    if_pos (Or.inl rfl)]

theorem dispatch_CMD_PROGRAM_EEPROM_ISP (cfg : Config) (s : Session) (hd : cfg.DistinctLabels)
    (hop : s.msgBuffer.getD 0 0 = cfg.CMD_PROGRAM_EEPROM_ISP) :
    dispatch cfg s = case_CMD_PROGRAM cfg s := by
  unfold dispatch
  dsimp only
  rw [hop]
  rw [if_neg (show cfg.CMD_PROGRAM_EEPROM_ISP ≠ cfg.CMD_AUTH from label_ne hd 0 12 (by decide) (by decide)),
    if_neg (show cfg.CMD_PROGRAM_EEPROM_ISP ≠ cfg.CMD_SIGN_ON from label_ne hd 1 12 (by decide) (by decide)),
    if_neg (show cfg.CMD_PROGRAM_EEPROM_ISP ≠ cfg.CMD_GET_PARAMETER from label_ne hd 2 12 (by decide) (by decide)),
    if_neg (show cfg.CMD_PROGRAM_EEPROM_ISP ≠ cfg.CMD_LEAVE_PROGMODE_ISP from label_ne hd 3 12 (by decide) (by decide)),
    if_neg (not_or.mpr ⟨(show cfg.CMD_PROGRAM_EEPROM_ISP ≠ cfg.CMD_SET_PARAMETER from label_ne hd 4 12 (by decide) (by decide)),
      (show cfg.CMD_PROGRAM_EEPROM_ISP ≠ cfg.CMD_ENTER_PROGMODE_ISP from label_ne hd 5 12 (by decide) (by decide))⟩),
    if_neg (show cfg.CMD_PROGRAM_EEPROM_ISP ≠ cfg.CMD_READ_SIGNATURE_ISP from label_ne hd 6 12 (by decide) (by decide)),
    if_neg (show cfg.CMD_PROGRAM_EEPROM_ISP ≠ cfg.CMD_READ_LOCK_ISP from label_ne hd 7 12 (by decide) (by decide)),
    if_neg (show cfg.CMD_PROGRAM_EEPROM_ISP ≠ cfg.CMD_READ_FUSE_ISP from label_ne hd 8 12 (by decide) (by decide)),
    if_neg (show cfg.CMD_PROGRAM_EEPROM_ISP ≠ cfg.CMD_CHIP_ERASE_ISP from label_ne hd 9 12 (by decide) (by decide)),
    if_neg (show cfg.CMD_PROGRAM_EEPROM_ISP ≠ cfg.CMD_LOAD_ADDRESS from label_ne hd 10 12 (by decide) (by decide)),
    if_pos (Or.inr rfl)]

theorem dispatch_CMD_READ_FLASH_ISP (cfg : Config) (s : Session) (hd : cfg.DistinctLabels)
    (hop : s.msgBuffer.getD 0 0 = cfg.CMD_READ_FLASH_ISP) :
    dispatch cfg s = case_CMD_READ cfg s := by
  unfold dispatch
  dsimp only
  rw [hop]
  rw [if_neg (show cfg.CMD_READ_FLASH_ISP ≠ cfg.CMD_AUTH from label_ne hd 0 13 (by decide) (by decide)),
    if_neg (show cfg.CMD_READ_FLASH_ISP ≠ cfg.CMD_SIGN_ON from label_ne hd 1 13 (by decide) (by decide)),
    if_neg (show cfg.CMD_READ_FLASH_ISP ≠ cfg.CMD_GET_PARAMETER from label_ne hd 2 13 (by decide) (by decide)),
    if_neg (show cfg.CMD_READ_FLASH_ISP ≠ cfg.CMD_LEAVE_PROGMODE_ISP from label_ne hd 3 13 (by decide) (by decide)),
    if_neg (not_or.mpr ⟨(show cfg.CMD_READ_FLASH_ISP ≠ cfg.CMD_SET_PARAMETER from label_ne hd 4 13 (by decide) (by decide)),
      (show cfg.CMD_READ_FLASH_ISP ≠ cfg.CMD_ENTER_PROGMODE_ISP from label_ne hd 5 13 (by decide) (by decide))⟩),
    if_neg (show cfg.CMD_READ_FLASH_ISP ≠ cfg.CMD_READ_SIGNATURE_ISP from label_ne hd 6 13 (by decide) (by decide)),
    if_neg (show cfg.CMD_READ_FLASH_ISP ≠ cfg.CMD_READ_LOCK_ISP from label_ne hd 7 13 (by decide) (by decide)),
    if_neg (show cfg.CMD_READ_FLASH_ISP ≠ cfg.CMD_READ_FUSE_ISP from label_ne hd 8 13 (by decide) (by decide)),
    if_neg (show cfg.CMD_READ_FLASH_ISP ≠ cfg.CMD_CHIP_ERASE_ISP from label_ne hd 9 13 (by decide) (by decide)),
    if_neg (show cfg.CMD_READ_FLASH_ISP ≠ cfg.CMD_LOAD_ADDRESS from label_ne hd 10 13 (by decide) (by decide)),
    if_neg (not_or.mpr ⟨(show cfg.CMD_READ_FLASH_ISP ≠ cfg.CMD_PROGRAM_FLASH_ISP from label_ne hd 11 13 (by decide) (by decide)),
      (show cfg.CMD_READ_FLASH_ISP ≠ cfg.CMD_PROGRAM_EEPROM_ISP from label_ne hd 12 13 (by decide) (by decide))⟩),
    if_pos (Or.inl rfl)]

theorem dispatch_CMD_READ_EEPROM_ISP (cfg : Config) (s : Session) (hd : cfg.DistinctLabels)
    (hop : s.msgBuffer.getD 0 0 = cfg.CMD_READ_EEPROM_ISP) :
    dispatch cfg s = case_CMD_READ cfg s := by
  unfold dispatch
  dsimp only
  rw [hop]
  rw [if_neg (show cfg.CMD_READ_EEPROM_ISP ≠ cfg.CMD_AUTH from label_ne hd 0 14 (by decide) (by decide)),
    if_neg (show cfg.CMD_READ_EEPROM_ISP ≠ cfg.CMD_SIGN_ON from label_ne hd 1 14 (by decide) (by decide)),
    if_neg (show cfg.CMD_READ_EEPROM_ISP ≠ cfg.CMD_GET_PARAMETER from label_ne hd 2 14 (by decide) (by decide)),
    if_neg (show cfg.CMD_READ_EEPROM_ISP ≠ cfg.CMD_LEAVE_PROGMODE_ISP from label_ne hd 3 14 (by decide) (by decide)),
    if_neg (not_or.mpr ⟨(show cfg.CMD_READ_EEPROM_ISP ≠ cfg.CMD_SET_PARAMETER from label_ne hd 4 14 (by decide) (by decide)),
      (show cfg.CMD_READ_EEPROM_ISP ≠ cfg.CMD_ENTER_PROGMODE_ISP from label_ne hd 5 14 (by decide) (by decide))⟩),
    if_neg (show cfg.CMD_READ_EEPROM_ISP ≠ cfg.CMD_READ_SIGNATURE_ISP from label_ne hd 6 14 (by decide) (by decide)),
    if_neg (show cfg.CMD_READ_EEPROM_ISP ≠ cfg.CMD_READ_LOCK_ISP from label_ne hd 7 14 (by decide) (by decide)),
    if_neg (show cfg.CMD_READ_EEPROM_ISP ≠ cfg.CMD_READ_FUSE_ISP from label_ne hd 8 14 (by decide) (by decide)),
    if_neg (show cfg.CMD_READ_EEPROM_ISP ≠ cfg.CMD_CHIP_ERASE_ISP from label_ne hd 9 14 (by decide) (by decide)),
    if_neg (show cfg.CMD_READ_EEPROM_ISP ≠ cfg.CMD_LOAD_ADDRESS from label_ne hd 10 14 (by decide) (by decide)),
    if_neg (not_or.mpr ⟨(show cfg.CMD_READ_EEPROM_ISP ≠ cfg.CMD_PROGRAM_FLASH_ISP from label_ne hd 11 14 (by decide) (by decide)),
      (show cfg.CMD_READ_EEPROM_ISP ≠ cfg.CMD_PROGRAM_EEPROM_ISP from label_ne hd 12 14 (by decide) (by decide))⟩),
    if_pos (Or.inr rfl)]

theorem dispatch_default (cfg : Config) (s : Session)
    (hop : s.msgBuffer.getD 0 0 ∉ cfg.caseLabels) :
    dispatch cfg s = some (case_default cfg s) := by
  have h : ∀ l, l ∈ cfg.caseLabels → ¬ s.msgBuffer.getD 0 0 = l :=
    fun l hl e => hop (e ▸ hl)
  unfold dispatch
  dsimp only
  rw [if_neg (h cfg.CMD_AUTH (by simp [Config.caseLabels])),
    if_neg (h cfg.CMD_SIGN_ON (by simp [Config.caseLabels])),
    if_neg (h cfg.CMD_GET_PARAMETER (by simp [Config.caseLabels])),
    if_neg (h cfg.CMD_LEAVE_PROGMODE_ISP (by simp [Config.caseLabels])),
    if_neg (not_or.mpr ⟨h cfg.CMD_SET_PARAMETER (by simp [Config.caseLabels]),
      h cfg.CMD_ENTER_PROGMODE_ISP (by simp [Config.caseLabels])⟩),
    if_neg (h cfg.CMD_READ_SIGNATURE_ISP (by simp [Config.caseLabels])),
    if_neg (h cfg.CMD_READ_LOCK_ISP (by simp [Config.caseLabels])),
    if_neg (h cfg.CMD_READ_FUSE_ISP (by simp [Config.caseLabels])),
    if_neg (h cfg.CMD_CHIP_ERASE_ISP (by simp [Config.caseLabels])),
    if_neg (h cfg.CMD_LOAD_ADDRESS (by simp [Config.caseLabels])),
    if_neg (not_or.mpr ⟨h cfg.CMD_PROGRAM_FLASH_ISP (by simp [Config.caseLabels]),
      h cfg.CMD_PROGRAM_EEPROM_ISP (by simp [Config.caseLabels])⟩),
    if_neg (not_or.mpr ⟨h cfg.CMD_READ_FLASH_ISP (by simp [Config.caseLabels]),
      h cfg.CMD_READ_EEPROM_ISP (by simp [Config.caseLabels])⟩)]

/-- Case analysis over the branches of `switch (msgBuffer[0])`: a property of the result
holds when it holds of each case taken under its label; the `default` case is taken
when the opcode is different from the chip-erase label and from the labels of the two
programming cases. -/
theorem dispatch_cases (cfg : Config) (s : Session) (P : Option Session → Prop)
    (h0 : s.msgBuffer.getD 0 0 = cfg.CMD_AUTH → P (some (case_CMD_AUTH cfg s)))
    (h1 : s.msgBuffer.getD 0 0 = cfg.CMD_SIGN_ON → P (some (case_CMD_SIGN_ON cfg s)))
    (h2 : s.msgBuffer.getD 0 0 = cfg.CMD_GET_PARAMETER → P (some (case_CMD_GET_PARAMETER cfg s)))
    (h3 : s.msgBuffer.getD 0 0 = cfg.CMD_LEAVE_PROGMODE_ISP → P (some (case_CMD_LEAVE_PROGMODE_ISP cfg s)))
    (h4 : s.msgBuffer.getD 0 0 = cfg.CMD_SET_PARAMETER ∨ s.msgBuffer.getD 0 0 = cfg.CMD_ENTER_PROGMODE_ISP → P (some (case_CMD_ENTER_PROGMODE_ISP cfg s)))
    (h5 : s.msgBuffer.getD 0 0 = cfg.CMD_READ_SIGNATURE_ISP → P (some (case_CMD_READ_SIGNATURE_ISP cfg s)))
    (h6 : s.msgBuffer.getD 0 0 = cfg.CMD_READ_LOCK_ISP → P (some (case_CMD_READ_LOCK_ISP cfg s)))
    (h7 : s.msgBuffer.getD 0 0 = cfg.CMD_READ_FUSE_ISP → P (some (case_CMD_READ_FUSE_ISP cfg s)))
    (h8 : s.msgBuffer.getD 0 0 = cfg.CMD_CHIP_ERASE_ISP → P (some (case_CMD_CHIP_ERASE_ISP cfg s)))
    (h9 : s.msgBuffer.getD 0 0 = cfg.CMD_LOAD_ADDRESS → P (some (case_CMD_LOAD_ADDRESS cfg s)))
    (h10 : s.msgBuffer.getD 0 0 = cfg.CMD_PROGRAM_FLASH_ISP ∨ s.msgBuffer.getD 0 0 = cfg.CMD_PROGRAM_EEPROM_ISP → P (case_CMD_PROGRAM cfg s))
    (h11 : s.msgBuffer.getD 0 0 = cfg.CMD_READ_FLASH_ISP ∨ s.msgBuffer.getD 0 0 = cfg.CMD_READ_EEPROM_ISP → P (case_CMD_READ cfg s))
    (hdef : s.msgBuffer.getD 0 0 ≠ cfg.CMD_CHIP_ERASE_ISP →
      ¬ (s.msgBuffer.getD 0 0 = cfg.CMD_PROGRAM_FLASH_ISP ∨ s.msgBuffer.getD 0 0 = cfg.CMD_PROGRAM_EEPROM_ISP) →
      P (some (case_default cfg s))) :
    P (dispatch cfg s) := by
  unfold dispatch
  dsimp only
  by_cases c0 : s.msgBuffer.getD 0 0 = cfg.CMD_AUTH
  · rw [if_pos c0]; exact h0 c0
  rw [if_neg c0]
  by_cases c1 : s.msgBuffer.getD 0 0 = cfg.CMD_SIGN_ON
  · rw [if_pos c1]; exact h1 c1
  rw [if_neg c1]
  by_cases c2 : s.msgBuffer.getD 0 0 = cfg.CMD_GET_PARAMETER
  · rw [if_pos c2]; exact h2 c2
  rw [if_neg c2]
  by_cases c3 : s.msgBuffer.getD 0 0 = cfg.CMD_LEAVE_PROGMODE_ISP
  · rw [if_pos c3]; exact h3 c3
  rw [if_neg c3]
  by_cases c4 : s.msgBuffer.getD 0 0 = cfg.CMD_SET_PARAMETER ∨ s.msgBuffer.getD 0 0 = cfg.CMD_ENTER_PROGMODE_ISP
  · rw [if_pos c4]; exact h4 c4
  rw [if_neg c4]
  by_cases c5 : s.msgBuffer.getD 0 0 = cfg.CMD_READ_SIGNATURE_ISP
  · rw [if_pos c5]; exact h5 c5
  rw [if_neg c5]
  by_cases c6 : s.msgBuffer.getD 0 0 = cfg.CMD_READ_LOCK_ISP
  · rw [if_pos c6]; exact h6 c6
  rw [if_neg c6]
  by_cases c7 : s.msgBuffer.getD 0 0 = cfg.CMD_READ_FUSE_ISP
  · rw [if_pos c7]; exact h7 c7
  rw [if_neg c7]
  by_cases c8 : s.msgBuffer.getD 0 0 = cfg.CMD_CHIP_ERASE_ISP
  · rw [if_pos c8]; exact h8 c8
  rw [if_neg c8]
  by_cases c9 : s.msgBuffer.getD 0 0 = cfg.CMD_LOAD_ADDRESS
  · rw [if_pos c9]; exact h9 c9
  rw [if_neg c9]
  by_cases c10 : s.msgBuffer.getD 0 0 = cfg.CMD_PROGRAM_FLASH_ISP ∨ s.msgBuffer.getD 0 0 = cfg.CMD_PROGRAM_EEPROM_ISP
  · rw [if_pos c10]; exact h10 c10
  rw [if_neg c10]
  by_cases c11 : s.msgBuffer.getD 0 0 = cfg.CMD_READ_FLASH_ISP ∨ s.msgBuffer.getD 0 0 = cfg.CMD_READ_EEPROM_ISP
  · rw [if_pos c11]; exact h11 c11
  rw [if_neg c11]
  exact hdef c8 c10

/-! ### Effects of the loops of the command processor -/

theorem flashFillLoop_effect (cfg : Config) (fuel : Nat) :
    ∀ (p size : Nat) (s s' : Session), flashFillLoop cfg fuel p size s = some s' →
      (∃ evs, s'.hw = s.hw ++ evs ∧ ∀ e ∈ evs, e.isFill = true) ∧
      s'.eraseAddress = s.eraseAddress ∧ s'.isLeave = s.isLeave ∧
      s'.isAuthenticated = s.isAuthenticated ∧ s'.msgBuffer = s.msgBuffer := by
  induction fuel with
  | zero => intro p size s s' h; simp [flashFillLoop] at h
  | succ k ih =>
    intro p size s s' h
    simp only [flashFillLoop] at h
    split at h
    · rename_i lowByte highByte _ _
      split at h
      · obtain ⟨⟨evs, he, hf⟩, h2, h3, h4, h5⟩ := ih _ _ _ _ h
        refine ⟨⟨HwEvent.boot_page_fill s.address ((highByte <<< 8) ||| lowByte) :: evs, ?_, ?_⟩,
          h2, h3, h4, h5⟩
        · rw [he]; simp
        · intro e hm
          rcases List.mem_cons.mp hm with rfl | hm
          · rfl
          · exact hf e hm
      · cases h
        exact ⟨⟨[HwEvent.boot_page_fill s.address ((highByte <<< 8) ||| lowByte)], rfl,
          by intro e hm; rw [List.mem_singleton.mp hm]; rfl⟩, rfl, rfl, rfl, rfl⟩
    · cases h

theorem eepromWriteLoop_effect (cfg : Config) (size : Nat) :
    ∀ (p ii : Nat) (s s' : Session), eepromWriteLoop cfg size p ii s = some s' →
      (∃ evs, s'.hw = s.hw ++ evs ∧ ∀ e ∈ evs, ∃ a v, e = HwEvent.eeprom_write_byte a v) ∧
      s'.eraseAddress = s.eraseAddress ∧ s'.isLeave = s.isLeave ∧
      s'.isAuthenticated = s.isAuthenticated ∧ s'.msgBuffer = s.msgBuffer := by
  induction size with
  | zero =>
    intro p ii s s' h
    simp only [eepromWriteLoop] at h
    cases h
    exact ⟨⟨[], by simp, by simp⟩, rfl, rfl, rfl, rfl⟩
  | succ k ih =>
    intro p ii s s' h
    simp only [eepromWriteLoop] at h
    split at h
    · rename_i v _
      obtain ⟨⟨evs, he, hf⟩, h2, h3, h4, h5⟩ := ih _ _ _ _ h
      refine ⟨⟨HwEvent.eeprom_write_byte ii v :: evs, ?_, ?_⟩, h2, h3, h4, h5⟩
      · rw [he]; simp
      · intro e hm
        rcases List.mem_cons.mp hm with rfl | hm
        · exact ⟨_, _, rfl⟩
        · exact hf e hm
    · cases h

theorem store_some {buf : List Nat} {i v : Nat} {b : List Nat} (h : store buf i v = some b) :
    i < buf.length ∧ b = buf.set i v := by
  unfold store at h
  split at h
  · cases h; exact ⟨by assumption, rfl⟩
  · cases h

theorem flashReadLoop_effect (cfg : Config) (fuel : Nat) :
    ∀ (p size : Nat) (s : Session) (r : Nat × Session),
      flashReadLoop cfg fuel p size s = some r →
      (∃ evs, r.2.hw = s.hw ++ evs ∧ ∀ e ∈ evs, ∃ a, e = HwEvent.pgm_read_word a) ∧
      r.2.eraseAddress = s.eraseAddress ∧ r.2.isLeave = s.isLeave ∧
      r.2.isAuthenticated = s.isAuthenticated := by
  induction fuel with
  | zero => intro p size s r h; simp [flashReadLoop] at h
  | succ k ih =>
    intro p size s r h
    simp only [flashReadLoop] at h
    split at h
    · cases h
    · split at h
      · cases h
      · split at h
        · obtain ⟨⟨evs, he, hf⟩, h2, h3, h4⟩ := ih _ _ _ _ h
          refine ⟨⟨HwEvent.pgm_read_word
            (if cfg.FLASHEND > 0x10000 then s.address else s.address % 65536) :: evs, ?_, ?_⟩,
            h2, h3, h4⟩
          · rw [he]; simp
          · intro e hm
            rcases List.mem_cons.mp hm with rfl | hm
            · exact ⟨_, rfl⟩
            · exact hf e hm
        · cases h
          exact ⟨⟨[HwEvent.pgm_read_word
            (if cfg.FLASHEND > 0x10000 then s.address else s.address % 65536)], rfl,
            by intro e hm; rw [List.mem_singleton.mp hm]; exact ⟨_, rfl⟩⟩, rfl, rfl, rfl⟩

theorem eepromReadLoop_effect (cfg : Config) (fuel : Nat) :
    ∀ (p size : Nat) (s : Session) (r : Nat × Session),
      eepromReadLoop cfg fuel p size s = some r →
      (∃ evs, r.2.hw = s.hw ++ evs ∧ ∀ e ∈ evs, ∃ a, e = HwEvent.eeprom_read a) ∧
      r.2.eraseAddress = s.eraseAddress ∧ r.2.isLeave = s.isLeave ∧
      r.2.isAuthenticated = s.isAuthenticated := by
  induction fuel with
  | zero => intro p size s r h; simp [eepromReadLoop] at h
  | succ k ih =>
    intro p size s r h
    simp only [eepromReadLoop] at h
    split at h
    · cases h
    · split at h
      · obtain ⟨⟨evs, he, hf⟩, h2, h3, h4⟩ := ih _ _ _ _ h
        refine ⟨⟨HwEvent.eeprom_read
          ((s.address % 256) + ((s.address >>> 8) % 256) * 256) :: evs, ?_, ?_⟩, h2, h3, h4⟩
        · rw [he]; simp
        · intro e hm
          rcases List.mem_cons.mp hm with rfl | hm
          · exact ⟨_, rfl⟩
          · exact hf e hm
      · cases h
        exact ⟨⟨[HwEvent.eeprom_read ((s.address % 256) + ((s.address >>> 8) % 256) * 256)],
          rfl, by intro e hm; rw [List.mem_singleton.mp hm]; exact ⟨_, rfl⟩⟩, rfl, rfl, rfl⟩

theorem case_CMD_READ_effect (cfg : Config) (s s' : Session)
    (h : case_CMD_READ cfg s = some s') :
    (∃ evs, s'.hw = s.hw ++ evs ∧
      ∀ e ∈ evs, (∃ a, e = HwEvent.pgm_read_word a) ∨ (∃ a, e = HwEvent.eeprom_read a)) ∧
    s'.eraseAddress = s.eraseAddress ∧ s'.isLeave = s.isLeave ∧
    s'.isAuthenticated = s.isAuthenticated := by
  unfold case_CMD_READ at h
  dsimp only at h
  split at h
  · cases h
  · split at h
    · cases h
    · rename_i p t hr
      split at h
      · cases h
      · cases h
        by_cases hf : s.msgBuffer.getD 0 0 = cfg.CMD_READ_FLASH_ISP
        · simp only [hf, decide_True, if_true] at hr
          obtain ⟨⟨evs, he, hq⟩, h2, h3, h4⟩ := flashReadLoop_effect cfg _ _ _ _ _ hr
          exact ⟨⟨evs, he, fun e hm => Or.inl (hq e hm)⟩, h2, h3, h4⟩
        · simp only [hf, decide_False, Bool.false_eq_true, if_false] at hr
          obtain ⟨⟨evs, he, hq⟩, h2, h3, h4⟩ := eepromReadLoop_effect cfg _ _ _ _ _ hr
          exact ⟨⟨evs, he, fun e hm => Or.inr (hq e hm)⟩, h2, h3, h4⟩

/-! ### The programming case -/

theorem case_CMD_PROGRAM_unauth (cfg : Config) (s : Session) (h : s.isAuthenticated ≠ 1) :
    case_CMD_PROGRAM cfg s = some (replyFailed cfg s) := by
  unfold case_CMD_PROGRAM
  rw [if_neg h]

theorem eraseStep_hw (cfg : Config) (s : Session) :
    (eraseStep cfg s).hw = s.hw ++
      (if s.eraseAddress < cfg.APP_END then
        [HwEvent.boot_page_erase s.eraseAddress, HwEvent.boot_spm_busy_wait] else []) := by
  unfold eraseStep
  split <;> simp

theorem eraseStep_fields (cfg : Config) (s : Session) :
    (eraseStep cfg s).address = s.address ∧ (eraseStep cfg s).isLeave = s.isLeave ∧
    (eraseStep cfg s).isAuthenticated = s.isAuthenticated ∧
    (eraseStep cfg s).msgBuffer = s.msgBuffer := by
  unfold eraseStep
  split <;> exact ⟨rfl, rfl, rfl, rfl⟩

theorem case_CMD_PROGRAM_flash (cfg : Config) (s s' : Session) (hauth : s.isAuthenticated = 1)
    (hop : s.msgBuffer.getD 0 0 = cfg.CMD_PROGRAM_FLASH_ISP)
    (h : case_CMD_PROGRAM cfg s = some s') :
    ∃ fills, (∀ e ∈ fills, e.isFill = true) ∧
      s'.hw = s.hw ++
        (if s.eraseAddress < cfg.APP_END then
          [HwEvent.boot_page_erase s.eraseAddress, HwEvent.boot_spm_busy_wait] else []) ++
        fills ++
        [HwEvent.boot_page_write s.address, HwEvent.boot_spm_busy_wait,
          HwEvent.boot_rww_enable] ∧
      s'.eraseAddress = (eraseStep cfg s).eraseAddress ∧ s'.isLeave = s.isLeave ∧
      s'.isAuthenticated = 1 ∧ s'.msgLength = 2 ∧
      s'.msgBuffer = s.msgBuffer.set 1 cfg.STATUS_CMD_OK := by
  unfold case_CMD_PROGRAM at h
  rw [if_pos hauth] at h
  dsimp only at h
  rw [if_pos hop] at h
  split at h
  · cases h
  · rename_i t ht
    cases h
    split at ht
    · cases ht
    · rename_i u hu
      cases ht
      obtain ⟨⟨fills, he, hf⟩, h2, h3, h4, h5⟩ := flashFillLoop_effect cfg _ _ _ _ _ hu
      obtain ⟨_, g2, g3, g4⟩ := eraseStep_fields cfg s
      refine ⟨fills, hf, ?_, h2, ?_, ?_, rfl, ?_⟩
      · show u.hw ++ _ = _
        rw [he, eraseStep_hw]
      · exact h3.trans g2
      · exact (h4.trans g3).trans hauth
      · show u.msgBuffer.set 1 _ = _
        rw [h5, g4]

theorem case_CMD_PROGRAM_eeprom (cfg : Config) (s s' : Session) (hauth : s.isAuthenticated = 1)
    (hop : s.msgBuffer.getD 0 0 ≠ cfg.CMD_PROGRAM_FLASH_ISP)
    (h : case_CMD_PROGRAM cfg s = some s') :
    (∃ evs, s'.hw = s.hw ++ evs ∧ ∀ e ∈ evs, ∃ a v, e = HwEvent.eeprom_write_byte a v) ∧
      s'.eraseAddress = s.eraseAddress ∧ s'.isLeave = s.isLeave := by
  unfold case_CMD_PROGRAM at h
  rw [if_pos hauth] at h
  dsimp only at h
  rw [if_neg hop] at h
  split at h
  · cases h
  · rename_i t ht
    cases h
    obtain ⟨h1, h2, h3, _, _⟩ := eepromWriteLoop_effect cfg _ _ _ _ _ ht
    exact ⟨h1, h2, h3⟩

/-! ### Claims about the command processor -/

theorem atmega128_distinct : atmega128.DistinctLabels := by
  unfold Config.DistinctLabels
  decide

theorem sessionWith_length (frame rx : List Nat) (h : frame.length ≤ 285) :
    (sessionWith frame rx).msgBuffer.length = 285 := by
  show (frame ++ List.replicate (285 - frame.length) 0xAA).length = 285
  rw [List.length_append, List.length_replicate]
  omega

/-- C3. For every load-address frame (opcode byte `CMD_LOAD_ADDRESS` in `msgBuffer[0]`):
the dispatch returns with a response of length 2; when the authenticated flag is not set
the target address is unchanged and the response payload is
`[CMD_LOAD_ADDRESS, STATUS_CMD_FAILED]`; when it is set the target address becomes the
word address of the payload shifted left by one, in the width of `address_t`
(payload bytes 1..4 with `RAMPZ`, bytes 3..4 without), and the response payload is
`[CMD_LOAD_ADDRESS, STATUS_CMD_OK]`. -/
theorem load_address_gated (cfg : Config) (s : Session) (hd : cfg.DistinctLabels)
    (hop : s.msgBuffer.getD 0 0 = cfg.CMD_LOAD_ADDRESS) (hlen : 2 ≤ s.msgBuffer.length) :
    ∃ s', dispatch cfg s = some s' ∧ s'.msgLength = 2 ∧
      (s.isAuthenticated ≠ 1 →
        s'.address = s.address ∧
        s'.msgBuffer.take 2 = [cfg.CMD_LOAD_ADDRESS, cfg.STATUS_CMD_FAILED]) ∧
      (s.isAuthenticated = 1 →
        s'.address =
          (if cfg.RAMPZ then
            (((s.msgBuffer.getD 1 0 <<< 24) ||| (s.msgBuffer.getD 2 0 <<< 16) |||
              (s.msgBuffer.getD 3 0 <<< 8) ||| s.msgBuffer.getD 4 0) <<< 1) % 2 ^ 32
          else (((s.msgBuffer.getD 3 0 <<< 8) ||| s.msgBuffer.getD 4 0) <<< 1) % 2 ^ 16) ∧
        s'.msgBuffer.take 2 = [cfg.CMD_LOAD_ADDRESS, cfg.STATUS_CMD_OK]) := by
  have htake : ∀ v, (s.msgBuffer.set 1 v).take 2 = [cfg.CMD_LOAD_ADDRESS, v] := by
    intro v
    match hm : s.msgBuffer, hlen, hop with
    | a :: b :: rest, _, hop =>
      simp only [List.getD_cons_zero] at hop
      simp [hop]
  refine ⟨case_CMD_LOAD_ADDRESS cfg s, dispatch_CMD_LOAD_ADDRESS cfg s hd hop, ?_, ?_, ?_⟩
  · unfold case_CMD_LOAD_ADDRESS replyFailed
    split <;> rfl
  · intro h
    unfold case_CMD_LOAD_ADDRESS replyFailed
    rw [if_neg h]
    exact ⟨rfl, htake _⟩
  · intro h
    unfold case_CMD_LOAD_ADDRESS
    rw [if_pos h]
    exact ⟨rfl, htake _⟩

/-- Witness for C3: a load-address frame in the initial (unauthenticated) state. -/
theorem load_address_gated_witness :
    ∃ s', dispatch atmega128 (sessionWith [0x06, 0, 0, 0x12, 0x34] []) = some s' ∧
      s'.msgLength = 2 ∧
      ((sessionWith [0x06, 0, 0, 0x12, 0x34] []).isAuthenticated ≠ 1 →
        s'.address = (sessionWith [0x06, 0, 0, 0x12, 0x34] []).address ∧
        s'.msgBuffer.take 2 = [atmega128.CMD_LOAD_ADDRESS, atmega128.STATUS_CMD_FAILED]) ∧
      ((sessionWith [0x06, 0, 0, 0x12, 0x34] []).isAuthenticated = 1 →
        s'.address =
          (if atmega128.RAMPZ then
            ((((sessionWith [0x06, 0, 0, 0x12, 0x34] []).msgBuffer.getD 1 0 <<< 24) |||
              ((sessionWith [0x06, 0, 0, 0x12, 0x34] []).msgBuffer.getD 2 0 <<< 16) |||
              ((sessionWith [0x06, 0, 0, 0x12, 0x34] []).msgBuffer.getD 3 0 <<< 8) |||
              (sessionWith [0x06, 0, 0, 0x12, 0x34] []).msgBuffer.getD 4 0) <<< 1) % 2 ^ 32
          else ((((sessionWith [0x06, 0, 0, 0x12, 0x34] []).msgBuffer.getD 3 0 <<< 8) |||
              (sessionWith [0x06, 0, 0, 0x12, 0x34] []).msgBuffer.getD 4 0) <<< 1) % 2 ^ 16) ∧
        s'.msgBuffer.take 2 = [atmega128.CMD_LOAD_ADDRESS, atmega128.STATUS_CMD_OK]) :=
  load_address_gated atmega128 (sessionWith [0x06, 0, 0, 0x12, 0x34] []) atmega128_distinct
    (by decide) (by rw [sessionWith_length _ _ (by decide)]; decide)

theorem getD_set4_zero (l : List Nat) (v0 v1 v2 v4 : Nat) (h : 0 < l.length) :
    ((((l.set 0 v0).set 1 v1).set 2 v2).set 4 v4).getD 0 0 = v0 := by
  rw [getD_set_ne _ _ (by decide), getD_set_ne _ _ (by decide), getD_set_ne _ _ (by decide),
    getD_set_eq _ h]

/-- C6. For every authenticate frame (opcode byte `CMD_AUTH` in `msgBuffer[0]`) and every
prior session state: when payload bytes 5..8 are 0x53, 0xEF, 0x34, 0x23 the authenticated
flag becomes 1, the response has length 5 and its status byte, `msgBuffer[0]`, is
`STATUS_CMD_OK`; otherwise the authenticated flag becomes 0 whatever it was, the response
has length 2 and its status byte, `msgBuffer[1]`, is `STATUS_CMD_FAILED`. -/
theorem authenticate_outcome (cfg : Config) (s : Session)
    (hop : s.msgBuffer.getD 0 0 = cfg.CMD_AUTH) (hlen : 2 ≤ s.msgBuffer.length) :
    ∃ s', dispatch cfg s = some s' ∧
      ((s.msgBuffer.getD 5 0 = 0x53 ∧ s.msgBuffer.getD 6 0 = 0xEF ∧
          s.msgBuffer.getD 7 0 = 0x34 ∧ s.msgBuffer.getD 8 0 = 0x23) →
        s'.isAuthenticated = 1 ∧ s'.msgLength = 5 ∧
        s'.msgBuffer.getD 0 0 = cfg.STATUS_CMD_OK) ∧
      (¬ (s.msgBuffer.getD 5 0 = 0x53 ∧ s.msgBuffer.getD 6 0 = 0xEF ∧
          s.msgBuffer.getD 7 0 = 0x34 ∧ s.msgBuffer.getD 8 0 = 0x23) →
        s'.isAuthenticated = 0 ∧ s'.msgLength = 2 ∧
        s'.msgBuffer.getD 1 0 = cfg.STATUS_CMD_FAILED) := by
  refine ⟨case_CMD_AUTH cfg s, dispatch_CMD_AUTH cfg s hop, ?_, ?_⟩
  · intro h
    have h' : s.msgBuffer.getD 5 0 = authenticationToken.getD 0 0 ∧
        s.msgBuffer.getD 6 0 = authenticationToken.getD 1 0 ∧
        s.msgBuffer.getD 7 0 = authenticationToken.getD 2 0 ∧
        s.msgBuffer.getD 8 0 = authenticationToken.getD 3 0 := h
    unfold case_CMD_AUTH
    rw [if_pos h']
    exact ⟨rfl, rfl, getD_set4_zero _ _ _ _ _ (by omega)⟩
  · intro h
    have h' : ¬ (s.msgBuffer.getD 5 0 = authenticationToken.getD 0 0 ∧
        s.msgBuffer.getD 6 0 = authenticationToken.getD 1 0 ∧
        s.msgBuffer.getD 7 0 = authenticationToken.getD 2 0 ∧
        s.msgBuffer.getD 8 0 = authenticationToken.getD 3 0) := h
    unfold case_CMD_AUTH
    rw [if_neg h']
    exact ⟨rfl, rfl, getD_set_eq _ (by omega)⟩

/-- Witness for C6: the authenticate frame of the end-to-end scenario. -/
theorem authenticate_outcome_witness :
    ∃ s', dispatch atmega128 (sessionWith [0x50, 1, 2, 3, 4, 0x53, 0xEF, 0x34, 0x23] [])
        = some s' ∧
      (((sessionWith [0x50, 1, 2, 3, 4, 0x53, 0xEF, 0x34, 0x23] []).msgBuffer.getD 5 0 = 0x53 ∧
          (sessionWith [0x50, 1, 2, 3, 4, 0x53, 0xEF, 0x34, 0x23] []).msgBuffer.getD 6 0 = 0xEF ∧
          (sessionWith [0x50, 1, 2, 3, 4, 0x53, 0xEF, 0x34, 0x23] []).msgBuffer.getD 7 0 = 0x34 ∧
          (sessionWith [0x50, 1, 2, 3, 4, 0x53, 0xEF, 0x34, 0x23] []).msgBuffer.getD 8 0 = 0x23) →
        s'.isAuthenticated = 1 ∧ s'.msgLength = 5 ∧
        s'.msgBuffer.getD 0 0 = atmega128.STATUS_CMD_OK) ∧
      (¬ ((sessionWith [0x50, 1, 2, 3, 4, 0x53, 0xEF, 0x34, 0x23] []).msgBuffer.getD 5 0 = 0x53 ∧
          (sessionWith [0x50, 1, 2, 3, 4, 0x53, 0xEF, 0x34, 0x23] []).msgBuffer.getD 6 0 = 0xEF ∧
          (sessionWith [0x50, 1, 2, 3, 4, 0x53, 0xEF, 0x34, 0x23] []).msgBuffer.getD 7 0 = 0x34 ∧
          (sessionWith [0x50, 1, 2, 3, 4, 0x53, 0xEF, 0x34, 0x23] []).msgBuffer.getD 8 0 = 0x23) →
        s'.isAuthenticated = 0 ∧ s'.msgLength = 2 ∧
        s'.msgBuffer.getD 1 0 = atmega128.STATUS_CMD_FAILED) :=
  authenticate_outcome atmega128 (sessionWith [0x50, 1, 2, 3, 4, 0x53, 0xEF, 0x34, 0x23] [])
    (by decide) (by rw [sessionWith_length _ _ (by decide)]; decide)

/-- One command in a state whose authenticated flag is not set: a dispatch that returns
has made no call of `boot_page_erase`, `boot_page_fill`, `boot_page_write` or
`eeprom_write_byte`, and has left the session-leave flag as it was. The read commands are
not gated and do not return when their size field takes them outside `msgBuffer`. -/
theorem unauthenticated_no_programming (cfg : Config) (s s' : Session)
    (hauth : s.isAuthenticated ≠ 1) (h : dispatch cfg s = some s') :
    (∃ evs, s'.hw = s.hw ++ evs ∧ ∀ e ∈ evs, e.isProgramming = false) ∧
      s'.isLeave = s.isLeave := by
  have quiet : ∀ t : Session, t.hw = s.hw → t.isLeave = s.isLeave →
      (∃ evs, t.hw = s.hw ++ evs ∧ ∀ e ∈ evs, e.isProgramming = false) ∧
        t.isLeave = s.isLeave :=
    fun t h1 h2 => ⟨⟨[], by rw [h1, List.append_nil], by simp⟩, h2⟩
  revert h
  refine dispatch_cases cfg s (fun r => r = some s' → _) ?_ ?_ ?_ ?_ ?_ ?_ ?_ ?_ ?_ ?_ ?_ ?_ ?_
  · intro _ h; cases h
    unfold case_CMD_AUTH
    split <;> exact quiet _ rfl rfl
  · intro _ h; cases h
    unfold case_CMD_SIGN_ON
    rw [if_neg hauth]
    exact quiet _ rfl rfl
  · intro _ h; cases h
    exact quiet _ rfl rfl
  · intro _ h; cases h
    unfold case_CMD_LEAVE_PROGMODE_ISP
    rw [if_neg hauth]
    exact quiet _ rfl rfl
  · intro _ h; cases h
    unfold case_CMD_ENTER_PROGMODE_ISP
    rw [if_neg hauth]
    exact quiet _ rfl rfl
  · intro _ h; cases h
    exact quiet _ rfl rfl
  · intro _ h; cases h
    exact ⟨⟨[HwEvent.boot_lock_fuse_bits_get cfg.GET_LOCK_BITS], rfl,
      by intro e hm; rw [List.mem_singleton.mp hm]; rfl⟩, rfl⟩
  · intro _ h; cases h
    exact ⟨⟨[HwEvent.boot_lock_fuse_bits_get _], rfl,
      by intro e hm; rw [List.mem_singleton.mp hm]; rfl⟩, rfl⟩
  · intro _ h; cases h
    exact quiet _ rfl rfl
  · intro _ h; cases h
    unfold case_CMD_LOAD_ADDRESS
    rw [if_neg hauth]
    exact quiet _ rfl rfl
  · intro _ h
    rw [case_CMD_PROGRAM_unauth cfg s hauth] at h
    cases h
    exact quiet _ rfl rfl
  · intro _ h
    obtain ⟨⟨evs, he, hq⟩, _, h3, _⟩ := case_CMD_READ_effect cfg s s' h
    refine ⟨⟨evs, he, ?_⟩, h3⟩
    intro e hm
    rcases hq e hm with ⟨a, rfl⟩ | ⟨a, rfl⟩ <;> rfl
  · intro _ _ h; cases h
    exact quiet _ rfl rfl

/-- The step lemma on a program-flash frame in the initial (unauthenticated) state. -/
theorem unauthenticated_no_programming_witness :
    (∃ evs, (replyFailed atmega128 (sessionWith [0x13, 0, 2] [])).hw =
        (sessionWith [0x13, 0, 2] []).hw ++ evs ∧ ∀ e ∈ evs, e.isProgramming = false) ∧
      (replyFailed atmega128 (sessionWith [0x13, 0, 2] [])).isLeave =
        (sessionWith [0x13, 0, 2] []).isLeave :=
  unauthenticated_no_programming atmega128 (sessionWith [0x13, 0, 2] [])
    (replyFailed atmega128 (sessionWith [0x13, 0, 2] [])) (by decide)
    ((dispatch_CMD_PROGRAM_FLASH_ISP atmega128 _ atmega128_distinct (by decide)).trans
      (case_CMD_PROGRAM_unauth atmega128 _ (by decide)))

/-! ### What the other phases of a cycle leave alone -/

theorem SameCore.refl (s : Session) : SameCore s s :=
  ⟨rfl, rfl, rfl, rfl, rfl, rfl, rfl, rfl, rfl⟩

theorem SameCore.trans {s t u : Session} (h₁ : SameCore s t) (h₂ : SameCore t u) :
    SameCore s u := by
  obtain ⟨a1, a2, a3, a4, a5, a6, a7, a8, a9⟩ := h₁
  obtain ⟨b1, b2, b3, b4, b5, b6, b7, b8, b9⟩ := h₂
  exact ⟨b1.trans a1, b2.trans a2, b3.trans a3, b4.trans a4, b5.trans a5, b6.trans a6,
    b7.trans a7, b8.trans a8, b9.trans a9⟩

theorem getData_SameCore {s t : Session} {c : Nat} (h : getData s = some (c, t)) :
    SameCore s t := by
  unfold getData at h
  split at h
  · cases h
  · split at h <;> (cases h; exact SameCore.refl _)

theorem recvLoop_SameCore (cfg : Config) (fuel : Nat) :
    ∀ (st idx : Nat) (s t : Session), recvLoop cfg fuel st idx s = some t → SameCore s t := by
  induction fuel with
  | zero => intro st idx s t h; simp [recvLoop] at h
  | succ k ih =>
    intro st idx s t h
    simp only [recvLoop] at h
    split at h
    · cases h; exact SameCore.refl _
    · split at h
      · cases h
      · rename_i c s1 hg
        have g1 := getData_SameCore hg
        split at h
        · split at h <;> exact g1.trans (ih _ _ _ _ h)
        · split at h
          · split at h
            · cases h
            · rename_i lowest s2 hg2
              have hi := ih _ _ _ _ h
              exact (g1.trans (getData_SameCore hg2)).trans (SameCore.trans ⟨rfl, rfl, rfl, rfl, rfl, rfl, rfl, rfl, rfl⟩ hi)
          · split at h
            · split at h
              · split at h
                · cases h
                · have hi := ih _ _ _ _ h
                  exact g1.trans (SameCore.trans ⟨rfl, rfl, rfl, rfl, rfl, rfl, rfl, rfl, rfl⟩ hi)
              · exact g1.trans (ih _ _ _ _ h)
            · exact g1.trans (ih _ _ _ _ h)

theorem recvPacket_SameCore {cfg : Config} {s t : Session} (h : recvPacket cfg s = some t) :
    SameCore s t := recvLoop_SameCore cfg _ _ _ _ _ h

theorem decryptPacket_SameCore {s t : Session} (h : decryptPacket s = some t) :
    SameCore s t := by
  unfold decryptPacket at h
  split at h
  · cases h
  · cases h; exact SameCore.refl _

theorem parseStep_SameCore {cfg : Config} {c : Nat} {s t : Session}
    (h : parseStep cfg c s = some t) : SameCore s t := by
  unfold parseStep at h
  dsimp only at h
  split at h
  · cases h
  · rename_i u hu
    cases h
    refine SameCore.trans ?_ (SameCore.refl _)
    repeat' (split at hu)
    all_goals first
      | (cases hu; exact SameCore.refl _)
      | cases hu

theorem parseBytes_SameCore (cfg : Config) (bytes : List Nat) :
    ∀ (s t : Session), parseBytes cfg bytes s = some t → SameCore s t := by
  induction bytes with
  | nil =>
    intro s t h
    simp only [parseBytes] at h
    split at h
    · cases h; exact SameCore.refl _
    · cases h
  | cons c rest ih =>
    intro s t h
    simp only [parseBytes] at h
    split at h
    · cases h; exact SameCore.refl _
    · split at h
      · cases h
      · rename_i u hu
        exact (parseStep_SameCore hu).trans (ih _ _ h)

theorem parseFrame_SameCore {cfg : Config} {s t : Session} (h : parseFrame cfg s = some t) :
    SameCore s t := by
  unfold parseFrame at h
  have hi := parseBytes_SameCore cfg _ _ _ h
  exact SameCore.trans ⟨rfl, rfl, rfl, rfl, rfl, rfl, rfl, rfl, rfl⟩ hi

theorem copyLoop_SameCore (n : Nat) :
    ∀ (p : Nat) (s t : Session), copyLoop n p s = some t → SameCore s t := by
  induction n with
  | zero => intro p s t h; simp only [copyLoop] at h; cases h; exact SameCore.refl _
  | succ k ih =>
    intro p s t h
    simp only [copyLoop] at h
    split at h
    · cases h
    · split at h
      · cases h
      · have hi := ih _ _ _ h
        exact SameCore.trans ⟨rfl, rfl, rfl, rfl, rfl, rfl, rfl, rfl, rfl⟩ hi

theorem assembleResponse_SameCore {cfg : Config} {s t : Session} {n : Nat}
    (h : assembleResponse cfg s = some (n, t)) : SameCore s t := by
  unfold assembleResponse at h
  split at h
  · cases h
  split at h
  · cases h
  dsimp only at h
  split at h
  · cases h
  split at h
  · cases h
  split at h
  · cases h
  split at h
  · cases h
  split at h
  · cases h
  rename_i u hu
  split at h
  · cases h
  cases h
  have hc := copyLoop_SameCore _ _ _ _ hu
  exact SameCore.trans ⟨rfl, rfl, rfl, rfl, rfl, rfl, rfl, rfl, rfl⟩
    (SameCore.trans hc ⟨rfl, rfl, rfl, rfl, rfl, rfl, rfl, rfl, rfl⟩)

theorem respond_SameCore {cfg : Config} {s t : Session} {n : Nat}
    (h : respond cfg s = some (n, t)) : SameCore s t := by
  unfold respond at h
  split at h
  · cases h
  rename_i m u hu
  have hc := assembleResponse_SameCore hu
  split at h
  · cases h
  dsimp only at h
  split at h
  · cases h
    exact SameCore.trans hc ⟨rfl, rfl, rfl, rfl, rfl, rfl, rfl, rfl, rfl⟩
  · cases h

/-! ### Page erase and page write -/

/-- The `boot_page_erase` calls of a program-flash command whose dispatch returns: each is
at the erase cursor, and is made only when the cursor is strictly below `APP_END`. -/
theorem program_flash_erase_events (cfg : Config) (s s' : Session) (hd : cfg.DistinctLabels)
    (hop : s.msgBuffer.getD 0 0 = cfg.CMD_PROGRAM_FLASH_ISP)
    (h : dispatch cfg s = some s') :
    ∃ evs, s'.hw = s.hw ++ evs ∧
      ∀ a, HwEvent.boot_page_erase a ∈ evs →
        a = s.eraseAddress ∧ s.eraseAddress < cfg.APP_END ∧ a < cfg.APP_END := by
  rw [dispatch_CMD_PROGRAM_FLASH_ISP cfg s hd hop] at h
  by_cases hauth : s.isAuthenticated = 1
  · obtain ⟨fills, hf, hhw, _⟩ := case_CMD_PROGRAM_flash cfg s s' hauth hop h
    refine ⟨_, by rw [hhw, List.append_assoc, List.append_assoc], ?_⟩
    intro a ha
    rcases List.mem_append.mp ha with ha | ha
    · split at ha
      · rename_i hlt
        rcases List.mem_cons.mp ha with ha | ha
        · cases ha
          exact ⟨rfl, hlt, hlt⟩
        · simp at ha
      · simp at ha
    · rcases List.mem_append.mp ha with ha | ha
      · have := hf _ ha
        simp [HwEvent.isFill] at this
      · simp at ha
  · rw [case_CMD_PROGRAM_unauth cfg s hauth] at h
    cases h
    exact ⟨[], by simp [replyFailed], by simp⟩

/-- What the code does for an authenticated program-flash command whose target address is
at or beyond `APP_END`, for every value of the erase cursor: a dispatch that returns has
made these hardware calls, in this order: when the cursor is below `APP_END`
a `boot_page_erase` at the cursor (so below `APP_END` and below the target address)
followed by a busy-wait, and none otherwise; then page-buffer fills; then
`boot_page_write` at the target address, a busy-wait and `boot_rww_enable`. The page write
is not guarded by `APP_END`. -/
theorem program_flash_beyond_APP_END (cfg : Config) (s s' : Session) (hd : cfg.DistinctLabels)
    (hauth : s.isAuthenticated = 1)
    (hop : s.msgBuffer.getD 0 0 = cfg.CMD_PROGRAM_FLASH_ISP)
    (haddr : cfg.APP_END ≤ s.address) (h : dispatch cfg s = some s') :
    ∃ fills, (∀ e ∈ fills, e.isFill = true) ∧
      s'.hw = s.hw ++
        (if s.eraseAddress < cfg.APP_END then
          [HwEvent.boot_page_erase s.eraseAddress, HwEvent.boot_spm_busy_wait] else []) ++
        fills ++
        [HwEvent.boot_page_write s.address, HwEvent.boot_spm_busy_wait,
          HwEvent.boot_rww_enable] ∧
      (s.eraseAddress < cfg.APP_END → s.eraseAddress < s.address) := by
  rw [dispatch_CMD_PROGRAM_FLASH_ISP cfg s hd hop] at h
  obtain ⟨fills, hf, hhw, _⟩ := case_CMD_PROGRAM_flash cfg s s' hauth hop h
  exact ⟨fills, hf, hhw, fun hlt => Nat.lt_of_lt_of_le hlt haddr⟩

/-- The trace lemma on a two-byte program-flash command at `APP_END`. -/
theorem program_flash_beyond_APP_END_witness :
    ∃ s', dispatch atmega128
        (authedAt 0x1C000 [0x13, 0, 2, 0xC1, 0x0A, 0x40, 0x4C, 0x20, 0, 0, 0x0C, 0x94]) = some s' ∧
      ∃ fills, (∀ e ∈ fills, e.isFill = true) ∧
        s'.hw =
          (authedAt 0x1C000 [0x13, 0, 2, 0xC1, 0x0A, 0x40, 0x4C, 0x20, 0, 0, 0x0C, 0x94]).hw ++
          (if (authedAt 0x1C000
                [0x13, 0, 2, 0xC1, 0x0A, 0x40, 0x4C, 0x20, 0, 0, 0x0C, 0x94]).eraseAddress <
              atmega128.APP_END then
            [HwEvent.boot_page_erase (authedAt 0x1C000
                [0x13, 0, 2, 0xC1, 0x0A, 0x40, 0x4C, 0x20, 0, 0, 0x0C, 0x94]).eraseAddress,
              HwEvent.boot_spm_busy_wait] else []) ++
          fills ++
          [HwEvent.boot_page_write (authedAt 0x1C000
              [0x13, 0, 2, 0xC1, 0x0A, 0x40, 0x4C, 0x20, 0, 0, 0x0C, 0x94]).address,
            HwEvent.boot_spm_busy_wait, HwEvent.boot_rww_enable] ∧
        ((authedAt 0x1C000
              [0x13, 0, 2, 0xC1, 0x0A, 0x40, 0x4C, 0x20, 0, 0, 0x0C, 0x94]).eraseAddress <
            atmega128.APP_END →
          (authedAt 0x1C000
              [0x13, 0, 2, 0xC1, 0x0A, 0x40, 0x4C, 0x20, 0, 0, 0x0C, 0x94]).eraseAddress <
          (authedAt 0x1C000
              [0x13, 0, 2, 0xC1, 0x0A, 0x40, 0x4C, 0x20, 0, 0, 0x0C, 0x94]).address) := by
  have h0 : (dispatch atmega128
      (authedAt 0x1C000 [0x13, 0, 2, 0xC1, 0x0A, 0x40, 0x4C, 0x20, 0, 0, 0x0C, 0x94])).isSome
      = true := by decide!
  obtain ⟨s', hs⟩ := Option.isSome_iff_exists.mp h0
  exact ⟨s', hs, program_flash_beyond_APP_END atmega128 _ s' atmega128_distinct (by decide)
    (by decide) (by decide) hs⟩

/-- C8 fails on the code. After authenticate and load-address of word address 0xE000 (byte
address 0x1C000 = `APP_END` of the ATmega128), a program-flash command of two bytes
erases page 0 (`boot_page_erase` at the erase cursor) and commits the page at 0x1C000
(`boot_page_write` at the target address), inside the protected region: the only guard
of the case, `eraseAddress < APP_END`, looks at the erase cursor, and nothing looks at
the target address. -/
theorem program_flash_at_APP_END_commits :
    atmega128.APP_END = 0x1C000 ∧
    (runFrames atmega128
        [[0x50, 1, 2, 3, 4, 0x53, 0xEF, 0x34, 0x23], [0x06, 0, 0, 0xE0, 0x00],
         [0x13, 0, 2, 0xC1, 0x0A, 0x40, 0x4C, 0x20, 0, 0, 0x0C, 0x94]]
        (sessionWith [] [])).map (fun s => s.hw) =
      some [HwEvent.boot_page_erase 0, HwEvent.boot_spm_busy_wait,
        HwEvent.boot_page_fill 0x1C000 0x940C, HwEvent.boot_page_write 0x1C000,
        HwEvent.boot_spm_busy_wait, HwEvent.boot_rww_enable] := by
  decide!

/-- C5 fails on the code for the five read opcodes: in the initial, unauthenticated state
read-signature, read-lock, read-fuse, read-flash and read-eeprom are served. Each line
gives the first bytes of the response payload (the second is `STATUS_CMD_OK = 0x00`, not
`STATUS_CMD_FAILED = 0xC0`), its length, the target address afterwards and the hardware
calls made: read-flash and read-eeprom read memory and advance the target address. -/
theorem unauthenticated_reads_served :
    (dispatch atmega128 (sessionWith [0x1B, 0, 0, 0, 0] [])).map
        (fun s => (s.msgBuffer.take 4, s.msgLength, s.address, s.hw)) =
      some ([0x1B, 0x00, 0x1E, 0x00], 4, 0, []) ∧
    (dispatch atmega128 (sessionWith [0x1A, 0, 0, 0] [])).map
        (fun s => (s.msgBuffer.take 4, s.msgLength, s.address, s.hw)) =
      some ([0x1A, 0x00, 0xFF, 0x00], 4, 0, [HwEvent.boot_lock_fuse_bits_get 1]) ∧
    (dispatch atmega128 (sessionWith [0x18, 0, 0x50, 0x08] [])).map
        (fun s => (s.msgBuffer.take 4, s.msgLength, s.address, s.hw)) =
      some ([0x18, 0x00, 0xFF, 0x00], 4, 0, [HwEvent.boot_lock_fuse_bits_get 2]) ∧
    (dispatch atmega128 (sessionWith [0x14, 0, 2] [])).map
        (fun s => (s.msgBuffer.take 5, s.msgLength, s.address, s.hw)) =
      some ([0x14, 0x00, 0xFF, 0xFF, 0x00], 5, 2, [HwEvent.pgm_read_word 0]) ∧
    (dispatch atmega128 (sessionWith [0x16, 0, 1] [])).map
        (fun s => (s.msgBuffer.take 4, s.msgLength, s.address, s.hw)) =
      some ([0x16, 0x00, 0xFF, 0x00], 4, 1, [HwEvent.eeprom_read 0]) ∧
    (sessionWith [0x14, 0, 2] []).isAuthenticated = 0 := by
  refine ⟨?_, ?_, ?_, ?_, ?_, ?_⟩ <;> decide!

/-- Counterexample to C10 as stated: after authenticate and one program-flash command the
erase cursor is 256; a chip-erase command then brings it back to 0. -/
theorem chip_erase_resets_cursor :
    (runFrames atmega128
        [[0x50, 1, 2, 3, 4, 0x53, 0xEF, 0x34, 0x23],
         [0x13, 0, 2, 0xC1, 0x0A, 0x40, 0x4C, 0x20, 0, 0, 0x0C, 0x94]]
        (sessionWith [] [])).map (fun s => s.eraseAddress) = some 256 ∧
    (runFrames atmega128
        [[0x50, 1, 2, 3, 4, 0x53, 0xEF, 0x34, 0x23],
         [0x13, 0, 2, 0xC1, 0x0A, 0x40, 0x4C, 0x20, 0, 0, 0x0C, 0x94], [0x12]]
        (sessionWith [] [])).map (fun s => s.eraseAddress) = some 0 := by
  decide!

/-! ### The erase cursor -/

theorem eraseStep_cursor (cfg : Config) (s : Session) (hpage : cfg.SPM_PAGESIZE ∣ cfg.APP_END)
    (hfit : cfg.APP_END < cfg.addrMod)
    (hinv : s.eraseAddress ≤ cfg.APP_END ∧ cfg.SPM_PAGESIZE ∣ s.eraseAddress) :
    ((eraseStep cfg s).eraseAddress ≤ cfg.APP_END ∧
      cfg.SPM_PAGESIZE ∣ (eraseStep cfg s).eraseAddress) ∧
    s.eraseAddress ≤ (eraseStep cfg s).eraseAddress := by
  unfold eraseStep
  split
  · rename_i hlt
    obtain ⟨a, ha⟩ := hpage
    obtain ⟨b, hb⟩ := hinv.2
    have hba : b < a := by
      rw [ha, hb] at hlt
      exact Nat.lt_of_mul_lt_mul_left hlt
    have hle : s.eraseAddress + cfg.SPM_PAGESIZE ≤ cfg.APP_END := by
      rw [ha, hb]
      calc cfg.SPM_PAGESIZE * b + cfg.SPM_PAGESIZE = cfg.SPM_PAGESIZE * (b + 1) := by ring
        _ ≤ cfg.SPM_PAGESIZE * a := Nat.mul_le_mul_left _ hba
    have hmod : (s.eraseAddress + cfg.SPM_PAGESIZE) % cfg.addrMod =
        s.eraseAddress + cfg.SPM_PAGESIZE := Nat.mod_eq_of_lt (by omega)
    show ((s.eraseAddress + cfg.SPM_PAGESIZE) % cfg.addrMod ≤ cfg.APP_END ∧
      cfg.SPM_PAGESIZE ∣ (s.eraseAddress + cfg.SPM_PAGESIZE) % cfg.addrMod) ∧
      s.eraseAddress ≤ (s.eraseAddress + cfg.SPM_PAGESIZE) % cfg.addrMod
    rw [hmod]
    exact ⟨⟨hle, Dvd.dvd.add hinv.2 (dvd_refl _)⟩, Nat.le_add_right _ _⟩
  · exact ⟨hinv, Nat.le_refl _⟩

/-- What a dispatch does to the erase cursor: it leaves it alone, or it is the erase step
of a program-flash command, or it is a chip-erase that sets it to 0. -/
theorem dispatch_eraseAddress (cfg : Config) (s s' : Session) (h : dispatch cfg s = some s') :
    s'.eraseAddress = s.eraseAddress ∨ s'.eraseAddress = (eraseStep cfg s).eraseAddress ∨
      (s.msgBuffer.getD 0 0 = cfg.CMD_CHIP_ERASE_ISP ∧ s'.eraseAddress = 0 ∧
        s'.msgBuffer.getD 0 0 = cfg.CMD_CHIP_ERASE_ISP) := by
  revert h
  refine dispatch_cases cfg s (fun r => r = some s' → _) ?_ ?_ ?_ ?_ ?_ ?_ ?_ ?_ ?_ ?_ ?_ ?_ ?_
  · intro _ h; cases h
    unfold case_CMD_AUTH
    split <;> exact Or.inl rfl
  · intro _ h; cases h
    unfold case_CMD_SIGN_ON replyFailed
    split <;> exact Or.inl rfl
  · intro _ h; cases h
    exact Or.inl rfl
  · intro _ h; cases h
    unfold case_CMD_LEAVE_PROGMODE_ISP replyFailed
    split <;> exact Or.inl rfl
  · intro _ h; cases h
    unfold case_CMD_ENTER_PROGMODE_ISP replyFailed
    split <;> exact Or.inl rfl
  · intro _ h; cases h
    exact Or.inl rfl
  · intro _ h; cases h
    exact Or.inl rfl
  · intro _ h; cases h
    exact Or.inl rfl
  · intro hc h; cases h
    refine Or.inr (Or.inr ⟨hc, rfl, ?_⟩)
    show (s.msgBuffer.set 1 cfg.STATUS_CMD_FAILED).getD 0 0 = _
    rw [getD_set_ne _ _ (by decide)]
    exact hc
  · intro _ h; cases h
    unfold case_CMD_LOAD_ADDRESS replyFailed
    split <;> exact Or.inl rfl
  · intro _ h
    by_cases hauth : s.isAuthenticated = 1
    · by_cases hop : s.msgBuffer.getD 0 0 = cfg.CMD_PROGRAM_FLASH_ISP
      · obtain ⟨_, _, _, he, _⟩ := case_CMD_PROGRAM_flash cfg s s' hauth hop h
        exact Or.inr (Or.inl he)
      · obtain ⟨_, he, _⟩ := case_CMD_PROGRAM_eeprom cfg s s' hauth hop h
        exact Or.inl he
    · rw [case_CMD_PROGRAM_unauth cfg s hauth] at h
      cases h
      exact Or.inl rfl
  · intro _ h
    obtain ⟨_, he, _⟩ := case_CMD_READ_effect cfg s s' h
    exact Or.inl he
  · intro _ _ h; cases h
    exact Or.inl rfl

theorem copyLoop_msgBuffer (n : Nat) :
    ∀ (p : Nat) (s t : Session), copyLoop n p s = some t → t.msgBuffer = s.msgBuffer := by
  induction n with
  | zero => intro p s t h; simp only [copyLoop] at h; cases h; rfl
  | succ k ih =>
    intro p s t h
    simp only [copyLoop] at h
    split at h
    · cases h
    · split at h
      · cases h
      · have hi := ih _ _ _ h
        exact hi

theorem assembleResponse_msgBuffer {cfg : Config} {s t : Session} {n : Nat}
    (h : assembleResponse cfg s = some (n, t)) : t.msgBuffer = s.msgBuffer := by
  unfold assembleResponse at h
  split at h
  · cases h
  split at h
  · cases h
  dsimp only at h
  split at h
  · cases h
  split at h
  · cases h
  split at h
  · cases h
  split at h
  · cases h
  split at h
  · cases h
  rename_i u hu
  split at h
  · cases h
  cases h
  have hc := copyLoop_msgBuffer _ _ _ _ hu
  exact hc

theorem respond_msgBuffer {cfg : Config} {s t : Session} {n : Nat}
    (h : respond cfg s = some (n, t)) : t.msgBuffer = s.msgBuffer := by
  unfold respond at h
  split at h
  · cases h
  rename_i m u hu
  have hc := assembleResponse_msgBuffer hu
  split at h
  · cases h
  dsimp only at h
  split at h
  · cases h
    exact hc
  · cases h

/-- One pass through the session loop, as far as the erase cursor goes. -/
theorem sessionCycle_eraseAddress (cfg : Config) (s t : Session)
    (h : sessionCycle cfg s = some t) :
    t.eraseAddress = s.eraseAddress ∨ t.eraseAddress = (eraseStep cfg s).eraseAddress ∨
      (t.eraseAddress = 0 ∧ t.msgBuffer.getD 0 0 = cfg.CMD_CHIP_ERASE_ISP) := by
  unfold sessionCycle at h
  split at h
  · cases h
  rename_i s1 h1
  split at h
  · cases h
  rename_i s2 h2
  split at h
  · cases h
  rename_i s3 h3
  split at h
  · cases h
  rename_i s4 h4
  split at h
  · cases h
  rename_i n s5 h5
  cases h
  have c13 : SameCore s s3 :=
    ((recvPacket_SameCore h1).trans (decryptPacket_SameCore h2)).trans (parseFrame_SameCore h3)
  have c45 : SameCore s4 t := respond_SameCore h5
  have e3 : s3.eraseAddress = s.eraseAddress := c13.1
  have e5 : t.eraseAddress = s4.eraseAddress := c45.1
  have hstep : (eraseStep cfg s3).eraseAddress = (eraseStep cfg s).eraseAddress := by
    unfold eraseStep
    rw [e3]
    split <;> simp [e3]
  rcases dispatch_eraseAddress cfg s3 s4 h4 with hd | hd | ⟨_, hd, hm⟩
  · exact Or.inl (by rw [e5, hd, e3])
  · exact Or.inr (Or.inl (by rw [e5, hd, hstep]))
  · exact Or.inr (Or.inr ⟨by rw [e5, hd], by rw [respond_msgBuffer h5]; exact hm⟩)

/-- The erase cursor along the passes of the session loop. `APP_END` being a multiple of
the page size and within the range of `address_t`: in every state that the session loop
reaches from the initial state, the erase cursor is a multiple of the page size and does
not exceed `APP_END`; and in every further pass of the loop the cursor does not decrease,
unless the command of that pass is chip-erase, which sets the cursor to 0. -/
theorem eraseAddress_reachable (cfg : Config) (hpage : cfg.SPM_PAGESIZE ∣ cfg.APP_END)
    (hfit : cfg.APP_END < cfg.addrMod) (stack : List Nat) (flash eeprom fuses : Nat → Nat)
    (rx : List Nat) (s : Session)
    (hr : Reachable cfg (Session.init stack flash eeprom fuses rx) s) :
    (s.eraseAddress ≤ cfg.APP_END ∧ cfg.SPM_PAGESIZE ∣ s.eraseAddress) ∧
    ∀ t, sessionCycle cfg s = some t →
      s.eraseAddress ≤ t.eraseAddress ∨
        (t.eraseAddress = 0 ∧ t.msgBuffer.getD 0 0 = cfg.CMD_CHIP_ERASE_ISP) := by
  have hinv : s.eraseAddress ≤ cfg.APP_END ∧ cfg.SPM_PAGESIZE ∣ s.eraseAddress := by
    induction hr with
    | start => exact ⟨Nat.zero_le _, dvd_zero _⟩
    | cycle hr' _ hc ih =>
      rcases sessionCycle_eraseAddress cfg _ _ hc with he | he | ⟨he, _⟩
      · rw [he]; exact ih
      · rw [he]; exact (eraseStep_cursor cfg _ hpage hfit ih).1
      · rw [he]; exact ⟨Nat.zero_le _, dvd_zero _⟩
  refine ⟨hinv, ?_⟩
  intro t ht
  rcases sessionCycle_eraseAddress cfg _ _ ht with he | he | he
  · exact Or.inl (by rw [he])
  · exact Or.inl (by rw [he]; exact (eraseStep_cursor cfg _ hpage hfit hinv).2)
  · exact Or.inr he

/-! ### Test vectors and the end-to-end scenario -/

/-- On the firmware key `KeyExpansion` yields `expandedKey`. -/
theorem KeyExpansion_key : KeyExpansion key (List.replicate 176 0) = expandedKey := by
  decide!

theorem Cipher_fips197 :
    Cipher expandedKey
        [0x32, 0x43, 0xf6, 0xa8, 0x88, 0x5a, 0x30, 0x8d, 0x31, 0x31, 0x98, 0xa2, 0xe0, 0x37,
          0x07, 0x34] =
      [0x39, 0x25, 0x84, 0x1d, 0x02, 0xdc, 0x09, 0xfb, 0xdc, 0x11, 0x85, 0x97, 0x19, 0x6a,
        0x0b, 0x32] := by
  decide!

theorem InvCipher_fips197 :
    InvCipher expandedKey
        [0x39, 0x25, 0x84, 0x1d, 0x02, 0xdc, 0x09, 0xfb, 0xdc, 0x11, 0x85, 0x97, 0x19, 0x6a,
          0x0b, 0x32] =
      [0x32, 0x43, 0xf6, 0xa8, 0x88, 0x5a, 0x30, 0x8d, 0x31, 0x31, 0x98, 0xa2, 0xe0, 0x37,
        0x07, 0x34] := by
  decide!

/-- C2. With the key embedded in the firmware, whatever the static round-key array held
before, `KeyExpansion` followed by `Cipher` maps the block
3243f6a8885a308d313198a2e0370734 to 3925841d02dc09fbdc118597196a0b32 (FIPS-197,
Appendix B), and `InvCipher` with the same schedule maps that block back. -/
theorem fips197_appendix_B (rk0 : List Nat) (h : rk0.length = 176) :
    Cipher (KeyExpansion key rk0)
        [0x32, 0x43, 0xf6, 0xa8, 0x88, 0x5a, 0x30, 0x8d, 0x31, 0x31, 0x98, 0xa2, 0xe0, 0x37,
          0x07, 0x34] =
      [0x39, 0x25, 0x84, 0x1d, 0x02, 0xdc, 0x09, 0xfb, 0xdc, 0x11, 0x85, 0x97, 0x19, 0x6a,
        0x0b, 0x32] ∧
    InvCipher (KeyExpansion key rk0)
        [0x39, 0x25, 0x84, 0x1d, 0x02, 0xdc, 0x09, 0xfb, 0xdc, 0x11, 0x85, 0x97, 0x19, 0x6a,
          0x0b, 0x32] =
      [0x32, 0x43, 0xf6, 0xa8, 0x88, 0x5a, 0x30, 0x8d, 0x31, 0x31, 0x98, 0xa2, 0xe0, 0x37,
        0x07, 0x34] := by
  rw [KeyExpansion_indep key h (List.length_replicate 176 0), KeyExpansion_key]
  exact ⟨Cipher_fips197, InvCipher_fips197⟩

/-- Witness for C2: the zero-initialised static array `RoundKey[176]`. -/
theorem fips197_appendix_B_witness :
    Cipher (KeyExpansion key (List.replicate 176 0))
        [0x32, 0x43, 0xf6, 0xa8, 0x88, 0x5a, 0x30, 0x8d, 0x31, 0x31, 0x98, 0xa2, 0xe0, 0x37,
          0x07, 0x34] =
      [0x39, 0x25, 0x84, 0x1d, 0x02, 0xdc, 0x09, 0xfb, 0xdc, 0x11, 0x85, 0x97, 0x19, 0x6a,
        0x0b, 0x32] ∧
    InvCipher (KeyExpansion key (List.replicate 176 0))
        [0x39, 0x25, 0x84, 0x1d, 0x02, 0xdc, 0x09, 0xfb, 0xdc, 0x11, 0x85, 0x97, 0x19, 0x6a,
          0x0b, 0x32] =
      [0x32, 0x43, 0xf6, 0xa8, 0x88, 0x5a, 0x30, 0x8d, 0x31, 0x31, 0x98, 0xa2, 0xe0, 0x37,
        0x07, 0x34] :=
  fips197_appendix_B (List.replicate 176 0) (List.length_replicate 176 0)

/-- The first CBC block of the authenticate frame of the end-to-end scenario. -/
theorem cbcEnc_auth_frame :
    cbcEnc expandedKey 1 iv
        [0x1B, 1, 0x00, 0x09, 0x0E, 0x50, 1, 2, 3, 4, 0x53, 0xEF, 0x34, 0x23, 0xE2, 0xFF] =
      [0x75, 0x5d, 0x13, 0x43, 0x2c, 0xfd, 0x88, 0x18, 0x46, 0x65, 0x92, 0xe1, 0x80, 0xdf,
        0xdb, 0x57] := by
  decide!

/-- C7 fails on the code. The sixteen bytes 755d…db57 are the CBC encryption, under the
firmware key and chaining value, of the authenticate frame
`[0x1B, 1, 0x00, 0x09, 0x0E, 0x50, 1, 2, 3, 4, 0x53, 0xEF, 0x34, 0x23, checksum 0xE2]`
padded with 0xFF. When the transport delivers exactly the packet
`[SOTA_MESSAGE_START, 0x00, 0x10]` followed by these sixteen bytes, the session cycle
does not complete: the receive loop asks for one more byte after the last ciphertext
byte, so nothing is decrypted, dispatched or transmitted. -/
theorem auth_packet_needs_one_more_byte :
    (aes_encrypt key iv
        ⟨List.replicate 176 0, IvRef.iv, List.replicate 16 0,
          [0x1B, 1, 0x00, 0x09, 0x0E, 0x50, 1, 2, 3, 4, 0x53, 0xEF, 0x34, 0x23, 0xE2, 0xFF]⟩
        16).map (fun m => m.output) =
      some [0x75, 0x5d, 0x13, 0x43, 0x2c, 0xfd, 0x88, 0x18, 0x46, 0x65, 0x92, 0xe1, 0x80, 0xdf,
        0xdb, 0x57] ∧
    (sessionCycle atmega128 (sessionWith []
        [0x1C, 0x00, 0x10, 0x75, 0x5d, 0x13, 0x43, 0x2c, 0xfd, 0x88, 0x18, 0x46, 0x65, 0x92,
          0xe1, 0x80, 0xdf, 0xdb, 0x57])).isNone = true := by
  constructor
  · obtain ⟨e, he, _, heo⟩ := aes_encrypt_spec key iv (List.replicate 176 0) IvRef.iv
      (List.replicate 16 0)
      [0x1B, 1, 0x00, 0x09, 0x0E, 0x50, 1, 2, 3, 4, 0x53, 0xEF, 0x34, 0x23, 0xE2, 0xFF] [] 1
      rfl (by decide) (by decide)
    rw [KeyExpansion_key, cbcEnc_auth_frame] at heo
    have he2 : aes_encrypt key iv
        ⟨List.replicate 176 0, IvRef.iv, List.replicate 16 0,
          [0x1B, 1, 0x00, 0x09, 0x0E, 0x50, 1, 2, 3, 4, 0x53, 0xEF, 0x34, 0x23, 0xE2, 0xFF]⟩
        16 = some e := he
    rw [he2, Option.map_some', heo]
    rfl
  · decide!

/-! ### The framer -/

theorem parseBytes_eq_parseRun (cfg : Config) (l : List Nat) :
    ∀ s : Session, parseBytes cfg l s =
      match parseRun cfg l s with
      | none => none
      | some t => if t.msgParseState = ST_PROCESS then some t else none := by
  induction l with
  | nil => intro s; simp only [parseBytes, parseRun]
  | cons c rest ih =>
    intro s
    simp only [parseBytes, parseRun]
    split
    · rename_i h; simp only [h, if_true]
    · split
      · rfl
      · exact ih _

theorem parseRun_append (cfg : Config) (l₁ l₂ : List Nat) :
    ∀ s : Session, parseRun cfg (l₁ ++ l₂) s =
      match parseRun cfg l₁ s with
      | none => none
      | some t => parseRun cfg l₂ t := by
  induction l₁ with
  | nil => intro s; simp only [List.nil_append, parseRun]
  | cons c rest ih =>
    intro s
    simp only [List.cons_append, parseRun]
    split
    · rename_i h
      cases l₂ with
      | nil => simp only [parseRun]
      | cons d l => simp only [parseRun, h, if_true]
    · split
      · rfl
      · exact ih _

/-- In `ST_START` a byte other than `MESSAGE_START` is discarded. -/
theorem parseStep_start_other (cfg : Config) (c : Nat) (s : Session)
    (hst : s.msgParseState = ST_START) (hc : c ≠ cfg.MESSAGE_START) :
    parseStep cfg c s =
      some { s with receivedPacketIndex := (s.receivedPacketIndex + 1) % 65536 } := by
  simp only [parseStep, hst, if_true, if_neg hc]

/-- Bytes without a start marker only advance the read index. -/
theorem parseRun_garbage (cfg : Config) (g : List Nat) :
    ∀ s : Session, s.msgParseState = ST_START → s.receivedPacketIndex < 65536 →
      (∀ b ∈ g, b ≠ cfg.MESSAGE_START) →
      parseRun cfg g s =
        some { s with receivedPacketIndex := (s.receivedPacketIndex + g.length) % 65536 } := by
  induction g with
  | nil =>
    intro s hst hidx _
    simp only [parseRun, List.length_nil, Nat.add_zero, Nat.mod_eq_of_lt hidx]
  | cons c rest ih =>
    intro s hst hidx hg
    have hne : s.msgParseState ≠ ST_PROCESS := by rw [hst]; decide
    simp only [parseRun, if_neg hne,
      parseStep_start_other cfg c s hst (hg c (List.mem_cons_self _ _))]
    rw [ih { s with receivedPacketIndex := (s.receivedPacketIndex + 1) % 65536 } hst
      (Nat.mod_lt _ (by decide)) (fun b hb => hg b (List.mem_cons_of_mem _ hb))]
    simp only [List.length_cons]
    congr 2
    omega

theorem set_take_drop (l : List Nat) (j c : Nat) (rest : List Nat) (h : j < l.length) :
    (l.set j c).take (j + 1) ++ rest ++ (l.set j c).drop (j + 1 + rest.length) =
      l.take j ++ (c :: rest) ++ l.drop (j + (rest.length + 1)) := by
  have h1 : (l.set j c).take (j + 1) = l.take j ++ [c] := by
    rw [List.set_eq_take_append_cons_drop, if_pos h]
    have hl : (l.take j).length = j := by rw [List.length_take]; omega
    rw [List.take_append_eq_append_take, hl, List.take_of_length_le (by omega)]
    simp
  have h2 : (l.set j c).drop (j + 1 + rest.length) = l.drop (j + (rest.length + 1)) := by
    rw [List.set_eq_take_append_cons_drop, if_pos h]
    have hl : (l.take j).length = j := by rw [List.length_take]; omega
    rw [List.drop_append_eq_append_drop, hl, List.drop_of_length_le (by omega)]
    have e : j + 1 + rest.length - j = rest.length + 1 := by omega
    rw [e, List.nil_append, List.drop_succ_cons, List.drop_drop]
    congr 1
    omega
  rw [h1, h2]
  simp

/-- The header of a frame with an admissible sequence number, from `ST_START`. -/
theorem parseRun_header (cfg : Config) (q hi lo : Nat) (s : Session)
    (hst : s.msgParseState = ST_START) (hq : q = 1 ∨ q = s.seqNum) :
    parseRun cfg [cfg.MESSAGE_START, q, hi, lo, cfg.TOKEN] s =
      some { s with msgParseState := ST_GET_DATA,
                    checksum := cfg.MESSAGE_START ^^^ 0 ^^^ q ^^^ hi ^^^ lo ^^^ cfg.TOKEN,
                    seqNum := q, msgLength := ((hi <<< 8) % 65536) ||| lo, ii := 0,
                    receivedPacketIndex := (s.receivedPacketIndex + 5) % 65536 } := by
  simp only [parseRun, parseStep, hst, ST_START, ST_GET_SEQ_NUM, ST_MSG_SIZE_1, ST_MSG_SIZE_2,
    ST_GET_TOKEN, ST_GET_DATA, ST_GET_CHECK, ST_PROCESS, hq, if_true]
  simp

/-- The payload bytes of a frame, from `ST_GET_DATA`: they are stored in `msgBuffer` and
folded into the checksum; after the last of them the framer awaits the checksum. -/
theorem parseRun_data (cfg : Config) (rest : List Nat) :
    ∀ (c : Nat) (s : Session), s.msgParseState = ST_GET_DATA →
      s.ii + (rest.length + 1) = s.msgLength → s.msgLength < 65536 →
      s.msgLength ≤ s.msgBuffer.length →
      parseRun cfg (c :: rest) s =
        some { s with msgParseState := ST_GET_CHECK,
                      msgBuffer := s.msgBuffer.take s.ii ++ (c :: rest) ++
                        s.msgBuffer.drop (s.ii + (rest.length + 1)),
                      ii := s.msgLength,
                      checksum := (c :: rest).foldl (fun a b => a ^^^ b) s.checksum,
                      receivedPacketIndex :=
                        (s.receivedPacketIndex + (rest.length + 1)) % 65536 } := by
  induction rest with
  | nil =>
    intro c s hst hii hL hbuf
    have hne : s.msgParseState ≠ ST_PROCESS := by rw [hst]; decide
    have hlt : s.ii < s.msgBuffer.length := by simp at hii; omega
    have hii1 : (s.ii + 1) % 65536 = s.msgLength := by
      simp at hii; rw [Nat.mod_eq_of_lt (by omega)]; exact hii
    simp only [parseRun, if_neg hne, parseStep, hst, store, if_pos hlt, hii1, if_true,
      ST_START, ST_GET_SEQ_NUM, ST_MSG_SIZE_1, ST_MSG_SIZE_2, ST_GET_TOKEN, ST_GET_DATA,
      ST_GET_CHECK, ST_PROCESS]
    simp [List.set_eq_take_append_cons_drop, hlt]
  | cons d rest ih =>
    intro c s hst hii hL hbuf
    have hne : s.msgParseState ≠ ST_PROCESS := by rw [hst]; decide
    have hlt : s.ii < s.msgBuffer.length := by simp at hii; omega
    have hii1 : (s.ii + 1) % 65536 = s.ii + 1 := by
      simp at hii; exact Nat.mod_eq_of_lt (by omega)
    have hnf : ¬ (s.ii + 1 = s.msgLength) := by simp at hii; omega
    rw [parseRun, if_neg hne]
    have hstep : parseStep cfg c s =
        some { s with msgBuffer := s.msgBuffer.set s.ii c, ii := s.ii + 1,
                      checksum := s.checksum ^^^ c,
                      receivedPacketIndex := (s.receivedPacketIndex + 1) % 65536 } := by
      simp only [parseStep, hst, store, if_pos hlt, hii1, if_neg hnf,
        ST_START, ST_GET_SEQ_NUM, ST_MSG_SIZE_1, ST_MSG_SIZE_2, ST_GET_TOKEN, ST_GET_DATA,
        ST_GET_CHECK, ST_PROCESS]
      simp
    rw [hstep]
    dsimp only
    rw [ih d { s with msgBuffer := s.msgBuffer.set s.ii c, ii := s.ii + 1,
                      checksum := s.checksum ^^^ c,
                      receivedPacketIndex := (s.receivedPacketIndex + 1) % 65536 } hst
      (by simp only [List.length_cons] at hii; show s.ii + 1 + (rest.length + 1) = s.msgLength
          omega) hL
      (by show s.msgLength ≤ (s.msgBuffer.set s.ii c).length
          rw [List.length_set]; exact hbuf)]
    dsimp only
    have := set_take_drop s.msgBuffer s.ii c (d :: rest) hlt
    simp only [List.length_cons] at this ⊢
    rw [this]
    simp only [List.foldl_cons]
    congr 2
    simp
    omega

/-- The checksum byte, in `ST_GET_CHECK`. -/
theorem parseStep_check (cfg : Config) (c : Nat) (s : Session)
    (hst : s.msgParseState = ST_GET_CHECK) :
    parseStep cfg c s =
      some { s with msgParseState := if c = s.checksum then ST_PROCESS else ST_START,
                    receivedPacketIndex := (s.receivedPacketIndex + 1) % 65536 } := by
  by_cases h : c = s.checksum
  · simp [parseStep, hst, h, ST_START, ST_GET_SEQ_NUM, ST_MSG_SIZE_1, ST_MSG_SIZE_2,
      ST_GET_TOKEN, ST_GET_DATA, ST_GET_CHECK, ST_PROCESS]
  · simp [parseStep, hst, h, ST_START, ST_GET_SEQ_NUM, ST_MSG_SIZE_1, ST_MSG_SIZE_2,
      ST_GET_TOKEN, ST_GET_DATA, ST_GET_CHECK, ST_PROCESS]

theorem parseRun_single (cfg : Config) (c : Nat) (s : Session) :
    parseRun cfg [c] s = if s.msgParseState = ST_PROCESS then some s else parseStep cfg c s := by
  simp only [parseRun]
  split
  · rfl
  · split <;> simp_all

/-- A complete frame with an admissible sequence number, from `ST_START`: the payload is in
`msgBuffer`, and the framer is in `ST_PROCESS` when the last byte `c` equals the running
XOR, back in `ST_START` otherwise. -/
theorem parseRun_frame (cfg : Config) (q hi lo c : Nat) (payload : List Nat) (s : Session)
    (hst : s.msgParseState = ST_START)
    (hq : q = 1 ∨ q = s.seqNum) (hlen : ((hi <<< 8) % 65536) ||| lo = payload.length)
    (h1 : 1 ≤ payload.length) (h2 : payload.length < 65536)
    (h3 : payload.length ≤ s.msgBuffer.length) :
    parseRun cfg ([cfg.MESSAGE_START, q, hi, lo, cfg.TOKEN] ++ payload ++ [c]) s =
      some { s with
        msgParseState :=
          if c = payload.foldl (fun a b => a ^^^ b)
              (cfg.MESSAGE_START ^^^ 0 ^^^ q ^^^ hi ^^^ lo ^^^ cfg.TOKEN)
          then ST_PROCESS else ST_START,
        checksum := payload.foldl (fun a b => a ^^^ b)
          (cfg.MESSAGE_START ^^^ 0 ^^^ q ^^^ hi ^^^ lo ^^^ cfg.TOKEN),
        seqNum := q, msgLength := payload.length, ii := payload.length,
        msgBuffer := payload ++ s.msgBuffer.drop payload.length,
        receivedPacketIndex := (s.receivedPacketIndex + (payload.length + 6)) % 65536 } := by
  rw [List.append_assoc, parseRun_append, parseRun_header cfg q hi lo s hst hq]
  dsimp only
  obtain ⟨d, rest, rfl⟩ : ∃ d rest, payload = d :: rest := by
    cases payload with
    | nil => simp at h1
    | cons d rest => exact ⟨d, rest, rfl⟩
  rw [List.cons_append, ← List.cons_append, parseRun_append]
  rw [parseRun_data cfg rest d _ rfl
    (by show 0 + (rest.length + 1) = ((hi <<< 8) % 65536) ||| lo
        rw [hlen]; simp)
    (by show ((hi <<< 8) % 65536) ||| lo < 65536
        rw [hlen]; exact h2)
    (by show ((hi <<< 8) % 65536) ||| lo ≤ s.msgBuffer.length
        rw [hlen]; exact h3)]
  dsimp only
  rw [parseRun_single, if_neg (show ¬ (ST_GET_CHECK = ST_PROCESS) by decide),
    parseStep_check cfg c _ rfl]
  dsimp only
  rw [hlen]
  simp only [List.take_zero, List.nil_append, Nat.zero_add, List.foldl_cons, List.length_cons]
  congr 2
  omega

/-- The two length bytes of a frame give back the length. -/
theorem length_bytes (L : Nat) (h : L < 65536) :
    ((((L >>> 8) &&& 0xFF) <<< 8) % 65536) ||| (L &&& 0xFF) = L := by
  have e1 : L &&& 0xFF = L % 2 ^ 8 := Nat.and_pow_two_sub_one_eq_mod L 8
  have e2 : (L >>> 8) &&& 0xFF = (L >>> 8) % 2 ^ 8 := Nat.and_pow_two_sub_one_eq_mod _ 8
  rw [e1, e2, Nat.shiftRight_eq_div_pow, Nat.shiftLeft_eq]
  have h3 : L / 2 ^ 8 % 2 ^ 8 = L / 2 ^ 8 := Nat.mod_eq_of_lt (by omega)
  rw [h3, Nat.mod_eq_of_lt (by omega), Nat.mul_comm,
    ← Nat.mul_add_lt_is_or (Nat.mod_lt _ (by decide)) (L / 2 ^ 8)]
  omega

theorem foldl_xor_init (l : List Nat) (a : Nat) :
    l.foldl (fun a b => a ^^^ b) a = a ^^^ l.foldl (fun a b => a ^^^ b) 0 := by
  induction l generalizing a with
  | nil => simp
  | cons x xs ih =>
    simp only [List.foldl_cons]
    rw [ih (a ^^^ x), ih (0 ^^^ x), Nat.zero_xor, Nat.xor_assoc]

theorem xorAll_frameBody (cfg : Config) (q : Nat) (payload : List Nat) :
    xorAll (frameBody cfg q payload) =
      payload.foldl (fun a b => a ^^^ b)
        (cfg.MESSAGE_START ^^^ 0 ^^^ q ^^^ ((payload.length >>> 8) &&& 0xFF) ^^^
          (payload.length &&& 0xFF) ^^^ cfg.TOKEN) := by
  simp only [xorAll, frameBody, List.cons_append, List.nil_append, List.foldl_cons,
    Nat.zero_xor, Nat.xor_zero]

/-- A well-formed frame with an admissible sequence number is accepted: from `ST_START` the
framer reaches `ST_PROCESS` at its last byte, with the sequence number in `seqNum`, the
payload in `msgBuffer` and its length in `msgLength`. -/
theorem parseRun_wellformed (cfg : Config) (q : Nat) (payload : List Nat) (s : Session)
    (hst : s.msgParseState = ST_START) (hq : q = 1 ∨ q = s.seqNum)
    (h1 : 1 ≤ payload.length) (h2 : payload.length < 65536)
    (h3 : payload.length ≤ s.msgBuffer.length) :
    parseRun cfg (frame cfg q payload) s =
      some { s with
        msgParseState := ST_PROCESS,
        checksum := xorAll (frameBody cfg q payload),
        seqNum := q, msgLength := payload.length, ii := payload.length,
        msgBuffer := payload ++ s.msgBuffer.drop payload.length,
        receivedPacketIndex := (s.receivedPacketIndex + (payload.length + 6)) % 65536 } := by
  have h := parseRun_frame cfg q ((payload.length >>> 8) &&& 0xFF) (payload.length &&& 0xFF)
    (xorAll (frameBody cfg q payload)) payload s hst hq (length_bytes _ h2) h1 h2 h3
  rw [← xorAll_frameBody, if_pos rfl] at h
  exact h

/-! ### Sequence numbers and resynchronisation -/

/-- C15. In `ST_GET_SEQ_NUM`, for every byte `c` and every expected sequence number
`seqNum`, one step of the framer accepts `c` as the sequence number of the frame (it
becomes `seqNum`, the state becomes `ST_MSG_SIZE_1` and `c` is folded into the checksum)
if and only if `c = 1` or `c = seqNum`; otherwise the byte is discarded: the state becomes
`ST_START` and sequence number, checksum, payload buffer and length are as before. -/
theorem seq_byte_admission (cfg : Config) (c : Nat) (s : Session)
    (hst : s.msgParseState = ST_GET_SEQ_NUM) :
    ∃ t, parseStep cfg c s = some t ∧
      (t.msgParseState = ST_MSG_SIZE_1 ↔ (c = 1 ∨ c = s.seqNum)) ∧
      ((c = 1 ∨ c = s.seqNum) →
        t.seqNum = c ∧ t.msgParseState = ST_MSG_SIZE_1 ∧ t.checksum = s.checksum ^^^ c) ∧
      (¬ (c = 1 ∨ c = s.seqNum) →
        t.msgParseState = ST_START ∧ t.seqNum = s.seqNum ∧ t.checksum = s.checksum ∧
        t.msgBuffer = s.msgBuffer ∧ t.msgLength = s.msgLength) := by
  by_cases h : c = 1 ∨ c = s.seqNum
  · refine ⟨{ s with seqNum := c, msgParseState := ST_MSG_SIZE_1,
                     checksum := s.checksum ^^^ c,
                     receivedPacketIndex := (s.receivedPacketIndex + 1) % 65536 }, ?_, ?_, ?_, ?_⟩
    · simp [parseStep, hst, h, ST_START, ST_GET_SEQ_NUM]
    · exact ⟨fun _ => h, fun _ => rfl⟩
    · intro _; exact ⟨rfl, rfl, rfl⟩
    · intro hn; exact absurd h hn
  · refine ⟨{ s with msgParseState := ST_START,
                     receivedPacketIndex := (s.receivedPacketIndex + 1) % 65536 }, ?_, ?_, ?_, ?_⟩
    · simp [parseStep, hst, h, ST_START, ST_GET_SEQ_NUM]
    · exact ⟨fun hh => absurd (show ST_START = ST_MSG_SIZE_1 from hh) (by decide),
        fun hh => absurd hh h⟩
    · intro hh; exact absurd hh h
    · intro _; exact ⟨rfl, rfl, rfl, rfl, rfl⟩

/-- Witness for C15: the byte 1 in `ST_GET_SEQ_NUM` of the initial session. -/
theorem seq_byte_admission_witness :
    ∃ t, parseStep atmega128 1 { sessionWith [] [] with msgParseState := ST_GET_SEQ_NUM }
        = some t ∧
      (t.msgParseState = ST_MSG_SIZE_1 ↔
        ((1 : Nat) = 1 ∨
          1 = ({ sessionWith [] [] with msgParseState := ST_GET_SEQ_NUM } : Session).seqNum)) ∧
      (((1 : Nat) = 1 ∨
          1 = ({ sessionWith [] [] with msgParseState := ST_GET_SEQ_NUM } : Session).seqNum) →
        t.seqNum = 1 ∧ t.msgParseState = ST_MSG_SIZE_1 ∧
        t.checksum =
          ({ sessionWith [] [] with msgParseState := ST_GET_SEQ_NUM } : Session).checksum
            ^^^ 1) ∧
      (¬ ((1 : Nat) = 1 ∨
          1 = ({ sessionWith [] [] with msgParseState := ST_GET_SEQ_NUM } : Session).seqNum) →
        t.msgParseState = ST_START ∧
        t.seqNum =
          ({ sessionWith [] [] with msgParseState := ST_GET_SEQ_NUM } : Session).seqNum ∧
        t.checksum =
          ({ sessionWith [] [] with msgParseState := ST_GET_SEQ_NUM } : Session).checksum ∧
        t.msgBuffer =
          ({ sessionWith [] [] with msgParseState := ST_GET_SEQ_NUM } : Session).msgBuffer ∧
        t.msgLength =
          ({ sessionWith [] [] with msgParseState := ST_GET_SEQ_NUM } : Session).msgLength) :=
  seq_byte_admission atmega128 1 { sessionWith [] [] with msgParseState := ST_GET_SEQ_NUM } rfl

theorem parseRun_done (cfg : Config) (l : List Nat) (s : Session)
    (h : s.msgParseState = ST_PROCESS) : parseRun cfg l s = some s := by
  cases l with
  | nil => rfl
  | cons c rest => simp only [parseRun, h, if_true]

/-- Once a run over `l` has reached `ST_PROCESS`, the loop over a longer byte sequence stops
there. -/
theorem parseBytes_of_parseRun (cfg : Config) (l rest : List Nat) (s t : Session)
    (h : parseRun cfg l s = some t) (hp : t.msgParseState = ST_PROCESS) :
    parseBytes cfg (l ++ rest) s = some t := by
  rw [parseBytes_eq_parseRun, parseRun_append, h]
  dsimp only
  rw [parseRun_done cfg rest t hp]
  dsimp only
  rw [if_pos hp]

/-- Counterexample to C13 as stated: the garbage is the single byte `MESSAGE_START`, the
frame is the authenticate frame of the end-to-end scenario (sequence number 1, payload of
nine bytes). Fed alone, from the initial session state, the frame is parsed. Fed after the
garbage byte, the first byte of the frame is taken for a sequence number and refused, and
the framer is in `ST_START` after the last byte of the frame: no frame is parsed, also not
from a 288-byte buffer that holds these bytes followed by 0x03 bytes. -/
theorem resync_fails_after_start_marker :
    (parseRun atmega128
        [0x1B, 1, 0x00, 0x09, 0x0E, 0x50, 1, 2, 3, 4, 0x53, 0xEF, 0x34, 0x23, 0xE2]
        (sessionWith [] [])).map
        (fun t => (t.msgParseState, t.seqNum, t.msgLength, t.msgBuffer.take 9)) =
      some (ST_PROCESS, 1, 9, [0x50, 1, 2, 3, 4, 0x53, 0xEF, 0x34, 0x23]) ∧
    (parseRun atmega128
        ([0x1B] ++ [0x1B, 1, 0x00, 0x09, 0x0E, 0x50, 1, 2, 3, 4, 0x53, 0xEF, 0x34, 0x23, 0xE2])
        (sessionWith [] [])).map (fun t => t.msgParseState) = some ST_START ∧
    (parseFrame atmega128
        { sessionWith [] [] with
          aes_buffer :=
            [0x1B] ++ [0x1B, 1, 0x00, 0x09, 0x0E, 0x50, 1, 2, 3, 4, 0x53, 0xEF, 0x34, 0x23, 0xE2]
              ++ List.replicate 272 0x03 }).isNone = true := by
  refine ⟨?_, ?_, ?_⟩ <;> decide!

/-- C13, as the code has it. For every byte string `g` of garbage that contains no
`MESSAGE_START` byte, every well-formed frame (sequence number 1 or the expected one,
payload of 1 to 65535 bytes that fits `msgBuffer`) and all bytes `rest` that follow it in
the buffer, the framer started in `ST_START` on `g` followed by the frame parses the frame
exactly as it does on the frame alone: it stops in `ST_PROCESS` at the last byte of the
frame, with the same sequence number, payload and length; only the read index differs,
by the length of `g`. -/
theorem resync_without_start_marker (cfg : Config) (g : List Nat) (q : Nat)
    (payload rest : List Nat) (s : Session)
    (hst : s.msgParseState = ST_START) (hidx : s.receivedPacketIndex < 65536)
    (hg : ∀ b ∈ g, b ≠ cfg.MESSAGE_START) (hq : q = 1 ∨ q = s.seqNum)
    (h1 : 1 ≤ payload.length) (h2 : payload.length < 65536)
    (h3 : payload.length ≤ s.msgBuffer.length) :
    ∃ t t', parseBytes cfg (g ++ frame cfg q payload ++ rest) s = some t ∧
      parseBytes cfg (frame cfg q payload ++ rest) s = some t' ∧
      t.msgParseState = ST_PROCESS ∧ t'.msgParseState = ST_PROCESS ∧
      t.seqNum = q ∧ t'.seqNum = q ∧
      t.msgLength = payload.length ∧ t'.msgLength = payload.length ∧
      t.msgBuffer.take payload.length = payload ∧ t'.msgBuffer = t.msgBuffer ∧
      t'.receivedPacketIndex = (s.receivedPacketIndex + (payload.length + 6)) % 65536 ∧
      t.receivedPacketIndex =
        (s.receivedPacketIndex + g.length + (payload.length + 6)) % 65536 := by
  have hf := parseRun_wellformed cfg q payload s hst hq h1 h2 h3
  have hf2 := parseRun_wellformed cfg q payload
    { s with receivedPacketIndex := (s.receivedPacketIndex + g.length) % 65536 } hst hq h1 h2 h3
  have hgf := parseRun_append cfg g (frame cfg q payload) s
  rw [parseRun_garbage cfg g s hst hidx hg] at hgf
  dsimp only at hgf
  rw [hf2] at hgf
  refine ⟨_, _, parseBytes_of_parseRun cfg _ rest s _ hgf rfl,
    parseBytes_of_parseRun cfg _ rest s _ hf rfl, rfl, rfl, rfl, rfl, rfl, rfl, ?_, rfl, rfl, ?_⟩
  · exact List.take_left' rfl
  · show ((s.receivedPacketIndex + g.length) % 65536 + (payload.length + 6)) % 65536 = _
    omega

/-- Witness for C13 as amended: three garbage bytes before the authenticate frame, in the
initial session state. -/
theorem resync_without_start_marker_witness :
    ∃ t t', parseBytes atmega128
        ([0x00, 0xFF, 0x0E] ++ frame atmega128 1 [0x50, 1, 2, 3, 4, 0x53, 0xEF, 0x34, 0x23] ++
          List.replicate 270 0x03) (sessionWith [] []) = some t ∧
      parseBytes atmega128
        (frame atmega128 1 [0x50, 1, 2, 3, 4, 0x53, 0xEF, 0x34, 0x23] ++
          List.replicate 270 0x03) (sessionWith [] []) = some t' ∧
      t.msgParseState = ST_PROCESS ∧ t'.msgParseState = ST_PROCESS ∧
      t.seqNum = 1 ∧ t'.seqNum = 1 ∧
      t.msgLength = [0x50, 1, 2, 3, 4, 0x53, 0xEF, 0x34, 0x23].length ∧
      t'.msgLength = [0x50, 1, 2, 3, 4, 0x53, 0xEF, 0x34, 0x23].length ∧
      t.msgBuffer.take [0x50, 1, 2, 3, 4, 0x53, 0xEF, 0x34, 0x23].length =
        [0x50, 1, 2, 3, 4, 0x53, 0xEF, 0x34, 0x23] ∧
      t'.msgBuffer = t.msgBuffer ∧
      t'.receivedPacketIndex =
        ((sessionWith [] []).receivedPacketIndex +
          ([0x50, 1, 2, 3, 4, 0x53, 0xEF, 0x34, 0x23].length + 6)) % 65536 ∧
      t.receivedPacketIndex =
        ((sessionWith [] []).receivedPacketIndex + [0x00, 0xFF, 0x0E].length +
          ([0x50, 1, 2, 3, 4, 0x53, 0xEF, 0x34, 0x23].length + 6)) % 65536 :=
  resync_without_start_marker atmega128 [0x00, 0xFF, 0x0E] 1
    [0x50, 1, 2, 3, 4, 0x53, 0xEF, 0x34, 0x23] (List.replicate 270 0x03) (sessionWith [] [])
    rfl (by decide) (by decide) (Or.inl rfl) (by decide) (by decide)
    (by rw [sessionWith_length _ _ (by decide)]; decide)

/-- Counterexample to C16 as stated. The expected sequence number is 2, as after a first
frame with sequence number 1. A well-formed frame whose sequence byte is 1 (the
authenticate frame) is parsed all the same. And a well-formed frame whose sequence byte 5
is refused, and whose payload is itself a well-formed frame with sequence byte 1, makes the
framer parse that inner frame. -/
theorem sequence_one_always_admitted :
    (parseRun atmega128
        [0x1B, 1, 0x00, 0x09, 0x0E, 0x50, 1, 2, 3, 4, 0x53, 0xEF, 0x34, 0x23, 0xE2]
        { sessionWith [] [] with seqNum := 2 }).map
        (fun t => (t.msgParseState, t.seqNum, t.msgLength, t.msgBuffer.take 9)) =
      some (ST_PROCESS, 1, 9, [0x50, 1, 2, 3, 4, 0x53, 0xEF, 0x34, 0x23]) ∧
    frame atmega128 5 (frame atmega128 1 [0x03, 0x90]) =
      [0x1B, 5, 0x00, 0x08, 0x0E, 0x1B, 1, 0x00, 0x02, 0x0E, 0x03, 0x90, 0x85, 0x18] ∧
    (parseRun atmega128
        [0x1B, 5, 0x00, 0x08, 0x0E, 0x1B, 1, 0x00, 0x02, 0x0E, 0x03, 0x90, 0x85, 0x18]
        { sessionWith [] [] with seqNum := 2 }).map
        (fun t => (t.msgParseState, t.seqNum, t.msgLength, t.msgBuffer.take 2)) =
      some (ST_PROCESS, 1, 2, [0x03, 0x90]) := by
  refine ⟨?_, ?_, ?_⟩ <;> decide!

/-- The start marker followed by a sequence byte that is neither 1 nor the expected
sequence number: the framer is back in `ST_START`. -/
theorem parseRun_refused_seq (cfg : Config) (q : Nat) (s : Session)
    (hst : s.msgParseState = ST_START) (hq1 : q ≠ 1) (hq2 : q ≠ s.seqNum) :
    parseRun cfg [cfg.MESSAGE_START, q] s =
      some { s with checksum := cfg.MESSAGE_START ^^^ 0,
                    receivedPacketIndex := (s.receivedPacketIndex + 2) % 65536 } := by
  simp only [parseRun, parseStep, hst, ST_START, ST_GET_SEQ_NUM, ST_MSG_SIZE_1, ST_MSG_SIZE_2,
    ST_GET_TOKEN, ST_GET_DATA, ST_GET_CHECK, ST_PROCESS, hq1, hq2, if_true]
  simp

/-- C16, as the code has it. A frame whose sequence byte differs from the expected
sequence number and from 1 is discarded at its sequence byte: after the start marker and
the sequence byte the framer is back in `ST_START`, with sequence number, payload buffer
and length as before. When moreover none of the bytes of the frame after these two equals
`MESSAGE_START`, the framer is still in `ST_START`, with the same sequence number, payload
buffer and length, after the last byte of the frame: no frame has been parsed. -/
theorem wrong_sequence_discarded (cfg : Config) (q : Nat) (payload : List Nat) (s : Session)
    (hst : s.msgParseState = ST_START) (hq1 : q ≠ 1) (hq2 : q ≠ s.seqNum) :
    (∃ t, parseRun cfg [cfg.MESSAGE_START, q] s = some t ∧ t.msgParseState = ST_START ∧
      t.seqNum = s.seqNum ∧ t.msgBuffer = s.msgBuffer ∧ t.msgLength = s.msgLength) ∧
    ((∀ b ∈ (frame cfg q payload).drop 2, b ≠ cfg.MESSAGE_START) →
      ∃ t, parseRun cfg (frame cfg q payload) s = some t ∧ t.msgParseState = ST_START ∧
        t.seqNum = s.seqNum ∧ t.msgBuffer = s.msgBuffer ∧ t.msgLength = s.msgLength) := by
  have h2 := parseRun_refused_seq cfg q s hst hq1 hq2
  refine ⟨⟨_, h2, hst, rfl, rfl, rfl⟩, ?_⟩
  intro hg
  have hsplit : frame cfg q payload = [cfg.MESSAGE_START, q] ++ (frame cfg q payload).drop 2 := by
    simp [frame, frameBody]
  have hrun := parseRun_append cfg [cfg.MESSAGE_START, q] ((frame cfg q payload).drop 2) s
  rw [← hsplit, h2] at hrun
  dsimp only at hrun
  rw [parseRun_garbage cfg _
    { s with checksum := cfg.MESSAGE_START ^^^ 0,
             receivedPacketIndex := (s.receivedPacketIndex + 2) % 65536 } hst
    (Nat.mod_lt _ (by decide)) hg] at hrun
  exact ⟨_, hrun, hst, rfl, rfl, rfl⟩

/-- Witness for C16 as amended: the authenticate frame with sequence byte 5 when 2 is
expected; none of its later bytes is the start marker. -/
theorem wrong_sequence_discarded_witness :
    (∃ t, parseRun atmega128 [atmega128.MESSAGE_START, 5]
        { sessionWith [] [] with seqNum := 2 } = some t ∧ t.msgParseState = ST_START ∧
      t.seqNum = ({ sessionWith [] [] with seqNum := 2 } : Session).seqNum ∧
      t.msgBuffer = ({ sessionWith [] [] with seqNum := 2 } : Session).msgBuffer ∧
      t.msgLength = ({ sessionWith [] [] with seqNum := 2 } : Session).msgLength) ∧
    (∃ t, parseRun atmega128 (frame atmega128 5 [0x50, 1, 2, 3, 4, 0x53, 0xEF, 0x34, 0x23])
        { sessionWith [] [] with seqNum := 2 } = some t ∧ t.msgParseState = ST_START ∧
      t.seqNum = ({ sessionWith [] [] with seqNum := 2 } : Session).seqNum ∧
      t.msgBuffer = ({ sessionWith [] [] with seqNum := 2 } : Session).msgBuffer ∧
      t.msgLength = ({ sessionWith [] [] with seqNum := 2 } : Session).msgLength) :=
  ⟨(wrong_sequence_discarded atmega128 5 [0x50, 1, 2, 3, 4, 0x53, 0xEF, 0x34, 0x23]
      { sessionWith [] [] with seqNum := 2 } rfl (by decide) (by decide)).1,
    (wrong_sequence_discarded atmega128 5 [0x50, 1, 2, 3, 4, 0x53, 0xEF, 0x34, 0x23]
      { sessionWith [] [] with seqNum := 2 } rfl (by decide) (by decide)).2 (by decide!)⟩

/-! ### Single bit flips -/

theorem flipBit_ne (b k : Nat) : flipBit b k ≠ b := by
  unfold flipBit
  intro h
  have h0 : b ^^^ 2 ^ k = b ^^^ 0 := by rw [Nat.xor_zero]; exact h
  have := Nat.xor_right_inj.mp h0
  exact absurd this (Nat.pos_iff_ne_zero.mp (Nat.pow_pos (by decide)))

theorem foldl_xor_set (l : List Nat) (j v : Nat) (a : Nat) (h : j < l.length) :
    (l.set j v).foldl (fun a b => a ^^^ b) a =
      l.foldl (fun a b => a ^^^ b) a ^^^ l.getD j 0 ^^^ v := by
  induction l generalizing j a with
  | nil => simp at h
  | cons x xs ih =>
    cases j with
    | zero =>
      simp only [List.set_cons_zero, List.foldl_cons, List.getD_cons_zero]
      rw [foldl_xor_init xs (a ^^^ v), foldl_xor_init xs (a ^^^ x)]
      rw [Nat.xor_assoc (a ^^^ x), Nat.xor_assoc (a ^^^ x), Nat.xor_assoc a x,
        Nat.xor_comm _ x, Nat.xor_comm _ v, ← Nat.xor_assoc x, ← Nat.xor_assoc x,
        Nat.xor_self, Nat.zero_xor, Nat.xor_comm v, Nat.xor_assoc]
      rw [Nat.xor_comm v]
    | succ j =>
      simp only [List.set_cons_succ, List.foldl_cons, List.getD_cons_succ]
      exact ih j (a ^^^ x) (by simpa using h)

/-- The header of a frame whose token byte is not `TOKEN`: the framer is back in
`ST_START` at that byte. -/
theorem parseRun_bad_token (cfg : Config) (q hi lo v : Nat) (s : Session)
    (hst : s.msgParseState = ST_START) (hq : q = 1 ∨ q = s.seqNum) (hv : v ≠ cfg.TOKEN) :
    ∃ t, parseRun cfg [cfg.MESSAGE_START, q, hi, lo, v] s = some t ∧
      t.msgParseState = ST_START := by
  refine ⟨{ s with msgParseState := ST_START,
                   checksum := cfg.MESSAGE_START ^^^ 0 ^^^ q ^^^ hi ^^^ lo,
                   seqNum := q, msgLength := ((hi <<< 8) % 65536) ||| lo,
                   receivedPacketIndex := (s.receivedPacketIndex + 5) % 65536 }, ?_, rfl⟩
  simp only [parseRun, parseStep, hst, ST_START, ST_GET_SEQ_NUM, ST_MSG_SIZE_1, ST_MSG_SIZE_2,
    ST_GET_TOKEN, ST_GET_DATA, ST_GET_CHECK, ST_PROCESS, hq, hv, if_true]
  simp

/-- Counterexample to C14 as stated: the well-formed frame with sequence number 1 and
payload `[0x03, 0x16, 0x00]`, with bit 1 of its low length byte flipped (length 3 becomes
1), is accepted: the framer reaches `ST_PROCESS` with the one-byte payload `[0x03]`, the
second payload byte serving as checksum. -/
theorem length_bit_flip_accepted :
    frame atmega128 1 [0x03, 0x16, 0x00] =
      [0x1B, 1, 0x00, 0x03, 0x0E, 0x03, 0x16, 0x00, 0x02] ∧
    [0x1B, 1, 0x00, 0x03, 0x0E, 0x03, 0x16, 0x00, 0x02].set 3 (flipBit 0x03 1) =
      [0x1B, 1, 0x00, 0x01, 0x0E, 0x03, 0x16, 0x00, 0x02] ∧
    (parseRun atmega128 [0x1B, 1, 0x00, 0x01, 0x0E, 0x03, 0x16, 0x00, 0x02]
        (sessionWith [] [])).map
        (fun t => (t.msgParseState, t.seqNum, t.msgLength, t.msgBuffer.take 1)) =
      some (ST_PROCESS, 1, 1, [0x03]) := by
  refine ⟨?_, ?_, ?_⟩ <;> decide!

theorem frame_eq_cons (cfg : Config) (q : Nat) (payload : List Nat) :
    frame cfg q payload =
      cfg.MESSAGE_START :: q :: ((payload.length >>> 8) &&& 0xFF) ::
        (payload.length &&& 0xFF) :: cfg.TOKEN ::
          (payload ++ [xorAll (frameBody cfg q payload)]) := by
  simp [frame, frameBody]

theorem frame_length (cfg : Config) (q : Nat) (payload : List Nat) :
    (frame cfg q payload).length = payload.length + 6 := by
  simp [frame, frameBody]

/-- C14, as the code has it. For every well-formed frame (sequence number 1 or the expected
one, payload of 1 to 65535 bytes that fits `msgBuffer`) and every single bit position in
it outside the two length bytes, the frame with that bit flipped is not accepted: fed the
flipped frame from `ST_START`, the framer is back in `ST_START` at the flipped byte or at a
later byte of the frame, without having reached `ST_PROCESS` before. -/
theorem bit_flip_rejected (cfg : Config) (q : Nat) (payload : List Nat) (s : Session)
    (i k : Nat) (hst : s.msgParseState = ST_START) (hq : q = 1 ∨ q = s.seqNum)
    (h1 : 1 ≤ payload.length) (h2 : payload.length < 65536)
    (h3 : payload.length ≤ s.msgBuffer.length)
    (hi : i < (frame cfg q payload).length) (hi2 : i ≠ 2) (hi3 : i ≠ 3) :
    ∃ n t, i < n ∧ n ≤ (frame cfg q payload).length ∧
      parseRun cfg
        (((frame cfg q payload).set i (flipBit ((frame cfg q payload).getD i 0) k)).take n) s
        = some t ∧
      t.msgParseState = ST_START := by
  have hlenF := frame_length cfg q payload
  rw [hlenF] at hi ⊢
  rw [frame_eq_cons]
  have hX := xorAll_frameBody cfg q payload
  generalize xorAll (frameBody cfg q payload) = X at hX ⊢
  generalize hhi : (payload.length >>> 8) &&& 0xFF = bhi at hX ⊢
  generalize hlo : payload.length &&& 0xFF = blo at hX ⊢
  have hlen : ((bhi <<< 8) % 65536) ||| blo = payload.length := by
    rw [← hhi, ← hlo]; exact length_bytes _ h2
  match i, hi, hi2, hi3 with
  | 0, _, _, _ =>
    have hrun := parseRun_single cfg (flipBit cfg.MESSAGE_START k) s
    rw [if_neg (by rw [hst]; decide), parseStep_start_other cfg _ s hst (flipBit_ne _ k)] at hrun
    simp only [List.set_cons_zero, List.getD_cons_zero]
    exact ⟨1, _, by decide, by omega, hrun, hst⟩
  | 1, _, _, _ =>
    simp only [List.set_cons_zero, List.set_cons_succ, List.getD_cons_zero,
      List.getD_cons_succ]
    by_cases hv : flipBit q k = 1 ∨ flipBit q k = s.seqNum
    · have hrun := parseRun_frame cfg (flipBit q k) bhi blo X payload s hst hv hlen h1 h2 h3
      have hne : ¬ X = payload.foldl (fun a b => a ^^^ b)
          (cfg.MESSAGE_START ^^^ 0 ^^^ flipBit q k ^^^ bhi ^^^ blo ^^^ cfg.TOKEN) := by
        rw [hX, foldl_xor_init payload
            (cfg.MESSAGE_START ^^^ 0 ^^^ flipBit q k ^^^ bhi ^^^ blo ^^^ cfg.TOKEN),
          foldl_xor_init payload (cfg.MESSAGE_START ^^^ 0 ^^^ q ^^^ bhi ^^^ blo ^^^ cfg.TOKEN)]
        intro h
        have h := Nat.xor_left_inj.mp h
        have h := Nat.xor_left_inj.mp h
        have h := Nat.xor_left_inj.mp h
        have h := Nat.xor_left_inj.mp h
        have h := Nat.xor_right_inj.mp h
        exact flipBit_ne q k h.symm
      rw [if_neg hne] at hrun
      refine ⟨payload.length + 6, ?_, by omega, Nat.le_refl _, ?_, ?_⟩
      rotate_left
      · rw [List.take_of_length_le (by simp)]
        exact hrun
      · rfl
    · have hrun := parseRun_refused_seq cfg _ s hst (fun h => hv (Or.inl h))
        (fun h => hv (Or.inr h))
      exact ⟨2, _, by decide, by omega, hrun, hst⟩
  | 2, _, h, _ => exact absurd rfl h
  | 3, _, _, h => exact absurd rfl h
  | 4, _, _, _ =>
    simp only [List.set_cons_zero, List.set_cons_succ, List.getD_cons_zero,
      List.getD_cons_succ]
    obtain ⟨t, ht, hs⟩ := parseRun_bad_token cfg q bhi blo (flipBit cfg.TOKEN k) s hst hq
      (flipBit_ne _ k)
    exact ⟨5, t, by decide, by omega, ht, hs⟩
  | j + 5, hj, _, _ =>
    simp only [List.set_cons_zero, List.set_cons_succ, List.getD_cons_zero,
      List.getD_cons_succ]
    by_cases hjL : j < payload.length
    · rw [List.set_append_left _ _ hjL, List.getD_append _ _ _ _ hjL]
      have hrun := parseRun_frame cfg q bhi blo X
        (payload.set j (flipBit (payload.getD j 0) k)) s hst hq
        (by rw [List.length_set]; exact hlen) (by rw [List.length_set]; exact h1)
        (by rw [List.length_set]; exact h2) (by rw [List.length_set]; exact h3)
      have hne : ¬ X = (payload.set j (flipBit (payload.getD j 0) k)).foldl
          (fun a b => a ^^^ b)
          (cfg.MESSAGE_START ^^^ 0 ^^^ q ^^^ bhi ^^^ blo ^^^ cfg.TOKEN) := by
        rw [foldl_xor_set _ _ _ _ hjL, ← hX]
        intro h
        have h0 : X ^^^ 0 = X ^^^ (payload.getD j 0 ^^^ flipBit (payload.getD j 0) k) := by
          rw [Nat.xor_zero, ← Nat.xor_assoc]; exact h
        have h0 := Nat.xor_right_inj.mp h0
        exact flipBit_ne _ k (Nat.xor_eq_zero.mp h0.symm).symm
      rw [if_neg hne] at hrun
      simp only [List.length_set] at hrun
      refine ⟨payload.length + 6, ?_, by omega, Nat.le_refl _, ?_, ?_⟩
      rotate_left
      · rw [List.take_of_length_le (by simp)]
        exact hrun
      · rfl
    · have hjeq : j = payload.length := by omega
      subst hjeq
      rw [List.set_append_right _ _ (Nat.le_refl _), List.getD_append_right _ _ _ _ (Nat.le_refl _)]
      simp only [Nat.sub_self, List.set_cons_zero, List.getD_cons_zero]
      have hrun := parseRun_frame cfg q bhi blo (flipBit X k) payload s hst hq hlen h1 h2 h3
      rw [← hX, if_neg (flipBit_ne X k)] at hrun
      refine ⟨payload.length + 6, ?_, by omega, Nat.le_refl _, ?_, ?_⟩
      rotate_left
      · rw [List.take_of_length_le (by simp)]
        exact hrun
      · rfl

/-- Witness for C14 as amended: bit 0 of the third payload byte of the authenticate frame,
in the initial session state. -/
theorem bit_flip_rejected_witness :
    ∃ n t, 7 < n ∧
      n ≤ (frame atmega128 1 [0x50, 1, 2, 3, 4, 0x53, 0xEF, 0x34, 0x23]).length ∧
      parseRun atmega128
        (((frame atmega128 1 [0x50, 1, 2, 3, 4, 0x53, 0xEF, 0x34, 0x23]).set 7
          (flipBit ((frame atmega128 1 [0x50, 1, 2, 3, 4, 0x53, 0xEF, 0x34, 0x23]).getD 7 0)
            0)).take n) (sessionWith [] []) = some t ∧
      t.msgParseState = ST_START :=
  bit_flip_rejected atmega128 1 [0x50, 1, 2, 3, 4, 0x53, 0xEF, 0x34, 0x23] (sessionWith [] [])
    7 0 rfl (Or.inl rfl) (by decide) (by decide)
    (by rw [sessionWith_length _ _ (by decide)]; decide) (by decide) (by decide) (by decide)

/-! ### Response assembly -/

theorem fillLoop_spec (n : Nat) :
    ∀ (i : Nat) (buf : List Nat), i + n ≤ buf.length →
      fillLoop n i buf = some (buf.take i ++ List.replicate n 0xff ++ buf.drop (i + n)) := by
  induction n with
  | zero => intro i buf _; simp [fillLoop]
  | succ k ih =>
    intro i buf h
    have hlt : i < buf.length := by omega
    simp only [fillLoop, store, if_pos hlt]
    rw [ih (i + 1) _ (by rw [List.length_set]; omega)]
    have h1 := set_take_drop buf i 0xff (List.replicate k 0xff) hlt
    simp only [List.length_replicate] at h1
    rw [h1]
    simp [List.replicate_succ]

theorem copyLoop_spec (n : Nat) :
    ∀ (p : Nat) (s : Session), p + n ≤ s.msgBuffer.length →
      s.receivedPacketIndex + n ≤ s.receivedPacket.length →
      s.receivedPacketIndex + n < 65536 →
      copyLoop n p s =
        some { s with
          receivedPacket := s.receivedPacket.take s.receivedPacketIndex ++
            (s.msgBuffer.drop p).take n ++
            s.receivedPacket.drop (s.receivedPacketIndex + n),
          receivedPacketIndex := s.receivedPacketIndex + n,
          checksum := ((s.msgBuffer.drop p).take n).foldl (fun a b => a ^^^ b) s.checksum,
          msgLength := 0 } := by
  induction n with
  | zero =>
    intro p s _ _ _
    simp [copyLoop]
  | succ k ih =>
    intro p s hp hr hi
    have hpl : p < s.msgBuffer.length := by omega
    have hrl : s.receivedPacketIndex < s.receivedPacket.length := by omega
    have hget : s.msgBuffer[p]? = some (s.msgBuffer.getD p 0) := by
      rw [List.getD_eq_getElem?_getD, List.getElem?_eq_getElem hpl]; rfl
    have hmod : (s.receivedPacketIndex + 1) % 65536 = s.receivedPacketIndex + 1 :=
      Nat.mod_eq_of_lt (by omega)
    simp only [copyLoop, hget, store, if_pos hrl, hmod]
    rw [ih (p + 1) _ (by show p + 1 + k ≤ s.msgBuffer.length; omega)
      (by show s.receivedPacketIndex + 1 + k ≤ (s.receivedPacket.set _ _).length
          rw [List.length_set]; omega)
      (by show s.receivedPacketIndex + 1 + k < 65536; omega)]
    dsimp only
    have hd : (s.msgBuffer.drop p).take (k + 1) =
        s.msgBuffer.getD p 0 :: (s.msgBuffer.drop (p + 1)).take k := by
      rw [List.drop_eq_getElem_cons hpl, List.take_succ_cons]
      rw [List.getD_eq_getElem?_getD, List.getElem?_eq_getElem hpl]; rfl
    have h1 := set_take_drop s.receivedPacket s.receivedPacketIndex (s.msgBuffer.getD p 0)
      ((s.msgBuffer.drop (p + 1)).take k) hrl
    have hk : ((s.msgBuffer.drop (p + 1)).take k).length = k := by
      rw [List.length_take, List.length_drop]; omega
    rw [hk] at h1
    rw [h1, hd]
    simp only [List.foldl_cons]
    congr 2
    omega

theorem take_succ_append_drop (l Z : List Nat) (n : Nat) (h : n < l.length) :
    (l.take (n + 1) ++ Z).drop n = l.getD n 0 :: Z := by
  have hl : (l.take (n + 1)).length = n + 1 := by rw [List.length_take]; omega
  rw [List.drop_append_of_le_length (by omega)]
  have : (l.take (n + 1)).drop n = [l.getD n 0] := by
    rw [List.drop_take, List.drop_eq_getElem_cons h]
    have e : n + 1 - n = 1 := by omega
    rw [e, List.take_succ_cons, List.take_zero, List.getD_eq_getElem?_getD,
      List.getElem?_eq_getElem h]
    rfl
  rw [this]
  rfl

/-- The response assembly, when the frame fits `receivedPacket[288]`: the result carries
`finalResponseSize = msgLength + (16 - (msgLength + 6) % 16) + 6`, and `receivedPacket`
holds the frame, then `16 - (msgLength + 6) % 16` filler bytes 0xFF when
`(msgLength + 6) % 16` is not 0 and none when it is, then what it held before. -/
theorem assembleResponse_spec (cfg : Config) (s : Session)
    (hrp : s.receivedPacket.length = 288) (hL : s.msgLength + 6 ≤ 288)
    (hmb : s.msgLength ≤ s.msgBuffer.length) :
    ∃ t, assembleResponse cfg s =
        some (s.msgLength + (16 - (s.msgLength + 6) % 16) + 6, t) ∧
      t.receivedPacket =
        [cfg.MESSAGE_START, s.seqNum, (s.msgLength >>> 8) &&& 0xFF, s.msgLength &&& 0xFF,
          cfg.TOKEN] ++ s.msgBuffer.take s.msgLength ++
        [xorAll ([cfg.MESSAGE_START, s.seqNum, (s.msgLength >>> 8) &&& 0xFF,
          s.msgLength &&& 0xFF, cfg.TOKEN] ++ s.msgBuffer.take s.msgLength)] ++
        List.replicate (if (s.msgLength + 6) % 16 ≠ 0 then 16 - (s.msgLength + 6) % 16 else 0)
          0xff ++
        s.receivedPacket.drop (s.msgLength + 6 +
          (if (s.msgLength + 6) % 16 ≠ 0 then 16 - (s.msgLength + 6) % 16 else 0)) ∧
      t.seqNum = (s.seqNum + 1) % 256 ∧ t.msgBuffer = s.msgBuffer := by
  obtain ⟨x0, x1, x2, x3, x4, rest, hR⟩ : ∃ x0 x1 x2 x3 x4 rest,
      s.receivedPacket = x0 :: x1 :: x2 :: x3 :: x4 :: rest := by
    match hm : s.receivedPacket, hrp with
    | x0 :: x1 :: x2 :: x3 :: x4 :: rest, _ => exact ⟨x0, x1, x2, x3, x4, rest, rfl⟩
  have hrest : rest.length = 283 := by
    rw [hR] at hrp; simp at hrp; omega
  generalize hpad : (if (s.msgLength + 6) % 16 ≠ 0 then 16 - (s.msgLength + 6) % 16 else 0)
    = pad
  have hpadle : s.msgLength + 6 + pad ≤ 288 := by
    rw [← hpad]; split <;> omega
  have e1 : (s.msgLength + 6) % 65536 = s.msgLength + 6 := Nat.mod_eq_of_lt (by omega)
  have e2 : (s.msgLength + (16 - (s.msgLength + 6) % 16) + 6) % 65536 =
      s.msgLength + (16 - (s.msgLength + 6) % 16) + 6 := Nat.mod_eq_of_lt (by omega)
  have hs0 : store (x0 :: x1 :: x2 :: x3 :: x4 :: rest) 0 cfg.MESSAGE_START =
      some (cfg.MESSAGE_START :: x1 :: x2 :: x3 :: x4 :: rest) := by simp [store]
  have hs1 : store (cfg.MESSAGE_START :: x1 :: x2 :: x3 :: x4 :: rest) 1 s.seqNum =
      some (cfg.MESSAGE_START :: s.seqNum :: x2 :: x3 :: x4 :: rest) := by simp [store]
  have hs2 : store (cfg.MESSAGE_START :: s.seqNum :: x2 :: x3 :: x4 :: rest) 2
      ((s.msgLength >>> 8) &&& 0xFF) =
      some (cfg.MESSAGE_START :: s.seqNum :: ((s.msgLength >>> 8) &&& 0xFF) :: x3 :: x4 :: rest)
      := by simp [store]
  have hs3 : store
      (cfg.MESSAGE_START :: s.seqNum :: ((s.msgLength >>> 8) &&& 0xFF) :: x3 :: x4 :: rest) 3
      (s.msgLength &&& 0x00FF) =
      some (cfg.MESSAGE_START :: s.seqNum :: ((s.msgLength >>> 8) &&& 0xFF) ::
        (s.msgLength &&& 0xFF) :: x4 :: rest) := by simp [store]
  have hfill : (if (s.msgLength + 6) % 16 ≠ 0 then
        fillLoop (s.msgLength + (16 - (s.msgLength + 6) % 16) + 6 - (s.msgLength + 6))
          (s.msgLength + 6)
          (cfg.MESSAGE_START :: s.seqNum :: ((s.msgLength >>> 8) &&& 0xFF) ::
            (s.msgLength &&& 0xFF) :: x4 :: rest)
      else some (cfg.MESSAGE_START :: s.seqNum :: ((s.msgLength >>> 8) &&& 0xFF) ::
            (s.msgLength &&& 0xFF) :: x4 :: rest)) =
      some (cfg.MESSAGE_START :: s.seqNum :: ((s.msgLength >>> 8) &&& 0xFF) ::
        (s.msgLength &&& 0xFF) :: x4 ::
        (rest.take (s.msgLength + 1) ++ List.replicate pad 0xff ++
          rest.drop (s.msgLength + 1 + pad))) := by
    by_cases hr : (s.msgLength + 6) % 16 = 0
    · have hp0 : pad = 0 := by rw [← hpad]; simp [hr]
      simp [hr, hp0]
    · have hp : pad = 16 - (s.msgLength + 6) % 16 := by rw [← hpad]; simp [hr]
      have e3 : s.msgLength + (16 - (s.msgLength + 6) % 16) + 6 - (s.msgLength + 6) = pad := by
        omega
      rw [if_pos hr, e3, fillLoop_spec pad (s.msgLength + 6) _
        (by simp only [List.length_cons]; omega)]
      have e4 : s.msgLength + 6 = s.msgLength + 1 + 1 + 1 + 1 + 1 + 1 := by omega
      have e5 : s.msgLength + 6 + pad = s.msgLength + 1 + pad + 1 + 1 + 1 + 1 + 1 := by omega
      rw [e5]
      nth_rewrite 1 [e4]
      simp only [List.take_succ_cons, List.drop_succ_cons, List.cons_append]
  generalize hY : rest.take (s.msgLength + 1) ++ List.replicate pad 0xff ++
    rest.drop (s.msgLength + 1 + pad) = Y at hfill
  have hYlen : Y.length = 283 := by
    rw [← hY]
    simp only [List.length_append, List.length_take, List.length_replicate, List.length_drop]
    omega
  have hYdrop : Y.drop s.msgLength =
      rest.getD s.msgLength 0 :: (List.replicate pad 0xff ++ rest.drop (s.msgLength + 1 + pad))
      := by
    rw [← hY, List.append_assoc]
    exact take_succ_append_drop rest _ s.msgLength (by omega)
  have hs4 : store (cfg.MESSAGE_START :: s.seqNum :: ((s.msgLength >>> 8) &&& 0xFF) ::
        (s.msgLength &&& 0xFF) :: x4 :: Y) 4 cfg.TOKEN =
      some (cfg.MESSAGE_START :: s.seqNum :: ((s.msgLength >>> 8) &&& 0xFF) ::
        (s.msgLength &&& 0xFF) :: cfg.TOKEN :: Y) := by simp [store]
  unfold assembleResponse
  rw [hR, hs0]
  dsimp only
  rw [hs1]
  dsimp only
  rw [hs2]
  dsimp only
  rw [hs3]
  dsimp only
  rw [e1, e2, hfill]
  dsimp only
  rw [hs4]
  dsimp only
  rw [copyLoop_spec s.msgLength 0 _ (by simpa using hmb)
    (by simp only [List.length_cons]; omega) (by show 5 + s.msgLength < 65536; omega)]
  dsimp only
  have hpl : (s.msgBuffer.take s.msgLength).length = s.msgLength := by
    rw [List.length_take]; omega
  have hlist : List.take 5 (cfg.MESSAGE_START :: s.seqNum :: ((s.msgLength >>> 8) &&& 0xFF) ::
        (s.msgLength &&& 0xFF) :: cfg.TOKEN :: Y) ++
        List.take s.msgLength (List.drop 0 s.msgBuffer) ++
        List.drop (5 + s.msgLength) (cfg.MESSAGE_START :: s.seqNum ::
          ((s.msgLength >>> 8) &&& 0xFF) :: (s.msgLength &&& 0xFF) :: cfg.TOKEN :: Y) =
      ([cfg.MESSAGE_START, s.seqNum, (s.msgLength >>> 8) &&& 0xFF, s.msgLength &&& 0xFF,
          cfg.TOKEN] ++ s.msgBuffer.take s.msgLength) ++
        (rest.getD s.msgLength 0 ::
          (List.replicate pad 0xff ++ rest.drop (s.msgLength + 1 + pad))) := by
    have e6 : 5 + s.msgLength = s.msgLength + 1 + 1 + 1 + 1 + 1 := by omega
    rw [e6]
    simp only [List.take_succ_cons, List.take_zero, List.drop_succ_cons, List.drop_zero, hYdrop]
  have hstore : store
      (([cfg.MESSAGE_START, s.seqNum, (s.msgLength >>> 8) &&& 0xFF, s.msgLength &&& 0xFF,
          cfg.TOKEN] ++ s.msgBuffer.take s.msgLength) ++
        (rest.getD s.msgLength 0 ::
          (List.replicate pad 0xff ++ rest.drop (s.msgLength + 1 + pad))))
      (5 + s.msgLength)
      (xorAll ([cfg.MESSAGE_START, s.seqNum, (s.msgLength >>> 8) &&& 0xFF,
          s.msgLength &&& 0xFF, cfg.TOKEN] ++ s.msgBuffer.take s.msgLength)) =
      some (([cfg.MESSAGE_START, s.seqNum, (s.msgLength >>> 8) &&& 0xFF, s.msgLength &&& 0xFF,
          cfg.TOKEN] ++ s.msgBuffer.take s.msgLength) ++
        (xorAll ([cfg.MESSAGE_START, s.seqNum, (s.msgLength >>> 8) &&& 0xFF,
          s.msgLength &&& 0xFF, cfg.TOKEN] ++ s.msgBuffer.take s.msgLength) ::
          (List.replicate pad 0xff ++ rest.drop (s.msgLength + 1 + pad)))) := by
    have hl5 : ([cfg.MESSAGE_START, s.seqNum, (s.msgLength >>> 8) &&& 0xFF,
        s.msgLength &&& 0xFF, cfg.TOKEN] ++ s.msgBuffer.take s.msgLength).length
        = 5 + s.msgLength := by
      rw [List.length_append, hpl]; rfl
    unfold store
    rw [if_pos (by rw [List.length_append, hl5, List.length_cons]; omega),
      List.set_append_right _ _ (by rw [hl5]), hl5, Nat.sub_self, List.set_cons_zero]
  have hxor : List.foldl (fun a b => a ^^^ b)
      (cfg.MESSAGE_START ^^^ 0 ^^^ s.seqNum ^^^ ((s.msgLength >>> 8) &&& 0xFF) ^^^
        (s.msgLength &&& 0xFF) ^^^ cfg.TOKEN)
      (List.take s.msgLength (List.drop 0 s.msgBuffer)) =
      xorAll ([cfg.MESSAGE_START, s.seqNum, (s.msgLength >>> 8) &&& 0xFF,
          s.msgLength &&& 0xFF, cfg.TOKEN] ++ s.msgBuffer.take s.msgLength) := by
    simp only [xorAll, List.cons_append, List.nil_append, List.foldl_cons, Nat.zero_xor,
      Nat.xor_zero, List.drop_zero]
  rw [hlist, hxor, hstore]
  dsimp only
  refine ⟨_, rfl, ?_, rfl, rfl⟩
  dsimp only
  have e7 : s.msgLength + 6 + pad = s.msgLength + 1 + pad + 1 + 1 + 1 + 1 + 1 := by omega
  rw [e7]
  simp only [List.drop_succ_cons, List.append_assoc, List.cons_append, List.nil_append]

/-! ### Response frame, padding, packet reception -/

/-- C18 fails on the code when `(msgLength + 6) % 16 = 0`. A read-eeprom command of 7 bytes
in the initial session gives a response payload of 10 bytes, so a frame of 16 bytes:
`finalResponseSize` is 32, and the bytes at indices 16 to 31 of the buffer handed to
`aes_encrypt` are not the filler 0xFF but what `receivedPacket` held before (here its
initial value 0x04). -/
theorem padding_adds_unfilled_block :
    ((dispatch atmega128 (sessionWith [0x16, 0, 7] [])).bind
        (assembleResponse atmega128)).map
        (fun r => (r.1, r.2.receivedPacket.take 32)) =
      some (32,
        [0x1B, 0, 0, 10, 0x0E, 0x16, 0x00, 0xFF, 0xFF, 0xFF, 0xFF, 0xFF, 0xFF, 0xFF, 0x00, 0xF6,
          0x04, 0x04, 0x04, 0x04, 0x04, 0x04, 0x04, 0x04, 0x04, 0x04, 0x04, 0x04, 0x04, 0x04,
          0x04, 0x04]) := by
  decide!

/-- C20 fails on the code. With a packet of sixteen ciphertext bytes followed by the bytes
0xAA and 0xBB on the transport, the receive loop stores the sixteen bytes and then also
consumes 0xAA before it ends (only 0xBB is left): reception takes 3 + N + 1 bytes. With
nothing after the packet the loop does not end: it waits for one more byte. -/
theorem receiver_reads_beyond_packet :
    (recvPacket atmega128 (sessionWith []
        [0x1C, 0x00, 0x10, 0x75, 0x5d, 0x13, 0x43, 0x2c, 0xfd, 0x88, 0x18, 0x46, 0x65, 0x92,
          0xe1, 0x80, 0xdf, 0xdb, 0x57, 0xAA, 0xBB])).map
        (fun t => (t.packetSize, t.receivedPacket.take 16, t.rx)) =
      some (16,
        [0x75, 0x5d, 0x13, 0x43, 0x2c, 0xfd, 0x88, 0x18, 0x46, 0x65, 0x92, 0xe1, 0x80, 0xdf,
          0xdb, 0x57], [0xBB]) ∧
    (recvPacket atmega128 (sessionWith []
        [0x1C, 0x00, 0x10, 0x75, 0x5d, 0x13, 0x43, 0x2c, 0xfd, 0x88, 0x18, 0x46, 0x65, 0x92,
          0xe1, 0x80, 0xdf, 0xdb, 0x57])).isNone = true := by
  constructor <;> decide!

/-- C11 fails on the code. After authenticate and load-address of word address 0x0800
(byte address 0x1000), a program-flash command of two bytes erases the page at the erase
cursor, page 0, and then fills and commits the page at 0x1000: that page is written
without having been erased in the session. -/
theorem commits_page_not_erased :
    (runFrames atmega128
        [[0x50, 1, 2, 3, 4, 0x53, 0xEF, 0x34, 0x23], [0x06, 0, 0, 0x08, 0x00],
         [0x13, 0, 2, 0xC1, 0x0A, 0x40, 0x4C, 0x20, 0, 0, 0x0C, 0x94]]
        (sessionWith [] [])).map (fun s => s.hw) =
      some [HwEvent.boot_page_erase 0, HwEvent.boot_spm_busy_wait,
        HwEvent.boot_page_fill 0x1000 0x940C, HwEvent.boot_page_write 0x1000,
        HwEvent.boot_spm_busy_wait, HwEvent.boot_rww_enable] := by
  decide!

/-! ### The trace of a program-flash command -/

theorem addrMod_pos (cfg : Config) : 0 < cfg.addrMod := by
  unfold Config.addrMod
  split <;> decide

theorem getElem?_eq_some_getD (l : List Nat) (i : Nat) (h : i < l.length) :
    l[i]? = some (l.getD i 0) := by
  rw [List.getD_eq_getElem?_getD, List.getElem?_eq_getElem h]
  rfl

/-- The fill loop on an even size `2 * (n + 1)`: `n + 1` iterations, one `boot_page_fill`
each, of the little-endian word at `msgBuffer[p + 2k]` at address `address + 2k`. -/
theorem flashFillLoop_spec (cfg : Config) (n : Nat) :
    ∀ (fuel p : Nat) (s : Session), n + 1 ≤ fuel → p + 2 * (n + 1) ≤ s.msgBuffer.length →
      2 * (n + 1) < 65536 → s.address < cfg.addrMod →
      ∃ t, flashFillLoop cfg fuel p (2 * (n + 1)) s = some t ∧
        t.hw = s.hw ++ (List.range (n + 1)).map (fun k =>
          HwEvent.boot_page_fill ((s.address + 2 * k) % cfg.addrMod)
            ((s.msgBuffer.getD (p + 2 * k + 1) 0 <<< 8) ||| s.msgBuffer.getD (p + 2 * k) 0)) ∧
        t.address = (s.address + 2 * (n + 1)) % cfg.addrMod := by
  induction n with
  | zero =>
    intro fuel p s hf hp _ ha
    obtain ⟨f, rfl⟩ : ∃ f, fuel = f + 1 := ⟨fuel - 1, by omega⟩
    refine ⟨{ s with hw := s.hw ++ [HwEvent.boot_page_fill s.address
                  ((s.msgBuffer.getD (p + 1) 0 <<< 8) ||| s.msgBuffer.getD p 0)],
                     address := (s.address + 2) % cfg.addrMod }, ?_, ?_, ?_⟩
    · have g0 := getElem?_eq_some_getD s.msgBuffer p (by omega)
      have g1 := getElem?_eq_some_getD s.msgBuffer (p + 1) (by omega)
      simp only [flashFillLoop, g0, g1]
      rfl
    · show s.hw ++ [_] = _
      simp only [List.range_succ_eq_map, List.range_zero, List.map_cons, List.map_nil,
        Nat.mul_zero, Nat.add_zero, Nat.mod_eq_of_lt ha]
    · rfl
  | succ m ih =>
    intro fuel p s hf hp hs ha
    obtain ⟨f, rfl⟩ : ∃ f, fuel = f + 1 := ⟨fuel - 1, by omega⟩
    have hsz : (2 * (m + 1 + 1) + 65536 - 2) % 65536 = 2 * (m + 1) := by omega
    have hne : 2 * (m + 1) ≠ 0 := by omega
    have hf1 : m + 1 ≤ f := by omega
    have hp1 : p + 2 + 2 * (m + 1) ≤ s.msgBuffer.length := by omega
    have hs1 : 2 * (m + 1) < 65536 := by omega
    obtain ⟨t, ht, hhw, hadr⟩ := ih f (p + 2)
      { s with hw := s.hw ++ [HwEvent.boot_page_fill s.address
                  ((s.msgBuffer.getD (p + 1) 0 <<< 8) ||| s.msgBuffer.getD p 0)],
               address := (s.address + 2) % cfg.addrMod }
      hf1 hp1 hs1 (Nat.mod_lt _ (addrMod_pos cfg))
    refine ⟨t, ?_, ?_, ?_⟩
    · have g0 := getElem?_eq_some_getD s.msgBuffer p (by omega)
      have g1 := getElem?_eq_some_getD s.msgBuffer (p + 1) (by omega)
      simp only [flashFillLoop, g0, g1, hsz, if_pos hne]
      exact ht
    · rw [hhw]
      dsimp only
      rw [List.range_succ_eq_map (m + 1), List.map_cons, List.map_map, List.append_assoc,
        List.singleton_append]
      refine congrArg (fun l => s.hw ++ l) (List.cons_eq_cons.mpr ⟨?_, ?_⟩)
      · simp only [Nat.mul_zero, Nat.add_zero, Nat.mod_eq_of_lt ha]
      · apply List.map_congr_left
        intro k _
        simp only [Function.comp, Nat.mod_add_mod]
        have e1 : s.address + 2 + 2 * k = s.address + 2 * (k + 1) := by omega
        have e2 : p + 2 + 2 * k = p + 2 * (k + 1) := by omega
        rw [e1, e2]
    · rw [hadr]
      dsimp only
      rw [Nat.mod_add_mod]
      have e : s.address + 2 + 2 * (m + 1) = s.address + 2 * (m + 1 + 1) := by omega
      rw [e]

/-- C12. For every authenticated program-flash command whose size field is even and at
least 2 (`2 * (n + 1)`), with the `2 * (n + 1)` data bytes inside `msgBuffer`, target
address `address` and erase cursor `eraseAddress`, the dispatch returns and the hardware
calls it makes are: when `eraseAddress < APP_END`, `boot_page_erase(eraseAddress)` and a
busy-wait, the cursor becoming `eraseAddress + SPM_PAGESIZE`; then for `k = 0 .. n` a
`boot_page_fill` of the word `msgBuffer[10+2k] | msgBuffer[11+2k] << 8` at `address + 2k`;
then `boot_page_write(address)`, a busy-wait and `boot_rww_enable`. Afterwards the target
address is `address + 2 * (n + 1)` and the response is `[CMD_PROGRAM_FLASH_ISP,
STATUS_CMD_OK]` of length 2. Addresses are in the arithmetic of `address_t`. -/
theorem program_flash_trace (cfg : Config) (s : Session) (hd : cfg.DistinctLabels)
    (hauth : s.isAuthenticated = 1)
    (hop : s.msgBuffer.getD 0 0 = cfg.CMD_PROGRAM_FLASH_ISP) (n : Nat)
    (hsize : ((s.msgBuffer.getD 1 0 <<< 8) ||| s.msgBuffer.getD 2 0) % 65536 = 2 * (n + 1))
    (hbuf : 10 + 2 * (n + 1) ≤ s.msgBuffer.length) (haddr : s.address < cfg.addrMod) :
    ∃ s', dispatch cfg s = some s' ∧
      s'.hw = s.hw ++
        (if s.eraseAddress < cfg.APP_END then
          [HwEvent.boot_page_erase s.eraseAddress, HwEvent.boot_spm_busy_wait] else []) ++
        (List.range (n + 1)).map (fun k =>
          HwEvent.boot_page_fill ((s.address + 2 * k) % cfg.addrMod)
            (s.msgBuffer.getD (10 + 2 * k) 0 ||| (s.msgBuffer.getD (11 + 2 * k) 0 <<< 8))) ++
        [HwEvent.boot_page_write s.address, HwEvent.boot_spm_busy_wait,
          HwEvent.boot_rww_enable] ∧
      s'.eraseAddress =
        (if s.eraseAddress < cfg.APP_END then
          (s.eraseAddress + cfg.SPM_PAGESIZE) % cfg.addrMod else s.eraseAddress) ∧
      s'.address = (s.address + 2 * (n + 1)) % cfg.addrMod ∧
      s'.msgLength = 2 ∧
      s'.msgBuffer.take 2 = [cfg.CMD_PROGRAM_FLASH_ISP, cfg.STATUS_CMD_OK] := by
  obtain ⟨g1, _, _, g4⟩ := eraseStep_fields cfg s
  have hlt : 2 * (n + 1) < 65536 := by rw [← hsize]; exact Nat.mod_lt _ (by decide)
  obtain ⟨t, ht, hhw, hadr⟩ := flashFillLoop_spec cfg n 32768 10 (eraseStep cfg s)
    (by omega) (by rw [g4]; exact hbuf) hlt (by rw [g1]; exact haddr)
  obtain ⟨_, h2, _, _, h5⟩ := flashFillLoop_effect cfg _ _ _ _ _ ht
  have hcase : case_CMD_PROGRAM cfg s =
      some { t with hw := t.hw ++ [HwEvent.boot_page_write s.address,
                                   HwEvent.boot_spm_busy_wait, HwEvent.boot_rww_enable],
                    msgLength := 2, msgBuffer := t.msgBuffer.set 1 cfg.STATUS_CMD_OK } := by
    unfold case_CMD_PROGRAM
    rw [if_pos hauth]
    dsimp only
    rw [hsize, if_pos hop, ht]
  refine ⟨_, (dispatch_CMD_PROGRAM_FLASH_ISP cfg s hd hop).trans hcase, ?_, ?_, ?_, rfl, ?_⟩
  · show t.hw ++ _ = _
    rw [hhw, eraseStep_hw, g1, g4]
    refine congrArg (fun l => _ ++ l ++ _) (List.map_congr_left ?_)
    intro k _
    have e : 10 + 2 * k + 1 = 11 + 2 * k := by omega
    rw [e, Nat.lor_comm]
  · show t.eraseAddress = _
    rw [h2]
    unfold eraseStep
    split <;> rfl
  · show t.address = _
    rw [hadr, g1]
  · show (t.msgBuffer.set 1 cfg.STATUS_CMD_OK).take 2 = _
    rw [h5, g4]
    match hm : s.msgBuffer, hbuf, hop with
    | a :: b :: rest, _, hop =>
      simp only [List.getD_cons_zero] at hop
      simp [hop]

/-- Witness for C12: an authenticated program-flash command of two bytes at address 0. -/
theorem program_flash_trace_witness :
    ∃ s', dispatch atmega128
        (authedAt 0 [0x13, 0, 2, 0xC1, 0x0A, 0x40, 0x4C, 0x20, 0, 0, 0x0C, 0x94]) = some s' ∧
      s'.hw = (authedAt 0 [0x13, 0, 2, 0xC1, 0x0A, 0x40, 0x4C, 0x20, 0, 0, 0x0C, 0x94]).hw ++
        (if (authedAt 0 [0x13, 0, 2, 0xC1, 0x0A, 0x40, 0x4C, 0x20, 0, 0, 0x0C, 0x94]).eraseAddress
            < atmega128.APP_END then
          [HwEvent.boot_page_erase
            (authedAt 0 [0x13, 0, 2, 0xC1, 0x0A, 0x40, 0x4C, 0x20, 0, 0, 0x0C, 0x94]).eraseAddress,
            HwEvent.boot_spm_busy_wait] else []) ++
        (List.range (0 + 1)).map (fun k =>
          HwEvent.boot_page_fill
            (((authedAt 0 [0x13, 0, 2, 0xC1, 0x0A, 0x40, 0x4C, 0x20, 0, 0, 0x0C, 0x94]).address
              + 2 * k) % atmega128.addrMod)
            ((authedAt 0
                [0x13, 0, 2, 0xC1, 0x0A, 0x40, 0x4C, 0x20, 0, 0, 0x0C, 0x94]).msgBuffer.getD
                (10 + 2 * k) 0 |||
              ((authedAt 0
                [0x13, 0, 2, 0xC1, 0x0A, 0x40, 0x4C, 0x20, 0, 0, 0x0C, 0x94]).msgBuffer.getD
                (11 + 2 * k) 0 <<< 8))) ++
        [HwEvent.boot_page_write
            (authedAt 0 [0x13, 0, 2, 0xC1, 0x0A, 0x40, 0x4C, 0x20, 0, 0, 0x0C, 0x94]).address,
          HwEvent.boot_spm_busy_wait, HwEvent.boot_rww_enable] ∧
      s'.eraseAddress =
        (if (authedAt 0 [0x13, 0, 2, 0xC1, 0x0A, 0x40, 0x4C, 0x20, 0, 0, 0x0C, 0x94]).eraseAddress
            < atmega128.APP_END then
          ((authedAt 0 [0x13, 0, 2, 0xC1, 0x0A, 0x40, 0x4C, 0x20, 0, 0, 0x0C, 0x94]).eraseAddress
            + atmega128.SPM_PAGESIZE) % atmega128.addrMod
        else
          (authedAt 0
            [0x13, 0, 2, 0xC1, 0x0A, 0x40, 0x4C, 0x20, 0, 0, 0x0C, 0x94]).eraseAddress) ∧
      s'.address =
        ((authedAt 0 [0x13, 0, 2, 0xC1, 0x0A, 0x40, 0x4C, 0x20, 0, 0, 0x0C, 0x94]).address
          + 2 * (0 + 1)) % atmega128.addrMod ∧
      s'.msgLength = 2 ∧
      s'.msgBuffer.take 2 = [atmega128.CMD_PROGRAM_FLASH_ISP, atmega128.STATUS_CMD_OK] :=
  program_flash_trace atmega128
    (authedAt 0 [0x13, 0, 2, 0xC1, 0x0A, 0x40, 0x4C, 0x20, 0, 0, 0x0C, 0x94])
    atmega128_distinct (by decide) (by decide) 0 (by decide)
    (by show 10 + 2 * (0 + 1) ≤ (sessionWith _ []).msgBuffer.length
        rw [sessionWith_length _ _ (by decide)]; decide)
    (by decide)

/-! ### A packet without a frame -/

/-- The ciphertext block 50fe…ec60 decrypts, under the firmware key and chaining value, to
sixteen zero bytes. -/
theorem cbcDec_zero_block :
    cbcDec expandedKey 1 iv
        [0x50, 0xfe, 0x67, 0xcc, 0x99, 0x6d, 0x32, 0xb6, 0xda, 0x09, 0x37, 0xe9, 0x9b, 0xaf,
          0xec, 0x60] =
      List.replicate 16 0x00 := by
  decide!

/-- C17 fails on the code. The packet of sixteen ciphertext bytes 50fe…ec60 decrypts to
sixteen zero bytes, which contain no frame. In the state after `aes_decrypt` in which
`aes_buffer[16..31]` still holds an authenticate frame decrypted from an earlier packet
of 32 bytes, the framer does not stop after the sixteen bytes of the packet: it goes on
to index 31, parses the stale frame, and the command is dispatched (the session becomes
authenticated). In the state in which the rest of `aes_buffer` holds its initial bytes
0x03, the framer loop does not end inside the array. -/
theorem framer_reads_beyond_packet :
    cbcDec expandedKey 1 iv
        [0x50, 0xfe, 0x67, 0xcc, 0x99, 0x6d, 0x32, 0xb6, 0xda, 0x09, 0x37, 0xe9, 0x9b, 0xaf,
          0xec, 0x60] =
      List.replicate 16 0x00 ∧
    ((parseFrame atmega128
        { sessionWith [] [] with
          packetSize := 16, seqNum := 2,
          aes_buffer := List.replicate 16 0x00 ++
            [0x1B, 1, 0x00, 0x09, 0x0E, 0x50, 1, 2, 3, 4, 0x53, 0xEF, 0x34, 0x23, 0xE2, 0xFF] ++
            List.replicate 256 0x03 }).bind (dispatch atmega128)).map
        (fun t => (t.receivedPacketIndex, t.seqNum, t.isAuthenticated, t.msgLength,
          t.msgBuffer.take 5)) =
      some (31, 1, 1, 5, [0x00, 5, 2, 3, 4]) ∧
    (parseFrame atmega128
        { sessionWith [] [] with
          packetSize := 16,
          aes_buffer := List.replicate 16 0x00 ++ List.replicate 272 0x03 }).isNone = true := by
  refine ⟨cbcDec_zero_block, ?_, ?_⟩ <;> decide!

/-! ### Chaining, block by block -/

theorem blockAt_zero_append {b : List Nat} (R : List Nat) (hb : b.length = 16) :
    blockAt (b ++ R) 0 = b := by
  unfold blockAt
  rw [List.drop_zero, List.take_left' hb]

theorem blockAt_succ_append {b : List Nat} (R : List Nat) (k : Nat) (hb : b.length = 16) :
    blockAt (b ++ R) (16 * (k + 1)) = blockAt R (16 * k) := by
  unfold blockAt
  have e : 16 * (k + 1) = b.length + 16 * k := by omega
  rw [e, ← List.drop_drop, List.drop_left]

theorem blockAt_append_left (A B : List Nat) (off : Nat) (h : off + 16 ≤ A.length) :
    blockAt (A ++ B) off = blockAt A off := by
  unfold blockAt
  rw [List.drop_append_of_le_length (by omega), List.take_append_of_le_length]
  rw [List.length_drop]
  omega

theorem blockAt_length (A : List Nat) (off : Nat) (h : off + 16 ≤ A.length) :
    (blockAt A off).length = 16 := by
  unfold blockAt
  rw [List.length_take, List.length_drop]
  omega

/-- Block `i` of `cbcDec`: the inverse cipher of ciphertext block `i`, XORed with `prev`
for the first block and with ciphertext block `i - 1` for the others. -/
theorem blockAt_cbcDec (rk : List Nat) (n : Nat) :
    ∀ (prev data : List Nat) (i : Nat), data.length = 16 * n → i < n →
      blockAt (cbcDec rk n prev data) (16 * i) =
        XorWithIv (InvCipher rk (blockAt data (16 * i)))
          (if i = 0 then prev else blockAt data (16 * (i - 1))) := by
  induction n with
  | zero => intro _ _ i _ hi; omega
  | succ m ih =>
    intro prev data i hd hi
    obtain ⟨b, d, rfl, hb, hd'⟩ := split16 hd
    have hX : (XorWithIv (InvCipher rk b) prev).length = 16 :=
      XorWithIv_length _ (InvCipher_length rk hb)
    simp only [cbcDec, List.take_left' hb, List.drop_left' hb]
    cases i with
    | zero =>
      rw [Nat.mul_zero, blockAt_zero_append _ hX, blockAt_zero_append _ hb, if_pos rfl]
    | succ k =>
      rw [blockAt_succ_append _ _ hX, blockAt_succ_append _ _ hb, ih b d k hd' (by omega),
        if_neg (Nat.succ_ne_zero k), Nat.add_sub_cancel]
      cases k with
      | zero => rw [if_pos rfl, Nat.mul_zero, blockAt_zero_append _ hb]
      | succ j =>
        rw [if_neg (Nat.succ_ne_zero j), Nat.add_sub_cancel, blockAt_succ_append _ _ hb]

/-- Block `i` of `cbcEnc`: the cipher of plaintext block `i` XORed with `prev` for the
first block and with result block `i - 1` for the others. -/
theorem blockAt_cbcEnc (rk : List Nat) (n : Nat) :
    ∀ (prev data : List Nat) (i : Nat), data.length = 16 * n → i < n →
      blockAt (cbcEnc rk n prev data) (16 * i) =
        Cipher rk (XorWithIv (blockAt data (16 * i))
          (if i = 0 then prev else blockAt (cbcEnc rk n prev data) (16 * (i - 1)))) := by
  induction n with
  | zero => intro _ _ i _ hi; omega
  | succ m ih =>
    intro prev data i hd hi
    obtain ⟨b, d, rfl, hb, hd'⟩ := split16 hd
    have hC : (Cipher rk (XorWithIv b prev)).length = 16 :=
      Cipher_length rk (XorWithIv_length _ hb)
    simp only [cbcEnc, List.take_left' hb, List.drop_left' hb]
    cases i with
    | zero =>
      rw [Nat.mul_zero, blockAt_zero_append _ hC, blockAt_zero_append _ hb, if_pos rfl]
    | succ k =>
      rw [blockAt_succ_append _ _ hC, blockAt_succ_append _ _ hb, ih _ d k hd' (by omega),
        if_neg (Nat.succ_ne_zero k), Nat.add_sub_cancel]
      cases k with
      | zero => rw [if_pos rfl, Nat.mul_zero, blockAt_zero_append _ hC]
      | succ j =>
        rw [if_neg (Nat.succ_ne_zero j), Nat.add_sub_cancel, blockAt_succ_append _ _ hC]

/-- The result of `cbcDec` on `n` whole blocks has `16 * n` bytes. -/
theorem cbcDec_length (rk : List Nat) (n : Nat) :
    ∀ (prev data : List Nat), data.length = 16 * n → (cbcDec rk n prev data).length = 16 * n := by
  induction n with
  | zero => intro prev data _; rfl
  | succ k ih =>
    intro prev data hd
    obtain ⟨b, d, rfl, hb, hd'⟩ := split16 hd
    simp only [cbcDec, List.take_left' hb, List.drop_left' hb, List.length_append]
    rw [ih _ _ hd', XorWithIv_length _ (InvCipher_length rk hb)]
    omega

/-- C21. For every ciphertext `c` of `n` whole blocks (any bytes may follow it in the
buffer) and whatever the static round-key array and the static `Iv` pointer held when
the call was made, `aes_decrypt` returns, and block `i` of its output is
`InvCipher(ciphertext block i)` XORed with the fixed chaining value `iv` for `i = 0` and
with ciphertext block `i - 1` for `1 ≤ i < n`. -/
theorem aes_decrypt_block_chaining (key iv rk0 : List Nat) (Iv0 : IvRef)
    (out c tailC : List Nat) (n : Nat) (hlen : c.length = 16 * n) (hmax : c.length ≤ 65520)
    (hout : c.length ≤ out.length) :
    ∃ d, aes_decrypt key iv ⟨rk0, Iv0, out, c ++ tailC⟩ c.length = some d ∧
      ∀ i, i < n →
        blockAt d.output (16 * i) =
          XorWithIv (InvCipher (KeyExpansion key rk0) (blockAt c (16 * i)))
            (if i = 0 then iv else blockAt c (16 * (i - 1))) := by
  obtain ⟨d, hd, _, hdo, _⟩ := aes_decrypt_spec key iv rk0 Iv0 out c tailC n hlen hmax hout
  refine ⟨d, hd, ?_⟩
  intro i hi
  have hcl : (cbcDec (KeyExpansion key rk0) n iv c).length = 16 * n :=
    cbcDec_length _ _ _ _ hlen
  rw [hdo, blockAt_append_left _ _ _ (by omega)]
  exact blockAt_cbcDec _ n iv c i hlen hi

/-- Witness for C21: two ciphertext blocks, a static `Iv` pointer left inside the input
buffer by an earlier call. -/
theorem aes_decrypt_block_chaining_witness :
    ∃ d, aes_decrypt key iv ⟨List.replicate 176 7, IvRef.input 16, List.replicate 32 3,
        (List.replicate 16 0x5a ++ List.replicate 16 0xa5) ++ [1, 2, 3]⟩
        (List.replicate 16 0x5a ++ List.replicate 16 0xa5).length = some d ∧
      ∀ i, i < 2 →
        blockAt d.output (16 * i) =
          XorWithIv (InvCipher (KeyExpansion key (List.replicate 176 7))
              (blockAt (List.replicate 16 0x5a ++ List.replicate 16 0xa5) (16 * i)))
            (if i = 0 then iv
              else blockAt (List.replicate 16 0x5a ++ List.replicate 16 0xa5) (16 * (i - 1))) :=
  aes_decrypt_block_chaining key iv (List.replicate 176 7) (IvRef.input 16)
    (List.replicate 32 3) (List.replicate 16 0x5a ++ List.replicate 16 0xa5) [1, 2, 3] 2
    (by decide) (by decide) (by decide)

/-- C22. For every plaintext `p` of `n` whole blocks, `aes_encrypt` returns, and block `i`
of its output is `Cipher(plaintext block i XOR iv)` for `i = 0` and
`Cipher(plaintext block i XOR output block i - 1)` for `1 ≤ i < n`. A second call on the
same plaintext returns the same ciphertext, whatever the static round-key array (176
bytes) and the static `Iv` pointer were left holding by the calls in between, and
whatever the output buffers and the bytes behind the plaintext held. -/
theorem aes_encrypt_block_chaining (key iv rk₁ rk₂ : List Nat) (Iv₁ Iv₂ : IvRef)
    (out₁ out₂ p tail₁ tail₂ : List Nat) (n : Nat)
    (hrk₁ : rk₁.length = 176) (hrk₂ : rk₂.length = 176)
    (hlen : p.length = 16 * n) (hmax : p.length ≤ 65520)
    (ho₁ : p.length ≤ out₁.length) (ho₂ : p.length ≤ out₂.length) :
    ∃ e₁ e₂, aes_encrypt key iv ⟨rk₁, Iv₁, out₁, p ++ tail₁⟩ p.length = some e₁ ∧
      aes_encrypt key iv ⟨rk₂, Iv₂, out₂, p ++ tail₂⟩ p.length = some e₂ ∧
      (∀ i, i < n →
        blockAt e₁.output (16 * i) =
          Cipher (KeyExpansion key rk₁)
            (XorWithIv (blockAt p (16 * i))
              (if i = 0 then iv else blockAt e₁.output (16 * (i - 1))))) ∧
      e₂.output.take p.length = e₁.output.take p.length := by
  obtain ⟨e₁, he₁, _, ho1⟩ := aes_encrypt_spec key iv rk₁ Iv₁ out₁ p tail₁ n hlen hmax ho₁
  obtain ⟨e₂, he₂, _, ho2⟩ := aes_encrypt_spec key iv rk₂ Iv₂ out₂ p tail₂ n hlen hmax ho₂
  have hcl : ∀ rk, (cbcEnc rk n iv p).length = 16 * n := fun rk =>
    cbcEnc_length _ _ _ _ hlen
  refine ⟨e₁, e₂, he₁, he₂, ?_, ?_⟩
  · intro i hi
    have h1 := hcl (KeyExpansion key rk₁)
    rw [ho1, blockAt_append_left _ _ _ (by omega)]
    have h2 : (if i = 0 then iv
        else blockAt (cbcEnc (KeyExpansion key rk₁) n iv p ++ out₁.drop p.length)
          (16 * (i - 1))) =
        (if i = 0 then iv else blockAt (cbcEnc (KeyExpansion key rk₁) n iv p)
          (16 * (i - 1))) := by
      by_cases h0 : i = 0
      · rw [if_pos h0, if_pos h0]
      · rw [if_neg h0, if_neg h0, blockAt_append_left _ _ _ (by omega)]
    rw [h2]
    exact blockAt_cbcEnc _ n iv p i hlen hi
  · rw [ho1, ho2, KeyExpansion_indep key hrk₂ hrk₁]
    have h1 := hcl (KeyExpansion key rk₁)
    rw [List.take_left' (by omega), List.take_left' (by omega)]

/-- Witness for C22: two blocks; the second call finds another round-key array content,
an `Iv` pointer left in an output buffer, and other buffer contents. -/
theorem aes_encrypt_block_chaining_witness :
    ∃ e₁ e₂, aes_encrypt key iv ⟨List.replicate 176 0, IvRef.iv, List.replicate 32 3,
        (List.replicate 16 0x5a ++ List.replicate 16 0xa5) ++ []⟩
        (List.replicate 16 0x5a ++ List.replicate 16 0xa5).length = some e₁ ∧
      aes_encrypt key iv ⟨List.replicate 176 9, IvRef.output 16, List.replicate 48 4,
        (List.replicate 16 0x5a ++ List.replicate 16 0xa5) ++ [8, 8]⟩
        (List.replicate 16 0x5a ++ List.replicate 16 0xa5).length = some e₂ ∧
      (∀ i, i < 2 →
        blockAt e₁.output (16 * i) =
          Cipher (KeyExpansion key (List.replicate 176 0))
            (XorWithIv (blockAt (List.replicate 16 0x5a ++ List.replicate 16 0xa5) (16 * i))
              (if i = 0 then iv else blockAt e₁.output (16 * (i - 1))))) ∧
      e₂.output.take (List.replicate 16 0x5a ++ List.replicate 16 0xa5).length =
        e₁.output.take (List.replicate 16 0x5a ++ List.replicate 16 0xa5).length :=
  aes_encrypt_block_chaining key iv (List.replicate 176 0) (List.replicate 176 9) IvRef.iv
    (IvRef.output 16) (List.replicate 32 3) (List.replicate 48 4)
    (List.replicate 16 0x5a ++ List.replicate 16 0xa5) [] [8, 8] 2
    (List.length_replicate 176 0) (List.length_replicate 176 9)
    (by decide) (by decide) (by decide) (by decide)

/-! ### The CBC test vector of NIST SP 800-38A, F.2.1 and F.2.2 -/

theorem cbcEnc_two (rk prev b0 b1 : List Nat) (h0 : b0.length = 16)
    (h1 : b1.length = 16) :
    cbcEnc rk 2 prev (b0 ++ b1) =
      Cipher rk (XorWithIv b0 prev) ++ Cipher rk (XorWithIv b1 (Cipher rk (XorWithIv b0 prev))) := by
  simp only [cbcEnc, List.take_left' h0, List.drop_left' h0, List.take_of_length_le (Nat.le_of_eq h1),
    List.append_nil]

theorem cbcDec_two (rk prev b0 b1 : List Nat) (h0 : b0.length = 16)
    (h1 : b1.length = 16) :
    cbcDec rk 2 prev (b0 ++ b1) =
      XorWithIv (InvCipher rk b0) prev ++ XorWithIv (InvCipher rk b1) b0 := by
  simp only [cbcDec, List.take_left' h0, List.drop_left' h0, List.take_of_length_le (Nat.le_of_eq h1),
    List.append_nil]

theorem Cipher_sp800_38a_block1 :
    Cipher expandedKey
        (XorWithIv [0x6b, 0xc1, 0xbe, 0xe2, 0x2e, 0x40, 0x9f, 0x96, 0xe9, 0x3d, 0x7e, 0x11, 0x73,
          0x93, 0x17, 0x2a] iv) =
      [0x76, 0x49, 0xab, 0xac, 0x81, 0x19, 0xb2, 0x46, 0xce, 0xe9, 0x8e, 0x9b, 0x12, 0xe9,
        0x19, 0x7d] := by
  decide!

theorem Cipher_sp800_38a_block2 :
    Cipher expandedKey
        (XorWithIv [0xae, 0x2d, 0x8a, 0x57, 0x1e, 0x03, 0xac, 0x9c, 0x9e, 0xb7, 0x6f, 0xac, 0x45,
          0xaf, 0x8e, 0x51]
          [0x76, 0x49, 0xab, 0xac, 0x81, 0x19, 0xb2, 0x46, 0xce, 0xe9, 0x8e, 0x9b, 0x12, 0xe9,
            0x19, 0x7d]) =
      [0x50, 0x86, 0xcb, 0x9b, 0x50, 0x72, 0x19, 0xee, 0x95, 0xdb, 0x11, 0x3a, 0x91, 0x76,
        0x78, 0xb2] := by
  decide!

theorem InvCipher_sp800_38a_block1 :
    XorWithIv (InvCipher expandedKey
        [0x76, 0x49, 0xab, 0xac, 0x81, 0x19, 0xb2, 0x46, 0xce, 0xe9, 0x8e, 0x9b, 0x12, 0xe9,
          0x19, 0x7d]) iv =
      [0x6b, 0xc1, 0xbe, 0xe2, 0x2e, 0x40, 0x9f, 0x96, 0xe9, 0x3d, 0x7e, 0x11, 0x73, 0x93,
        0x17, 0x2a] := by
  decide!

theorem InvCipher_sp800_38a_block2 :
    XorWithIv (InvCipher expandedKey
        [0x50, 0x86, 0xcb, 0x9b, 0x50, 0x72, 0x19, 0xee, 0x95, 0xdb, 0x11, 0x3a, 0x91, 0x76,
          0x78, 0xb2])
        [0x76, 0x49, 0xab, 0xac, 0x81, 0x19, 0xb2, 0x46, 0xce, 0xe9, 0x8e, 0x9b, 0x12, 0xe9,
          0x19, 0x7d] =
      [0xae, 0x2d, 0x8a, 0x57, 0x1e, 0x03, 0xac, 0x9c, 0x9e, 0xb7, 0x6f, 0xac, 0x45, 0xaf,
        0x8e, 0x51] := by
  decide!

/-- C23. With the key and the chaining value embedded in the firmware, `aes_encrypt`
returns on the 32-byte plaintext 6bc1bee22e409f96e93d7e117393172a
ae2d8a571e03ac9c9eb76fac45af8e51 and leaves the ciphertext
7649abac8119b246cee98e9b12e9197d 5086cb9b507219ee95db113a917678b2 in the first 32 bytes
of its output buffer (NIST SP 800-38A, F.2.1), and `aes_decrypt` returns on that
ciphertext and leaves the plaintext in the first 32 bytes of its output buffer (F.2.2).
The static round-key array (176 bytes) and `Iv` pointer found by either call, the old
contents of the output buffers and the bytes behind the 32 input bytes are arbitrary. -/
theorem sp800_38a_cbc_aes128 (rk₁ rk₂ : List Nat) (Iv₁ Iv₂ : IvRef)
    (out₁ out₂ tailP tailC : List Nat) (hrk₁ : rk₁.length = 176) (hrk₂ : rk₂.length = 176)
    (ho₁ : 32 ≤ out₁.length) (ho₂ : 32 ≤ out₂.length) :
    ∃ e d,
      aes_encrypt key iv
        ⟨rk₁, Iv₁, out₁,
          [0x6b, 0xc1, 0xbe, 0xe2, 0x2e, 0x40, 0x9f, 0x96, 0xe9, 0x3d, 0x7e, 0x11, 0x73, 0x93,
            0x17, 0x2a, 0xae, 0x2d, 0x8a, 0x57, 0x1e, 0x03, 0xac, 0x9c, 0x9e, 0xb7, 0x6f, 0xac,
            0x45, 0xaf, 0x8e, 0x51] ++ tailP⟩ 32 = some e ∧
      e.output.take 32 =
        [0x76, 0x49, 0xab, 0xac, 0x81, 0x19, 0xb2, 0x46, 0xce, 0xe9, 0x8e, 0x9b, 0x12, 0xe9,
          0x19, 0x7d, 0x50, 0x86, 0xcb, 0x9b, 0x50, 0x72, 0x19, 0xee, 0x95, 0xdb, 0x11, 0x3a,
          0x91, 0x76, 0x78, 0xb2] ∧
      aes_decrypt key iv
        ⟨rk₂, Iv₂, out₂,
          [0x76, 0x49, 0xab, 0xac, 0x81, 0x19, 0xb2, 0x46, 0xce, 0xe9, 0x8e, 0x9b, 0x12, 0xe9,
            0x19, 0x7d, 0x50, 0x86, 0xcb, 0x9b, 0x50, 0x72, 0x19, 0xee, 0x95, 0xdb, 0x11, 0x3a,
            0x91, 0x76, 0x78, 0xb2] ++ tailC⟩ 32 = some d ∧
      d.output.take 32 =
        [0x6b, 0xc1, 0xbe, 0xe2, 0x2e, 0x40, 0x9f, 0x96, 0xe9, 0x3d, 0x7e, 0x11, 0x73, 0x93,
          0x17, 0x2a, 0xae, 0x2d, 0x8a, 0x57, 0x1e, 0x03, 0xac, 0x9c, 0x9e, 0xb7, 0x6f, 0xac,
          0x45, 0xaf, 0x8e, 0x51] := by
  obtain ⟨e, he, _, heo⟩ := aes_encrypt_spec key iv rk₁ Iv₁ out₁
    ([0x6b, 0xc1, 0xbe, 0xe2, 0x2e, 0x40, 0x9f, 0x96, 0xe9, 0x3d, 0x7e, 0x11, 0x73, 0x93,
      0x17, 0x2a] ++ [0xae, 0x2d, 0x8a, 0x57, 0x1e, 0x03, 0xac, 0x9c, 0x9e, 0xb7, 0x6f, 0xac,
      0x45, 0xaf, 0x8e, 0x51]) tailP 2 (by decide) (by decide)
    (by simpa using ho₁)
  obtain ⟨d, hd, _, hdo, _⟩ := aes_decrypt_spec key iv rk₂ Iv₂ out₂
    ([0x76, 0x49, 0xab, 0xac, 0x81, 0x19, 0xb2, 0x46, 0xce, 0xe9, 0x8e, 0x9b, 0x12, 0xe9,
      0x19, 0x7d] ++ [0x50, 0x86, 0xcb, 0x9b, 0x50, 0x72, 0x19, 0xee, 0x95, 0xdb, 0x11, 0x3a,
      0x91, 0x76, 0x78, 0xb2]) tailC 2 (by decide) (by decide)
    (by simpa using ho₂)
  rw [KeyExpansion_indep key hrk₁ (List.length_replicate 176 0), KeyExpansion_key,
    cbcEnc_two _ _ _ _ (by decide) (by decide), Cipher_sp800_38a_block1, Cipher_sp800_38a_block2] at heo
  rw [KeyExpansion_indep key hrk₂ (List.length_replicate 176 0), KeyExpansion_key,
    cbcDec_two _ _ _ _ (by decide) (by decide), InvCipher_sp800_38a_block1, InvCipher_sp800_38a_block2] at hdo
  refine ⟨e, d, he, ?_, hd, ?_⟩
  · rw [heo]; exact List.take_left' rfl
  · rw [hdo]; exact List.take_left' rfl

/-- Witness for C23: the zero-initialised static array, output buffers of 288 bytes as
in the firmware. -/
theorem sp800_38a_cbc_aes128_witness :
    ∃ e d,
      aes_encrypt key iv
        ⟨List.replicate 176 0, IvRef.iv, List.replicate 288 3,
          [0x6b, 0xc1, 0xbe, 0xe2, 0x2e, 0x40, 0x9f, 0x96, 0xe9, 0x3d, 0x7e, 0x11, 0x73, 0x93,
            0x17, 0x2a, 0xae, 0x2d, 0x8a, 0x57, 0x1e, 0x03, 0xac, 0x9c, 0x9e, 0xb7, 0x6f, 0xac,
            0x45, 0xaf, 0x8e, 0x51] ++ []⟩ 32 = some e ∧
      e.output.take 32 =
        [0x76, 0x49, 0xab, 0xac, 0x81, 0x19, 0xb2, 0x46, 0xce, 0xe9, 0x8e, 0x9b, 0x12, 0xe9,
          0x19, 0x7d, 0x50, 0x86, 0xcb, 0x9b, 0x50, 0x72, 0x19, 0xee, 0x95, 0xdb, 0x11, 0x3a,
          0x91, 0x76, 0x78, 0xb2] ∧
      aes_decrypt key iv
        ⟨List.replicate 176 0, IvRef.iv, List.replicate 288 4,
          [0x76, 0x49, 0xab, 0xac, 0x81, 0x19, 0xb2, 0x46, 0xce, 0xe9, 0x8e, 0x9b, 0x12, 0xe9,
            0x19, 0x7d, 0x50, 0x86, 0xcb, 0x9b, 0x50, 0x72, 0x19, 0xee, 0x95, 0xdb, 0x11, 0x3a,
            0x91, 0x76, 0x78, 0xb2] ++ []⟩ 32 = some d ∧
      d.output.take 32 =
        [0x6b, 0xc1, 0xbe, 0xe2, 0x2e, 0x40, 0x9f, 0x96, 0xe9, 0x3d, 0x7e, 0x11, 0x73, 0x93,
          0x17, 0x2a, 0xae, 0x2d, 0x8a, 0x57, 0x1e, 0x03, 0xac, 0x9c, 0x9e, 0xb7, 0x6f, 0xac,
          0x45, 0xaf, 0x8e, 0x51] :=
  sp800_38a_cbc_aes128 (List.replicate 176 0) (List.replicate 176 0) IvRef.iv IvRef.iv
    (List.replicate 288 3) (List.replicate 288 4) [] [] (List.length_replicate 176 0)
    (List.length_replicate 176 0) (by rw [List.length_replicate]; decide)
    (by rw [List.length_replicate]; decide)

/-! ### Commands with a fixed response -/

/-- A value below `2 ^ i` joined by `|` to a multiple of `2 ^ i` is added to it. -/
theorem shiftLeft_or_of_lt (a : Nat) {b i : Nat} (h : b < 2 ^ i) :
    (a <<< i) ||| b = a * 2 ^ i + b := by
  rw [Nat.shiftLeft_eq, Nat.mul_comm a, Nat.mul_add_lt_is_or h]

/-- Bytes joined by `<<` and `|` add up. -/
theorem or_shift_bytes (p1 p2 p3 p4 : Nat) (h2 : p2 < 256) (h3 : p3 < 256) (h4 : p4 < 256) :
    (p1 <<< 24) ||| (p2 <<< 16) ||| (p3 <<< 8) ||| p4 =
      p1 * 2 ^ 24 + p2 * 2 ^ 16 + p3 * 2 ^ 8 + p4 := by
  have e1 : (p1 <<< 24) ||| (p2 <<< 16) = (p1 * 2 ^ 8 + p2) <<< 16 := by
    have h : p2 <<< 16 < 2 ^ 24 := by rw [Nat.shiftLeft_eq]; omega
    rw [shiftLeft_or_of_lt p1 h, Nat.shiftLeft_eq, Nat.shiftLeft_eq]
    omega
  have e2 : ((p1 * 2 ^ 8 + p2) <<< 16) ||| (p3 <<< 8) = (p1 * 2 ^ 16 + p2 * 2 ^ 8 + p3) <<< 8 := by
    have h : p3 <<< 8 < 2 ^ 16 := by rw [Nat.shiftLeft_eq]; omega
    rw [shiftLeft_or_of_lt _ h, Nat.shiftLeft_eq, Nat.shiftLeft_eq]
    omega
  have h : p4 < 2 ^ 8 := h4
  rw [e1, e2, shiftLeft_or_of_lt _ h]
  omega

theorem or_shift_two (p3 p4 : Nat) (h4 : p4 < 256) :
    (p3 <<< 8) ||| p4 = p3 * 2 ^ 8 + p4 := by
  have h : p4 < 2 ^ 8 := h4
  rw [shiftLeft_or_of_lt _ h]

/-- C24. For every authenticated load-address frame with payload bytes `p1..p4` behind
the opcode, the dispatch returns and the new target address is the word address shifted
left by one: `((p1<<24 | p2<<16 | p3<<8 | p4) << 1) mod 2^32` on a build with `RAMPZ`,
`((p3<<8 | p4) << 1) mod 2^16` otherwise. Numerically it is twice the big-endian word
address, `2 * (p1*2^24 + p2*2^16 + p3*2^8 + p4) mod 2^32`, respectively
`2 * (p3*2^8 + p4) mod 2^16`. -/
theorem load_address_value (cfg : Config) (s : Session) (p1 p2 p3 p4 : Nat) (rest : List Nat)
    (hd : cfg.DistinctLabels) (hauth : s.isAuthenticated = 1)
    (hbuf : s.msgBuffer = cfg.CMD_LOAD_ADDRESS :: p1 :: p2 :: p3 :: p4 :: rest)
    (h2 : p2 < 256) (h3 : p3 < 256) (h4 : p4 < 256) :
    ∃ s', dispatch cfg s = some s' ∧
      s'.address =
        (if cfg.RAMPZ then (((p1 <<< 24) ||| (p2 <<< 16) ||| (p3 <<< 8) ||| p4) <<< 1) % 2 ^ 32
         else (((p3 <<< 8) ||| p4) <<< 1) % 2 ^ 16) ∧
      s'.address =
        (if cfg.RAMPZ then (2 * (p1 * 2 ^ 24 + p2 * 2 ^ 16 + p3 * 2 ^ 8 + p4)) % 2 ^ 32
         else (2 * (p3 * 2 ^ 8 + p4)) % 2 ^ 16) := by
  have hop : s.msgBuffer.getD 0 0 = cfg.CMD_LOAD_ADDRESS := by rw [hbuf]; rfl
  have g1 : s.msgBuffer.getD 1 0 = p1 := by rw [hbuf]; rfl
  have g2 : s.msgBuffer.getD 2 0 = p2 := by rw [hbuf]; rfl
  have g3 : s.msgBuffer.getD 3 0 = p3 := by rw [hbuf]; rfl
  have g4 : s.msgBuffer.getD 4 0 = p4 := by rw [hbuf]; rfl
  have hA : (case_CMD_LOAD_ADDRESS cfg s).address =
      (if cfg.RAMPZ then (((p1 <<< 24) ||| (p2 <<< 16) ||| (p3 <<< 8) ||| p4) <<< 1) % 2 ^ 32
       else (((p3 <<< 8) ||| p4) <<< 1) % 2 ^ 16) := by
    unfold case_CMD_LOAD_ADDRESS
    rw [if_pos hauth, g1, g2, g3, g4]
  refine ⟨case_CMD_LOAD_ADDRESS cfg s, dispatch_CMD_LOAD_ADDRESS cfg s hd hop, hA, ?_⟩
  rw [hA, or_shift_bytes p1 p2 p3 p4 h2 h3 h4, or_shift_two p3 p4 h4, Nat.shiftLeft_eq,
    Nat.shiftLeft_eq, Nat.pow_one, Nat.mul_comm _ 2, Nat.mul_comm _ 2]

/-- Witness for C24: word address 0x00018000 on the ATmega128 build gives byte address
0x00030000. -/
theorem load_address_value_witness :
    ∃ s', dispatch atmega128 (authedAt 0 [0x06, 0x00, 0x01, 0x80, 0x00]) = some s' ∧
      s'.address =
        (if atmega128.RAMPZ then
          (((0x00 <<< 24) ||| (0x01 <<< 16) ||| (0x80 <<< 8) ||| 0x00) <<< 1) % 2 ^ 32
         else (((0x80 <<< 8) ||| 0x00) <<< 1) % 2 ^ 16) ∧
      s'.address =
        (if atmega128.RAMPZ then
          (2 * (0x00 * 2 ^ 24 + 0x01 * 2 ^ 16 + 0x80 * 2 ^ 8 + 0x00)) % 2 ^ 32
         else (2 * (0x80 * 2 ^ 8 + 0x00)) % 2 ^ 16) :=
  load_address_value atmega128 (authedAt 0 [0x06, 0x00, 0x01, 0x80, 0x00]) 0x00 0x01 0x80 0x00
    (List.replicate 280 0xAA) atmega128_distinct rfl rfl (by decide) (by decide) (by decide)

/-- C27. For every get-parameter frame and every session state, authenticated or not,
the dispatch returns the state in which only the response has changed: `msgLength` is 3
and the response payload is `[CMD_GET_PARAMETER, STATUS_CMD_OK, v]`. The value `v` is
the constant of the selected parameter (build number low 0, build number high 0,
hardware version 0x0F, software major 2, software minor 0x0A) and 0 for every other
selector. The labels of the inner `switch` are distinct, as C requires. -/
theorem get_parameter_response (cfg : Config) (s : Session) (hd : cfg.DistinctLabels)
    (hp : [cfg.PARAM_BUILD_NUMBER_LOW, cfg.PARAM_BUILD_NUMBER_HIGH, cfg.PARAM_HW_VER,
      cfg.PARAM_SW_MAJOR, cfg.PARAM_SW_MINOR].Nodup)
    (hop : s.msgBuffer.getD 0 0 = cfg.CMD_GET_PARAMETER) (hlen : 3 ≤ s.msgBuffer.length) :
    ∃ v, dispatch cfg s =
        some { s with msgLength := 3,
                      msgBuffer := (s.msgBuffer.set 1 cfg.STATUS_CMD_OK).set 2 v } ∧
      ((s.msgBuffer.set 1 cfg.STATUS_CMD_OK).set 2 v).take 3 =
        [cfg.CMD_GET_PARAMETER, cfg.STATUS_CMD_OK, v] ∧
      (s.msgBuffer.getD 1 0 = cfg.PARAM_BUILD_NUMBER_LOW → v = 0) ∧
      (s.msgBuffer.getD 1 0 = cfg.PARAM_BUILD_NUMBER_HIGH → v = 0) ∧
      (s.msgBuffer.getD 1 0 = cfg.PARAM_HW_VER → v = 0x0F) ∧
      (s.msgBuffer.getD 1 0 = cfg.PARAM_SW_MAJOR → v = 2) ∧
      (s.msgBuffer.getD 1 0 = cfg.PARAM_SW_MINOR → v = 0x0A) ∧
      (s.msgBuffer.getD 1 0 ∉ [cfg.PARAM_BUILD_NUMBER_LOW, cfg.PARAM_BUILD_NUMBER_HIGH,
          cfg.PARAM_HW_VER, cfg.PARAM_SW_MAJOR, cfg.PARAM_SW_MINOR] → v = 0) := by
  have htake : ∀ v, ((s.msgBuffer.set 1 cfg.STATUS_CMD_OK).set 2 v).take 3 =
      [cfg.CMD_GET_PARAMETER, cfg.STATUS_CMD_OK, v] := by
    intro v
    match hm : s.msgBuffer, hlen, hop with
    | a :: b :: c :: rest, _, hop =>
      simp only [List.getD_cons_zero] at hop
      simp [hop]
  simp only [List.nodup_cons, List.mem_cons, List.mem_singleton, List.not_mem_nil, not_or,
    List.nodup_nil, or_false, and_true] at hp
  obtain ⟨⟨n01, n02, n03, n04⟩, ⟨n12, n13, n14⟩, ⟨n23, n24⟩, n34, _⟩ := hp
  refine ⟨_, dispatch_CMD_GET_PARAMETER cfg s hd hop, htake _, ?_, ?_, ?_, ?_, ?_, ?_⟩
  · intro h
    rw [if_pos h]; rfl
  · intro h
    rw [if_neg (by rw [h]; exact fun e => n01 e.symm), if_pos h]; rfl
  · intro h
    rw [if_neg (by rw [h]; exact fun e => n02 e.symm),
      if_neg (by rw [h]; exact fun e => n12 e.symm), if_pos h]; rfl
  · intro h
    rw [if_neg (by rw [h]; exact fun e => n03 e.symm),
      if_neg (by rw [h]; exact fun e => n13 e.symm),
      if_neg (by rw [h]; exact fun e => n23 e.symm), if_pos h]; rfl
  · intro h
    rw [if_neg (by rw [h]; exact fun e => n04 e.symm),
      if_neg (by rw [h]; exact fun e => n14 e.symm),
      if_neg (by rw [h]; exact fun e => n24 e.symm),
      if_neg (by rw [h]; exact fun e => n34 e.symm), if_pos h]; rfl
  · intro h
    simp only [List.mem_cons, List.mem_singleton, List.not_mem_nil, not_or, or_false] at h
    rw [if_neg h.1, if_neg h.2.1, if_neg h.2.2.1, if_neg h.2.2.2.1, if_neg h.2.2.2.2]

/-- Witness for C27: the hardware-version selector, in the unauthenticated initial state of
the ATmega128 build. -/
theorem get_parameter_response_witness :
    ∃ v, dispatch atmega128 (sessionWith [0x03, 0x90] []) =
        some { sessionWith [0x03, 0x90] [] with
          msgLength := 3,
          msgBuffer :=
            ((sessionWith [0x03, 0x90] []).msgBuffer.set 1 atmega128.STATUS_CMD_OK).set 2 v } ∧
      (((sessionWith [0x03, 0x90] []).msgBuffer.set 1 atmega128.STATUS_CMD_OK).set 2 v).take 3 =
        [atmega128.CMD_GET_PARAMETER, atmega128.STATUS_CMD_OK, v] ∧
      ((sessionWith [0x03, 0x90] []).msgBuffer.getD 1 0 = atmega128.PARAM_BUILD_NUMBER_LOW →
        v = 0) ∧
      ((sessionWith [0x03, 0x90] []).msgBuffer.getD 1 0 = atmega128.PARAM_BUILD_NUMBER_HIGH →
        v = 0) ∧
      ((sessionWith [0x03, 0x90] []).msgBuffer.getD 1 0 = atmega128.PARAM_HW_VER → v = 0x0F) ∧
      ((sessionWith [0x03, 0x90] []).msgBuffer.getD 1 0 = atmega128.PARAM_SW_MAJOR → v = 2) ∧
      ((sessionWith [0x03, 0x90] []).msgBuffer.getD 1 0 = atmega128.PARAM_SW_MINOR →
        v = 0x0A) ∧
      ((sessionWith [0x03, 0x90] []).msgBuffer.getD 1 0 ∉
        [atmega128.PARAM_BUILD_NUMBER_LOW, atmega128.PARAM_BUILD_NUMBER_HIGH,
          atmega128.PARAM_HW_VER, atmega128.PARAM_SW_MAJOR, atmega128.PARAM_SW_MINOR] →
        v = 0) :=
  get_parameter_response atmega128 (sessionWith [0x03, 0x90] []) atmega128_distinct
    (by decide) (by decide) (by rw [sessionWith_length _ _ (by decide)]; decide)

/-- C28. For every session state and every chip-erase frame the dispatch returns; the
response has length 2 and is `[CMD_CHIP_ERASE_ISP, STATUS_CMD_FAILED]`, no hardware
operation is recorded and the flash and EEPROM contents are the same as before. The
only other variable written is the erase cursor. -/
theorem chip_erase_always_fails (cfg : Config) (s : Session) (hd : cfg.DistinctLabels)
    (hop : s.msgBuffer.getD 0 0 = cfg.CMD_CHIP_ERASE_ISP) (hlen : 2 ≤ s.msgBuffer.length) :
    ∃ s', dispatch cfg s = some s' ∧
      s' = { s with eraseAddress := 0, msgLength := 2,
                    msgBuffer := s.msgBuffer.set 1 cfg.STATUS_CMD_FAILED } ∧
      s'.msgLength = 2 ∧
      s'.msgBuffer.take 2 = [cfg.CMD_CHIP_ERASE_ISP, cfg.STATUS_CMD_FAILED] ∧
      s'.hw = s.hw ∧ s'.flash = s.flash ∧ s'.eeprom = s.eeprom := by
  have htake : (s.msgBuffer.set 1 cfg.STATUS_CMD_FAILED).take 2 =
      [cfg.CMD_CHIP_ERASE_ISP, cfg.STATUS_CMD_FAILED] := by
    match hm : s.msgBuffer, hlen, hop with
    | a :: b :: rest, _, hop =>
      simp only [List.getD_cons_zero] at hop
      simp [hop]
  exact ⟨case_CMD_CHIP_ERASE_ISP cfg s, dispatch_CMD_CHIP_ERASE_ISP cfg s hd hop, rfl, rfl,
    htake, rfl, rfl, rfl⟩

/-- Witness for C28: a chip-erase frame in an authenticated session at address 0x100. -/
theorem chip_erase_always_fails_witness :
    ∃ s', dispatch atmega128 (authedAt 0x100 [0x12]) = some s' ∧
      s' = { authedAt 0x100 [0x12] with
        eraseAddress := 0, msgLength := 2,
        msgBuffer := (authedAt 0x100 [0x12]).msgBuffer.set 1 atmega128.STATUS_CMD_FAILED } ∧
      s'.msgLength = 2 ∧
      s'.msgBuffer.take 2 = [atmega128.CMD_CHIP_ERASE_ISP, atmega128.STATUS_CMD_FAILED] ∧
      s'.hw = (authedAt 0x100 [0x12]).hw ∧ s'.flash = (authedAt 0x100 [0x12]).flash ∧
      s'.eeprom = (authedAt 0x100 [0x12]).eeprom :=
  chip_erase_always_fails atmega128 (authedAt 0x100 [0x12]) atmega128_distinct (by decide)
    (by show 2 ≤ (sessionWith [0x12] []).msgBuffer.length
        rw [sessionWith_length _ _ (by decide)]; decide)

/-- C29. For every opcode byte that is not a case label of the dispatch and every session
state, the dispatch returns the state in which only the response has changed: `msgLength`
is 2 and the response payload is `[opcode, STATUS_CMD_FAILED]`. In particular the
authenticated flag, the target address, the erase cursor and the leave flag are the same
as before and no hardware operation is recorded. -/
theorem unknown_opcode_fails (cfg : Config) (s : Session)
    (hop : s.msgBuffer.getD 0 0 ∉ cfg.caseLabels) (hlen : 2 ≤ s.msgBuffer.length) :
    ∃ s', dispatch cfg s = some s' ∧
      s' = { s with msgLength := 2, msgBuffer := s.msgBuffer.set 1 cfg.STATUS_CMD_FAILED } ∧
      s'.msgLength = 2 ∧
      s'.msgBuffer.take 2 = [s.msgBuffer.getD 0 0, cfg.STATUS_CMD_FAILED] ∧
      s'.isAuthenticated = s.isAuthenticated ∧ s'.address = s.address ∧
      s'.eraseAddress = s.eraseAddress ∧ s'.isLeave = s.isLeave ∧ s'.hw = s.hw ∧
      s'.flash = s.flash ∧ s'.eeprom = s.eeprom := by
  have htake : (s.msgBuffer.set 1 cfg.STATUS_CMD_FAILED).take 2 =
      [s.msgBuffer.getD 0 0, cfg.STATUS_CMD_FAILED] := by
    match hm : s.msgBuffer, hlen with
    | a :: b :: rest, _ => simp
  exact ⟨case_default cfg s, dispatch_default cfg s hop, rfl, rfl, htake, rfl, rfl, rfl, rfl,
    rfl, rfl, rfl⟩

/-- Witness for C29: the compiled-out opcode `CMD_SPI_MULTI` (0x1D) in an authenticated
session of the ATmega128 build. -/
theorem unknown_opcode_fails_witness :
    ∃ s', dispatch atmega128 (authedAt 0x100 [0x1D, 4, 4, 0]) = some s' ∧
      s' = { authedAt 0x100 [0x1D, 4, 4, 0] with
        msgLength := 2,
        msgBuffer :=
          (authedAt 0x100 [0x1D, 4, 4, 0]).msgBuffer.set 1 atmega128.STATUS_CMD_FAILED } ∧
      s'.msgLength = 2 ∧
      s'.msgBuffer.take 2 =
        [(authedAt 0x100 [0x1D, 4, 4, 0]).msgBuffer.getD 0 0, atmega128.STATUS_CMD_FAILED] ∧
      s'.isAuthenticated = (authedAt 0x100 [0x1D, 4, 4, 0]).isAuthenticated ∧
      s'.address = (authedAt 0x100 [0x1D, 4, 4, 0]).address ∧
      s'.eraseAddress = (authedAt 0x100 [0x1D, 4, 4, 0]).eraseAddress ∧
      s'.isLeave = (authedAt 0x100 [0x1D, 4, 4, 0]).isLeave ∧
      s'.hw = (authedAt 0x100 [0x1D, 4, 4, 0]).hw ∧
      s'.flash = (authedAt 0x100 [0x1D, 4, 4, 0]).flash ∧
      s'.eeprom = (authedAt 0x100 [0x1D, 4, 4, 0]).eeprom :=
  unknown_opcode_fails atmega128 (authedAt 0x100 [0x1D, 4, 4, 0]) (by decide)
    (by show 2 ≤ (sessionWith [0x1D, 4, 4, 0] []).msgBuffer.length
        rw [sessionWith_length _ _ (by decide)]; decide)

/-! ### The read commands -/

theorem set_eq_splice (l : List Nat) (p v : Nat) (h : p < l.length) :
    l.set p v = l.take p ++ [v] ++ l.drop (p + 1) := by
  rw [List.set_eq_take_append_cons_drop, if_pos h, List.append_assoc, List.singleton_append]

theorem splice_take (B mid rest : List Nat) (p : Nat) (hp : p ≤ B.length) :
    (B.take p ++ mid ++ rest).take (p + mid.length) = B.take p ++ mid := by
  have hl : (B.take p ++ mid).length = p + mid.length := by
    rw [List.length_append, List.length_take, Nat.min_eq_left hp]
  rw [List.take_left' hl]

theorem splice_drop (B mid rest : List Nat) (p k : Nat) (hp : p ≤ B.length) :
    (B.take p ++ mid ++ rest).drop (p + mid.length + k) = rest.drop k := by
  have hl : (B.take p ++ mid).length = p + mid.length := by
    rw [List.length_append, List.length_take, Nat.min_eq_left hp]
  rw [← hl, ← List.drop_drop, List.drop_left]

theorem splice_length (B mid : List Nat) (p : Nat) (hp : p + mid.length ≤ B.length) :
    (B.take p ++ mid ++ B.drop (p + mid.length)).length = B.length := by
  rw [List.length_append, List.length_append, List.length_take, List.length_drop]
  omega

/-- The sixteen address bits `EEARL = address; EEARH = address >> 8` select. -/
theorem eear_eq (x : Nat) : x % 256 + ((x >>> 8) % 256) * 256 = x % 65536 := by
  rw [Nat.shiftRight_eq_div_pow]
  omega

/-- The flash read loop on an even size `2 * (n + 1)`: `n + 1` iterations, each storing
the low and the high byte of the word `pgm_read_word` delivers at `address + 2j`. -/
theorem flashReadLoop_spec (cfg : Config) (n : Nat) :
    ∀ (fuel p : Nat) (s : Session), n + 1 ≤ fuel → p + 2 * (n + 1) ≤ s.msgBuffer.length →
      2 * (n + 1) < 65536 → s.address < cfg.addrMod →
      ∃ t, flashReadLoop cfg fuel p (2 * (n + 1)) s = some (p + 2 * (n + 1), t) ∧
        t.msgBuffer = s.msgBuffer.take p ++
          (List.range (2 * (n + 1))).map (fun k =>
            if k % 2 = 0 then
              s.flash (if cfg.FLASHEND > 0x10000 then (s.address + 2 * (k / 2)) % cfg.addrMod
                else (s.address + 2 * (k / 2)) % cfg.addrMod % 65536) % 256
            else
              (s.flash (if cfg.FLASHEND > 0x10000 then (s.address + 2 * (k / 2)) % cfg.addrMod
                else (s.address + 2 * (k / 2)) % cfg.addrMod % 65536) >>> 8) % 256) ++
          s.msgBuffer.drop (p + 2 * (n + 1)) ∧
        t.hw = s.hw ++ (List.range (n + 1)).map (fun j =>
          HwEvent.pgm_read_word
            (if cfg.FLASHEND > 0x10000 then (s.address + 2 * j) % cfg.addrMod
              else (s.address + 2 * j) % cfg.addrMod % 65536)) ∧
        t.address = (s.address + 2 * (n + 1)) % cfg.addrMod ∧
        t.msgLength = s.msgLength ∧ t.flash = s.flash ∧ t.eeprom = s.eeprom := by
  induction n with
  | zero =>
    intro fuel p s hf hp _ ha
    obtain ⟨f, rfl⟩ : ∃ f, fuel = f + 1 := ⟨fuel - 1, by omega⟩
    have hs0 : store s.msgBuffer p
        (s.flash (if cfg.FLASHEND > 0x10000 then s.address else s.address % 65536) % 256) =
        some (s.msgBuffer.set p
          (s.flash (if cfg.FLASHEND > 0x10000 then s.address else s.address % 65536) % 256)) :=
      if_pos (by omega)
    have hs1 : ∀ v w, store (s.msgBuffer.set p v) (p + 1) w =
        some ((s.msgBuffer.set p v).set (p + 1) w) := fun v w =>
      if_pos (by rw [List.length_set]; omega)
    refine ⟨{ s with
        msgBuffer := (s.msgBuffer.set p
          (s.flash (if cfg.FLASHEND > 0x10000 then s.address else s.address % 65536) % 256)).set
          (p + 1)
          ((s.flash (if cfg.FLASHEND > 0x10000 then s.address else s.address % 65536) >>> 8)
            % 256),
        hw := s.hw ++ [HwEvent.pgm_read_word
          (if cfg.FLASHEND > 0x10000 then s.address else s.address % 65536)],
        address := (s.address + 2) % cfg.addrMod }, ?_, ?_, ?_, ?_, ?_, ?_, ?_⟩
    · simp only [flashReadLoop, hs0, hs1]
      rfl
    · show (s.msgBuffer.set p _).set (p + 1) _ = _
      rw [set_eq_splice _ _ _ (by rw [List.length_set]; omega),
        set_eq_splice s.msgBuffer p _ (by omega)]
      have e1 : (s.msgBuffer.take p ++ [s.flash (if cfg.FLASHEND > 0x10000 then s.address
          else s.address % 65536) % 256] ++ s.msgBuffer.drop (p + 1)).take (p + 1) =
          s.msgBuffer.take p ++ [s.flash (if cfg.FLASHEND > 0x10000 then s.address
          else s.address % 65536) % 256] :=
        splice_take s.msgBuffer [_] _ p (by omega)
      have e2 : (s.msgBuffer.take p ++ [s.flash (if cfg.FLASHEND > 0x10000 then s.address
          else s.address % 65536) % 256] ++ s.msgBuffer.drop (p + 1)).drop (p + 1 + 1) =
          (s.msgBuffer.drop (p + 1)).drop 1 :=
        splice_drop s.msgBuffer [_] _ p 1 (by omega)
      rw [e1, e2, List.drop_drop]
      simp [List.range_succ, Nat.mod_eq_of_lt ha]
    · show s.hw ++ [_] = _
      simp [List.range_succ, Nat.mod_eq_of_lt ha]
    · rfl
    · rfl
    · rfl
    · rfl
  | succ m ih =>
    intro fuel p s hf hp hs ha
    obtain ⟨f, rfl⟩ : ∃ f, fuel = f + 1 := ⟨fuel - 1, by omega⟩
    have hsz : (2 * (m + 1 + 1) + 65536 - 2) % 65536 = 2 * (m + 1) := by omega
    have hne : 2 * (m + 1) ≠ 0 := by omega
    have hs0 : store s.msgBuffer p
        (s.flash (if cfg.FLASHEND > 0x10000 then s.address else s.address % 65536) % 256) =
        some (s.msgBuffer.set p
          (s.flash (if cfg.FLASHEND > 0x10000 then s.address else s.address % 65536) % 256)) :=
      if_pos (by omega)
    have hs1 : ∀ v w, store (s.msgBuffer.set p v) (p + 1) w =
        some ((s.msgBuffer.set p v).set (p + 1) w) := fun v w =>
      if_pos (by rw [List.length_set]; omega)
    have hB : (s.msgBuffer.set p
          (s.flash (if cfg.FLASHEND > 0x10000 then s.address else s.address % 65536) % 256)).set
          (p + 1)
          ((s.flash (if cfg.FLASHEND > 0x10000 then s.address else s.address % 65536) >>> 8)
            % 256) =
        s.msgBuffer.take p ++
          [s.flash (if cfg.FLASHEND > 0x10000 then s.address else s.address % 65536) % 256,
           (s.flash (if cfg.FLASHEND > 0x10000 then s.address else s.address % 65536) >>> 8)
            % 256] ++ s.msgBuffer.drop (p + 2) := by
      rw [set_eq_splice _ _ _ (by rw [List.length_set]; omega),
        set_eq_splice s.msgBuffer p _ (by omega)]
      have e1 : (s.msgBuffer.take p ++ [s.flash (if cfg.FLASHEND > 0x10000 then s.address
          else s.address % 65536) % 256] ++ s.msgBuffer.drop (p + 1)).take (p + 1) =
          s.msgBuffer.take p ++ [s.flash (if cfg.FLASHEND > 0x10000 then s.address
          else s.address % 65536) % 256] :=
        splice_take s.msgBuffer [_] _ p (by omega)
      have e2 : (s.msgBuffer.take p ++ [s.flash (if cfg.FLASHEND > 0x10000 then s.address
          else s.address % 65536) % 256] ++ s.msgBuffer.drop (p + 1)).drop (p + 1 + 1) =
          (s.msgBuffer.drop (p + 1)).drop 1 :=
        splice_drop s.msgBuffer [_] _ p 1 (by omega)
      rw [e1, e2, List.drop_drop]
      simp
    obtain ⟨t, ht, hbuf, hhw, hadr, hml, hfl, hee⟩ := ih f (p + 2)
      { s with
        msgBuffer := (s.msgBuffer.set p
          (s.flash (if cfg.FLASHEND > 0x10000 then s.address else s.address % 65536) % 256)).set
          (p + 1)
          ((s.flash (if cfg.FLASHEND > 0x10000 then s.address else s.address % 65536) >>> 8)
            % 256),
        hw := s.hw ++ [HwEvent.pgm_read_word
          (if cfg.FLASHEND > 0x10000 then s.address else s.address % 65536)],
        address := (s.address + 2) % cfg.addrMod }
      (by omega) (by show p + 2 + 2 * (m + 1) ≤ (List.set _ _ _).length
                     rw [List.length_set, List.length_set]; omega)
      (by omega) (Nat.mod_lt _ (addrMod_pos cfg))
    refine ⟨t, ?_, ?_, ?_, ?_, hml, hfl, hee⟩
    · simp only [flashReadLoop, hs0, hs1, hsz, if_pos hne]
      rw [ht]
      have e : p + 2 + 2 * (m + 1) = p + 2 * (m + 1 + 1) := by omega
      rw [e]
    · rw [hbuf]
      dsimp only
      rw [hB]
      have e1 : (s.msgBuffer.take p ++
          [s.flash (if cfg.FLASHEND > 0x10000 then s.address else s.address % 65536) % 256,
           (s.flash (if cfg.FLASHEND > 0x10000 then s.address else s.address % 65536) >>> 8)
            % 256] ++ s.msgBuffer.drop (p + 2)).take (p + 2) = s.msgBuffer.take p ++
          [s.flash (if cfg.FLASHEND > 0x10000 then s.address else s.address % 65536) % 256,
           (s.flash (if cfg.FLASHEND > 0x10000 then s.address else s.address % 65536) >>> 8)
            % 256] :=
        splice_take s.msgBuffer [_, _] _ p (by omega)
      have e2 : (s.msgBuffer.take p ++
          [s.flash (if cfg.FLASHEND > 0x10000 then s.address else s.address % 65536) % 256,
           (s.flash (if cfg.FLASHEND > 0x10000 then s.address else s.address % 65536) >>> 8)
            % 256] ++ s.msgBuffer.drop (p + 2)).drop (p + 2 + 2 * (m + 1)) =
          (s.msgBuffer.drop (p + 2)).drop (2 * (m + 1)) :=
        splice_drop s.msgBuffer [_, _] _ p (2 * (m + 1)) (by omega)
      rw [e1, e2, List.drop_drop]
      have e3 : p + 2 + 2 * (m + 1) = p + 2 * (m + 1 + 1) := by omega
      have e4 : 2 * (m + 1 + 1) = 2 * (m + 1) + 1 + 1 := by omega
      rw [e3]
      refine congrArg (fun l => l ++ s.msgBuffer.drop (p + 2 * (m + 1 + 1))) ?_
      rw [List.append_assoc]
      refine congrArg (fun l => s.msgBuffer.take p ++ l) ?_
      rw [e4, List.range_succ_eq_map (2 * (m + 1) + 1), List.range_succ_eq_map (2 * (m + 1))]
      simp only [List.map_cons, List.map_map, List.cons_append, List.nil_append]
      refine List.cons_eq_cons.mpr ⟨?_, List.cons_eq_cons.mpr ⟨?_, ?_⟩⟩
      · simp [Nat.mod_eq_of_lt ha]
      · simp [Nat.mod_eq_of_lt ha]
      · apply List.map_congr_left
        intro k _
        simp only [Function.comp, Nat.mod_add_mod, Nat.succ_eq_add_one]
        have e5 : (k + 1 + 1) % 2 = k % 2 := by omega
        have e6 : s.address + 2 + 2 * (k / 2) = s.address + 2 * ((k + 1 + 1) / 2) := by omega
        rw [e5, e6]
    · rw [hhw]
      dsimp only
      rw [List.range_succ_eq_map (m + 1), List.map_cons, List.map_map, List.append_assoc,
        List.singleton_append]
      refine congrArg (fun l => s.hw ++ l) (List.cons_eq_cons.mpr ⟨?_, ?_⟩)
      · simp [Nat.mod_eq_of_lt ha]
      · apply List.map_congr_left
        intro k _
        simp only [Function.comp, Nat.mod_add_mod, Nat.succ_eq_add_one]
        have e1 : s.address + 2 + 2 * k = s.address + 2 * (k + 1) := by omega
        rw [e1]
    · rw [hadr]
      dsimp only
      rw [Nat.mod_add_mod]
      have e : s.address + 2 + 2 * (m + 1) = s.address + 2 * (m + 1 + 1) := by omega
      rw [e]

/-- The EEPROM read loop on a size `n + 1`: `n + 1` iterations, each storing the byte the
EEPROM delivers at the sixteen low bits of `address + k`. -/
theorem eepromReadLoop_spec (cfg : Config) (n : Nat) :
    ∀ (fuel p : Nat) (s : Session), n + 1 ≤ fuel → p + (n + 1) ≤ s.msgBuffer.length →
      n + 1 < 65536 → s.address < cfg.addrMod →
      ∃ t, eepromReadLoop cfg fuel p (n + 1) s = some (p + (n + 1), t) ∧
        t.msgBuffer = s.msgBuffer.take p ++
          (List.range (n + 1)).map (fun k =>
            s.eeprom ((s.address + k) % cfg.addrMod % 65536) % 256) ++
          s.msgBuffer.drop (p + (n + 1)) ∧
        t.hw = s.hw ++ (List.range (n + 1)).map (fun k =>
          HwEvent.eeprom_read ((s.address + k) % cfg.addrMod % 65536)) ∧
        t.address = (s.address + (n + 1)) % cfg.addrMod ∧
        t.msgLength = s.msgLength ∧ t.flash = s.flash ∧ t.eeprom = s.eeprom := by
  induction n with
  | zero =>
    intro fuel p s hf hp _ ha
    obtain ⟨f, rfl⟩ : ∃ f, fuel = f + 1 := ⟨fuel - 1, by omega⟩
    have hs0 : ∀ v, store s.msgBuffer p v = some (s.msgBuffer.set p v) := fun v =>
      if_pos (by omega)
    refine ⟨{ s with
        msgBuffer := s.msgBuffer.set p (s.eeprom (s.address % 65536) % 256),
        hw := s.hw ++ [HwEvent.eeprom_read (s.address % 65536)],
        address := (s.address + 1) % cfg.addrMod }, ?_, ?_, ?_, ?_, ?_, ?_, ?_⟩
    · simp only [eepromReadLoop, hs0, eear_eq]
      rfl
    · show s.msgBuffer.set p _ = _
      rw [set_eq_splice s.msgBuffer p _ (by omega)]
      simp [List.range_succ, Nat.mod_eq_of_lt ha]
    · show s.hw ++ [_] = _
      simp [List.range_succ, Nat.mod_eq_of_lt ha]
    · rfl
    · rfl
    · rfl
    · rfl
  | succ m ih =>
    intro fuel p s hf hp hs ha
    obtain ⟨f, rfl⟩ : ∃ f, fuel = f + 1 := ⟨fuel - 1, by omega⟩
    have hsz : (m + 1 + 1 + 65536 - 1) % 65536 = m + 1 := by omega
    have hne : m + 1 ≠ 0 := by omega
    have hs0 : ∀ v, store s.msgBuffer p v = some (s.msgBuffer.set p v) := fun v =>
      if_pos (by omega)
    obtain ⟨t, ht, hbuf, hhw, hadr, hml, hfl, hee⟩ := ih f (p + 1)
      { s with
        msgBuffer := s.msgBuffer.set p (s.eeprom (s.address % 65536) % 256),
        hw := s.hw ++ [HwEvent.eeprom_read (s.address % 65536)],
        address := (s.address + 1) % cfg.addrMod }
      (by omega) (by show p + 1 + (m + 1) ≤ (List.set _ _ _).length
                     rw [List.length_set]; omega)
      (by omega) (Nat.mod_lt _ (addrMod_pos cfg))
    refine ⟨t, ?_, ?_, ?_, ?_, hml, hfl, hee⟩
    · simp only [eepromReadLoop, hs0, hsz, if_pos hne, eear_eq]
      rw [ht]
      have e : p + 1 + (m + 1) = p + (m + 1 + 1) := by omega
      rw [e]
    · rw [hbuf]
      dsimp only
      rw [set_eq_splice s.msgBuffer p _ (by omega)]
      have e1 : (s.msgBuffer.take p ++ [s.eeprom (s.address % 65536) % 256] ++
          s.msgBuffer.drop (p + 1)).take (p + 1) =
          s.msgBuffer.take p ++ [s.eeprom (s.address % 65536) % 256] :=
        splice_take s.msgBuffer [_] _ p (by omega)
      have e2 : (s.msgBuffer.take p ++ [s.eeprom (s.address % 65536) % 256] ++
          s.msgBuffer.drop (p + 1)).drop (p + 1 + (m + 1)) =
          (s.msgBuffer.drop (p + 1)).drop (m + 1) :=
        splice_drop s.msgBuffer [_] _ p (m + 1) (by omega)
      rw [e1, e2, List.drop_drop]
      have e3 : p + 1 + (m + 1) = p + (m + 1 + 1) := by omega
      rw [e3]
      refine congrArg (fun l => l ++ s.msgBuffer.drop (p + (m + 1 + 1))) ?_
      rw [List.append_assoc]
      refine congrArg (fun l => s.msgBuffer.take p ++ l) ?_
      rw [List.range_succ_eq_map (m + 1)]
      simp only [List.map_cons, List.map_map, List.cons_append, List.nil_append]
      refine List.cons_eq_cons.mpr ⟨?_, ?_⟩
      · simp [Nat.mod_eq_of_lt ha]
      · apply List.map_congr_left
        intro k _
        simp only [Function.comp, Nat.mod_add_mod, Nat.succ_eq_add_one]
        have e6 : s.address + 1 + k = s.address + (k + 1) := by omega
        rw [e6]
    · rw [hhw]
      dsimp only
      rw [List.range_succ_eq_map (m + 1), List.map_cons, List.map_map, List.append_assoc,
        List.singleton_append]
      refine congrArg (fun l => s.hw ++ l) (List.cons_eq_cons.mpr ⟨?_, ?_⟩)
      · simp [Nat.mod_eq_of_lt ha]
      · apply List.map_congr_left
        intro k _
        simp only [Function.comp, Nat.mod_add_mod, Nat.succ_eq_add_one]
        have e1 : s.address + 1 + k = s.address + (k + 1) := by omega
        rw [e1]
    · rw [hadr]
      dsimp only
      rw [Nat.mod_add_mod]
      have e : s.address + 1 + (m + 1) = s.address + (m + 1 + 1) := by omega
      rw [e]

/-- The first `size + 3` bytes of the response buffer after a read: opcode, status, the
data, status. -/
theorem response_take (B D : List Nat) (op ok : Nat) (hop : B.getD 0 0 = op)
    (hlen : D.length + 3 ≤ B.length) :
    (((B.set 1 ok).take 2 ++ D ++ (B.set 1 ok).drop (2 + D.length)).set (2 + D.length) ok).take
        (D.length + 3) = [op, ok] ++ D ++ [ok] := by
  match B, hop, hlen with
  | a :: b :: rest, hop, hlen =>
    simp only [List.getD_cons_zero] at hop
    subst hop
    have hX : ([a, ok] ++ D).length = 2 + D.length := by
      rw [List.length_append]; rfl
    have h1 : ((a :: b :: rest).set 1 ok).take 2 = [a, ok] := rfl
    have h2 : ((a :: b :: rest).set 1 ok).drop (2 + D.length) = rest.drop D.length := by
      show (a :: ok :: rest).drop (2 + D.length) = _
      rw [Nat.add_comm]; rfl
    obtain ⟨y, Y, hY⟩ : ∃ y Y, rest.drop D.length = y :: Y := by
      have hl : 0 < (rest.drop D.length).length := by
        rw [List.length_drop]
        simp only [List.length_cons] at hlen
        omega
      match rest.drop D.length, hl with
      | y :: Y, _ => exact ⟨y, Y, rfl⟩
    rw [h1, h2, hY, ← hX, List.set_append_right _ _ (Nat.le_refl _), Nat.sub_self, List.set_cons_zero]
    have e : ([a, ok] ++ D ++ ok :: Y) = ([a, ok] ++ D ++ [ok]) ++ Y := by simp
    rw [e]
    apply List.take_left'
    rw [List.length_append, hX]
    simp only [List.length_singleton]
    omega

/-- Read commands inside the payload buffer. For every read command whose response fits
the 285 bytes of `msgBuffer`
(`size + 3` bytes, `size` being the 16-bit size field) at target address `address`,
authenticated or not:
a read-flash command with an even `size ≥ 2` and a read-EEPROM command with `size ≥ 1`
return; the response has length `size + 3` and is
`[opcode, STATUS_CMD_OK, d[0], …, d[size-1], STATUS_CMD_OK]`. For flash, `d[k]` is the
low (even `k`) or high (odd `k`) byte of the word `pgm_read_word` delivers at
`address + 2 * (k / 2)` (its low 16 bits on a device without far reads); for EEPROM it is
the byte at the sixteen low bits of `address + k`. Afterwards the target address is
`address + size`. Addresses are in the arithmetic of `address_t`. -/
theorem read_memory_response (cfg : Config) (s : Session) (hd : cfg.DistinctLabels)
    (size : Nat)
    (hsize : ((s.msgBuffer.getD 1 0 <<< 8) ||| s.msgBuffer.getD 2 0) % 65536 = size)
    (hbuf : s.msgBuffer.length = 285) (hfit : size + 3 ≤ 285)
    (ha : s.address < cfg.addrMod) :
    (s.msgBuffer.getD 0 0 = cfg.CMD_READ_FLASH_ISP → size % 2 = 0 → 2 ≤ size →
      ∃ s', dispatch cfg s = some s' ∧ s'.msgLength = size + 3 ∧
        s'.msgBuffer.take (size + 3) =
          [cfg.CMD_READ_FLASH_ISP, cfg.STATUS_CMD_OK] ++
            (List.range size).map (fun k =>
              if k % 2 = 0 then
                s.flash (if cfg.FLASHEND > 0x10000 then (s.address + 2 * (k / 2)) % cfg.addrMod
                  else (s.address + 2 * (k / 2)) % cfg.addrMod % 65536) % 256
              else
                (s.flash (if cfg.FLASHEND > 0x10000 then (s.address + 2 * (k / 2)) % cfg.addrMod
                  else (s.address + 2 * (k / 2)) % cfg.addrMod % 65536) >>> 8) % 256) ++
            [cfg.STATUS_CMD_OK] ∧
        s'.address = (s.address + size) % cfg.addrMod) ∧
    (s.msgBuffer.getD 0 0 = cfg.CMD_READ_EEPROM_ISP → 1 ≤ size →
      ∃ s', dispatch cfg s = some s' ∧ s'.msgLength = size + 3 ∧
        s'.msgBuffer.take (size + 3) =
          [cfg.CMD_READ_EEPROM_ISP, cfg.STATUS_CMD_OK] ++
            (List.range size).map (fun k =>
              s.eeprom ((s.address + k) % cfg.addrMod % 65536) % 256) ++
            [cfg.STATUS_CMD_OK] ∧
        s'.address = (s.address + size) % cfg.addrMod) := by
  have hst : store s.msgBuffer 1 cfg.STATUS_CMD_OK =
      some (s.msgBuffer.set 1 cfg.STATUS_CMD_OK) := if_pos (by omega)
  have hml : (size + 3) % 65536 = size + 3 := Nat.mod_eq_of_lt (by omega)
  constructor
  · intro hop hev h2
    obtain ⟨n, rfl⟩ : ∃ n, size = 2 * (n + 1) := ⟨size / 2 - 1, by omega⟩
    obtain ⟨t, ht, htb, _, hadr, hlen, _, _⟩ := flashReadLoop_spec cfg n 32768 2
      { s with msgLength := (2 * (n + 1) + 3) % 65536,
               msgBuffer := s.msgBuffer.set 1 cfg.STATUS_CMD_OK }
      (by omega) (by show 2 + 2 * (n + 1) ≤ (List.set _ _ _).length
                     rw [List.length_set]; omega) (by omega) ha
    have hfin : store t.msgBuffer (2 + 2 * (n + 1)) cfg.STATUS_CMD_OK =
        some (t.msgBuffer.set (2 + 2 * (n + 1)) cfg.STATUS_CMD_OK) := by
      refine if_pos ?_
      rw [htb]
      simp only [List.length_append, List.length_take, List.length_drop, List.length_map,
        List.length_range, List.length_set]
      omega
    refine ⟨{ t with msgBuffer := t.msgBuffer.set (2 + 2 * (n + 1)) cfg.STATUS_CMD_OK },
      ?_, ?_, ?_, hadr⟩
    · rw [dispatch_CMD_READ_FLASH_ISP cfg s hd hop]
      unfold case_CMD_READ
      simp only [hsize, hst, hop, decide_True, if_true, ht, hfin]
    · show t.msgLength = _
      rw [hlen]
      exact hml
    · show (t.msgBuffer.set _ _).take _ = _
      rw [htb]
      have hD := response_take s.msgBuffer
        ((List.range (2 * (n + 1))).map (fun k =>
          if k % 2 = 0 then
            s.flash (if cfg.FLASHEND > 0x10000 then (s.address + 2 * (k / 2)) % cfg.addrMod
              else (s.address + 2 * (k / 2)) % cfg.addrMod % 65536) % 256
          else
            (s.flash (if cfg.FLASHEND > 0x10000 then (s.address + 2 * (k / 2)) % cfg.addrMod
              else (s.address + 2 * (k / 2)) % cfg.addrMod % 65536) >>> 8) % 256))
        cfg.CMD_READ_FLASH_ISP cfg.STATUS_CMD_OK hop
        (by rw [List.length_map, List.length_range]; omega)
      rw [List.length_map, List.length_range] at hD
      exact hD
  · intro hop h1
    have hne : ¬ s.msgBuffer.getD 0 0 = cfg.CMD_READ_FLASH_ISP := by
      rw [hop]
      exact label_ne hd 13 14 (by decide) (by decide)
    obtain ⟨n, rfl⟩ : ∃ n, size = n + 1 := ⟨size - 1, by omega⟩
    obtain ⟨t, ht, htb, _, hadr, hlen, _, _⟩ := eepromReadLoop_spec cfg n 65536 2
      { s with msgLength := (n + 1 + 3) % 65536,
               msgBuffer := s.msgBuffer.set 1 cfg.STATUS_CMD_OK }
      (by omega) (by show 2 + (n + 1) ≤ (List.set _ _ _).length
                     rw [List.length_set]; omega) (by omega) ha
    have hfin : store t.msgBuffer (2 + (n + 1)) cfg.STATUS_CMD_OK =
        some (t.msgBuffer.set (2 + (n + 1)) cfg.STATUS_CMD_OK) := by
      refine if_pos ?_
      rw [htb]
      simp only [List.length_append, List.length_take, List.length_drop, List.length_map,
        List.length_range, List.length_set]
      omega
    refine ⟨{ t with msgBuffer := t.msgBuffer.set (2 + (n + 1)) cfg.STATUS_CMD_OK },
      ?_, ?_, ?_, hadr⟩
    · rw [dispatch_CMD_READ_EEPROM_ISP cfg s hd hop]
      unfold case_CMD_READ
      simp only [hsize, hst, hne, decide_False, Bool.false_eq_true, if_false, ht, hfin]
    · show t.msgLength = _
      rw [hlen]
      exact hml
    · show (t.msgBuffer.set _ _).take _ = _
      rw [htb]
      have hD := response_take s.msgBuffer
        ((List.range (n + 1)).map (fun k =>
          s.eeprom ((s.address + k) % cfg.addrMod % 65536) % 256))
        cfg.CMD_READ_EEPROM_ISP cfg.STATUS_CMD_OK hop
        (by rw [List.length_map, List.length_range]; omega)
      rw [List.length_map, List.length_range] at hD
      exact hD

/-- The lemma on a read-flash command of size 4 at address 0x100 and a read-EEPROM
command of size 3 at address 0x10, on the ATmega128 build. -/
theorem read_memory_response_witness :
    (∃ s', dispatch atmega128 (authedAt 0x100 [0x14, 0x00, 0x04]) = some s' ∧
        s'.msgLength = 4 + 3 ∧
        s'.msgBuffer.take (4 + 3) =
          [atmega128.CMD_READ_FLASH_ISP, atmega128.STATUS_CMD_OK] ++
            (List.range 4).map (fun k =>
              if k % 2 = 0 then
                (authedAt 0x100 [0x14, 0x00, 0x04]).flash
                  (if atmega128.FLASHEND > 0x10000 then
                    ((authedAt 0x100 [0x14, 0x00, 0x04]).address + 2 * (k / 2)) %
                      atmega128.addrMod
                  else ((authedAt 0x100 [0x14, 0x00, 0x04]).address + 2 * (k / 2)) %
                      atmega128.addrMod % 65536) % 256
              else
                ((authedAt 0x100 [0x14, 0x00, 0x04]).flash
                  (if atmega128.FLASHEND > 0x10000 then
                    ((authedAt 0x100 [0x14, 0x00, 0x04]).address + 2 * (k / 2)) %
                      atmega128.addrMod
                  else ((authedAt 0x100 [0x14, 0x00, 0x04]).address + 2 * (k / 2)) %
                      atmega128.addrMod % 65536) >>> 8) % 256) ++
            [atmega128.STATUS_CMD_OK] ∧
        s'.address =
          ((authedAt 0x100 [0x14, 0x00, 0x04]).address + 4) % atmega128.addrMod) ∧
    (∃ s', dispatch atmega128 (authedAt 0x10 [0x16, 0x00, 0x03]) = some s' ∧
        s'.msgLength = 3 + 3 ∧
        s'.msgBuffer.take (3 + 3) =
          [atmega128.CMD_READ_EEPROM_ISP, atmega128.STATUS_CMD_OK] ++
            (List.range 3).map (fun k =>
              (authedAt 0x10 [0x16, 0x00, 0x03]).eeprom
                (((authedAt 0x10 [0x16, 0x00, 0x03]).address + k) % atmega128.addrMod %
                  65536) % 256) ++
            [atmega128.STATUS_CMD_OK] ∧
        s'.address =
          ((authedAt 0x10 [0x16, 0x00, 0x03]).address + 3) % atmega128.addrMod) :=
  ⟨(read_memory_response atmega128 (authedAt 0x100 [0x14, 0x00, 0x04]) atmega128_distinct 4
      (by decide) (sessionWith_length _ [] (by decide)) (by decide) (by decide)).1
      (by decide) (by decide) (by decide),
   (read_memory_response atmega128 (authedAt 0x10 [0x16, 0x00, 0x03]) atmega128_distinct 3
      (by decide) (sessionWith_length _ [] (by decide)) (by decide) (by decide)).2
      (by decide) (by decide)⟩

/-! ### The program-EEPROM command -/

/-- The EEPROM write loop on a size `size`: `size` iterations, iteration `k` writing
`msgBuffer[p + k]` through the 16-bit pointer `ii + k`; `address` advances by 2 each. -/
theorem eepromWriteLoop_spec (cfg : Config) (size : Nat) :
    ∀ (p ii : Nat) (s : Session), p + size ≤ s.msgBuffer.length → ii < 65536 →
      s.address < cfg.addrMod →
      ∃ t, eepromWriteLoop cfg size p ii s = some t ∧
        t.hw = s.hw ++ (List.range size).map (fun k =>
          HwEvent.eeprom_write_byte ((ii + k) % 65536) (s.msgBuffer.getD (p + k) 0)) ∧
        t.address = (s.address + 2 * size) % cfg.addrMod ∧
        t.msgBuffer = s.msgBuffer ∧ t.msgLength = s.msgLength := by
  induction size with
  | zero =>
    intro p ii s _ _ ha
    refine ⟨s, rfl, ?_, ?_, rfl, rfl⟩
    · simp
    · rw [Nat.mul_zero, Nat.add_zero, Nat.mod_eq_of_lt ha]
  | succ m ih =>
    intro p ii s hp hii ha
    have g0 := getElem?_eq_some_getD s.msgBuffer p (by omega)
    obtain ⟨t, ht, hhw, hadr, hbuf, hml⟩ := ih (p + 1) ((ii + 1) % 65536)
      { s with hw := s.hw ++ [HwEvent.eeprom_write_byte ii (s.msgBuffer.getD p 0)],
               eeprom := fun a => if a = ii then s.msgBuffer.getD p 0 else s.eeprom a,
               address := (s.address + 2) % cfg.addrMod }
      (by show p + 1 + m ≤ s.msgBuffer.length; omega) (Nat.mod_lt _ (by decide))
      (Nat.mod_lt _ (addrMod_pos cfg))
    refine ⟨t, ?_, ?_, ?_, hbuf, hml⟩
    · simp only [eepromWriteLoop, g0]
      exact ht
    · rw [hhw]
      dsimp only
      rw [List.range_succ_eq_map m, List.map_cons, List.map_map, List.append_assoc,
        List.singleton_append]
      refine congrArg (fun l => s.hw ++ l) (List.cons_eq_cons.mpr ⟨?_, ?_⟩)
      · simp only [Nat.add_zero, Nat.mod_eq_of_lt hii]
      · apply List.map_congr_left
        intro k _
        simp only [Function.comp, Nat.mod_add_mod, Nat.succ_eq_add_one]
        have e1 : ii + 1 + k = ii + (k + 1) := by omega
        have e2 : p + 1 + k = p + (k + 1) := by omega
        rw [e1, e2]
    · rw [hadr]
      dsimp only
      rw [Nat.mod_add_mod]
      have e : s.address + 2 + 2 * m = s.address + 2 * (m + 1) := by omega
      rw [e]

/-- Counterexample to C26 as stated. After authenticate and load-address of word address
8 the target address is 0x10; a program-EEPROM command of two bytes then writes at the
EEPROM addresses 8 and 9, not 0x10 and 0x11. After load-address of word address 0x10000
the target address is 0x20000 and the two bytes are written at 0 and 1: the write pointer
is the 16-bit `address >> 1`. -/
theorem program_eeprom_writes_at_half_address :
    (runFrames atmega128
        [[0x50, 1, 2, 3, 4, 0x53, 0xEF, 0x34, 0x23], [0x06, 0, 0, 0, 0x08]]
        (sessionWith [] [])).map (fun s => s.address) = some 0x10 ∧
    (runFrames atmega128
        [[0x50, 1, 2, 3, 4, 0x53, 0xEF, 0x34, 0x23], [0x06, 0, 0, 0, 0x08],
         [0x15, 0, 2, 0xC1, 0x0A, 0x40, 0x4C, 0x20, 0, 0, 0x11, 0x22]]
        (sessionWith [] [])).map (fun s => s.hw) =
      some [HwEvent.eeprom_write_byte 8 0x11, HwEvent.eeprom_write_byte 9 0x22] ∧
    (runFrames atmega128
        [[0x50, 1, 2, 3, 4, 0x53, 0xEF, 0x34, 0x23], [0x06, 0, 0x01, 0, 0]]
        (sessionWith [] [])).map (fun s => s.address) = some 0x20000 ∧
    (runFrames atmega128
        [[0x50, 1, 2, 3, 4, 0x53, 0xEF, 0x34, 0x23], [0x06, 0, 0x01, 0, 0],
         [0x15, 0, 2, 0xC1, 0x0A, 0x40, 0x4C, 0x20, 0, 0, 0x11, 0x22]]
        (sessionWith [] [])).map (fun s => s.hw) =
      some [HwEvent.eeprom_write_byte 0 0x11, HwEvent.eeprom_write_byte 1 0x22] := by
  refine ⟨?_, ?_, ?_, ?_⟩ <;> decide!

/-- C26, amended. For every authenticated program-EEPROM command with size field `size`
and target address `address`, the data bytes being inside `msgBuffer`, the dispatch
returns and the hardware calls it makes are exactly `size` calls of `eeprom_write_byte`,
in order, the `k`-th at the 16-bit address `((address >> 1) + k) mod 2^16` and carrying
payload byte `10 + k`. The response is `[CMD_PROGRAM_EEPROM_ISP, STATUS_CMD_OK]` of
length 2 and the target address has advanced by `2 * size`. -/
theorem program_eeprom_trace (cfg : Config) (s : Session) (hd : cfg.DistinctLabels)
    (hauth : s.isAuthenticated = 1)
    (hop : s.msgBuffer.getD 0 0 = cfg.CMD_PROGRAM_EEPROM_ISP) (size : Nat)
    (hsize : ((s.msgBuffer.getD 1 0 <<< 8) ||| s.msgBuffer.getD 2 0) % 65536 = size)
    (hfit : 10 + size ≤ s.msgBuffer.length) (ha : s.address < cfg.addrMod) :
    ∃ s', dispatch cfg s = some s' ∧
      s'.hw = s.hw ++ (List.range size).map (fun k =>
        HwEvent.eeprom_write_byte (((s.address >>> 1) + k) % 65536)
          (s.msgBuffer.getD (10 + k) 0)) ∧
      s'.msgLength = 2 ∧
      s'.msgBuffer.take 2 = [cfg.CMD_PROGRAM_EEPROM_ISP, cfg.STATUS_CMD_OK] ∧
      s'.address = (s.address + 2 * size) % cfg.addrMod := by
  have hne : ¬ s.msgBuffer.getD 0 0 = cfg.CMD_PROGRAM_FLASH_ISP := by
    rw [hop]
    exact label_ne hd 11 12 (by decide) (by decide)
  obtain ⟨t, ht, hhw, hadr, hbuf, _⟩ := eepromWriteLoop_spec cfg size 10
    ((s.address >>> 1) % 65536) s hfit (Nat.mod_lt _ (by decide)) ha
  have htake : (s.msgBuffer.set 1 cfg.STATUS_CMD_OK).take 2 =
      [cfg.CMD_PROGRAM_EEPROM_ISP, cfg.STATUS_CMD_OK] := by
    match hm : s.msgBuffer, (show 2 ≤ s.msgBuffer.length by omega), hop with
    | a :: b :: rest, _, hop =>
      simp only [List.getD_cons_zero] at hop
      simp [hop]
  refine ⟨{ t with msgLength := 2, msgBuffer := t.msgBuffer.set 1 cfg.STATUS_CMD_OK },
    ?_, ?_, rfl, ?_, hadr⟩
  · rw [dispatch_CMD_PROGRAM_EEPROM_ISP cfg s hd hop]
    unfold case_CMD_PROGRAM
    simp only [if_pos hauth, hsize, if_neg hne, ht]
  · show t.hw = _
    rw [hhw]
    simp only [Nat.mod_add_mod]
  · show (t.msgBuffer.set 1 _).take 2 = _
    rw [hbuf]
    exact htake

/-- Witness for the amended C26: two bytes at target address 0x10 on the ATmega128
build. -/
theorem program_eeprom_trace_witness :
    ∃ s', dispatch atmega128
        (authedAt 0x10 [0x15, 0, 2, 0xC1, 0x0A, 0x40, 0x4C, 0x20, 0, 0, 0x11, 0x22]) = some s' ∧
      s'.hw = (authedAt 0x10 [0x15, 0, 2, 0xC1, 0x0A, 0x40, 0x4C, 0x20, 0, 0, 0x11, 0x22]).hw ++
        (List.range 2).map (fun k =>
          HwEvent.eeprom_write_byte
            ((((authedAt 0x10
              [0x15, 0, 2, 0xC1, 0x0A, 0x40, 0x4C, 0x20, 0, 0, 0x11, 0x22]).address >>> 1) + k)
              % 65536)
            ((authedAt 0x10
              [0x15, 0, 2, 0xC1, 0x0A, 0x40, 0x4C, 0x20, 0, 0, 0x11, 0x22]).msgBuffer.getD
              (10 + k) 0)) ∧
      s'.msgLength = 2 ∧
      s'.msgBuffer.take 2 = [atmega128.CMD_PROGRAM_EEPROM_ISP, atmega128.STATUS_CMD_OK] ∧
      s'.address =
        ((authedAt 0x10 [0x15, 0, 2, 0xC1, 0x0A, 0x40, 0x4C, 0x20, 0, 0, 0x11, 0x22]).address
          + 2 * 2) % atmega128.addrMod :=
  program_eeprom_trace atmega128
    (authedAt 0x10 [0x15, 0, 2, 0xC1, 0x0A, 0x40, 0x4C, 0x20, 0, 0, 0x11, 0x22])
    atmega128_distinct rfl (by decide) 2 (by decide)
    (by show 10 + 2 ≤ (sessionWith
          [0x15, 0, 2, 0xC1, 0x0A, 0x40, 0x4C, 0x20, 0, 0, 0x11, 0x22] []).msgBuffer.length
        rw [sessionWith_length _ _ (by decide)]; decide)
    (by decide)

/-! ### Leaving the session -/

/-- What a dispatch does to the leave flag: it leaves it alone, or it is an authenticated
leave command that sets it. -/
theorem dispatch_isLeave (cfg : Config) (s s' : Session) (h : dispatch cfg s = some s') :
    s'.isLeave = s.isLeave ∨
      (s.msgBuffer.getD 0 0 = cfg.CMD_LEAVE_PROGMODE_ISP ∧ s.isAuthenticated = 1 ∧
        s'.isLeave = 1) := by
  revert h
  refine dispatch_cases cfg s (fun r => r = some s' → _) ?_ ?_ ?_ ?_ ?_ ?_ ?_ ?_ ?_ ?_ ?_ ?_ ?_
  · intro _ h; cases h
    unfold case_CMD_AUTH
    split <;> exact Or.inl rfl
  · intro _ h; cases h
    unfold case_CMD_SIGN_ON replyFailed
    split <;> exact Or.inl rfl
  · intro _ h; cases h
    exact Or.inl rfl
  · intro hc h; cases h
    unfold case_CMD_LEAVE_PROGMODE_ISP replyFailed
    split
    · rename_i ha
      exact Or.inr ⟨hc, ha, rfl⟩
    · exact Or.inl rfl
  · intro _ h; cases h
    unfold case_CMD_ENTER_PROGMODE_ISP replyFailed
    split <;> exact Or.inl rfl
  · intro _ h; cases h
    exact Or.inl rfl
  · intro _ h; cases h
    exact Or.inl rfl
  · intro _ h; cases h
    exact Or.inl rfl
  · intro _ h; cases h
    exact Or.inl rfl
  · intro _ h; cases h
    unfold case_CMD_LOAD_ADDRESS replyFailed
    split <;> exact Or.inl rfl
  · intro _ h
    by_cases hauth : s.isAuthenticated = 1
    · by_cases hop : s.msgBuffer.getD 0 0 = cfg.CMD_PROGRAM_FLASH_ISP
      · obtain ⟨_, _, _, _, he, _⟩ := case_CMD_PROGRAM_flash cfg s s' hauth hop h
        exact Or.inl he
      · obtain ⟨_, _, he⟩ := case_CMD_PROGRAM_eeprom cfg s s' hauth hop h
        exact Or.inl he
    · rw [case_CMD_PROGRAM_unauth cfg s hauth] at h
      cases h
      exact Or.inl rfl
  · intro _ h
    obtain ⟨_, _, he, _⟩ := case_CMD_READ_effect cfg s s' h
    exact Or.inl he
  · intro _ _ h; cases h
    exact Or.inl rfl

theorem copyLoop_link (n : Nat) :
    ∀ (p : Nat) (s t : Session), copyLoop n p s = some t →
      t.aes_buffer = s.aes_buffer ∧ t.RoundKey = s.RoundKey ∧ t.Iv = s.Iv ∧ t.tx = s.tx ∧
        t.rx = s.rx := by
  induction n with
  | zero => intro p s t h; simp only [copyLoop] at h; cases h; exact ⟨rfl, rfl, rfl, rfl, rfl⟩
  | succ k ih =>
    intro p s t h
    simp only [copyLoop] at h
    split at h
    · cases h
    · split at h
      · cases h
      · have hi := ih _ _ _ h
        exact hi

/-- The response assembly writes neither the cipher state, nor `aes_buffer`, nor the
transport. -/
theorem assembleResponse_link {cfg : Config} {s t : Session} {n : Nat}
    (h : assembleResponse cfg s = some (n, t)) :
    t.aes_buffer = s.aes_buffer ∧ t.RoundKey = s.RoundKey ∧ t.Iv = s.Iv ∧ t.tx = s.tx ∧
      t.rx = s.rx := by
  unfold assembleResponse at h
  split at h
  · cases h
  split at h
  · cases h
  dsimp only at h
  split at h
  · cases h
  split at h
  · cases h
  split at h
  · cases h
  split at h
  · cases h
  split at h
  · cases h
  rename_i u hu
  split at h
  · cases h
  cases h
  have hc := copyLoop_link _ _ _ _ hu
  exact hc

/-- The answer, when the padded frame fits `receivedPacket[288]` and `aes_buffer`: with
`F = msgLength + (16 - (msgLength + 6) % 16) + 6`, the transport receives
`SOTA_MESSAGE_START`, the two bytes of `F`, and the CBC encryption of the first `F` bytes
of the assembled buffer. -/
theorem respond_spec (cfg : Config) (s : Session) (hrp : s.receivedPacket.length = 288)
    (hmb : s.msgLength ≤ s.msgBuffer.length)
    (hF : s.msgLength + (16 - (s.msgLength + 6) % 16) + 6 ≤ 288)
    (hab : s.msgLength + (16 - (s.msgLength + 6) % 16) + 6 ≤ s.aes_buffer.length) :
    ∃ a t, assembleResponse cfg s =
        some (s.msgLength + (16 - (s.msgLength + 6) % 16) + 6, a) ∧
      respond cfg s = some (s.msgLength + (16 - (s.msgLength + 6) % 16) + 6, t) ∧
      t.tx = s.tx ++ [cfg.SOTA_MESSAGE_START,
          ((s.msgLength + (16 - (s.msgLength + 6) % 16) + 6) >>> 8) &&& 0xFF,
          (s.msgLength + (16 - (s.msgLength + 6) % 16) + 6) &&& 0x00FF] ++
        cbcEnc (KeyExpansion key s.RoundKey)
          ((s.msgLength + (16 - (s.msgLength + 6) % 16) + 6) / 16) iv
          (a.receivedPacket.take (s.msgLength + (16 - (s.msgLength + 6) % 16) + 6)) ∧
      t.rx = s.rx ∧
      a.receivedPacket =
        [cfg.MESSAGE_START, s.seqNum, (s.msgLength >>> 8) &&& 0xFF, s.msgLength &&& 0xFF,
          cfg.TOKEN] ++ s.msgBuffer.take s.msgLength ++
        [xorAll ([cfg.MESSAGE_START, s.seqNum, (s.msgLength >>> 8) &&& 0xFF,
          s.msgLength &&& 0xFF, cfg.TOKEN] ++ s.msgBuffer.take s.msgLength)] ++
        List.replicate (if (s.msgLength + 6) % 16 ≠ 0 then 16 - (s.msgLength + 6) % 16 else 0)
          0xff ++
        s.receivedPacket.drop (s.msgLength + 6 +
          (if (s.msgLength + 6) % 16 ≠ 0 then 16 - (s.msgLength + 6) % 16 else 0)) := by
  obtain ⟨a, ha, hap, _, _⟩ := assembleResponse_spec cfg s hrp (by omega) hmb
  obtain ⟨l1, l2, l3, l4, l5⟩ := assembleResponse_link ha
  generalize hFd : s.msgLength + (16 - (s.msgLength + 6) % 16) + 6 = F at *
  have hF16 : F = 16 * (F / 16) := by omega
  have hal : a.receivedPacket.length = 288 := by
    rw [hap]
    simp only [List.length_append, List.length_cons, List.length_nil, List.length_take,
      List.length_replicate, List.length_drop, hrp, Nat.min_eq_left hmb]
    split <;> omega
  have hp : (a.receivedPacket.take F).length = F := by
    rw [List.length_take, hal]; omega
  obtain ⟨e, he, _, heo⟩ := aes_encrypt_spec key iv a.RoundKey a.Iv a.aes_buffer
    (a.receivedPacket.take F) (a.receivedPacket.drop F) (F / 16) (by rw [hp]; exact hF16)
    (by rw [hp]; omega) (by rw [hp, l1]; exact hab)
  rw [List.take_append_drop, hp] at he
  rw [hp] at heo
  have hcl : (cbcEnc (KeyExpansion key a.RoundKey) (F / 16) iv
      (a.receivedPacket.take F)).length = F := by
    rw [cbcEnc_length _ _ _ _ (by rw [hp]; exact hF16)]; exact hF16.symm
  have hol : F ≤ e.output.length := by
    rw [heo, List.length_append, hcl]; omega
  refine ⟨a, { a with RoundKey := e.RoundKey, Iv := e.Iv, aes_buffer := e.output,
                      receivedPacket := e.input,
                      tx := a.tx ++ [cfg.SOTA_MESSAGE_START, (F >>> 8) &&& 0xFF, F &&& 0x00FF] ++
                        e.output.take F }, ha, ?_, ?_, ?_, hap⟩
  · unfold respond
    simp only [ha, he]
    rw [if_pos hol]
  · show a.tx ++ _ ++ e.output.take F = _
    rw [heo, List.take_left' hcl, l4, l2]
  · exact l5

theorem sessionLoop_leave (cfg : Config) (fuel : Nat) (t : Session) (h : t.isLeave ≠ 0) :
    sessionLoop cfg fuel t = some t := by
  cases fuel with
  | zero => simp only [sessionLoop, if_pos h]
  | succ k => simp only [sessionLoop, if_pos h]

/-- C30. When a leave frame is dispatched in an authenticated session, the dispatch
returns with the leave flag set and the response `[CMD_LEAVE_PROGMODE_ISP,
STATUS_CMD_OK]` of length 2; the answer step of the same cycle still returns and sends
`SOTA_MESSAGE_START`, the length 16 and the CBC encryption of the response frame padded
with eight 0xFF bytes; the session loop, entered again with the resulting state, returns
that state at once, with no byte taken from the transport. For every other dispatch
(another opcode, or a leave frame in an unauthenticated session) the leave flag after the
dispatch and after the answer is what it was, and when it was 0 the loop makes another
pass. The buffers have the sizes of the source: `receivedPacket[288]`, at least 16 bytes
of `aes_buffer`. -/
theorem leave_ends_session (cfg : Config) (s : Session) (hd : cfg.DistinctLabels)
    (hmb : 2 ≤ s.msgBuffer.length) (hrp : s.receivedPacket.length = 288)
    (hab : 16 ≤ s.aes_buffer.length) :
    (s.msgBuffer.getD 0 0 = cfg.CMD_LEAVE_PROGMODE_ISP → s.isAuthenticated = 1 →
      ∃ s₁ t, dispatch cfg s = some s₁ ∧ s₁.isLeave = 1 ∧ s₁.msgLength = 2 ∧
        s₁.msgBuffer.take 2 = [cfg.CMD_LEAVE_PROGMODE_ISP, cfg.STATUS_CMD_OK] ∧
        respond cfg s₁ = some (16, t) ∧
        t.tx = s.tx ++ [cfg.SOTA_MESSAGE_START, 0, 16] ++
          cbcEnc (KeyExpansion key s.RoundKey) 1 iv
            (frame cfg s.seqNum [cfg.CMD_LEAVE_PROGMODE_ISP, cfg.STATUS_CMD_OK] ++
              List.replicate 8 0xff) ∧
        t.isLeave = 1 ∧ t.rx = s.rx ∧ ∀ fuel, sessionLoop cfg fuel t = some t) ∧
    (¬ (s.msgBuffer.getD 0 0 = cfg.CMD_LEAVE_PROGMODE_ISP ∧ s.isAuthenticated = 1) →
      ∀ s₁, dispatch cfg s = some s₁ →
        s₁.isLeave = s.isLeave ∧
        ∀ n t, respond cfg s₁ = some (n, t) →
          t.isLeave = s.isLeave ∧
          (s.isLeave = 0 → ∀ fuel,
            sessionLoop cfg (fuel + 1) t = (sessionCycle cfg t).bind (sessionLoop cfg fuel))) := by
  constructor
  · intro hop hauth
    have htake : (s.msgBuffer.set 1 cfg.STATUS_CMD_OK).take 2 =
        [cfg.CMD_LEAVE_PROGMODE_ISP, cfg.STATUS_CMD_OK] := by
      match hm : s.msgBuffer, hmb, hop with
      | a :: b :: rest, _, hop =>
        simp only [List.getD_cons_zero] at hop
        simp [hop]
    have hs1 : dispatch cfg s =
        some { s with isLeave := 1, msgLength := 2,
                      msgBuffer := s.msgBuffer.set 1 cfg.STATUS_CMD_OK } := by
      rw [dispatch_CMD_LEAVE_PROGMODE_ISP cfg s hd hop]
      unfold case_CMD_LEAVE_PROGMODE_ISP
      rw [if_pos hauth]
    obtain ⟨a, t, _, ht, htx, hrx, hap⟩ := respond_spec cfg
      { s with isLeave := 1, msgLength := 2,
               msgBuffer := s.msgBuffer.set 1 cfg.STATUS_CMD_OK }
      hrp (by show 2 ≤ (List.set _ _ _).length; rw [List.length_set]; exact hmb)
      (by show 2 + (16 - (2 + 6) % 16) + 6 ≤ 288; decide)
      (by show 2 + (16 - (2 + 6) % 16) + 6 ≤ s.aes_buffer.length; exact hab)
    have hcore := respond_SameCore ht
    have hpl : a.receivedPacket.take 16 =
        frame cfg s.seqNum [cfg.CMD_LEAVE_PROGMODE_ISP, cfg.STATUS_CMD_OK] ++
          List.replicate 8 0xff := by
      rw [hap]
      dsimp only
      rw [htake]
      exact List.take_left' rfl
    refine ⟨_, t, hs1, rfl, rfl, htake, ht, ?_, hcore.2.2.2.1, hrx,
      fun fuel => sessionLoop_leave cfg fuel t ?_⟩
    · rw [htx]
      have e : (2 + (16 - (2 + 6) % 16) + 6) = 16 := by decide
      show s.tx ++ [cfg.SOTA_MESSAGE_START, ((2 + (16 - (2 + 6) % 16) + 6) >>> 8) &&& 0xFF,
        (2 + (16 - (2 + 6) % 16) + 6) &&& 0x00FF] ++
        cbcEnc (KeyExpansion key s.RoundKey) ((2 + (16 - (2 + 6) % 16) + 6) / 16) iv
          (a.receivedPacket.take (2 + (16 - (2 + 6) % 16) + 6)) = _
      rw [e, hpl]
      rfl
    · rw [hcore.2.2.2.1]
      exact Nat.succ_ne_zero 0
  · intro hnot s₁ h1
    have hl : s₁.isLeave = s.isLeave := by
      rcases dispatch_isLeave cfg s s₁ h1 with h | ⟨hc, ha, _⟩
      · exact h
      · exact absurd ⟨hc, ha⟩ hnot
    refine ⟨hl, ?_⟩
    intro n t ht
    have ht2 : t.isLeave = s.isLeave := (respond_SameCore ht).2.2.2.1.trans hl
    refine ⟨ht2, ?_⟩
    intro h0 fuel
    have hz : ¬ t.isLeave ≠ 0 := by rw [ht2, h0]; exact fun h => h rfl
    simp only [sessionLoop, if_neg hz]
    cases sessionCycle cfg t <;> rfl

/-- Witness for C30: an authenticated leave frame, and a get-parameter frame, on the
ATmega128 build. -/
theorem leave_ends_session_witness :
    (∃ s₁ t, dispatch atmega128 (authedAt 0 [0x11]) = some s₁ ∧ s₁.isLeave = 1 ∧
        s₁.msgLength = 2 ∧
        s₁.msgBuffer.take 2 = [atmega128.CMD_LEAVE_PROGMODE_ISP, atmega128.STATUS_CMD_OK] ∧
        respond atmega128 s₁ = some (16, t) ∧
        t.tx = (authedAt 0 [0x11]).tx ++ [atmega128.SOTA_MESSAGE_START, 0, 16] ++
          cbcEnc (KeyExpansion key (authedAt 0 [0x11]).RoundKey) 1 iv
            (frame atmega128 (authedAt 0 [0x11]).seqNum
              [atmega128.CMD_LEAVE_PROGMODE_ISP, atmega128.STATUS_CMD_OK] ++
              List.replicate 8 0xff) ∧
        t.isLeave = 1 ∧ t.rx = (authedAt 0 [0x11]).rx ∧
        ∀ fuel, sessionLoop atmega128 fuel t = some t) ∧
    ((case_CMD_GET_PARAMETER atmega128 (authedAt 0 [0x03, 0x90])).isLeave =
        (authedAt 0 [0x03, 0x90]).isLeave ∧
      ∀ n t, respond atmega128 (case_CMD_GET_PARAMETER atmega128 (authedAt 0 [0x03, 0x90])) =
          some (n, t) →
        t.isLeave = (authedAt 0 [0x03, 0x90]).isLeave ∧
        ((authedAt 0 [0x03, 0x90]).isLeave = 0 → ∀ fuel,
          sessionLoop atmega128 (fuel + 1) t =
            (sessionCycle atmega128 t).bind (sessionLoop atmega128 fuel))) :=
  ⟨(leave_ends_session atmega128 (authedAt 0 [0x11]) atmega128_distinct
      (by show 2 ≤ (sessionWith [0x11] []).msgBuffer.length
          rw [sessionWith_length _ _ (by decide)]; decide)
      (List.length_replicate 288 0x04)
      (by show 16 ≤ (List.replicate 288 0x03).length
          rw [List.length_replicate]; decide)).1 (by decide) rfl,
   (leave_ends_session atmega128 (authedAt 0 [0x03, 0x90]) atmega128_distinct
      (by show 2 ≤ (sessionWith [0x03, 0x90] []).msgBuffer.length
          rw [sessionWith_length _ _ (by decide)]; decide)
      (List.length_replicate 288 0x04)
      (by show 16 ≤ (List.replicate 288 0x03).length
          rw [List.length_replicate]; decide)).2 (by decide) _
      (dispatch_CMD_GET_PARAMETER atmega128 _ atmega128_distinct (by decide))⟩

/-! ### What the codec does to its input buffer -/

theorem cbcXor_length (rk : List Nat) (n : Nat) :
    ∀ (prev data : List Nat), data.length = 16 * n → (cbcXor rk n prev data).length = 16 * n := by
  induction n with
  | zero => intro prev data _; rfl
  | succ k ih =>
    intro prev data hd
    obtain ⟨b, d, rfl, hb, hd'⟩ := split16 hd
    simp only [cbcXor, List.take_left' hb, List.drop_left' hb, List.length_append]
    rw [ih _ _ hd', XorWithIv_length _ hb]
    omega

/-- Block `i` of `cbcXor`: data block `i` XORed with `prev` for the first block and with
block `i - 1` of the chaining result for the others. -/
theorem blockAt_cbcXor (rk : List Nat) (n : Nat) :
    ∀ (prev data : List Nat) (i : Nat), data.length = 16 * n → i < n →
      blockAt (cbcXor rk n prev data) (16 * i) =
        XorWithIv (blockAt data (16 * i))
          (if i = 0 then prev else blockAt (cbcEnc rk n prev data) (16 * (i - 1))) := by
  induction n with
  | zero => intro _ _ i _ hi; omega
  | succ m ih =>
    intro prev data i hd hi
    obtain ⟨b, d, rfl, hb, hd'⟩ := split16 hd
    have hX : (XorWithIv b prev).length = 16 := XorWithIv_length _ hb
    have hC : (Cipher rk (XorWithIv b prev)).length = 16 := Cipher_length rk hX
    simp only [cbcXor, cbcEnc, List.take_left' hb, List.drop_left' hb]
    cases i with
    | zero =>
      rw [Nat.mul_zero, blockAt_zero_append _ hX, blockAt_zero_append _ hb, if_pos rfl]
    | succ k =>
      rw [blockAt_succ_append _ _ hX, blockAt_succ_append _ _ hb, ih _ d k hd' (by omega),
        if_neg (Nat.succ_ne_zero k), Nat.add_sub_cancel]
      cases k with
      | zero => rw [if_pos rfl, Nat.mul_zero, blockAt_zero_append _ hC]
      | succ j =>
        rw [if_neg (Nat.succ_ne_zero j), Nat.add_sub_cancel, blockAt_succ_append _ _ hC]

/-- The block loop of `aes_encrypt` leaves the XORed blocks in the input buffer. -/
theorem aes_encrypt_blocks_input (iv rk : List Nat) (n : Nat) :
    ∀ (off : Nat) (Iv : IvRef) (preO midO postO preI data postI prev : List Nat),
      preO.length = off → preI.length = off → midO.length = 16 * n → data.length = 16 * n →
      AesMem.derefIv iv ⟨rk, Iv, preO ++ midO ++ postO, preI ++ data ++ postI⟩ = prev →
      ∃ m', aes_encrypt_blocks iv n off ⟨rk, Iv, preO ++ midO ++ postO, preI ++ data ++ postI⟩
          = some m' ∧
        m'.input = preI ++ cbcXor rk n prev data ++ postI := by
  induction n with
  | zero =>
    intro off Iv preO midO postO preI data postI prev _ _ _ hd _
    have : data = [] := List.length_eq_zero.mp (by simpa using hd)
    subst this
    exact ⟨_, rfl, by simp [cbcXor]⟩
  | succ k ih =>
    intro off Iv preO midO postO preI data postI prev hpo hpi hm hd hiv
    obtain ⟨b, d, rfl, hb, hd'⟩ := split16 hd
    obtain ⟨o, mo, rfl, ho, hmo⟩ := split16 hm
    have hxb : (XorWithIv b prev).length = 16 := XorWithIv_length prev hb
    have hc : (Cipher rk (XorWithIv b prev)).length = 16 := Cipher_length rk hxb
    have hin : preI ++ (b ++ d) ++ postI = preI ++ b ++ (d ++ postI) := by
      simp only [List.append_assoc]
    have hout : preO ++ (o ++ mo) ++ postO = preO ++ o ++ (mo ++ postO) := by
      simp only [List.append_assoc]
    have hbound : off + 16 ≤ (preI ++ b ++ (d ++ postI)).length ∧
        off + 16 ≤ (preO ++ o ++ (mo ++ postO)).length := by
      simp only [List.length_append]; omega
    rw [hin, hout] at hiv ⊢
    obtain ⟨m', h1, h3⟩ := ih (off + 16) (IvRef.output off)
      (preO ++ Cipher rk (XorWithIv b prev)) mo postO (preI ++ XorWithIv b prev) d postI
      (Cipher rk (XorWithIv b prev))
      (by simp [hpo, hc]) (by simp [hpi, hxb]) hmo hd'
      (by
        show blockAt (preO ++ Cipher rk (XorWithIv b prev) ++ mo ++ postO) off = _
        rw [List.append_assoc _ mo postO]
        exact blockAt_append _ hpo hc)
    refine ⟨m', ?_, ?_⟩
    · rw [← h1]
      simp only [aes_encrypt_blocks, hbound, and_self, if_true]
      rw [hiv, blockAt_append _ hpi hb, setBlock_append _ _ hpi hb, memcpy_block,
        blockAt_append _ hpi hxb, setBlock_append _ _ hpo ho, blockAt_append _ hpo hxb,
        setBlock_append _ _ hpo hxb]
      simp only [List.append_assoc]
    · rw [h3]
      simp only [cbcXor, List.append_assoc]
      rw [← hb, List.take_left, List.drop_left]

/-- The input buffer after `aes_encrypt` on `n` whole blocks. -/
theorem aes_encrypt_input (key iv rk0 : List Nat) (Iv0 : IvRef) (out p tailP : List Nat)
    (n : Nat) (hlen : p.length = 16 * n) (hmax : p.length ≤ 65520)
    (hout : p.length ≤ out.length) :
    ∃ e, aes_encrypt key iv ⟨rk0, Iv0, out, p ++ tailP⟩ p.length = some e ∧
      e.input = cbcXor (KeyExpansion key rk0) n iv p ++ tailP := by
  have hsplit : out = [] ++ out.take p.length ++ out.drop p.length := by simp
  have hmid : (out.take p.length).length = 16 * n := by
    rw [List.length_take]; omega
  have hd : AesMem.derefIv iv ⟨KeyExpansion key rk0, IvRef.iv,
      [] ++ out.take p.length ++ out.drop p.length, [] ++ p ++ tailP⟩ = iv := by
    simp only [AesMem.derefIv]
  obtain ⟨m', h1, h3⟩ := aes_encrypt_blocks_input iv (KeyExpansion key rk0) n 0 IvRef.iv
    [] (out.take p.length) (out.drop p.length) [] p tailP iv List.length_nil List.length_nil
    hmid hlen hd
  refine ⟨m', ?_, ?_⟩
  · have hn : (p.length + 15) / 16 = n := by omega
    have hex : p.length % 16 % 256 = 0 := by omega
    have hm : ¬ 65520 < p.length := by omega
    rw [← hsplit] at h1
    rw [List.nil_append] at h1
    unfold aes_encrypt
    dsimp only
    rw [if_neg hm, hn, h1]
    dsimp only
    rw [hex]
    rfl
  · rw [h3, List.nil_append]

theorem xor_eq_self_iff (a x : Nat) (h : a ^^^ x = a) : x = 0 := by
  have e : a ^^^ (a ^^^ x) = x := by rw [← Nat.xor_assoc, Nat.xor_self, Nat.zero_xor]
  rw [h, Nat.xor_self] at e
  exact e.symm

/-- A block XORed with a chaining value that has a nonzero byte is not the block. -/
theorem XorWithIv_ne (Iv : List Nat) {b : List Nat} (hb : b.length = 16) (j : Nat) (hj : j < 16)
    (hne : Iv.getD j 0 ≠ 0) : XorWithIv b Iv ≠ b := by
  obtain ⟨a0, a1, a2, a3, a4, a5, a6, a7, a8, a9, a10, a11, a12, a13, a14, a15, rfl⟩ := eq16 hb
  rw [XorWithIv_eq]
  intro h
  simp only [List.cons.injEq, and_true] at h
  obtain ⟨h0, h1, h2, h3, h4, h5, h6, h7, h8, h9, h10, h11, h12, h13, h14, h15⟩ := h
  interval_cases j
  · exact hne (xor_eq_self_iff _ _ h0)
  · exact hne (xor_eq_self_iff _ _ h1)
  · exact hne (xor_eq_self_iff _ _ h2)
  · exact hne (xor_eq_self_iff _ _ h3)
  · exact hne (xor_eq_self_iff _ _ h4)
  · exact hne (xor_eq_self_iff _ _ h5)
  · exact hne (xor_eq_self_iff _ _ h6)
  · exact hne (xor_eq_self_iff _ _ h7)
  · exact hne (xor_eq_self_iff _ _ h8)
  · exact hne (xor_eq_self_iff _ _ h9)
  · exact hne (xor_eq_self_iff _ _ h10)
  · exact hne (xor_eq_self_iff _ _ h11)
  · exact hne (xor_eq_self_iff _ _ h12)
  · exact hne (xor_eq_self_iff _ _ h13)
  · exact hne (xor_eq_self_iff _ _ h14)
  · exact hne (xor_eq_self_iff _ _ h15)

/-- C40. For every buffer of `n` whole blocks `p` followed by any bytes: `aes_encrypt`
returns, and afterwards block `i` of its input buffer holds the original block `i` XORed
with the chaining value `iv` for `i = 0` and with ciphertext block `i - 1` (block `i - 1`
of the output buffer) for `1 ≤ i < n`; the bytes behind the `n` blocks are untouched. When
`n ≥ 1` and the chaining value has a nonzero byte (the firmware value has), the input
buffer is not what it was. `aes_decrypt` on the same buffer returns and leaves its input
buffer as it was. -/
theorem aes_encrypt_overwrites_input (key iv rk0 : List Nat) (Iv0 : IvRef)
    (out p tailP : List Nat) (n : Nat) (hlen : p.length = 16 * n) (hmax : p.length ≤ 65520)
    (hout : p.length ≤ out.length) :
    (∃ e, aes_encrypt key iv ⟨rk0, Iv0, out, p ++ tailP⟩ p.length = some e ∧
      (∀ i, i < n →
        blockAt e.input (16 * i) =
          XorWithIv (blockAt p (16 * i))
            (if i = 0 then iv else blockAt e.output (16 * (i - 1)))) ∧
      e.input.drop p.length = tailP ∧
      (1 ≤ n → (∃ j, j < 16 ∧ iv.getD j 0 ≠ 0) → e.input ≠ p ++ tailP)) ∧
    (∃ d, aes_decrypt key iv ⟨rk0, Iv0, out, p ++ tailP⟩ p.length = some d ∧
      d.input = p ++ tailP) := by
  constructor
  · obtain ⟨e, he, hin⟩ := aes_encrypt_input key iv rk0 Iv0 out p tailP n hlen hmax hout
    obtain ⟨e', he', _, ho⟩ := aes_encrypt_spec key iv rk0 Iv0 out p tailP n hlen hmax hout
    have hee : e' = e := Option.some.inj (he'.symm.trans he)
    subst hee
    have hxl : (cbcXor (KeyExpansion key rk0) n iv p).length = 16 * n :=
      cbcXor_length _ _ _ _ hlen
    have hcl : (cbcEnc (KeyExpansion key rk0) n iv p).length = 16 * n :=
      cbcEnc_length _ _ _ _ hlen
    refine ⟨e', he, ?_, ?_, ?_⟩
    · intro i hi
      rw [hin, ho, blockAt_append_left _ _ _ (by omega)]
      have h2 : (if i = 0 then iv
          else blockAt (cbcEnc (KeyExpansion key rk0) n iv p ++ out.drop p.length)
            (16 * (i - 1))) =
          (if i = 0 then iv else blockAt (cbcEnc (KeyExpansion key rk0) n iv p)
            (16 * (i - 1))) := by
        by_cases h0 : i = 0
        · rw [if_pos h0, if_pos h0]
        · rw [if_neg h0, if_neg h0, blockAt_append_left _ _ _ (by omega)]
      rw [h2]
      exact blockAt_cbcXor _ n iv p i hlen hi
    · rw [hin, hlen, ← hxl, List.drop_left]
    · intro hn hj heq
      obtain ⟨j, hj16, hjne⟩ := hj
      obtain ⟨m, rfl⟩ : ∃ m, n = m + 1 := ⟨n - 1, by omega⟩
      obtain ⟨b, d, rfl, hb, hd'⟩ := split16 hlen
      have h0 := blockAt_cbcXor (KeyExpansion key rk0) (m + 1) iv (b ++ d) 0 hlen (by omega)
      rw [Nat.mul_zero, if_pos rfl, blockAt_zero_append _ hb] at h0
      have h1 : blockAt e'.input 0 = blockAt (b ++ d ++ tailP) 0 := by rw [heq]
      rw [hin, blockAt_append_left _ _ _ (by omega), h0, List.append_assoc,
        blockAt_zero_append _ hb] at h1
      exact XorWithIv_ne iv hb j hj16 hjne h1
  · obtain ⟨d, hd, _, _, hdi⟩ := aes_decrypt_spec key iv rk0 Iv0 out p tailP n hlen hmax hout
    exact ⟨d, hd, hdi⟩

/-- Witness for C40: two blocks followed by three more bytes, firmware key and chaining
value. -/
theorem aes_encrypt_overwrites_input_witness :
    (∃ e, aes_encrypt key iv ⟨List.replicate 176 0, IvRef.iv, List.replicate 32 3,
        (List.replicate 16 0x5a ++ List.replicate 16 0xa5) ++ [1, 2, 3]⟩
        (List.replicate 16 0x5a ++ List.replicate 16 0xa5).length = some e ∧
      (∀ i, i < 2 →
        blockAt e.input (16 * i) =
          XorWithIv (blockAt (List.replicate 16 0x5a ++ List.replicate 16 0xa5) (16 * i))
            (if i = 0 then iv else blockAt e.output (16 * (i - 1)))) ∧
      e.input.drop (List.replicate 16 0x5a ++ List.replicate 16 0xa5).length = [1, 2, 3] ∧
      (1 ≤ 2 → (∃ j, j < 16 ∧ iv.getD j 0 ≠ 0) →
        e.input ≠ (List.replicate 16 0x5a ++ List.replicate 16 0xa5) ++ [1, 2, 3])) ∧
    (∃ d, aes_decrypt key iv ⟨List.replicate 176 0, IvRef.iv, List.replicate 32 3,
        (List.replicate 16 0x5a ++ List.replicate 16 0xa5) ++ [1, 2, 3]⟩
        (List.replicate 16 0x5a ++ List.replicate 16 0xa5).length = some d ∧
      d.input = (List.replicate 16 0x5a ++ List.replicate 16 0xa5) ++ [1, 2, 3]) :=
  aes_encrypt_overwrites_input key iv (List.replicate 176 0) IvRef.iv (List.replicate 32 3)
    (List.replicate 16 0x5a ++ List.replicate 16 0xa5) [1, 2, 3] 2
    (by decide) (by decide) (by decide)

/-! ### The authenticate counter -/

/-- C34. For every authenticate frame whose payload bytes 5..8 are the token, with payload
bytes `p1..p4` behind the opcode, and every prior session state: the dispatch returns, the
session is authenticated, the counter `authenticationNumber` is
`(p1 + p2*2^8 + p3*2^16 + p4*2^24 + p4) mod 2^32`, and the response has length 5 and is
`[STATUS_CMD_OK, byte 0 of the counter, byte 1 of the counter, p3, byte 3 of the counter]`:
index 3 keeps the payload byte `p3`, byte 2 of the counter is not stored. -/
theorem authenticate_counter (cfg : Config) (s : Session) (p1 p2 p3 p4 : Nat)
    (rest : List Nat)
    (hbuf : s.msgBuffer =
      cfg.CMD_AUTH :: p1 :: p2 :: p3 :: p4 :: 0x53 :: 0xEF :: 0x34 :: 0x23 :: rest) :
    ∃ s', dispatch cfg s = some s' ∧ s'.isAuthenticated = 1 ∧
      s'.authenticationNumber =
        (p1 + p2 * 2 ^ 8 + p3 * 2 ^ 16 + p4 * 2 ^ 24 + p4) % 2 ^ 32 ∧
      s'.msgLength = 5 ∧
      s'.msgBuffer.take 5 =
        [cfg.STATUS_CMD_OK, s'.authenticationNumber % 256,
          s'.authenticationNumber / 2 ^ 8 % 256, p3,
          s'.authenticationNumber / 2 ^ 24 % 256] := by
  have hop : s.msgBuffer.getD 0 0 = cfg.CMD_AUTH := by rw [hbuf]; rfl
  have htok : s.msgBuffer.getD 5 0 = authenticationToken.getD 0 0 ∧
      s.msgBuffer.getD 6 0 = authenticationToken.getD 1 0 ∧
      s.msgBuffer.getD 7 0 = authenticationToken.getD 2 0 ∧
      s.msgBuffer.getD 8 0 = authenticationToken.getD 3 0 := by
    rw [hbuf]; exact ⟨rfl, rfl, rfl, rfl⟩
  have g1 : s.msgBuffer.getD 1 0 = p1 := by rw [hbuf]; rfl
  have g2 : s.msgBuffer.getD 2 0 = p2 := by rw [hbuf]; rfl
  have g3 : s.msgBuffer.getD 3 0 = p3 := by rw [hbuf]; rfl
  have g4 : s.msgBuffer.getD 4 0 = p4 := by rw [hbuf]; rfl
  refine ⟨case_CMD_AUTH cfg s, dispatch_CMD_AUTH cfg s hop, ?_, ?_, ?_, ?_⟩
  · unfold case_CMD_AUTH
    rw [if_pos htok]
  · unfold case_CMD_AUTH
    rw [if_pos htok, g1, g2, g3, g4]
  · unfold case_CMD_AUTH
    rw [if_pos htok]
  · unfold case_CMD_AUTH
    rw [if_pos htok, g1, g2, g3, g4]
    dsimp only
    rw [hbuf]
    rfl

/-- Witness for C34: payload bytes FF FF 10 01, where adding `p4` carries into byte 2 of
the counter (0x01110000), which the response does not show. -/
theorem authenticate_counter_witness :
    ∃ s', dispatch atmega128
        (sessionWith [0x50, 0xFF, 0xFF, 0x10, 0x01, 0x53, 0xEF, 0x34, 0x23] []) = some s' ∧
      s'.isAuthenticated = 1 ∧
      s'.authenticationNumber =
        (0xFF + 0xFF * 2 ^ 8 + 0x10 * 2 ^ 16 + 0x01 * 2 ^ 24 + 0x01) % 2 ^ 32 ∧
      s'.msgLength = 5 ∧
      s'.msgBuffer.take 5 =
        [atmega128.STATUS_CMD_OK, s'.authenticationNumber % 256,
          s'.authenticationNumber / 2 ^ 8 % 256, 0x10,
          s'.authenticationNumber / 2 ^ 24 % 256] :=
  authenticate_counter atmega128
    (sessionWith [0x50, 0xFF, 0xFF, 0x10, 0x01, 0x53, 0xEF, 0x34, 0x23] [])
    0xFF 0xFF 0x10 0x01 (List.replicate 276 0xAA) rfl

/-! ### The size counter of the word loops -/

/-- The fill loop on size `2 * (n + 1)` does not return within `n` iterations. -/
theorem flashFillLoop_short (cfg : Config) :
    ∀ (fuel n p : Nat) (s : Session), fuel ≤ n → 2 * (n + 1) < 65536 →
      flashFillLoop cfg fuel p (2 * (n + 1)) s = none := by
  intro fuel
  induction fuel with
  | zero => intro n p s _ _; rfl
  | succ f ih =>
    intro n p s hf hlt
    obtain ⟨m, rfl⟩ : ∃ m, n = m + 1 := ⟨n - 1, by omega⟩
    have hsz : (2 * (m + 1 + 1) + 65536 - 2) % 65536 = 2 * (m + 1) := by omega
    have hne : 2 * (m + 1) ≠ 0 := by omega
    simp only [flashFillLoop]
    split
    · rw [hsz, if_pos hne]
      exact ih _ _ _ (by omega) (by omega)
    · rfl

/-- The read loop on size `2 * (n + 1)` does not return within `n` iterations. -/
theorem flashReadLoop_short (cfg : Config) :
    ∀ (fuel n p : Nat) (s : Session), fuel ≤ n → 2 * (n + 1) < 65536 →
      flashReadLoop cfg fuel p (2 * (n + 1)) s = none := by
  intro fuel
  induction fuel with
  | zero => intro n p s _ _; rfl
  | succ f ih =>
    intro n p s hf hlt
    obtain ⟨m, rfl⟩ : ∃ m, n = m + 1 := ⟨n - 1, by omega⟩
    have hsz : (2 * (m + 1 + 1) + 65536 - 2) % 65536 = 2 * (m + 1) := by omega
    have hne : 2 * (m + 1) ≠ 0 := by omega
    simp only [flashReadLoop]
    split
    · rfl
    · split
      · rfl
      · rw [hsz, if_pos hne]
        exact ih _ _ _ (by omega) (by omega)

/-- The fill loop on size 0: the counter wraps to 65534, the loop does not return within
32767 iterations, and returns after 32768 when all its reads are inside `msgBuffer`. -/
theorem flashFillLoop_zero (cfg : Config) (p : Nat) (s : Session) :
    (∀ fuel, fuel < 32768 → flashFillLoop cfg fuel p 0 s = none) ∧
    (p + 65536 ≤ s.msgBuffer.length → ∀ fuel, 32768 ≤ fuel →
      ∃ t, flashFillLoop cfg fuel p 0 s = some t ∧ t.hw.length = s.hw.length + 32768) := by
  have hz : (0 + 65536 - 2) % 65536 = 2 * (32766 + 1) := by decide
  have hne : 2 * (32766 + 1) ≠ 0 := by decide
  constructor
  · intro fuel hf
    cases fuel with
    | zero => rfl
    | succ f =>
      simp only [flashFillLoop]
      split
      · rw [hz, if_pos hne]
        exact flashFillLoop_short cfg f 32766 _ _ (by omega) (by decide)
      · rfl
  · intro hfit fuel hf
    obtain ⟨f, rfl⟩ : ∃ f, fuel = f + 1 := ⟨fuel - 1, by omega⟩
    have g0 := getElem?_eq_some_getD s.msgBuffer p (by omega)
    have g1 := getElem?_eq_some_getD s.msgBuffer (p + 1) (by omega)
    obtain ⟨t, ht, hhw, _⟩ := flashFillLoop_spec cfg 32766 f (p + 2)
      { s with hw := s.hw ++ [HwEvent.boot_page_fill s.address
                  ((s.msgBuffer.getD (p + 1) 0 <<< 8) ||| s.msgBuffer.getD p 0)],
               address := (s.address + 2) % cfg.addrMod }
      (by omega) (by show p + 2 + 2 * (32766 + 1) ≤ s.msgBuffer.length; omega) (by decide)
      (Nat.mod_lt _ (addrMod_pos cfg))
    refine ⟨t, ?_, ?_⟩
    · simp only [flashFillLoop, g0, g1, hz, if_pos hne]
      exact ht
    · have h1 : t.hw.length = (s.hw ++ [HwEvent.boot_page_fill s.address
          ((s.msgBuffer.getD (p + 1) 0 <<< 8) ||| s.msgBuffer.getD p 0)]).length +
          (List.range (32766 + 1)).length := by
        rw [hhw, List.length_append, List.length_map]
      have h2 : (List.range (32766 + 1)).length = 32766 + 1 := List.length_range _
      have h3 : (s.hw ++ [HwEvent.boot_page_fill s.address
          ((s.msgBuffer.getD (p + 1) 0 <<< 8) ||| s.msgBuffer.getD p 0)]).length =
          s.hw.length + 1 := by
        rw [List.length_append, List.length_singleton]
      omega

/-- The read loop on size 0: the counter wraps to 65534, the loop does not return within
32767 iterations, and returns after 32768 when all its stores are inside `msgBuffer`. -/
theorem flashReadLoop_zero (cfg : Config) (p : Nat) (s : Session) :
    (∀ fuel, fuel < 32768 → flashReadLoop cfg fuel p 0 s = none) ∧
    (p + 65536 ≤ s.msgBuffer.length → ∀ fuel, 32768 ≤ fuel →
      ∃ r, flashReadLoop cfg fuel p 0 s = some r ∧ r.2.hw.length = s.hw.length + 32768) := by
  have hz : (0 + 65536 - 2) % 65536 = 2 * (32766 + 1) := by decide
  have hne : 2 * (32766 + 1) ≠ 0 := by decide
  constructor
  · intro fuel hf
    cases fuel with
    | zero => rfl
    | succ f =>
      simp only [flashReadLoop]
      split
      · rfl
      · split
        · rfl
        · rw [hz, if_pos hne]
          exact flashReadLoop_short cfg f 32766 _ _ (by omega) (by decide)
  · intro hfit fuel hf
    obtain ⟨f, rfl⟩ : ∃ f, fuel = f + 1 := ⟨fuel - 1, by omega⟩
    have hs0 : ∀ v, store s.msgBuffer p v = some (s.msgBuffer.set p v) := fun v =>
      if_pos (by omega)
    have hs1 : ∀ v w, store (s.msgBuffer.set p v) (p + 1) w =
        some ((s.msgBuffer.set p v).set (p + 1) w) := fun v w =>
      if_pos (by rw [List.length_set]; omega)
    obtain ⟨t, ht, _, hhw, _⟩ := flashReadLoop_spec cfg 32766 f (p + 2)
      { s with
        msgBuffer := (s.msgBuffer.set p
          (s.flash (if cfg.FLASHEND > 0x10000 then s.address else s.address % 65536) % 256)).set
          (p + 1)
          ((s.flash (if cfg.FLASHEND > 0x10000 then s.address else s.address % 65536) >>> 8)
            % 256),
        hw := s.hw ++ [HwEvent.pgm_read_word
          (if cfg.FLASHEND > 0x10000 then s.address else s.address % 65536)],
        address := (s.address + 2) % cfg.addrMod }
      (by omega) (by show p + 2 + 2 * (32766 + 1) ≤ (List.set _ _ _).length
                     rw [List.length_set, List.length_set]; omega)
      (by decide) (Nat.mod_lt _ (addrMod_pos cfg))
    refine ⟨(p + 2 + 2 * (32766 + 1), t), ?_, ?_⟩
    · simp only [flashReadLoop, hs0, hs1, hz, if_pos hne]
      exact ht
    · have h1 : t.hw.length = (s.hw ++ [HwEvent.pgm_read_word
          (if cfg.FLASHEND > 0x10000 then s.address else s.address % 65536)]).length +
          (List.range (32766 + 1)).length := by
        rw [hhw, List.length_append, List.length_map]
      have h2 : (List.range (32766 + 1)).length = 32766 + 1 := List.length_range _
      have h3 : (s.hw ++ [HwEvent.pgm_read_word
          (if cfg.FLASHEND > 0x10000 then s.address else s.address % 65536)]).length =
          s.hw.length + 1 := by
        rw [List.length_append, List.length_singleton]
      show t.hw.length = _
      omega

/-- The counter of the word loops: it reaches 0 exactly for an even size, after
`size / 2` iterations, and after 32768 iterations when `size` is 0. -/
theorem wordLoopIterations_spec : ∀ (fuel size : Nat), size < 65536 →
    wordLoopIterations fuel size =
      if size % 2 = 0 ∧ (if size = 0 then 32768 else size / 2) ≤ fuel then
        some (if size = 0 then 32768 else size / 2)
      else none := by
  intro fuel
  induction fuel with
  | zero =>
    intro size _
    rw [if_neg]
    · rfl
    · rintro ⟨h1, h2⟩
      split at h2 <;> omega
  | succ f ih =>
    intro size hlt
    have hi := ih ((size + 65536 - 2) % 65536) (Nat.mod_lt _ (by decide))
    simp only [wordLoopIterations]
    rw [hi]
    by_cases h0 : size = 0
    · subst h0
      have e : (0 + 65536 - 2) % 65536 = 65534 := by decide
      simp only [e]
      by_cases hf : 32767 ≤ f
      · have hf' : 32768 ≤ f + 1 := by omega
        simp [hf, hf']
      · have hf' : ¬ 32768 ≤ f + 1 := by omega
        simp [hf, hf']
    · by_cases h1 : size = 1
      · subst h1
        have e : (1 + 65536 - 2) % 65536 = 65535 := by decide
        simp [e]
      · by_cases h2 : size = 2
        · subst h2
          have e : (2 + 65536 - 2) % 65536 = 0 := by decide
          simp [e]
        · have e : (size + 65536 - 2) % 65536 = size - 2 := by omega
          have hne : size - 2 ≠ 0 := by omega
          rw [e, if_pos hne, if_neg hne, if_neg h0]
          by_cases hc : size % 2 = 0 ∧ size / 2 ≤ f + 1
          · have hc' : (size - 2) % 2 = 0 ∧ (size - 2) / 2 ≤ f := by omega
            rw [if_pos hc, if_pos hc', Option.map_some']
            exact congrArg some (by omega)
          · have hc' : ¬ ((size - 2) % 2 = 0 ∧ (size - 2) / 2 ≤ f) := by omega
            rw [if_neg hc, if_neg hc']
            rfl

/-- The fill loop follows the counter: when it returns it has made as many iterations as
the counter needs, each with one `boot_page_fill`, and has read `msgBuffer[p ..]` inside
the array. -/
theorem flashFillLoop_counter (cfg : Config) :
    ∀ (fuel p size : Nat) (s t : Session), flashFillLoop cfg fuel p size s = some t →
      ∃ k, wordLoopIterations fuel size = some k ∧ p + 2 * k ≤ s.msgBuffer.length ∧
        t.hw.length = s.hw.length + k := by
  intro fuel
  induction fuel with
  | zero => intro p size s t h; simp [flashFillLoop] at h
  | succ f ih =>
    intro p size s t h
    simp only [flashFillLoop] at h
    split at h
    · rename_i lowByte highByte _ h1
      have hp : p + 1 < s.msgBuffer.length := by
        rcases Nat.lt_or_ge (p + 1) s.msgBuffer.length with hl | hl
        · exact hl
        · rw [List.getElem?_eq_none hl] at h1
          cases h1
      split at h
      · rename_i hne
        obtain ⟨k, hk, hb, hw⟩ := ih _ _ _ _ h
        refine ⟨k + 1, ?_, ?_, ?_⟩
        · simp only [wordLoopIterations]
          rw [if_pos hne, hk]
          rfl
        · have hb' : p + 2 + 2 * k ≤ s.msgBuffer.length := hb
          omega
        · rw [hw]
          show (s.hw ++ [_]).length + k = _
          rw [List.length_append, List.length_singleton]
          omega
      · rename_i hz
        cases h
        refine ⟨1, ?_, by omega, ?_⟩
        · simp only [wordLoopIterations]
          rw [if_neg hz]
        · show (s.hw ++ [_]).length = _
          rw [List.length_append, List.length_singleton]
    · cases h

/-- The fill loop returns whenever the counter does and the bytes it reads are inside
`msgBuffer`. -/
theorem flashFillLoop_of_counter (cfg : Config) :
    ∀ (fuel p size k : Nat) (s : Session), wordLoopIterations fuel size = some k →
      p + 2 * k ≤ s.msgBuffer.length → ∃ t, flashFillLoop cfg fuel p size s = some t := by
  intro fuel
  induction fuel with
  | zero => intro p size k s h; simp [wordLoopIterations] at h
  | succ f ih =>
    intro p size k s h hb
    simp only [wordLoopIterations] at h
    have hk1 : 1 ≤ k := by
      split at h
      · cases hw : wordLoopIterations f ((size + 65536 - 2) % 65536) with
        | none => rw [hw] at h; cases h
        | some j =>
          rw [hw, Option.map_some'] at h
          have := Option.some.inj h
          omega
      · have := Option.some.inj h
        omega
    have g0 := getElem?_eq_some_getD s.msgBuffer p (by omega)
    have g1 := getElem?_eq_some_getD s.msgBuffer (p + 1) (by omega)
    simp only [flashFillLoop, g0, g1]
    split at h
    · rename_i hne
      rw [if_pos hne]
      cases hw : wordLoopIterations f ((size + 65536 - 2) % 65536) with
      | none => rw [hw] at h; cases h
      | some j =>
        rw [hw, Option.map_some'] at h
        have hj := Option.some.inj h
        exact ih _ _ j _ hw (by show p + 2 + 2 * j ≤ s.msgBuffer.length; omega)
    · rename_i hz
      rw [if_neg hz]
      exact ⟨_, rfl⟩

/-- The read loop follows the counter: when it returns it has made as many iterations as
the counter needs, each with one `pgm_read_word`, and has stored two bytes per iteration
from `msgBuffer[p]` on, inside the array. -/
theorem flashReadLoop_counter (cfg : Config) :
    ∀ (fuel p size : Nat) (s : Session) (r : Nat × Session),
      flashReadLoop cfg fuel p size s = some r →
      ∃ k, wordLoopIterations fuel size = some k ∧ r.1 = p + 2 * k ∧
        p + 2 * k ≤ s.msgBuffer.length ∧ r.2.msgBuffer.length = s.msgBuffer.length ∧
        r.2.hw.length = s.hw.length + k := by
  intro fuel
  induction fuel with
  | zero => intro p size s r h; simp [flashReadLoop] at h
  | succ f ih =>
    intro p size s r h
    simp only [flashReadLoop] at h
    split at h
    · cases h
    · rename_i b1 hb1
      split at h
      · cases h
      · rename_i b2 hb2
        obtain ⟨_, e1⟩ := store_some hb1
        obtain ⟨hp, e2⟩ := store_some hb2
        have hl : b2.length = s.msgBuffer.length := by
          rw [e2, List.length_set, e1, List.length_set]
        have hp' : p + 1 < s.msgBuffer.length := by
          rw [e1, List.length_set] at hp
          exact hp
        split at h
        · rename_i hne
          obtain ⟨k, hk, hr, hb, hm, hw⟩ := ih _ _ _ _ h
          refine ⟨k + 1, ?_, ?_, ?_, ?_, ?_⟩
          · simp only [wordLoopIterations]
            rw [if_pos hne, hk]
            rfl
          · rw [hr]; omega
          · have hb' : p + 2 + 2 * k ≤ b2.length := hb
            omega
          · exact hm.trans hl
          · rw [hw]
            show (s.hw ++ [_]).length + k = _
            rw [List.length_append, List.length_singleton]
            omega
        · rename_i hz
          cases h
          refine ⟨1, ?_, rfl, by omega, hl, ?_⟩
          · simp only [wordLoopIterations]
            rw [if_neg hz]
          · show (s.hw ++ [_]).length = _
            rw [List.length_append, List.length_singleton]

theorem take_set_succ (l : List Nat) (i c : Nat) (h : i < l.length) :
    (l.set i c).take (i + 1) = l.take i ++ [c] := by
  rw [set_eq_splice l i c h]
  have hl : (l.take i ++ [c]).length = i + 1 := by
    rw [List.length_append, List.length_take, List.length_singleton]; omega
  exact List.take_left' hl

theorem take_set_agree (l₁ l₂ : List Nat) (i c k : Nat) (h1 : i < l₁.length)
    (h2 : i < l₂.length) (ht : l₁.take i = l₂.take i) (hk : k ≤ i + 1) :
    (l₁.set i c).take k = (l₂.set i c).take k := by
  have e : ∀ l : List Nat, i < l.length →
      (l.set i c).take k = (l.take i ++ [c]).take k := by
    intro l hl
    rw [← take_set_succ l i c hl, List.take_take, Nat.min_eq_left hk]
  rw [e l₁ h1, e l₂ h2, ht]

theorem parseStep_at_START (cfg : Config) (c : Nat) (s : Session)
    (hst : s.msgParseState = ST_START) :
    parseStep cfg c s =
      some (if c = cfg.MESSAGE_START then
          { s with msgParseState := ST_GET_SEQ_NUM, checksum := cfg.MESSAGE_START ^^^ 0,
                   receivedPacketIndex := (s.receivedPacketIndex + 1) % 65536 }
        else { s with receivedPacketIndex := (s.receivedPacketIndex + 1) % 65536 }) := by
  by_cases hc : c = cfg.MESSAGE_START <;> simp [parseStep, hst, hc]

theorem parseStep_at_SEQ (cfg : Config) (c : Nat) (s : Session)
    (hst : s.msgParseState = ST_GET_SEQ_NUM) :
    parseStep cfg c s =
      some (if c = 1 ∨ c = s.seqNum then
          { s with seqNum := c, msgParseState := ST_MSG_SIZE_1, checksum := s.checksum ^^^ c,
                   receivedPacketIndex := (s.receivedPacketIndex + 1) % 65536 }
        else { s with msgParseState := ST_START,
                      receivedPacketIndex := (s.receivedPacketIndex + 1) % 65536 }) := by
  by_cases hc : c = 1 ∨ c = s.seqNum <;>
    simp [parseStep, hst, hc, ST_START, ST_GET_SEQ_NUM]

theorem parseStep_at_SIZE_1 (cfg : Config) (c : Nat) (s : Session)
    (hst : s.msgParseState = ST_MSG_SIZE_1) :
    parseStep cfg c s =
      some { s with msgLength := (c <<< 8) % 65536, msgParseState := ST_MSG_SIZE_2,
                    checksum := s.checksum ^^^ c,
                    receivedPacketIndex := (s.receivedPacketIndex + 1) % 65536 } := by
  simp [parseStep, hst, ST_START, ST_GET_SEQ_NUM, ST_MSG_SIZE_1]

theorem parseStep_at_SIZE_2 (cfg : Config) (c : Nat) (s : Session)
    (hst : s.msgParseState = ST_MSG_SIZE_2) :
    parseStep cfg c s =
      some { s with msgLength := s.msgLength ||| c, msgParseState := ST_GET_TOKEN,
                    checksum := s.checksum ^^^ c,
                    receivedPacketIndex := (s.receivedPacketIndex + 1) % 65536 } := by
  simp [parseStep, hst, ST_START, ST_GET_SEQ_NUM, ST_MSG_SIZE_1, ST_MSG_SIZE_2]

theorem parseStep_at_TOKEN (cfg : Config) (c : Nat) (s : Session)
    (hst : s.msgParseState = ST_GET_TOKEN) :
    parseStep cfg c s =
      some (if c = cfg.TOKEN then
          { s with msgParseState := ST_GET_DATA, checksum := s.checksum ^^^ c, ii := 0,
                   receivedPacketIndex := (s.receivedPacketIndex + 1) % 65536 }
        else { s with msgParseState := ST_START,
                      receivedPacketIndex := (s.receivedPacketIndex + 1) % 65536 }) := by
  by_cases hc : c = cfg.TOKEN <;>
    simp [parseStep, hst, hc, ST_START, ST_GET_SEQ_NUM, ST_MSG_SIZE_1, ST_MSG_SIZE_2,
      ST_GET_TOKEN]

theorem parseStep_at_DATA (cfg : Config) (c : Nat) (s : Session)
    (hst : s.msgParseState = ST_GET_DATA) :
    parseStep cfg c s =
      if s.ii < s.msgBuffer.length then
        some { s with msgBuffer := s.msgBuffer.set s.ii c, ii := (s.ii + 1) % 65536,
                      checksum := s.checksum ^^^ c,
                      msgParseState :=
                        if (s.ii + 1) % 65536 = s.msgLength then ST_GET_CHECK else ST_GET_DATA,
                      receivedPacketIndex := (s.receivedPacketIndex + 1) % 65536 }
      else none := by
  by_cases hi : s.ii < s.msgBuffer.length
  · by_cases hc : (s.ii + 1) % 65536 = s.msgLength <;>
      simp [parseStep, store, hst, hi, hc, ST_START, ST_GET_SEQ_NUM, ST_MSG_SIZE_1,
        ST_MSG_SIZE_2, ST_GET_TOKEN, ST_GET_DATA]
  · simp [parseStep, store, hst, hi, ST_START, ST_GET_SEQ_NUM, ST_MSG_SIZE_1,
      ST_MSG_SIZE_2, ST_GET_TOKEN, ST_GET_DATA]

theorem parseStep_at_other (cfg : Config) (c : Nat) (s : Session)
    (h0 : s.msgParseState ≠ ST_START) (h1 : s.msgParseState ≠ ST_GET_SEQ_NUM)
    (h2 : s.msgParseState ≠ ST_MSG_SIZE_1) (h3 : s.msgParseState ≠ ST_MSG_SIZE_2)
    (h4 : s.msgParseState ≠ ST_GET_TOKEN) (h5 : s.msgParseState ≠ ST_GET_DATA)
    (h6 : s.msgParseState ≠ ST_GET_CHECK) :
    parseStep cfg c s =
      some { s with receivedPacketIndex := (s.receivedPacketIndex + 1) % 65536 } := by
  simp [parseStep, h0, h1, h2, h3, h4, h5, h6]

/-- One framer iteration keeps two agreeing states in agreement: both fail on the store,
or both go on to agreeing states. -/
theorem parseStep_agree (cfg : Config) (c : Nat) (a b : Session) (h : FramerAgree a b) :
    (parseStep cfg c a = none ∧ parseStep cfg c b = none) ∨
      ∃ a' b', parseStep cfg c a = some a' ∧ parseStep cfg c b = some b' ∧
        FramerAgree a' b' := by
  obtain ⟨hst, hseq, hidx, hlen, hck, hml, hii, hfin⟩ := h
  by_cases h0 : a.msgParseState = ST_START
  · rw [parseStep_at_START cfg c a h0, parseStep_at_START cfg c b (hst ▸ h0)]
    refine Or.inr ⟨_, _, rfl, rfl, ?_⟩
    by_cases hc : c = cfg.MESSAGE_START
    · rw [if_pos hc, if_pos hc]
      unfold FramerAgree
      simp [ST_START, ST_GET_SEQ_NUM, ST_MSG_SIZE_1, ST_MSG_SIZE_2, ST_GET_TOKEN, ST_GET_DATA,
        ST_GET_CHECK, ST_PROCESS, hseq, hidx, hlen]
    · rw [if_neg hc, if_neg hc]
      unfold FramerAgree
      simp [ST_START, ST_GET_SEQ_NUM, ST_MSG_SIZE_1, ST_MSG_SIZE_2, ST_GET_TOKEN, ST_GET_DATA,
        ST_GET_CHECK, ST_PROCESS, hseq, hidx, hlen, ← hst] at h0 ⊢
      simp [h0]
  have hck' := hck h0
  by_cases h1 : a.msgParseState = ST_GET_SEQ_NUM
  · rw [parseStep_at_SEQ cfg c a h1, parseStep_at_SEQ cfg c b (hst ▸ h1), ← hseq]
    refine Or.inr ⟨_, _, rfl, rfl, ?_⟩
    by_cases hc : c = 1 ∨ c = a.seqNum
    · rw [if_pos hc, if_pos hc]
      unfold FramerAgree
      simp [ST_START, ST_GET_SEQ_NUM, ST_MSG_SIZE_1, ST_MSG_SIZE_2, ST_GET_TOKEN, ST_GET_DATA,
        ST_GET_CHECK, ST_PROCESS, hidx, hlen, hck']
    · rw [if_neg hc, if_neg hc]
      unfold FramerAgree
      simp [ST_START, ST_GET_SEQ_NUM, ST_MSG_SIZE_1, ST_MSG_SIZE_2, ST_GET_TOKEN, ST_GET_DATA,
        ST_GET_CHECK, ST_PROCESS, hseq, hidx, hlen]
  by_cases h2 : a.msgParseState = ST_MSG_SIZE_1
  · rw [parseStep_at_SIZE_1 cfg c a h2, parseStep_at_SIZE_1 cfg c b (hst ▸ h2)]
    refine Or.inr ⟨_, _, rfl, rfl, ?_⟩
    unfold FramerAgree
    simp [ST_START, ST_GET_SEQ_NUM, ST_MSG_SIZE_1, ST_MSG_SIZE_2, ST_GET_TOKEN, ST_GET_DATA,
      ST_GET_CHECK, ST_PROCESS, hseq, hidx, hlen, hck']
  by_cases h3 : a.msgParseState = ST_MSG_SIZE_2
  · rw [parseStep_at_SIZE_2 cfg c a h3, parseStep_at_SIZE_2 cfg c b (hst ▸ h3)]
    refine Or.inr ⟨_, _, rfl, rfl, ?_⟩
    have hml' := hml (Or.inl h3)
    unfold FramerAgree
    simp [ST_START, ST_GET_SEQ_NUM, ST_MSG_SIZE_1, ST_MSG_SIZE_2, ST_GET_TOKEN, ST_GET_DATA,
      ST_GET_CHECK, ST_PROCESS, hseq, hidx, hlen, hck', hml']
  by_cases h4 : a.msgParseState = ST_GET_TOKEN
  · rw [parseStep_at_TOKEN cfg c a h4, parseStep_at_TOKEN cfg c b (hst ▸ h4)]
    refine Or.inr ⟨_, _, rfl, rfl, ?_⟩
    have hml' := hml (Or.inr (Or.inl h4))
    by_cases hc : c = cfg.TOKEN
    · rw [if_pos hc, if_pos hc]
      unfold FramerAgree
      simp [ST_START, ST_GET_SEQ_NUM, ST_MSG_SIZE_1, ST_MSG_SIZE_2, ST_GET_TOKEN, ST_GET_DATA,
        ST_GET_CHECK, ST_PROCESS, hseq, hidx, hlen, hck', hml']
    · rw [if_neg hc, if_neg hc]
      unfold FramerAgree
      simp [ST_START, ST_GET_SEQ_NUM, ST_MSG_SIZE_1, ST_MSG_SIZE_2, ST_GET_TOKEN, ST_GET_DATA,
        ST_GET_CHECK, ST_PROCESS, hseq, hidx, hlen]
  by_cases h5 : a.msgParseState = ST_GET_DATA
  · have hml' := hml (Or.inr (Or.inr (Or.inl h5)))
    obtain ⟨hi1, hi2⟩ := hii (Or.inl h5)
    rw [parseStep_at_DATA cfg c a h5, parseStep_at_DATA cfg c b (hst ▸ h5), ← hi1, ← hlen,
      ← hml']
    by_cases hi : a.ii < a.msgBuffer.length
    · rw [if_pos hi, if_pos hi]
      refine Or.inr ⟨_, _, rfl, rfl, ?_⟩
      have hk : (a.ii + 1) % 65536 ≤ a.ii + 1 := Nat.mod_le _ _
      have htk := take_set_agree a.msgBuffer b.msgBuffer a.ii c ((a.ii + 1) % 65536) hi
        (hlen ▸ hi) (by rw [hi2, ← hi1]) hk
      unfold FramerAgree
      by_cases hc : (a.ii + 1) % 65536 = a.msgLength
      · have hc' : (a.ii + 1) % 65536 = b.msgLength := hc.trans hml'
        simp [ST_START, ST_GET_SEQ_NUM, ST_MSG_SIZE_1, ST_MSG_SIZE_2, ST_GET_TOKEN,
          ST_GET_DATA, ST_GET_CHECK, ST_PROCESS, hseq, hidx, hlen, hck', hml', hc', htk]
        rw [← hc']
        exact htk
      · have hc' : ¬ (a.ii + 1) % 65536 = b.msgLength := fun e => hc (e.trans hml'.symm)
        simp [ST_START, ST_GET_SEQ_NUM, ST_MSG_SIZE_1, ST_MSG_SIZE_2, ST_GET_TOKEN,
          ST_GET_DATA, ST_GET_CHECK, ST_PROCESS, hseq, hidx, hlen, hck', hml', hc', htk]
    · rw [if_neg hi, if_neg hi]
      exact Or.inl ⟨rfl, rfl⟩
  by_cases h6 : a.msgParseState = ST_GET_CHECK
  · have hml' := hml (Or.inr (Or.inr (Or.inr (Or.inl h6))))
    obtain ⟨hi1, hi2⟩ := hii (Or.inr (Or.inl h6))
    obtain ⟨hf1, hf2⟩ := hfin (Or.inl h6)
    rw [parseStep_check cfg c a h6, parseStep_check cfg c b (hst ▸ h6), ← hck']
    refine Or.inr ⟨_, _, rfl, rfl, ?_⟩
    unfold FramerAgree
    by_cases hc : c = a.checksum
    · simp [ST_START, ST_GET_SEQ_NUM, ST_MSG_SIZE_1, ST_MSG_SIZE_2, ST_GET_TOKEN,
        ST_GET_DATA, ST_GET_CHECK, ST_PROCESS, hseq, hidx, hlen, hck', hml', hc, hi1, hi2,
        hf1, hf2]
      rw [← hf2, ← hi1]
      exact hi2.trans (by rw [hi1])
    · simp [ST_START, ST_GET_SEQ_NUM, ST_MSG_SIZE_1, ST_MSG_SIZE_2, ST_GET_TOKEN,
        ST_GET_DATA, ST_GET_CHECK, ST_PROCESS, hseq, hidx, hlen, hc]
  · have hb : ∀ v, a.msgParseState ≠ v → b.msgParseState ≠ v := fun v hv => hst ▸ hv
    rw [parseStep_at_other cfg c a h0 h1 h2 h3 h4 h5 h6,
      parseStep_at_other cfg c b (hb _ h0) (hb _ h1) (hb _ h2) (hb _ h3) (hb _ h4) (hb _ h5)
        (hb _ h6)]
    refine Or.inr ⟨_, _, rfl, rfl, ?_⟩
    exact ⟨hst, hseq, by show (_ + 1) % 65536 = (_ + 1) % 65536; rw [hidx], hlen, hck, hml,
      hii, hfin⟩

theorem parseRun_agree (cfg : Config) (l : List Nat) :
    ∀ (a b : Session), FramerAgree a b →
      (parseRun cfg l a = none ∧ parseRun cfg l b = none) ∨
        ∃ a' b', parseRun cfg l a = some a' ∧ parseRun cfg l b = some b' ∧
          FramerAgree a' b' := by
  induction l with
  | nil => intro a b h; exact Or.inr ⟨a, b, rfl, rfl, h⟩
  | cons c rest ih =>
    intro a b h
    simp only [parseRun]
    rw [← h.1]
    by_cases hp : a.msgParseState = ST_PROCESS
    · rw [if_pos hp, if_pos hp]
      exact Or.inr ⟨a, b, rfl, rfl, h⟩
    · rw [if_neg hp, if_neg hp]
      rcases parseStep_agree cfg c a b h with ⟨h1, h2⟩ | ⟨a', b', h1, h2, h3⟩
      · rw [h1, h2]
        exact Or.inl ⟨rfl, rfl⟩
      · rw [h1, h2]
        exact ih a' b' h3

/-- The framer loop gives the same result from two agreeing states: it fails from both,
or it accepts a frame from both, with the same sequence number, declared length, payload
and read index. -/
theorem parseBytes_agree (cfg : Config) (l : List Nat) (a b : Session) (h : FramerAgree a b) :
    (parseBytes cfg l a).map
        (fun u => (u.seqNum, u.msgLength, u.msgBuffer.take u.msgLength, u.receivedPacketIndex)) =
      (parseBytes cfg l b).map
        (fun u => (u.seqNum, u.msgLength, u.msgBuffer.take u.msgLength, u.receivedPacketIndex)) := by
  rw [parseBytes_eq_parseRun, parseBytes_eq_parseRun]
  rcases parseRun_agree cfg l a b h with ⟨h1, h2⟩ | ⟨a', b', h1, h2, h3⟩
  · rw [h1, h2]
  · rw [h1, h2]
    dsimp only
    rw [← h3.1]
    by_cases hp : a'.msgParseState = ST_PROCESS
    · rw [if_pos hp, if_pos hp]
      obtain ⟨_, hseq, hidx, _, _, hml, hii, hfin⟩ := h3
      have hml' := hml (Or.inr (Or.inr (Or.inr (Or.inr hp))))
      obtain ⟨hi1, hi2⟩ := hii (Or.inr (Or.inr hp))
      obtain ⟨hf1, hf2⟩ := hfin (Or.inr hp)
      simp only [Option.map_some', Option.some.injEq, Prod.mk.injEq]
      refine ⟨hseq, hml', ?_, hidx⟩
      rw [← hf1, ← hf2]
      exact hi2
    · rw [if_neg hp, if_neg hp]

/-- One framer iteration leaves the expected sequence number alone, or it has admitted a
sequence byte 1. -/
theorem parseStep_seqNum (cfg : Config) (c : Nat) (s t : Session)
    (h : parseStep cfg c s = some t) :
    t.seqNum = s.seqNum ∨ (c = 1 ∧ t.seqNum = 1) := by
  by_cases h1 : s.msgParseState = ST_GET_SEQ_NUM
  · rw [parseStep_at_SEQ cfg c s h1] at h
    by_cases hc : c = 1 ∨ c = s.seqNum
    · rw [if_pos hc] at h
      cases h
      rcases hc with hc | hc
      · exact Or.inr ⟨hc, hc⟩
      · exact Or.inl hc
    · rw [if_neg hc] at h
      cases h
      exact Or.inl rfl
  · have hs := (parseStep_SameCore h)
    unfold parseStep at h
    dsimp only at h
    rw [if_neg h1] at h
    split at h
    · cases h
    · rename_i u hu
      cases h
      repeat' (split at hu)
      all_goals first
        | (cases hu; exact Or.inl rfl)
        | cases hu

theorem parseRun_seqNum (cfg : Config) (l : List Nat) :
    ∀ (s t : Session), parseRun cfg l s = some t →
      t.seqNum = s.seqNum ∨ (1 ∈ l ∧ t.seqNum = 1) := by
  induction l with
  | nil => intro s t h; cases h; exact Or.inl rfl
  | cons c rest ih =>
    intro s t h
    simp only [parseRun] at h
    split at h
    · cases h; exact Or.inl rfl
    · split at h
      · cases h
      · rename_i u hu
        rcases ih u t h with h2 | ⟨h2, h3⟩
        · rcases parseStep_seqNum cfg c s u hu with h4 | ⟨h4, h5⟩
          · exact Or.inl (h2.trans h4)
          · exact Or.inr ⟨by rw [h4]; exact List.mem_cons_self _ _, h2.trans h5⟩
        · exact Or.inr ⟨List.mem_cons_of_mem _ h2, h3⟩

/-- Counterexample to C32 as stated. With expected sequence number 5, the framer admits
the sequence byte 1 of a frame and abandons the frame at its token byte: it is back in
`ST_START` with expected sequence number 1, not 5. The well-formed frame with sequence
number 5 that follows is refused, although a framer run on that frame alone with the
expected sequence number 5 accepts it. -/
theorem abandoned_frame_changes_seqNum :
    (parseRun atmega128 [0x1B, 1, 0, 1, 0xFF] { sessionWith [] [] with seqNum := 5 }).map
        (fun t => (t.msgParseState, t.seqNum)) = some (ST_START, 1) ∧
    (parseBytes atmega128 [0x1B, 5, 0, 2, 0x0E, 0x03, 0x90, 0x81]
        { sessionWith [] [] with seqNum := 5 }).map
        (fun t => (t.seqNum, t.msgLength, t.msgBuffer.take 2)) = some (5, 2, [0x03, 0x90]) ∧
    (parseBytes atmega128 ([0x1B, 1, 0, 1, 0xFF] ++ [0x1B, 5, 0, 2, 0x0E, 0x03, 0x90, 0x81])
        { sessionWith [] [] with seqNum := 5 }).isNone = true := by
  refine ⟨?_, ?_, ?_⟩ <;> decide!

/-- C32, amended. Whenever the framer is back in `ST_START` after the bytes `bad` (an
abandoned frame, whatever byte was rejected, from whatever state it began): the expected
sequence number is what it was before, unless a sequence byte 1 was admitted on the way,
in which case it is 1; and on every sequence of remaining bytes the framer loop gives the same
result (failure, or acceptance with the same sequence number, declared length, payload
and read index) as from any other `ST_START` state with that expected sequence number,
the same read index and a `msgBuffer` of the same size. -/
theorem abandoned_frame_resync (cfg : Config) (s : Session) (bad : List Nat)
    (hback : (parseRun cfg bad s).map (fun t => t.msgParseState) = some ST_START) :
    ∃ t, parseRun cfg bad s = some t ∧
      (t.seqNum = s.seqNum ∨ (1 ∈ bad ∧ t.seqNum = 1)) ∧
      ∀ (f : Session) (rest : List Nat), f.msgParseState = ST_START →
        f.seqNum = t.seqNum → f.receivedPacketIndex = t.receivedPacketIndex →
        f.msgBuffer.length = t.msgBuffer.length →
        (parseBytes cfg rest t).map
            (fun u => (u.seqNum, u.msgLength, u.msgBuffer.take u.msgLength,
              u.receivedPacketIndex)) =
          (parseBytes cfg rest f).map
            (fun u => (u.seqNum, u.msgLength, u.msgBuffer.take u.msgLength,
              u.receivedPacketIndex)) := by
  match hr : parseRun cfg bad s, hback with
  | some t, hback =>
    have ht : t.msgParseState = ST_START := by
      simpa using hback
    refine ⟨t, rfl, parseRun_seqNum cfg bad s t hr, ?_⟩
    intro f rest hf hseq hidx hlen
    apply parseBytes_agree
    have hd : ∀ v, v ≠ ST_START → ¬ t.msgParseState = v := fun v hv e => hv (e.symm.trans ht)
    refine ⟨ht.trans hf.symm, hseq.symm, hidx.symm, hlen.symm, fun h => absurd ht h, ?_, ?_, ?_⟩
    · intro h
      rcases h with h | h | h | h | h <;> exact absurd h (hd _ (by decide))
    · intro h
      rcases h with h | h | h <;> exact absurd h (hd _ (by decide))
    · intro h
      rcases h with h | h <;> exact absurd h (hd _ (by decide))

/-- Witness for the amended C32: expected sequence number 5, a frame with sequence byte 1
abandoned at its token byte. -/
theorem abandoned_frame_resync_witness :
    ∃ t, parseRun atmega128 [0x1B, 1, 0, 1, 0xFF] { sessionWith [] [] with seqNum := 5 } =
        some t ∧
      (t.seqNum = ({ sessionWith [] [] with seqNum := 5 } : Session).seqNum ∨
        (1 ∈ [0x1B, 1, 0, 1, 0xFF] ∧ t.seqNum = 1)) ∧
      ∀ (f : Session) (rest : List Nat), f.msgParseState = ST_START →
        f.seqNum = t.seqNum → f.receivedPacketIndex = t.receivedPacketIndex →
        f.msgBuffer.length = t.msgBuffer.length →
        (parseBytes atmega128 rest t).map
            (fun u => (u.seqNum, u.msgLength, u.msgBuffer.take u.msgLength,
              u.receivedPacketIndex)) =
          (parseBytes atmega128 rest f).map
            (fun u => (u.seqNum, u.msgLength, u.msgBuffer.take u.msgLength,
              u.receivedPacketIndex)) :=
  abandoned_frame_resync atmega128 { sessionWith [] [] with seqNum := 5 }
    [0x1B, 1, 0, 1, 0xFF] (by decide!)

/-! ### Declared payload lengths the buffers do not cover -/

theorem cbcDec_empty_frame_block :
    cbcDec expandedKey 1 iv
        [0xf0, 0xae, 0xf2, 0xcf, 0xdc, 0x6b, 0x11, 0xc8, 0xad, 0xfb, 0x5a, 0x6e, 0xe0, 0x3e,
          0x06, 0x16] =
      [0x1B, 0x01, 0x00, 0x00, 0x0E, 0x14, 0xFF, 0xFF, 0xFF, 0xFF, 0xFF, 0xFF, 0xFF, 0xFF,
        0xFF, 0xFF] := by
  decide!

/-- C31 fails on the code for the declared length 0. The sixteen bytes f0ae…0616 decrypt
to the frame `1B 01 00 00 0E 14` (sequence number 1, length 0, token, checksum 0x14)
padded with 0xFF. After the token the framer does not take the next byte, 0x14, as the
checksum: it copies it to `msgBuffer[0]` and stays in `ST_GET_DATA` with `ii = 1` and
`msgLength = 0`. It goes on copying, and the framer loop does not end inside
`aes_buffer`. -/
theorem empty_payload_not_recognised :
    cbcDec expandedKey 1 iv
        [0xf0, 0xae, 0xf2, 0xcf, 0xdc, 0x6b, 0x11, 0xc8, 0xad, 0xfb, 0x5a, 0x6e, 0xe0, 0x3e,
          0x06, 0x16] =
      [0x1B, 0x01, 0x00, 0x00, 0x0E, 0x14, 0xFF, 0xFF, 0xFF, 0xFF, 0xFF, 0xFF, 0xFF, 0xFF,
        0xFF, 0xFF] ∧
    (parseRun atmega128 [0x1B, 0x01, 0x00, 0x00, 0x0E, 0x14] (sessionWith [] [])).map
        (fun t => (t.msgParseState, t.msgLength, t.ii, t.msgBuffer.take 1)) =
      some (ST_GET_DATA, 0, 1, [0x14]) ∧
    (parseFrame atmega128
        { sessionWith [] [] with
          packetSize := 16,
          aes_buffer :=
            [0x1B, 0x01, 0x00, 0x00, 0x0E, 0x14, 0xFF, 0xFF, 0xFF, 0xFF, 0xFF, 0xFF, 0xFF, 0xFF,
              0xFF, 0xFF] ++ List.replicate 272 0x03 }).isNone = true := by
  refine ⟨cbcDec_empty_frame_block, ?_, ?_⟩ <;> decide!

/-- The copy of payload bytes that do not complete the declared length: the framer stays in
`ST_GET_DATA` and the write index advances by one per byte, whatever the bytes are. -/
theorem parseRun_partial_data (cfg : Config) (d : List Nat) :
    ∀ (s : Session), s.msgParseState = ST_GET_DATA → s.ii + d.length < s.msgLength →
      s.msgLength < 65536 → s.ii + d.length ≤ s.msgBuffer.length →
      s.receivedPacketIndex < 65536 →
      ∃ t, parseRun cfg d s = some t ∧ t.msgParseState = ST_GET_DATA ∧
        t.ii = s.ii + d.length ∧ t.msgLength = s.msgLength ∧
        t.msgBuffer.length = s.msgBuffer.length ∧
        t.receivedPacketIndex = (s.receivedPacketIndex + d.length) % 65536 := by
  induction d with
  | nil =>
    intro s hst _ _ _ hidx
    exact ⟨s, rfl, hst, rfl, rfl, rfl, (Nat.mod_eq_of_lt hidx).symm⟩
  | cons c rest ih =>
    intro s hst h1 h2 h3 _
    rw [List.length_cons] at h1 h3
    have hm : (s.ii + 1) % 65536 = s.ii + 1 := Nat.mod_eq_of_lt (by omega)
    have hne : ¬ (s.ii + 1) % 65536 = s.msgLength := by rw [hm]; omega
    obtain ⟨t, ht, g1, g2, g3, g4, g5⟩ := ih
      { s with msgBuffer := s.msgBuffer.set s.ii c, ii := (s.ii + 1) % 65536,
               checksum := s.checksum ^^^ c,
               msgParseState :=
                 if (s.ii + 1) % 65536 = s.msgLength then ST_GET_CHECK else ST_GET_DATA,
               receivedPacketIndex := (s.receivedPacketIndex + 1) % 65536 }
      (by show (if _ then _ else _) = _; rw [if_neg hne])
      (by show (s.ii + 1) % 65536 + rest.length < s.msgLength; rw [hm]; omega) h2
      (by show (s.ii + 1) % 65536 + rest.length ≤ (List.set _ _ _).length
          rw [hm, List.length_set]; omega)
      (Nat.mod_lt _ (by decide))
    refine ⟨t, ?_, g1, ?_, g3, ?_, ?_⟩
    · simp only [parseRun]
      rw [if_neg (by rw [hst]; decide), parseStep_at_DATA cfg c s hst, if_pos (by omega)]
      exact ht
    · rw [g2]
      show (s.ii + 1) % 65536 + rest.length = _
      rw [hm, List.length_cons]; omega
    · rw [g4]
      exact List.length_set _ _ _
    · rw [g5]
      show ((s.receivedPacketIndex + 1) % 65536 + rest.length) % 65536 = _
      rw [List.length_cons, Nat.mod_add_mod]
      have e : s.receivedPacketIndex + 1 + rest.length =
          s.receivedPacketIndex + (rest.length + 1) := by omega
      rw [e]

/-- C33 fails on the code. The sixteen bytes fda9…9740 decrypt to a block that begins with
the frame header `1B 01 01 90 0E`: sequence number 1, declared length 0x0190 = 400, token.
Whatever the 283 bytes behind the header in `aes_buffer[288]` are (`f`), the framer copies
them to `msgBuffer[0..282]` and is not done; its loop has no other exit, so it goes on
with the bytes `x`, `y` found behind `aes_buffer`, and is then in `ST_GET_DATA` with write
index `ii = 285`; the next iteration, on any byte `z`, stores to `msgBuffer[285]`, outside
the array (the model has no result for it). -/
theorem framer_overruns_payload_buffer (f : Nat → Nat) (x y z : Nat) :
    cbcDec expandedKey 1 iv
        [0xfd, 0xa9, 0xf7, 0xef, 0xf1, 0xc4, 0x8d, 0xdb, 0xe1, 0xe6, 0x0b, 0x13, 0xb0, 0x08,
          0x97, 0x40] =
      [0x1B, 0x01, 0x01, 0x90, 0x0E, 0, 0, 0, 0, 0, 0, 0, 0, 0, 0, 0] ∧
    (sessionWith [] []).msgBuffer.length = 285 ∧
    (parseRun atmega128 ([0x1B, 0x01, 0x01, 0x90, 0x0E] ++ ((List.range 283).map f ++ [x, y]))
        (sessionWith [] [])).map
        (fun t => (t.msgParseState, t.msgLength, t.ii, t.receivedPacketIndex)) =
      some (ST_GET_DATA, 400, 285, 290) ∧
    ((parseRun atmega128 ([0x1B, 0x01, 0x01, 0x90, 0x0E] ++ ((List.range 283).map f ++ [x, y]))
        (sessionWith [] [])).bind (parseStep atmega128 z)).isNone = true := by
  have hlen : (sessionWith [] []).msgBuffer.length = 285 := sessionWith_length _ _ (by decide)
  have hd : ((List.range 283).map f ++ [x, y]).length = 285 := by
    rw [List.length_append, List.length_map, List.length_range]
    rfl
  have hh := parseRun_header atmega128 0x01 0x01 0x90 (sessionWith [] []) rfl (Or.inl rfl)
  obtain ⟨t, ht, g1, g2, g3, g4, g5⟩ := parseRun_partial_data atmega128
    ((List.range 283).map f ++ [x, y])
    { sessionWith [] [] with
      msgParseState := ST_GET_DATA,
      checksum := atmega128.MESSAGE_START ^^^ 0 ^^^ 0x01 ^^^ 0x01 ^^^ 0x90 ^^^ atmega128.TOKEN,
      seqNum := 0x01, msgLength := ((0x01 <<< 8) % 65536) ||| 0x90, ii := 0,
      receivedPacketIndex := ((sessionWith [] []).receivedPacketIndex + 5) % 65536 }
    rfl (by rw [hd]; decide) (by decide) (by rw [hd]; exact Nat.le_of_eq hlen.symm)
    (Nat.mod_lt _ (by decide))
  have hrun : parseRun atmega128
      ([0x1B, 0x01, 0x01, 0x90, 0x0E] ++ ((List.range 283).map f ++ [x, y]))
      (sessionWith [] []) = some t := by
    rw [parseRun_append]
    have hh' : parseRun atmega128 [0x1B, 0x01, 0x01, 0x90, 0x0E] (sessionWith [] []) = _ := hh
    rw [hh']
    exact ht
  have hii : t.ii = 285 := by rw [g2, hd]
  have hidx : t.receivedPacketIndex = 290 := by rw [g5, hd]; rfl
  have hml : t.msgLength = 400 := by rw [g3]; rfl
  refine ⟨?_, hlen, ?_, ?_⟩
  · decide!
  · rw [hrun, Option.map_some', g1, hml, hii, hidx]
  · rw [hrun, Option.some_bind, parseStep_at_DATA atmega128 z t g1,
      if_neg (by rw [hii, g4, hlen]; decide)]
    rfl

/-- Within the capacity of `receivedPacket` the response assembly and the request framer are
inverse to each other: for a response payload of 1 to 282 bytes (`msgLength + 6 ≤ 288`) the
first `msgLength + 6` bytes that the assembly leaves in `receivedPacket` are a frame on
which the framer, expecting that sequence number (or when it is 1), reaches `ST_PROCESS`
after `msgLength + 6` bytes with the same sequence number, length and payload. -/
theorem response_frame_round_trip (cfg : Config) (s r : Session)
    (hrp : s.receivedPacket.length = 288) (h1 : 1 ≤ s.msgLength) (hL : s.msgLength + 6 ≤ 288)
    (hmb : s.msgLength ≤ s.msgBuffer.length)
    (hst : r.msgParseState = ST_START) (hq : s.seqNum = 1 ∨ s.seqNum = r.seqNum)
    (hrb : s.msgLength ≤ r.msgBuffer.length) :
    ∃ n a t, assembleResponse cfg s = some (n, a) ∧
      parseRun cfg (a.receivedPacket.take (s.msgLength + 6)) r = some t ∧
      t.msgParseState = ST_PROCESS ∧ t.seqNum = s.seqNum ∧ t.msgLength = s.msgLength ∧
      t.msgBuffer.take s.msgLength = s.msgBuffer.take s.msgLength ∧
      t.receivedPacketIndex = (r.receivedPacketIndex + (s.msgLength + 6)) % 65536 := by
  obtain ⟨a, ha, hap, _, _⟩ := assembleResponse_spec cfg s hrp hL hmb
  have hp : (s.msgBuffer.take s.msgLength).length = s.msgLength := by
    rw [List.length_take]; omega
  have hfl : (frame cfg s.seqNum (s.msgBuffer.take s.msgLength)).length = s.msgLength + 6 := by
    unfold frame frameBody
    simp only [List.length_append, List.length_cons, List.length_nil, hp]
    omega
  have hfr : a.receivedPacket.take (s.msgLength + 6) =
      frame cfg s.seqNum (s.msgBuffer.take s.msgLength) := by
    rw [hap, ← hfl]
    unfold frame frameBody
    rw [hp, List.append_assoc, List.append_assoc]
    exact List.take_left' rfl
  have hw := parseRun_wellformed cfg s.seqNum (s.msgBuffer.take s.msgLength) r hst hq
    (by rw [hp]; exact h1) (by rw [hp]; omega) (by rw [hp]; exact hrb)
  rw [hp] at hw
  refine ⟨_, a,
    { r with
      msgParseState := ST_PROCESS,
      checksum := xorAll (frameBody cfg s.seqNum (s.msgBuffer.take s.msgLength)),
      seqNum := s.seqNum, msgLength := s.msgLength, ii := s.msgLength,
      msgBuffer := s.msgBuffer.take s.msgLength ++ r.msgBuffer.drop s.msgLength,
      receivedPacketIndex := (r.receivedPacketIndex + (s.msgLength + 6)) % 65536 },
    ha, ?_, rfl, rfl, rfl, ?_, rfl⟩
  · rw [hfr]; exact hw
  · show (s.msgBuffer.take s.msgLength ++ r.msgBuffer.drop s.msgLength).take s.msgLength = _
    exact List.take_left' hp

/-- C36 fails on the code. The read-eeprom command `16 01 18` (size 0x0118 = 280), which the
command processor serves in the initial, unauthenticated session state, gives a response
payload of 283 bytes. `receivedPacket` has 288 elements and the response frame needs
283 + 6 = 289: the response assembly stores the checksum at `receivedPacket[288]`,
outside the array (the model has no result for it), so there is no assembled frame to run
the framer on. -/
theorem response_overruns_packet_buffer :
    (sessionWith [0x16, 0x01, 0x18] []).receivedPacket.length = 288 ∧
    (dispatch atmega128 (sessionWith [0x16, 0x01, 0x18] [])).map (fun u => u.msgLength) =
      some 283 ∧
    ((dispatch atmega128 (sessionWith [0x16, 0x01, 0x18] [])).bind
      (assembleResponse atmega128)).isNone = true := by
  refine ⟨by decide!, by decide!, by decide!⟩

/-! ### The sequence number of the response -/

/-- C37 fails on the code. In an authenticated session, load-address W = 8, program-eeprom
of the two bytes `11 22`, load-address 8 again, read-eeprom of size 2: the write loop
stores at `ii = address >> 1`, the data-store addresses 8 and 9, the read loop sets
`EEARL/EEARH` to `address` itself, the data-store addresses 16 and 17, and the response
payload is `16 00 FF FF 00` (the erased cells), not `16 00 11 22 00`. -/
theorem eeprom_read_misses_written_bytes :
    (runFrames atmega128
        [[0x50, 1, 2, 3, 4, 0x53, 0xEF, 0x34, 0x23], [0x06, 0, 0, 0, 0x08],
          [0x15, 0, 2, 0xC1, 0x0A, 0x40, 0x4C, 0x20, 0, 0, 0x11, 0x22], [0x06, 0, 0, 0, 0x08],
          [0x16, 0, 2]]
        (sessionWith [] [])).map
        (fun s => (s.isAuthenticated, s.msgLength, s.msgBuffer.take 5, s.hw)) =
      some (1, 5, [0x16, 0x00, 0xFF, 0xFF, 0x00],
        [HwEvent.eeprom_write_byte 8 0x11, HwEvent.eeprom_write_byte 9 0x22,
          HwEvent.eeprom_read 16, HwEvent.eeprom_read 17]) := by
  decide!

/-! ### Short authenticate frames -/

/-- C39 fails on the code. The same authenticate frame, whose payload is the single byte
`CMD_AUTH`, is processed after two different frames: after a get-parameter frame whose
unused trailing bytes are `53 EF 34 23` it succeeds (status command-ok, authenticated flag
1), after the same frame with trailing zeros it fails (status command-failed, flag 0):
`case CMD_AUTH` compares `msgBuffer[5..8]`, which the one-byte frame did not write. -/
theorem short_auth_frame_depends_on_history :
    (runFrames atmega128 [[0x03, 0x90, 0, 0, 0, 0x53, 0xEF, 0x34, 0x23], [0x50]]
        (sessionWith [] [])).map
        (fun s => (s.isAuthenticated, s.msgLength, s.msgBuffer.take 2)) =
      some (1, 5, [atmega128.STATUS_CMD_OK, 0]) ∧
    (runFrames atmega128 [[0x03, 0x90, 0, 0, 0, 0, 0, 0, 0], [0x50]]
        (sessionWith [] [])).map
        (fun s => (s.isAuthenticated, s.msgLength, s.msgBuffer.take 2)) =
      some (0, 2, [0x50, atmega128.STATUS_CMD_FAILED]) := by
  refine ⟨by decide!, by decide!⟩

/-! ### Read commands that leave the payload buffer -/

/-- The EEPROM read loop that returns has stored `size` bytes (65536 for `size = 0`) from
`msgBuffer[p]` on, inside the array. -/
theorem eepromReadLoop_bound (cfg : Config) :
    ∀ (fuel p size : Nat) (s : Session) (r : Nat × Session), size < 65536 →
      eepromReadLoop cfg fuel p size s = some r →
      r.1 = p + (if size = 0 then 65536 else size) ∧ r.1 ≤ s.msgBuffer.length ∧
        r.2.msgBuffer.length = s.msgBuffer.length := by
  intro fuel
  induction fuel with
  | zero => intro p size s r _ h; simp [eepromReadLoop] at h
  | succ f ih =>
    intro p size s r hlt h
    simp only [eepromReadLoop] at h
    split at h
    · cases h
    · rename_i b1 hb1
      obtain ⟨hp, e1⟩ := store_some hb1
      have hl : b1.length = s.msgBuffer.length := by rw [e1, List.length_set]
      split at h
      · rename_i hne
        obtain ⟨h1, h2, h3⟩ := ih _ _ _ _ (Nat.mod_lt _ (by decide)) h
        refine ⟨?_, ?_, h3.trans hl⟩
        · rw [h1]
          split <;> split <;> omega
        · have h2' : r.1 ≤ b1.length := h2
          omega
      · rename_i hz
        cases h
        refine ⟨?_, by show p + 1 ≤ _; omega, hl⟩
        show p + 1 = _
        split <;> omega

/-- The flash read loop that returns has stored `size` bytes (65536 for `size = 0`) from
`msgBuffer[p]` on, inside the array, and `size` is even. -/
theorem flashReadLoop_bound (cfg : Config) (fuel p size : Nat) (s : Session)
    (r : Nat × Session) (hlt : size < 65536) (h : flashReadLoop cfg fuel p size s = some r) :
    r.1 = p + (if size = 0 then 65536 else size) ∧ r.1 ≤ s.msgBuffer.length ∧
      r.2.msgBuffer.length = s.msgBuffer.length := by
  obtain ⟨k, hk, hr, hb, hm, _⟩ := flashReadLoop_counter cfg fuel p size s r h
  rw [wordLoopIterations_spec fuel size hlt] at hk
  by_cases hc : size % 2 = 0 ∧ (if size = 0 then 32768 else size / 2) ≤ fuel
  · rw [if_pos hc] at hk
    have e := Option.some.inj hk
    refine ⟨?_, by omega, hm⟩
    rw [hr, ← e]
    split <;> omega
  · rw [if_neg hc] at hk
    cases hk

/-- A read command does not return when its size field takes it to the end of `msgBuffer`
or beyond: after `msgBuffer[0]` and the status byte, the loop stores `size` bytes (65536
for `size = 0`) and the case stores the closing status byte behind them. -/
theorem case_CMD_READ_overrun (cfg : Config) (s : Session)
    (hover : s.msgBuffer.length ≤
      2 + (if ((s.msgBuffer.getD 1 0 <<< 8) ||| s.msgBuffer.getD 2 0) % 65536 = 0 then 65536
        else ((s.msgBuffer.getD 1 0 <<< 8) ||| s.msgBuffer.getD 2 0) % 65536)) :
    case_CMD_READ cfg s = none := by
  cases hc : case_CMD_READ cfg s with
  | none => rfl
  | some s' =>
    exfalso
    unfold case_CMD_READ at hc
    dsimp only at hc
    split at hc
    · cases hc
    · rename_i b1 hb1
      obtain ⟨_, e1⟩ := store_some hb1
      have hl1 : b1.length = s.msgBuffer.length := by rw [e1, List.length_set]
      split at hc
      · cases hc
      · rename_i q t hr
        split at hc
        · cases hc
        · rename_i b2 hb2
          obtain ⟨hq, _⟩ := store_some hb2
          have hlt : ((s.msgBuffer.getD 1 0 <<< 8) ||| s.msgBuffer.getD 2 0) % 65536 < 65536 :=
            Nat.mod_lt _ (by decide)
          have hb : q = 2 + (if ((s.msgBuffer.getD 1 0 <<< 8) ||| s.msgBuffer.getD 2 0)
                % 65536 = 0 then 65536
              else ((s.msgBuffer.getD 1 0 <<< 8) ||| s.msgBuffer.getD 2 0) % 65536) ∧
              t.msgBuffer.length = b1.length := by
            by_cases hf : s.msgBuffer.getD 0 0 = cfg.CMD_READ_FLASH_ISP
            · simp only [hf, decide_True, if_true] at hr
              obtain ⟨g1, _, g3⟩ := flashReadLoop_bound cfg _ _ _ _ _ hlt hr
              exact ⟨g1, g3⟩
            · simp only [hf, decide_False, Bool.false_eq_true, if_false] at hr
              obtain ⟨g1, _, g3⟩ := eepromReadLoop_bound cfg _ _ _ _ _ hlt hr
              exact ⟨g1, g3⟩
          rw [hb.2, hl1] at hq
          omega

/-- C25 fails on the code. In the initial state (`msgBuffer[285]`), the read-EEPROM command
`16 01 1B` (size 0x011B = 283) and the read-flash command `14 01 1C` (size 0x011C = 284)
do not return inside `msgBuffer`: the case has no bound on `size`; after the 283 data
bytes in `msgBuffer[2..284]` the closing status byte goes to `msgBuffer[285]`, outside the
array, and the flash loop stores its last word at `msgBuffer[284..285]`. The read-EEPROM
command `16 01 1A` (size 282) is the largest that stays inside: its response has length
285. -/
theorem read_overruns_payload_buffer :
    (sessionWith [0x16, 0x01, 0x1B] []).msgBuffer.length = 285 ∧
    (sessionWith [0x14, 0x01, 0x1C] []).msgBuffer.length = 285 ∧
    (dispatch atmega128 (sessionWith [0x16, 0x01, 0x1B] [])).isNone = true ∧
    (dispatch atmega128 (sessionWith [0x14, 0x01, 0x1C] [])).isNone = true ∧
    (dispatch atmega128 (sessionWith [0x16, 0x01, 0x1A] [])).map (fun t => t.msgLength) =
      some 285 := by
  have l1 : (sessionWith [0x16, 0x01, 0x1B] []).msgBuffer.length = 285 :=
    sessionWith_length _ [] (by decide)
  have l2 : (sessionWith [0x14, 0x01, 0x1C] []).msgBuffer.length = 285 :=
    sessionWith_length _ [] (by decide)
  have l3 : (sessionWith [0x16, 0x01, 0x1A] []).msgBuffer.length = 285 :=
    sessionWith_length _ [] (by decide)
  refine ⟨l1, l2, ?_, ?_, ?_⟩
  · rw [dispatch_CMD_READ_EEPROM_ISP atmega128 _ atmega128_distinct (by decide),
      case_CMD_READ_overrun atmega128 _ (by rw [l1]; decide)]
    rfl
  · rw [dispatch_CMD_READ_FLASH_ISP atmega128 _ atmega128_distinct (by decide),
      case_CMD_READ_overrun atmega128 _ (by rw [l2]; decide)]
    rfl
  · obtain ⟨s', hs, hl, _⟩ :=
      (read_memory_response atmega128 (sessionWith [0x16, 0x01, 0x1A] []) atmega128_distinct
        282 (by decide) l3 (by decide) (by decide)).2 (by decide) (by decide)
    rw [hs, Option.map_some', hl]

/-! ### Command sequences without authentication -/

/-- A sequence of commands, each dispatched in a state whose authenticated flag is not set
and each returning: no call of `boot_page_erase`, `boot_page_fill`, `boot_page_write` or
`eeprom_write_byte` is made, and the session-leave flag stays as it was. -/
theorem unauthenticated_run_no_programming (cfg : Config) :
    ∀ (fs : List (List Nat)) (s s' : Session), runFrames cfg fs s = some s' →
      (∀ pre f rest t, fs = pre ++ f :: rest → runFrames cfg pre s = some t →
        t.isAuthenticated ≠ 1) →
      (∃ evs, s'.hw = s.hw ++ evs ∧ ∀ e ∈ evs, e.isProgramming = false) ∧
        s'.isLeave = s.isLeave := by
  intro fs
  induction fs with
  | nil =>
    intro s s' h _
    simp only [runFrames] at h
    cases h
    exact ⟨⟨[], by rw [List.append_nil], by simp⟩, rfl⟩
  | cons f rest ih =>
    intro s s' h hq
    have hauth : s.isAuthenticated ≠ 1 := hq [] f rest s rfl rfl
    simp only [runFrames] at h
    cases hdis : dispatch cfg (withFrame f s) with
    | none => rw [hdis] at h; cases h
    | some s1 =>
      rw [hdis] at h
      obtain ⟨⟨evs1, he1, hq1⟩, hl1⟩ :=
        unauthenticated_no_programming cfg (withFrame f s) s1 hauth hdis
      obtain ⟨⟨evs2, he2, hq2⟩, hl2⟩ := ih s1 s' h (by
        intro pre g rest' t hfs ht
        refine hq (f :: pre) g rest' t (by rw [hfs]; rfl) ?_
        simp only [runFrames]
        rw [hdis]
        exact ht)
      refine ⟨⟨evs1 ++ evs2, ?_, ?_⟩, hl2.trans hl1⟩
      · rw [he2, he1, List.append_assoc]
        rfl
      · intro e hm
        rcases List.mem_append.mp hm with hm | hm
        · exact hq1 e hm
        · exact hq2 e hm

/-- A sequence of one command whose dispatch does not return. -/
theorem runFrames_single_none (cfg : Config) (f : List Nat) (s : Session)
    (h : dispatch cfg (withFrame f s) = none) : runFrames cfg [f] s = none := by
  simp only [runFrames]
  rw [h]

/-- C4 fails on the code. The read commands are not gated by the authenticated flag and
have no bound on their size field. From the initial state (flag clear, `msgBuffer[285]`)
the one-command sequence read-EEPROM `16 FF FF` (size 65535) does not return inside
`msgBuffer`: the read loop stores 65535 bytes from `msgBuffer[2]` on, beyond the end of the
array, so what the session does from there on is no longer determined by the program. -/
theorem unauthenticated_read_overruns_payload_buffer :
    (sessionWith [] []).isAuthenticated = 0 ∧
    (withFrame [0x16, 0xFF, 0xFF] (sessionWith [] [])).msgBuffer.length = 285 ∧
    (runFrames atmega128 [[0x16, 0xFF, 0xFF]] (sessionWith [] [])).isNone = true := by
  have l0 : (sessionWith [] []).msgBuffer.length = 285 := sessionWith_length _ [] (by decide)
  have l1 : (withFrame [0x16, 0xFF, 0xFF] (sessionWith [] [])).msgBuffer.length = 285 := by
    show ([0x16, 0xFF, 0xFF] ++ (sessionWith [] []).msgBuffer.drop 3).length = 285
    rw [List.length_append, List.length_drop, l0]
    rfl
  have hnone : dispatch atmega128 (withFrame [0x16, 0xFF, 0xFF] (sessionWith [] [])) =
      none := by
    rw [dispatch_CMD_READ_EEPROM_ISP atmega128 _ atmega128_distinct (by decide),
      case_CMD_READ_overrun atmega128 _ (by rw [l1]; decide)]
  refine ⟨rfl, l1, ?_⟩
  rw [runFrames_single_none atmega128 _ _ hnone]
  rfl

/-! ### The erase step, for every program-flash command -/

/-- C9. In every session state (with the 285 bytes of `msgBuffer`) and for every
program-flash command, `size` being its 16-bit size field. The erase step of the command
calls `boot_page_erase` only when the erase cursor is strictly below `APP_END`, and then
at the cursor. Without authentication the command is refused and makes no hardware call.
With authentication and an even `size` from 2 to 275 (the data bytes inside `msgBuffer`)
the dispatch returns and its hardware calls are those of the erase step, page-buffer
fills, and the page write. With authentication and any other `size` the word loop that
follows the erase step does not return, however many iterations are allowed. And every
dispatch that returns has called `boot_page_erase` only at the cursor, below `APP_END`. -/
theorem erase_only_below_APP_END (cfg : Config) (s : Session) (hd : cfg.DistinctLabels)
    (hop : s.msgBuffer.getD 0 0 = cfg.CMD_PROGRAM_FLASH_ISP) (size : Nat)
    (hsize : ((s.msgBuffer.getD 1 0 <<< 8) ||| s.msgBuffer.getD 2 0) % 65536 = size)
    (hbuf : s.msgBuffer.length = 285) :
    (eraseStep cfg s).hw = s.hw ++
      (if s.eraseAddress < cfg.APP_END then
        [HwEvent.boot_page_erase s.eraseAddress, HwEvent.boot_spm_busy_wait] else []) ∧
    (s.isAuthenticated ≠ 1 → ∃ s', dispatch cfg s = some s' ∧ s'.hw = s.hw) ∧
    (s.isAuthenticated = 1 → size % 2 = 0 → 2 ≤ size → size ≤ 275 →
      ∃ s' fills, dispatch cfg s = some s' ∧ (∀ e ∈ fills, e.isFill = true) ∧
        s'.hw = s.hw ++
          (if s.eraseAddress < cfg.APP_END then
            [HwEvent.boot_page_erase s.eraseAddress, HwEvent.boot_spm_busy_wait] else []) ++
          fills ++
          [HwEvent.boot_page_write s.address, HwEvent.boot_spm_busy_wait,
            HwEvent.boot_rww_enable]) ∧
    (s.isAuthenticated = 1 → ¬ (size % 2 = 0 ∧ 2 ≤ size ∧ size ≤ 275) →
      dispatch cfg s = none ∧
      ∀ fuel, flashFillLoop cfg fuel 10 size (eraseStep cfg s) = none) ∧
    (∀ s', dispatch cfg s = some s' →
      ∃ evs, s'.hw = s.hw ++ evs ∧
        ∀ a, HwEvent.boot_page_erase a ∈ evs →
          a = s.eraseAddress ∧ s.eraseAddress < cfg.APP_END) := by
  have hlt : size < 65536 := by rw [← hsize]; exact Nat.mod_lt _ (by decide)
  have hmb : (eraseStep cfg s).msgBuffer.length = 285 := by
    rw [(eraseStep_fields cfg s).2.2.2, hbuf]
  have hcase : ∀ (hauth : s.isAuthenticated = 1), case_CMD_PROGRAM cfg s =
      match flashFillLoop cfg 32768 10 size (eraseStep cfg s) with
      | none => none
      | some t =>
        some { t with hw := t.hw ++ [HwEvent.boot_page_write s.address,
                                     HwEvent.boot_spm_busy_wait, HwEvent.boot_rww_enable],
                      msgLength := 2, msgBuffer := t.msgBuffer.set 1 cfg.STATUS_CMD_OK } := by
    intro hauth
    unfold case_CMD_PROGRAM
    rw [if_pos hauth]
    dsimp only
    rw [hsize, if_pos hop]
    cases flashFillLoop cfg 32768 10 size (eraseStep cfg s) <;> rfl
  refine ⟨eraseStep_hw cfg s, ?_, ?_, ?_, ?_⟩
  · intro hauth
    refine ⟨replyFailed cfg s, ?_, rfl⟩
    rw [dispatch_CMD_PROGRAM_FLASH_ISP cfg s hd hop, case_CMD_PROGRAM_unauth cfg s hauth]
  · intro hauth hev h2 h275
    have hk : wordLoopIterations 32768 size = some (size / 2) := by
      have hN : (if size = 0 then 32768 else size / 2) = size / 2 := if_neg (by omega)
      rw [wordLoopIterations_spec 32768 size hlt, hN, if_pos ⟨hev, by omega⟩]
    obtain ⟨t, ht⟩ := flashFillLoop_of_counter cfg 32768 10 size _ (eraseStep cfg s) hk
      (by rw [hmb]; omega)
    have hdis : dispatch cfg s = some { t with
        hw := t.hw ++ [HwEvent.boot_page_write s.address,
                       HwEvent.boot_spm_busy_wait, HwEvent.boot_rww_enable],
        msgLength := 2, msgBuffer := t.msgBuffer.set 1 cfg.STATUS_CMD_OK } := by
      rw [dispatch_CMD_PROGRAM_FLASH_ISP cfg s hd hop, hcase hauth, ht]
    obtain ⟨fills, hf, hhw, _⟩ := case_CMD_PROGRAM_flash cfg s _ hauth hop
      ((dispatch_CMD_PROGRAM_FLASH_ISP cfg s hd hop).symm.trans hdis)
    exact ⟨_, fills, hdis, hf, hhw⟩
  · intro hauth hbad
    have hnone : ∀ fuel, flashFillLoop cfg fuel 10 size (eraseStep cfg s) = none := by
      intro fuel
      cases hfl : flashFillLoop cfg fuel 10 size (eraseStep cfg s) with
      | none => rfl
      | some t =>
        exfalso
        obtain ⟨k, hk, hb, _⟩ := flashFillLoop_counter cfg fuel 10 size _ t hfl
        rw [wordLoopIterations_spec fuel size hlt] at hk
        by_cases hc : size % 2 = 0 ∧ (if size = 0 then 32768 else size / 2) ≤ fuel
        · rw [if_pos hc] at hk
          have e := Option.some.inj hk
          rw [hmb] at hb
          by_cases h0 : size = 0
          · rw [if_pos h0] at e
            omega
          · rw [if_neg h0] at e
            exact hbad ⟨hc.1, by omega, by omega⟩
        · rw [if_neg hc] at hk
          cases hk
    refine ⟨?_, hnone⟩
    rw [dispatch_CMD_PROGRAM_FLASH_ISP cfg s hd hop, hcase hauth, hnone 32768]
  · intro s' h
    obtain ⟨evs, he, hq⟩ := program_flash_erase_events cfg s s' hd hop h
    exact ⟨evs, he, fun a ha => ⟨(hq a ha).1, (hq a ha).2.1⟩⟩

/-- Witness for C9: an authenticated program-flash command of two bytes with the erase
cursor at 0, on the ATmega128 build: the dispatch returns, and the page at the cursor,
address 0, is erased before the fill and the page write. -/
theorem erase_only_below_APP_END_witness :
    ∃ s' fills, dispatch atmega128
        (authedAt 0 [0x13, 0, 2, 0xC1, 0x0A, 0x40, 0x4C, 0x20, 0, 0, 0x0C, 0x94]) = some s' ∧
      (∀ e ∈ fills, e.isFill = true) ∧
      s'.hw = [HwEvent.boot_page_erase 0, HwEvent.boot_spm_busy_wait] ++ fills ++
        [HwEvent.boot_page_write 0, HwEvent.boot_spm_busy_wait, HwEvent.boot_rww_enable] := by
  obtain ⟨s', fills, h1, h2, h3⟩ :=
    (erase_only_below_APP_END atmega128
      (authedAt 0 [0x13, 0, 2, 0xC1, 0x0A, 0x40, 0x4C, 0x20, 0, 0, 0x0C, 0x94])
      atmega128_distinct (by decide) 2 (by decide)
      (sessionWith_length _ [] (by decide))).2.2.1 (by decide) (by decide) (by decide)
      (by decide)
  exact ⟨s', fills, h1, h2, h3⟩

/-! ### The erase cursor along a sequence of commands -/

/-- Along a sequence of commands that all return, the erase cursor stays a multiple of the
page size and at most `APP_END`. -/
theorem runFrames_eraseAddress (cfg : Config) (hpage : cfg.SPM_PAGESIZE ∣ cfg.APP_END)
    (hfit : cfg.APP_END < cfg.addrMod) :
    ∀ (fs : List (List Nat)) (s s' : Session),
      s.eraseAddress ≤ cfg.APP_END ∧ cfg.SPM_PAGESIZE ∣ s.eraseAddress →
      runFrames cfg fs s = some s' →
      s'.eraseAddress ≤ cfg.APP_END ∧ cfg.SPM_PAGESIZE ∣ s'.eraseAddress := by
  intro fs
  induction fs with
  | nil =>
    intro s s' hinv h
    simp only [runFrames] at h
    cases h
    exact hinv
  | cons f rest ih =>
    intro s s' hinv h
    simp only [runFrames] at h
    cases hdis : dispatch cfg (withFrame f s) with
    | none => rw [hdis] at h; cases h
    | some s1 =>
      rw [hdis] at h
      refine ih s1 s' ?_ h
      have hinv' : (withFrame f s).eraseAddress ≤ cfg.APP_END ∧
          cfg.SPM_PAGESIZE ∣ (withFrame f s).eraseAddress := hinv
      rcases dispatch_eraseAddress cfg _ s1 hdis with he | he | ⟨_, he, _⟩
      · rw [he]; exact hinv'
      · rw [he]; exact (eraseStep_cursor cfg _ hpage hfit hinv').1
      · rw [he]; exact ⟨Nat.zero_le _, dvd_zero _⟩

/-- C10, amended. `APP_END` being a multiple of the page size and within the range of
`address_t`, and the erase cursor starting at 0: after every sequence of commands that are
processed to their end, the erase cursor is a multiple of the page size and does not
exceed `APP_END`; and every further command that is processed to its end, whatever its
opcode and the authentication state, leaves the cursor a multiple of the page size not
above `APP_END` and does not decrease it, unless it is a chip-erase command, which sets
the cursor to 0. -/
theorem eraseAddress_bounded (cfg : Config) (hpage : cfg.SPM_PAGESIZE ∣ cfg.APP_END)
    (hfit : cfg.APP_END < cfg.addrMod) (fs : List (List Nat)) (s₀ s : Session)
    (h0 : s₀.eraseAddress = 0) (hrun : runFrames cfg fs s₀ = some s) :
    (s.eraseAddress ≤ cfg.APP_END ∧ cfg.SPM_PAGESIZE ∣ s.eraseAddress) ∧
    ∀ f t, dispatch cfg (withFrame f s) = some t →
      (t.eraseAddress ≤ cfg.APP_END ∧ cfg.SPM_PAGESIZE ∣ t.eraseAddress) ∧
      (s.eraseAddress ≤ t.eraseAddress ∨
        ((withFrame f s).msgBuffer.getD 0 0 = cfg.CMD_CHIP_ERASE_ISP ∧
          t.eraseAddress = 0)) := by
  have hinv : s.eraseAddress ≤ cfg.APP_END ∧ cfg.SPM_PAGESIZE ∣ s.eraseAddress :=
    runFrames_eraseAddress cfg hpage hfit fs s₀ s
      (by rw [h0]; exact ⟨Nat.zero_le _, dvd_zero _⟩) hrun
  refine ⟨hinv, ?_⟩
  intro f t ht
  have hinv' : (withFrame f s).eraseAddress ≤ cfg.APP_END ∧
      cfg.SPM_PAGESIZE ∣ (withFrame f s).eraseAddress := hinv
  rcases dispatch_eraseAddress cfg _ t ht with he | he | ⟨hc, he, _⟩
  · rw [he]
    exact ⟨hinv', Or.inl (Nat.le_refl _)⟩
  · rw [he]
    exact ⟨(eraseStep_cursor cfg _ hpage hfit hinv').1,
      Or.inl (eraseStep_cursor cfg _ hpage hfit hinv').2⟩
  · rw [he]
    exact ⟨⟨Nat.zero_le _, dvd_zero _⟩, Or.inr ⟨hc, rfl⟩⟩

/-- Witness for C10 as amended, on the ATmega128 build: after authenticate and one
program-flash command the cursor is 256; a second program-flash command then returns with
the cursor at 512. -/
theorem eraseAddress_bounded_witness :
    ∃ s, runFrames atmega128
          [[0x50, 1, 2, 3, 4, 0x53, 0xEF, 0x34, 0x23],
           [0x13, 0, 2, 0xC1, 0x0A, 0x40, 0x4C, 0x20, 0, 0, 0x0C, 0x94]]
          (sessionWith [] []) = some s ∧
      s.eraseAddress = 256 ∧
      (dispatch atmega128
          (withFrame [0x13, 0, 2, 0xC1, 0x0A, 0x40, 0x4C, 0x20, 0, 0, 0x0C, 0x94] s)).map
        (fun t => t.eraseAddress) = some 512 ∧
      (s.eraseAddress ≤ atmega128.APP_END ∧ atmega128.SPM_PAGESIZE ∣ s.eraseAddress) ∧
      ∀ f t, dispatch atmega128 (withFrame f s) = some t →
        (t.eraseAddress ≤ atmega128.APP_END ∧ atmega128.SPM_PAGESIZE ∣ t.eraseAddress) ∧
        (s.eraseAddress ≤ t.eraseAddress ∨
          ((withFrame f s).msgBuffer.getD 0 0 = atmega128.CMD_CHIP_ERASE_ISP ∧
            t.eraseAddress = 0)) := by
  have h0 : (runFrames atmega128
      [[0x50, 1, 2, 3, 4, 0x53, 0xEF, 0x34, 0x23],
       [0x13, 0, 2, 0xC1, 0x0A, 0x40, 0x4C, 0x20, 0, 0, 0x0C, 0x94]]
      (sessionWith [] [])).isSome = true := by decide!
  have h1 : (runFrames atmega128
      [[0x50, 1, 2, 3, 4, 0x53, 0xEF, 0x34, 0x23],
       [0x13, 0, 2, 0xC1, 0x0A, 0x40, 0x4C, 0x20, 0, 0, 0x0C, 0x94]]
      (sessionWith [] [])).map (fun s => s.eraseAddress) = some 256 := by decide!
  have h2 : ((runFrames atmega128
      [[0x50, 1, 2, 3, 4, 0x53, 0xEF, 0x34, 0x23],
       [0x13, 0, 2, 0xC1, 0x0A, 0x40, 0x4C, 0x20, 0, 0, 0x0C, 0x94]]
      (sessionWith [] [])).bind (fun s => dispatch atmega128
        (withFrame [0x13, 0, 2, 0xC1, 0x0A, 0x40, 0x4C, 0x20, 0, 0, 0x0C, 0x94] s))).map
      (fun t => t.eraseAddress) = some 512 := by decide!
  obtain ⟨s, hs⟩ := Option.isSome_iff_exists.mp h0
  rw [hs, Option.map_some'] at h1
  rw [hs, Option.some_bind] at h2
  exact ⟨s, hs, Option.some.inj h1, h2,
    eraseAddress_bounded atmega128 (by decide) (by decide) _ (sessionWith [] []) s rfl hs⟩

end Stk500
